import Mathlib

/-! # The gospdy connection dispatcher

A shallow embedding of `connection.go`: the connection state, the stream
objects it points to, and the handlers run by the dispatch loop of
`Connection.Run`.

Conventions of the embedding.

* A `*stream` is an address (`Ptr`) into `Connection.heap`; `nil` is `none`.
* The `map[int]*stream` stream table is an association list with unique
  keys; `range` visits it in list order.
* A buffered channel the dispatcher sends on (`sendControl`,
  `onRequestStarted`, `dispatched`) is the list of values sent on it so far,
  oldest first.
* `close(ch)` and `socket.Close()` are counted. The Go runtime panics on the
  second `close` of a channel, so a channel counter above one stands for that
  panic.
* The send channels that `nextTxFrame` receives from are snapshots
  (`FrameChan`): the frames waiting, oldest first, and whether the channel has
  been closed. A receive from a closed and drained channel yields the nil
  frame.
* Go `int` is `Int`, and an `int` is 64 bits wide: the result of `+=`, `+` and
  `-` on stored values is reduced by `wrapInt`, and `uint(x)` is taken on 64
  bits.
* Mutexes and condition variables have no effect on the sequential
  dispatcher and are left out.
* The frame codec, the error kinds and the constants live in files of the
  package other than `connection.go`; they are the fields of `Env` or are
  modelled from the specification where marked.
-/

namespace Spdy

/-- Address of a stream object. -/
abbrev Ptr := Nat

/-- An `http.Handler` value, identified by a number. -/
abbrev Handler := Nat

/-- Modelled from the spec: the error kinds of section 7 (the declarations are
not in `connection.go`). The first nine are the stream errors, which carry the
stream id; `other` stands for transport and codec errors. -/
inductive Err where
  | StreamProtocol (streamId : Int)
  | InvalidStream (streamId : Int)
  | RefusedStream (streamId : Int)
  | StreamVersion (streamId : Int) (version : Int)
  | Cancel (streamId : Int)
  | StreamFlowControl (streamId : Int)
  | StreamInUse (streamId : Int)
  | StreamAlreadyClosed (streamId : Int)
  | InvalidAssociatedStream (streamId : Int) (associatedStreamId : Int)
  | SessionProtocol
  | SessionVersion (version : Int)
  | SessionFlowControl
  | GoAway
  | other (code : Nat)
  deriving DecidableEq, Repr, Inhabited

/-- Modelled from the spec: `err.(streamError)` followed by `StreamId()`. It is
`none` for a session error. -/
def Err.streamId? : Err → Option Int
  | .StreamProtocol i => some i
  | .InvalidStream i => some i
  | .RefusedStream i => some i
  | .StreamVersion i _ => some i
  | .Cancel i => some i
  | .StreamFlowControl i => some i
  | .StreamInUse i => some i
  | .StreamAlreadyClosed i => some i
  | .InvalidAssociatedStream i _ => some i
  | _ => none

/-- A `*url.URL`. -/
structure URL where
  Host : String
  Path : String
  deriving DecidableEq, Repr, Inhabited

/-- An `http.Header`. -/
abbrev Header := List (String × String)

/-- The `Header.Get` method: first value stored under the key, or the empty string. -/
def Header.Get (h : Header) (key : String) : String :=
  match h.find? (fun kv => kv.1 == key) with
  | some kv => kv.2
  | none => ""

/-- The fields of `http.Request` that the dispatcher fills in. `Body` is the
stream whose receive side backs the body. -/
structure Request where
  Method : String
  URL : URL
  Proto : String
  ProtoMajor : Int
  ProtoMinor : Int
  Header : Header
  Host : String
  RemoteAddr : String
  ContentLength : Int
  TLS : Option Nat
  Body : Option Ptr
  deriving DecidableEq, Repr, Inhabited

/-- The fields of `http.Response` that the dispatcher fills in. -/
structure Response where
  Status : String
  StatusCode : Int
  Proto : String
  ProtoMajor : Int
  ProtoMinor : Int
  Header : Header
  ContentLength : Int
  Body : Option Ptr
  Request : Request
  deriving DecidableEq, Repr, Inhabited

/-- The `RequestExtra` literal built by `handleSynStream`. -/
structure RequestExtra where
  Unidirectional : Bool
  Priority : Int
  Compressed : Bool
  AssociatedHandler : Option Handler
  deriving DecidableEq, Repr, Inhabited

/-! ## Frames -/

structure synStreamFrame where
  Version : Int
  StreamId : Int
  AssociatedStreamId : Int
  Finished : Bool
  Unidirectional : Bool
  Header : Header
  Priority : Int
  URL : URL
  Proto : String
  ProtoMajor : Int
  ProtoMinor : Int
  Method : String
  deriving DecidableEq, Repr, Inhabited

structure synReplyFrame where
  Version : Int
  StreamId : Int
  Finished : Bool
  Header : Header
  Status : String
  Proto : String
  ProtoMajor : Int
  ProtoMinor : Int
  deriving DecidableEq, Repr, Inhabited

structure headersFrame where
  Version : Int
  StreamId : Int
  Finished : Bool
  Header : Header
  deriving DecidableEq, Repr, Inhabited

structure rstStreamFrame where
  Version : Int
  StreamId : Int
  Reason : Int
  deriving DecidableEq, Repr, Inhabited

structure settingsFrame where
  Version : Int
  HaveWindow : Bool
  Window : Int
  deriving DecidableEq, Repr, Inhabited

structure windowUpdateFrame where
  Version : Int
  StreamId : Int
  WindowDelta : Int
  deriving DecidableEq, Repr, Inhabited

structure pingFrame where
  Version : Int
  Id : Nat
  deriving DecidableEq, Repr, Inhabited

structure goAwayFrame where
  Version : Int
  LastStreamId : Int
  Reason : Int
  deriving DecidableEq, Repr, Inhabited

structure dataFrame where
  StreamId : Int
  Finished : Bool
  Compressed : Bool
  Data : List UInt8
  deriving DecidableEq, Repr, Inhabited

/-- The `frame` interface: a value of one of the frame types. -/
inductive frame where
  | synStream (f : synStreamFrame)
  | synReply (f : synReplyFrame)
  | headers (f : headersFrame)
  | rstStream (f : rstStreamFrame)
  | settings (f : settingsFrame)
  | windowUpdate (f : windowUpdateFrame)
  | ping (f : pingFrame)
  | goAway (f : goAwayFrame)
  | data (f : dataFrame)
  deriving DecidableEq, Repr, Inhabited

/-! ## What `connection.go` takes from the rest of the package -/

/-- The codec, the library calls and the constants used by `connection.go` and
declared elsewhere. A header parser reads the decompressor, whose state is
determined by the buffers it was given before (`unzip`). -/
structure Env where
  parseSynStream : List (List UInt8) → List UInt8 → Except Err synStreamFrame
  parseSynReply : List (List UInt8) → List UInt8 → Except Err synReplyFrame
  parseHeaders : List (List UInt8) → List UInt8 → Except Err headersFrame
  parseRstStream : List UInt8 → Except Err rstStreamFrame
  parseSettings : List UInt8 → Except Err settingsFrame
  parseWindowUpdate : List UInt8 → Except Err windowUpdateFrame
  parsePing : List UInt8 → Except Err pingFrame
  parseGoAway : List UInt8 → Except Err goAwayFrame
  parseData : List UInt8 → Except Err dataFrame
  /-- The call `strconv.ParseInt(s, 10, 64)`: the value and whether the error is nil. -/
  parseInt : String → Int × Bool
  /-- The call `strconv.Atoi`. -/
  atoi : String → Int × Bool
  synStreamCode : Nat
  synReplyCode : Nat
  rstStreamCode : Nat
  settingsCode : Nat
  pingCode : Nat
  windowUpdateCode : Nat
  headersCode : Nat
  goAwayCode : Nat
  rstSuccess : Int
  rstProtocolError : Int
  rstInvalidStream : Int
  rstRefusedStream : Int
  rstUnsupportedVersion : Int
  rstCancel : Int
  rstFlowControlError : Int
  rstStreamInUse : Int
  rstStreamAlreadyClosed : Int
  defaultWindow : Int

/-- Modelled from the spec: the constant `maxStreamId`, whose declaration is not
in `connection.go`; stream ids are 31 bits. -/
def maxStreamId : Nat := 2 ^ 31 - 1

/-- Modelled from the spec: the `resetCode` method of a stream error, the reset
reason that matches the error kind. The spec lists no reason of its own for
`InvalidAssociatedStream`; it is given the invalid-stream reason. A session
error has no reset code. -/
def resetCode (E : Env) : Err → Int
  | .StreamProtocol _ => E.rstProtocolError
  | .InvalidStream _ => E.rstInvalidStream
  | .RefusedStream _ => E.rstRefusedStream
  | .StreamVersion _ _ => E.rstUnsupportedVersion
  | .Cancel _ => E.rstCancel
  | .StreamFlowControl _ => E.rstFlowControlError
  | .StreamInUse _ => E.rstStreamInUse
  | .StreamAlreadyClosed _ => E.rstStreamAlreadyClosed
  | .InvalidAssociatedStream _ _ => E.rstInvalidStream
  | _ => E.rstProtocolError

/-- The conversion `uint(x)` of a Go `int`, on 64 bits. -/
def toUint (x : Int) : Nat := (x % 2 ^ 64).toNat

/-- The value that a Go `int` holds after a sum or a difference whose exact
result is `x`: the result wraps on 64 bits, two's complement. -/
def wrapInt (x : Int) : Int := (x + 2 ^ 63) % 2 ^ 64 - 2 ^ 63

/-- Whether `x` lies in the range of a Go `int` on 64 bits. -/
def inInt (x : Int) : Prop := -(2 ^ 63) ≤ x ∧ x < 2 ^ 63

instance inInt.decidable (x : Int) : Decidable (inInt x) := by
  unfold inInt
  infer_instance

/-- The expression `x & 1` on a two's complement `int`. -/
def lowBit (x : Int) : Int := x % 2

/-- Modelled from the spec: `fromBig32`, the big-endian 32-bit word at the
start of a buffer (the helper is not in `connection.go`). Go panics on a
buffer shorter than four bytes; here the missing bytes read as zero. -/
def fromBig32 (d : List UInt8) : Nat :=
  (d.getD 0 0).toNat * 2 ^ 24 + (d.getD 1 0).toNat * 2 ^ 16
    + (d.getD 2 0).toNat * 2 ^ 8 + (d.getD 3 0).toNat

/-! ## Streams and the connection -/

/-- The fields of `stream` that `connection.go` reads or writes. -/
structure stream where
  streamId : Int
  isRecipient : Bool
  parent : Option Ptr
  children : List Ptr
  request : Request
  childHandler : Option Handler
  rxBuffer : List UInt8
  rxResponse : Option Response
  rxFinished : Bool
  rxCompressed : Bool
  rxHaveData : Bool
  rxError : Option Err
  txWindow : Int
  txFinished : Bool
  txPriority : Int
  txError : Option Err
  /-- Number of `close(s.txErrorChannel)` calls. -/
  txErrorChannelCloses : Nat
  deriving DecidableEq, Repr, Inhabited

/-- The stream table, `map[int]*stream`. -/
abbrev StreamTable := List (Int × Ptr)

/-- The map read `m[id]`: `none` is the nil pointer of a missing key. -/
def StreamTable.get : StreamTable → Int → Option Ptr
  | [], _ => none
  | (k, v) :: m, id => if k = id then some v else StreamTable.get m id

/-- The statement `delete(m, id)`. -/
def StreamTable.delete (m : StreamTable) (id : Int) : StreamTable :=
  m.filter (fun e => decide (e.1 ≠ id))

/-- The assignment `m[id] = s`. -/
def StreamTable.set (m : StreamTable) (id : Int) (s : Ptr) : StreamTable :=
  StreamTable.delete m id ++ [(id, s)]

/-- The `Connection` struct together with what its pointers, channels and
socket refer to. -/
structure Connection where
  version : Int
  handler : Option Handler
  remoteAddr : String
  tls : Option Nat
  rxWindow : Int
  /-- Frames sent on `sendControl`, oldest first. -/
  sendControl : List frame
  /-- Number of `close(c.sendControl)` calls. -/
  sendControlCloses : Nat
  /-- Values sent on `onRequestStarted`, oldest first; `none` is a nil error. -/
  onRequestStarted : List (Option Err)
  streams : StreamTable
  lastStreamOpened : Int
  nextStreamId : Int
  goAway : Bool
  /-- Number of `close(c.onGoAway)` calls. -/
  onGoAwayCloses : Nat
  nextPingId : Nat
  /-- Number of `c.socket.Close()` calls. -/
  socketCloses : Nat
  /-- The stream objects, by address. -/
  heap : Ptr → stream
  /-- The address the next allocated stream gets. -/
  nextPtr : Ptr
  /-- The `go handlerThread(handler, s, r)` statements run so far. -/
  handlerThreads : List (Handler × Ptr × Request)
  /-- Values sent on `dispatched` to the receive pump, oldest first. -/
  dispatched : List (Option Err)
  /-- Buffers given to the header decompressor of `Run` so far. -/
  unzip : List (List UInt8)
  /-- Whether `Run` has returned. -/
  returned : Bool

/-- Store `v` at address `p`. -/
def Connection.store (c : Connection) (p : Ptr) (v : stream) : Connection :=
  { c with heap := fun q => if q = p then v else c.heap q }

/-- Update the stream at address `p`. -/
def Connection.modify (c : Connection) (p : Ptr) (f : stream → stream) : Connection :=
  c.store p (f (c.heap p))

/-- Modelled from the spec: `newStream`, which is not in `connection.go`. The
stream takes its transmit-finished flag from the argument and its
receive-finished flag, priority and child handler from the extras; the id is
assigned by the caller. -/
def newStream (E : Env) (req : Request) (txFinished : Bool) (extra : RequestExtra) : stream :=
  { streamId := 0
    isRecipient := false
    parent := none
    children := []
    request := req
    childHandler := extra.AssociatedHandler
    rxBuffer := []
    rxResponse := none
    rxFinished := extra.Unidirectional
    rxCompressed := false
    rxHaveData := false
    rxError := none
    txWindow := E.defaultWindow
    txFinished := txFinished
    txPriority := extra.Priority
    txError := none
    txErrorChannelCloses := 0 }

/-- Allocate a stream object: it gets the address `c.nextPtr`. -/
def Connection.alloc (c : Connection) (v : stream) : Ptr × Connection :=
  (c.nextPtr, { c.store c.nextPtr v with nextPtr := c.nextPtr + 1 })

/-- Lines 309 to 319 of `finishStream`: publish the error on both directions
and close the transmit error channel. -/
def finishStream.setErrors (c : Connection) (s : Ptr) (err : Err) : Connection :=
  let c1 := c.modify s fun x => { x with rxError := some err }
  let c2 := c1.modify s fun x => { x with txError := some err }
  c2.modify s fun x => { x with txErrorChannelCloses := x.txErrorChannelCloses + 1 }

/-- Lines 321 to 330 of `finishStream`: take the stream out of its parent's
children, at its first occurrence. -/
def finishStream.removeFromParent (c : Connection) (s : Ptr) : Connection :=
  match (c.heap s).parent with
  | some p => c.modify p fun x => { x with children := x.children.erase s }
  | none => c

/-- Lines 332 to 334 of `finishStream`: close the socket once the connection is
going away and the table is empty. -/
def finishStream.closeSocket (c : Connection) : Connection :=
  if c.goAway && c.streams.length == 0 then
    { c with socketCloses := c.socketCloses + 1 }
  else c

/-- The `finishStream` method. The recursion into the children is bounded by
`fuel`; the result is `none` when the bound is reached, which is the case of a
recursion that does not end. -/
def finishStream : Nat → Connection → Ptr → Err → Option Connection
  | 0, _, _, _ => none
  | fuel + 1, c, s, err =>
    let c1 := { c with streams := c.streams.delete (c.heap s).streamId }
    ((c1.heap s).children.foldlM
      (fun ci a => finishStream fuel (ci.modify a fun x => { x with parent := none }) a err)
      c1).map fun c2 =>
        finishStream.closeSocket
          (finishStream.removeFromParent (finishStream.setErrors c2 s err) s)

/-- The `sendReset` method. -/
def sendReset (c : Connection) (streamId : Int) (reason : Int) : Connection :=
  { c with sendControl := c.sendControl ++
      [frame.rstStream { Version := c.version, StreamId := streamId, Reason := reason }] }

/-- The `handleStartRequest` method, on the stream at address `s`. The result
is the returned error (`none` for nil) and the connection afterwards. -/
def handleStartRequest (c : Connection) (s : Ptr) : Option Err × Connection :=
  let id := c.nextStreamId
  let c1 := c.modify s fun x => { x with streamId := id }
  let c2 := { c1 with nextStreamId := wrapInt (c1.nextStreamId + 2) }
  let assocId : Int := match (c2.heap s).parent with
    | some p => (c2.heap p).streamId
    | none => 0
  if toUint (c2.heap s).streamId > maxStreamId || c2.goAway then
    (some Err.GoAway, c2)
  else
    let c3 := { c2 with sendControl := c2.sendControl ++ [frame.synStream
      { Version := c2.version
        StreamId := (c2.heap s).streamId
        AssociatedStreamId := assocId
        Finished := (c2.heap s).txFinished
        Unidirectional := (c2.heap s).rxFinished
        Header := (c2.heap s).request.Header
        Priority := (c2.heap s).txPriority
        URL := (c2.heap s).request.URL
        Proto := (c2.heap s).request.Proto
        ProtoMajor := 0
        ProtoMinor := 0
        Method := (c2.heap s).request.Method }] }
    if (c3.heap s).txFinished && (c3.heap s).rxFinished then
      (none, c3)
    else
      let c4 := { c3 with streams := c3.streams.set (c3.heap s).streamId s }
      match (c4.heap s).parent with
      | some p => (none, c4.modify p fun x => { x with children := x.children ++ [s] })
      | none => (none, c4)

/-- Lines 461 to 504 of `handleSynStream`, reached once the frame has passed
every test: build the request, create the stream, enter it in the table and
its parent unless both directions are already finished, and start the handler
thread. -/
def handleSynStream.accept (E : Env) (c1 : Connection) (f : synStreamFrame) (handler : Handler)
    (parent : Option Ptr) : Connection :=
  let cl := E.parseInt (f.Header.Get "Content-Length")
  let r : Request :=
    { Method := f.Method
      URL := f.URL
      Proto := f.Proto
      ProtoMajor := f.ProtoMajor
      ProtoMinor := f.ProtoMinor
      Header := f.Header
      Host := f.URL.Host
      RemoteAddr := c1.remoteAddr
      ContentLength := if cl.2 then 0 else cl.1
      TLS := c1.tls
      Body := none }
  let extra : RequestExtra :=
    { Unidirectional := f.Finished
      Priority := f.Priority
      Compressed := false
      AssociatedHandler := none }
  let s := (c1.alloc (newStream E r f.Unidirectional extra)).1
  let c2 := (c1.alloc (newStream E r f.Unidirectional extra)).2
  let c3 := c2.modify s fun x => { x with streamId := f.StreamId }
  let c4 := c3.modify s fun x => { x with isRecipient := true }
  let c5 := c4.modify s fun x => { x with request := { x.request with Body := some s } }
  let c6 :=
    if !((c5.heap s).txFinished && (c5.heap s).rxFinished) then
      let c7 := { c5 with streams := c5.streams.set f.StreamId s }
      match parent with
      | some p =>
        (c7.modify p fun x => { x with children := x.children ++ [s] }).modify s
          fun x => { x with parent := some p }
      | none => c7
    else c5
  { c6 with handlerThreads := c6.handlerThreads ++ [(handler, s, (c6.heap s).request)] }

/-- The `handleSynStream` method. -/
def handleSynStream (E : Env) (c : Connection) (d : List UInt8) : Option Err × Connection :=
  let c0 := { c with unzip := c.unzip ++ [d] }
  match E.parseSynStream c.unzip d with
  | .error err => (some err, c0)
  | .ok f =>
    if (c0.streams.get f.StreamId).isSome then
      (some (Err.StreamInUse f.StreamId), c0)
    else if f.Version ≠ c0.version then
      (some (Err.StreamVersion f.StreamId f.Version), c0)
    else if lowBit f.StreamId = lowBit c0.nextStreamId then
      (some (Err.StreamProtocol f.StreamId), c0)
    else if f.StreamId ≤ c0.lastStreamOpened then
      (some (Err.StreamProtocol f.StreamId), c0)
    else
      let c1 := { c0 with lastStreamOpened := f.StreamId }
      if f.AssociatedStreamId > 0 then
        if lowBit f.AssociatedStreamId ≠ lowBit c1.nextStreamId then
          (some (Err.StreamProtocol f.StreamId), c1)
        else
          match c1.streams.get f.AssociatedStreamId with
          | none => (some (Err.InvalidAssociatedStream f.StreamId f.AssociatedStreamId), c1)
          | some parent =>
            match (c1.heap parent).childHandler with
            | none => (some (Err.RefusedStream f.StreamId), c1)
            | some handler => (none, handleSynStream.accept E c1 f handler (some parent))
      else
        match c1.handler with
        | none => (some (Err.RefusedStream f.StreamId), c1)
        | some handler => (none, handleSynStream.accept E c1 f handler none)

/-- The call `strings.SplitN(s, " ", 2)`: cut at the first space, if any. -/
def splitN2 (s : String) : List String :=
  match s.toList.span (fun ch => ch != ' ') with
  | (a, []) => [String.mk a]
  | (a, _ :: b) => [String.mk a, String.mk b]

/-- The `handleSynReply` method. -/
def handleSynReply (E : Env) (c : Connection) (d : List UInt8) : Option Err × Connection :=
  let c0 := { c with unzip := c.unzip ++ [d] }
  match E.parseSynReply c.unzip d with
  | .error err => (some err, c0)
  | .ok f =>
    match c0.streams.get f.StreamId with
    | none => (some (Err.InvalidStream f.StreamId), c0)
    | some s =>
      if f.Version ≠ c0.version then
        (some (Err.StreamVersion f.StreamId f.Version), c0)
      else if (c0.heap s).rxResponse.isSome then
        (some (Err.StreamInUse f.StreamId), c0)
      else if (c0.heap s).rxFinished then
        (some (Err.StreamAlreadyClosed f.StreamId), c0)
      else
        let split := splitN2 f.Status
        if split.length < 2 then
          (some (Err.StreamProtocol f.StreamId), c0)
        else
          let code := E.atoi (split.getD 0 "")
          if !code.2 then
            (some (Err.StreamProtocol f.StreamId), c0)
          else
            let cl := E.parseInt (f.Header.Get "Content-Length")
            let r : Response :=
              { Status := f.Status
                StatusCode := code.1
                Proto := f.Proto
                ProtoMajor := f.ProtoMajor
                ProtoMinor := f.ProtoMinor
                Header := f.Header
                ContentLength := if cl.2 then cl.1 else 0
                Body := some s
                Request := (c0.heap s).request }
            let c1 := c0.modify s fun x => { x with rxResponse := some r }
            let c2 := c1.modify s fun x => { x with rxFinished := f.Finished }
            (none, c2)

/-- The `handleHeaders` method. -/
def handleHeaders (E : Env) (c : Connection) (d : List UInt8) : Option Err × Connection :=
  let c0 := { c with unzip := c.unzip ++ [d] }
  match E.parseHeaders c.unzip d with
  | .error err => (some err, c0)
  | .ok f =>
    match c0.streams.get f.StreamId with
    | none => (some (Err.InvalidStream f.StreamId), c0)
    | some s =>
      if f.Version ≠ c0.version then
        (some (Err.StreamVersion f.StreamId f.Version), c0)
      else if (c0.heap s).rxFinished then
        (some (Err.StreamAlreadyClosed f.StreamId), c0)
      else if f.Finished then
        (none, c0.modify s fun x => { x with rxFinished := f.Finished })
      else
        (none, c0)

/-- The `handleRstStream` method. -/
def handleRstStream (fuel : Nat) (E : Env) (c : Connection) (d : List UInt8) :
    Option (Option Err × Connection) :=
  match E.parseRstStream d with
  | .error err => some (some err, c)
  | .ok f =>
    match c.streams.get f.StreamId with
    | none => some (none, c)
    | some s =>
      let err : Err :=
        if f.Reason = E.rstInvalidStream then Err.InvalidStream f.StreamId
        else if f.Reason = E.rstRefusedStream then Err.RefusedStream f.StreamId
        else if f.Reason = E.rstUnsupportedVersion then Err.StreamVersion f.StreamId c.version
        else if f.Reason = E.rstCancel then Err.Cancel f.StreamId
        else if f.Reason = E.rstFlowControlError then Err.StreamFlowControl f.StreamId
        else if f.Reason = E.rstStreamInUse then Err.StreamInUse f.StreamId
        else if f.Reason = E.rstStreamAlreadyClosed then Err.StreamAlreadyClosed f.StreamId
        else Err.StreamProtocol f.StreamId
      (finishStream fuel c s err).map fun c1 => (none, c1)

/-- The `handleSettings` method. -/
def handleSettings (E : Env) (c : Connection) (d : List UInt8) : Option Err × Connection :=
  match E.parseSettings d with
  | .error err => (some err, c)
  | .ok f =>
    if f.Version ≠ c.version then
      (some (Err.SessionVersion f.Version), c)
    else if !f.HaveWindow then
      (none, c)
    else
      let change := wrapInt (f.Window - c.rxWindow)
      let c1 := { c with rxWindow := f.Window }
      (none, c1.streams.foldl
        (fun ci e => ci.modify e.2 fun x =>
          { x with txWindow := wrapInt (x.txWindow + change) }) c1)

/-- The `handleWindowUpdate` method. -/
def handleWindowUpdate (E : Env) (c : Connection) (d : List UInt8) : Option Err × Connection :=
  match E.parseWindowUpdate d with
  | .error err => (some err, c)
  | .ok f =>
    match c.streams.get f.StreamId with
    | none => (some (Err.InvalidStream f.StreamId), c)
    | some s =>
      if f.Version ≠ c.version then
        (some (Err.StreamVersion f.StreamId f.Version), c)
      else
        (none, c.modify s fun x => { x with txWindow := wrapInt (x.txWindow + f.WindowDelta) })

/-- The `handlePing` method. -/
def handlePing (E : Env) (c : Connection) (d : List UInt8) : Option Err × Connection :=
  match E.parsePing d with
  | .error err => (some err, c)
  | .ok f =>
    if f.Version ≠ c.version then
      (some (Err.SessionVersion f.Version), c)
    else if f.Id % 2 ≠ c.nextPingId % 2 then
      (none, { c with sendControl := c.sendControl ++
        [frame.ping { Version := c.version, Id := f.Id }] })
    else
      (none, c)

/-- The `handleGoAway` method. The `range` over the table visits the entries
present when the loop starts and skips an entry deleted before its turn. -/
def handleGoAway (fuel : Nat) (E : Env) (c : Connection) (d : List UInt8) :
    Option (Option Err × Connection) :=
  match E.parseGoAway d with
  | .error err => some (some err, c)
  | .ok f =>
    if f.Version ≠ c.version then
      some (some (Err.SessionVersion f.Version), c)
    else
      let c1 := { c with goAway := true }
      let c2 := { c1 with onGoAwayCloses := c1.onGoAwayCloses + 1 }
      let err : Err :=
        if f.Reason = E.rstSuccess then Err.GoAway
        else if f.Reason = E.rstUnsupportedVersion then Err.SessionVersion c2.version
        else if f.Reason = E.rstFlowControlError then Err.SessionFlowControl
        else Err.SessionProtocol
      (c2.streams.foldlM (fun (ci : Connection) (e : Int × Ptr) =>
        match ci.streams.get e.1 with
        | none => some ci
        | some s =>
          if e.1 > f.LastStreamId && lowBit e.1 = lowBit ci.nextStreamId then
            finishStream fuel ci s err
          else some ci) c2).map fun c3 => (none, c3)

/-- The `handleData` method. -/
def handleData (E : Env) (c : Connection) (d : List UInt8) : Option Err × Connection :=
  match E.parseData d with
  | .error err => (some err, c)
  | .ok f =>
    match c.streams.get f.StreamId with
    | none => (some (Err.InvalidStream f.StreamId), c)
    | some s =>
      if (c.heap s).rxFinished then
        (some (Err.StreamAlreadyClosed f.StreamId), c)
      else if fromBig32 (d.drop 4) &&& 0xFFFFFF ≠ f.Data.length then
        (some (Err.StreamFlowControl f.StreamId), c)
      else if (c.heap s).rxHaveData && (c.heap s).rxCompressed != f.Compressed then
        (some (Err.StreamProtocol f.StreamId), c)
      else
        let c1 := c.modify s fun x => { x with rxHaveData := true }
        let c2 := c1.modify s fun x => { x with rxCompressed := f.Compressed }
        let c3 := c2.modify s fun x => { x with rxBuffer := x.rxBuffer ++ f.Data }
        let c4 := c3.modify s fun x => { x with rxFinished := f.Finished }
        (none, c4)

/-- The `handleFrame` method. A `switch` picks the first case that matches. -/
def handleFrame (fuel : Nat) (E : Env) (c : Connection) (d : List UInt8) :
    Option (Option Err × Connection) :=
  let code := fromBig32 d
  if code &&& 0x80000000 = 0 then
    some (handleData E c d)
  else if (fromBig32 (d.drop 4) &&& 0xFFFFFF) + 8 ≠ d.length then
    some (some Err.SessionFlowControl, c)
  else if code &&& 0x8000FFFF = E.synStreamCode then some (handleSynStream E c d)
  else if code &&& 0x8000FFFF = E.synReplyCode then some (handleSynReply E c d)
  else if code &&& 0x8000FFFF = E.rstStreamCode then handleRstStream fuel E c d
  else if code &&& 0x8000FFFF = E.settingsCode then some (handleSettings E c d)
  else if code &&& 0x8000FFFF = E.pingCode then some (handlePing E c d)
  else if code &&& 0x8000FFFF = E.windowUpdateCode then some (handleWindowUpdate E c d)
  else if code &&& 0x8000FFFF = E.headersCode then some (handleHeaders E c d)
  else if code &&& 0x8000FFFF = E.goAwayCode then handleGoAway fuel E c d
  else some (none, c)

/-- The `NewConnection` function; `remoteAddr` is what `sock.RemoteAddr()` returns. -/
def NewConnection (E : Env) (remoteAddr : String) (handler : Option Handler) (version : Int)
    (server : Bool) : Connection :=
  { version := version
    handler := handler
    remoteAddr := remoteAddr
    tls := none
    rxWindow := E.defaultWindow
    sendControl := []
    sendControlCloses := 0
    onRequestStarted := []
    streams := []
    lastStreamOpened := 0
    nextStreamId := if server then 2 else 1
    goAway := false
    onGoAwayCloses := 0
    nextPingId := if server then 0 else 1
    socketCloses := 0
    heap := fun _ => default
    nextPtr := 0
    handlerThreads := []
    dispatched := []
    unzip := []
    returned := false }

/-! ## The dispatch loop of `Run` -/

/-- What the `select` of `Run` can receive. A start request carries the
arguments the requestor built its stream from (request, transmit-finished
flag, extras) and the associated parent stream, which is the address of a
stream allocated earlier (`Event.valid`); the stream object enters the heap
when the dispatcher receives its pointer. -/
inductive Event where
  | startRequest (req : Request) (txFinished : Bool) (extra : RequestExtra) (parent : Option Ptr)
  | streamFinished (s : Ptr)
  | dispatch (d : List UInt8)
  | rxError (err : Err)

/-- Case `s := <-c.onStartRequest` of `Run`, for a stream already on the heap. -/
def onStartRequest (c : Connection) (s : Ptr) : Connection :=
  let r := handleStartRequest c s
  { r.2 with onRequestStarted := r.2.onRequestStarted ++ [r.1] }

/-- Case `s := <-c.onStreamFinished` of `Run`. -/
def onStreamFinished (fuel : Nat) (E : Env) (c : Connection) (s : Ptr) : Option Connection :=
  if c.streams.get (c.heap s).streamId ≠ some s then
    some c
  else
    let c1 :=
      if !(c.heap s).isRecipient && !(c.heap s).rxFinished then
        sendReset c (c.heap s).streamId E.rstCancel
      else c
    finishStream fuel c1 s (Err.Cancel (c1.heap s).streamId)

/-- Case `d := <-dispatch` of `Run`. -/
def onDispatch (fuel : Nat) (E : Env) (c : Connection) (d : List UInt8) : Option Connection :=
  match handleFrame fuel E c d with
  | none => none
  | some (none, c1) => some { c1 with dispatched := c1.dispatched ++ [none] }
  | some (some err, c1) =>
    match err.streamId? with
    | none => some { c1 with dispatched := c1.dispatched ++ [some err] }
    | some sid =>
      let c2 := sendReset c1 sid (resetCode E err)
      match c2.streams.get sid with
      | some s =>
        (finishStream fuel c2 s err).map fun c3 =>
          { c3 with dispatched := c3.dispatched ++ [none] }
      | none => some { c2 with dispatched := c2.dispatched ++ [none] }

/-- Case `err := <-rxError` of `Run`: the session is torn down and `Run` returns. -/
def onRxError (fuel : Nat) (c : Connection) (err : Err) : Option Connection :=
  let c1 := { c with goAway := true }
  let c2 := { c1 with onGoAwayCloses := c1.onGoAwayCloses + 1 }
  (c2.streams.foldlM (fun (ci : Connection) (e : Int × Ptr) =>
    match ci.streams.get e.1 with
    | none => some ci
    | some s => finishStream fuel ci s err) c2).map fun (c3 : Connection) =>
      { c3 with
        sendControlCloses := c3.sendControlCloses + 1
        socketCloses := c3.socketCloses + 1
        returned := true }

/-- One iteration of the `for` loop of `Run`. Once `Run` has returned nothing
more is received. -/
def step (fuel : Nat) (E : Env) (c : Connection) : Event → Option Connection
  | .startRequest req txFinished extra parent =>
    if c.returned then some c else
    let (s, c1) := c.alloc { newStream E req txFinished extra with parent := parent }
    some (onStartRequest c1 s)
  | .streamFinished s => if c.returned then some c else onStreamFinished fuel E c s
  | .dispatch d => if c.returned then some c else onDispatch fuel E c d
  | .rxError err => if c.returned then some c else onRxError fuel c err

/-- The dispatch loop of `Run` over a sequence of received events. -/
def Run (fuel : Nat) (E : Env) : Connection → List Event → Option Connection
  | c, [] => some c
  | c, ev :: evs => (step fuel E c ev).bind fun c1 => Run fuel E c1 evs

/-! ## The transmit side: `nextTxFrame` -/

/-- A Go channel of frames as the transmit thread finds it when no sender runs
at the same time: the frames waiting in it, oldest first, and whether it has
been closed. -/
structure FrameChan where
  queue : List frame
  closed : Bool
  deriving DecidableEq, Repr

/-- A receive that does not block (a `select` case next to a `default`). The
result is `none` when the receive would block; a channel that is closed and
drained yields the nil frame. -/
def FrameChan.tryRecv (ch : FrameChan) : Option (Option frame × FrameChan) :=
  match ch.queue with
  | f :: q => some (some f, { ch with queue := q })
  | [] => if ch.closed then some (none, ch) else none

/-- The second result of `nextTxFrame`: nil or the channel `c.dataSent`. -/
inductive Completion where
  | nil
  | dataSent
  deriving DecidableEq, Repr

/-- The part of the connection that `nextTxFrame` reads: the send channels
(`sendData` is the array of `maxPriorities` channels, index 0 first) and the
number of calls of `Flush` on the buffered writer. -/
structure TxQueues where
  sendControl : FrameChan
  sendWindowUpdate : FrameChan
  sendData : List FrameChan
  flushes : Nat
  deriving DecidableEq, Repr

/-- The loop `for _, ch := range c.sendData` of `nextTxFrame`: the first
channel, in index order, whose receive does not block. -/
def nextTxFrame.poll : List FrameChan → Option (Option frame × List FrameChan)
  | [] => none
  | ch :: rest =>
    match ch.tryRecv with
    | some (f, ch1) => some (f, ch1 :: rest)
    | none => (nextTxFrame.poll rest).map fun r => (r.1, ch :: r.2)

/-- The `nextTxFrame` method. The first result is `none` when the method does
not return: every receive without blocking has failed, the writer is flushed,
and the blocking `select` over the same channels waits for a sender. -/
def nextTxFrame (t : TxQueues) : Option (Option frame × Completion) × TxQueues :=
  match t.sendControl.tryRecv with
  | some (f, ch) => (some (f, Completion.nil), { t with sendControl := ch })
  | none =>
    match t.sendWindowUpdate.tryRecv with
    | some (f, ch) => (some (f, Completion.nil), { t with sendWindowUpdate := ch })
    | none =>
      match nextTxFrame.poll t.sendData with
      | some (f, chs) => (some (f, Completion.dataSent), { t with sendData := chs })
      | none => (none, { t with flushes := t.flushes + 1 })

/-- An open channel without frames. -/
def FrameChan.idle : FrameChan := { queue := [], closed := false }

/-! ## Relations and observers used in the statements -/

/-- The relation between the connection before and after a run of
`finishStream`: only the table, the socket and the link and error fields of the
streams change; the table only loses keys and a children list only loses
members. -/
structure FinRel (c c1 : Connection) : Prop where
  ctl : { c1 with streams := c.streams, heap := c.heap, socketCloses := c.socketCloses } = c
  streams : ∃ q : Int → Bool, c1.streams = c.streams.filter fun e => q e.1
  socket : c.socketCloses ≤ c1.socketCloses
  obj : ∀ p, { c1.heap p with
      parent := (c.heap p).parent
      children := (c.heap p).children
      rxError := (c.heap p).rxError
      txError := (c.heap p).txError
      txErrorChannelCloses := (c.heap p).txErrorChannelCloses } = c.heap p
  children : ∀ p a, a ∈ (c1.heap p).children → a ∈ (c.heap p).children

/-- The children relation of the heap is well founded: `rank` decreases from a
stream to each of its children. -/
def Ranked (rank : Ptr → Nat) (c : Connection) : Prop :=
  ∀ p a, a ∈ (c.heap p).children → rank a < rank p

/-- Stream ids of the `SYN_STREAM` frames of a channel history, oldest first. -/
def synIds (l : List frame) : List Int :=
  l.filterMap fun fr => match fr with
    | .synStream f => some f.StreamId
    | _ => none

/-- What every part of the dispatcher other than `handleStartRequest` keeps: the
id allocator, the start acknowledgements, the push handler, the version and
the `SYN_STREAM` frames sent; `lastStreamOpened` does not decrease and `goAway`
is not cleared. -/
structure Quiet (c c1 : Connection) : Prop where
  nextStreamId : c1.nextStreamId = c.nextStreamId
  onRequestStarted : c1.onRequestStarted = c.onRequestStarted
  handler : c1.handler = c.handler
  version : c1.version = c.version
  syn : synIds c1.sendControl = synIds c.sendControl
  last : c.lastStreamOpened ≤ c1.lastStreamOpened
  goAway : c.goAway = true → c1.goAway = true

/-- The id of the `SYN_STREAM` frame in buffer `d` when `handleFrame` hands `d`
to `handleSynStream` and the handler accepts it (returns nil). -/
def acceptedSynStream (E : Env) (c : Connection) (d : List UInt8) : Option Int :=
  if fromBig32 d &&& 0x80000000 = 0 then none
  else if (fromBig32 (d.drop 4) &&& 0xFFFFFF) + 8 ≠ d.length then none
  else if fromBig32 d &&& 0x8000FFFF = E.synStreamCode then
    match E.parseSynStream c.unzip d, (handleSynStream E c d).1 with
    | .ok f, none => some f.StreamId
    | _, _ => none
  else none

/-- The accepted `SYN_STREAM` id, if any, of one event of the loop. -/
def acceptedAt (E : Env) (c : Connection) : Event → List Int
  | .dispatch d => if c.returned then [] else (acceptedSynStream E c d).toList
  | _ => []

/-- Ids of the `SYN_STREAM` frames accepted over a run of the loop, in order. -/
def acceptedSynIds (fuel : Nat) (E : Env) : Connection → List Event → List Int
  | _, [] => []
  | c, ev :: evs =>
    match step fuel E c ev with
    | some c1 => acceptedAt E c ev ++ acceptedSynIds fuel E c1 evs
    | none => acceptedAt E c ev

/-- The state of the id allocator after `k` start requests on a connection
seeded with `seed`, `k` being the number of acknowledgements sent: the
allocator holds `seed + 2 * k` reduced to 64 bits, and as long as
`seed + 2 * k` itself is below `2 ^ 63` the ids of the `SYN_STREAM` frames sent
are below the allocator and in ascending order. -/
structure Allocated (seed : Int) (c : Connection) : Prop where
  seed0 : 0 ≤ seed
  next : c.nextStreamId = wrapInt (seed + 2 * c.onRequestStarted.length)
  below : seed + 2 * (c.onRequestStarted.length : Int) < 2 ^ 63 →
    ∀ id ∈ synIds c.sendControl, id < c.nextStreamId
  sorted : seed + 2 * (c.onRequestStarted.length : Int) < 2 ^ 63 →
    (synIds c.sendControl).Pairwise (· < ·)

/-- The frame a `DATA` buffer parses to (the zero frame when it does not parse). -/
def dataOf (E : Env) (d : List UInt8) : dataFrame :=
  match E.parseData d with
  | .ok f => f
  | .error _ => default

/-- A sequence of `handleData` calls: `none` as soon as one call returns an error. -/
def handleDataSeq (E : Env) : Connection → List (List UInt8) → Option Connection
  | c, [] => some c
  | c, d :: ds =>
    match (handleData E c d).1 with
    | none => handleDataSeq E (handleData E c d).2 ds
    | some _ => none

/-- Whether one event of the loop is a call of `handleStartRequest`. -/
def isStartCall (c : Connection) : Event → Nat
  | .startRequest _ _ _ _ => if c.returned then 0 else 1
  | _ => 0

/-- Number of calls of `handleStartRequest` over a run of the loop. -/
def startRequestCalls (fuel : Nat) (E : Env) : Connection → List Event → Nat
  | _, [] => 0
  | c, ev :: evs =>
    match step fuel E c ev with
    | some c1 => isStartCall c ev + startRequestCalls fuel E c1 evs
    | none => isStartCall c ev

/-- A start request names as parent a stream that was allocated earlier; the
other events carry no address that the dispatcher follows unchecked. -/
def Event.valid (c : Connection) : Event → Prop
  | .startRequest _ _ _ (some p) => p < c.nextPtr
  | _ => True

/-- The id allocator has room for `n` more start requests: `nextStreamId` is
not negative and `n` further additions of 2 stay below `2 ^ 63`, so that the
Go `int` does not wrap. -/
def Connection.room (c : Connection) (n : Nat) : Prop :=
  0 ≤ c.nextStreamId ∧ c.nextStreamId + 2 * (n : Int) < 2 ^ 63

/-- A run of the loop all of whose events are valid. -/
def ValidRun (fuel : Nat) (E : Env) : Connection → List Event → Connection → Prop
  | c, [], c1 => c1 = c
  | c, ev :: evs, c1 => ev.valid c ∧ ∃ cm, step fuel E c ev = some cm ∧ ValidRun fuel E cm evs c1

/-- The representation invariant of the stream table and the heap: a key of
the table is the id of the stream it holds, which is allocated, and a child is
allocated after its parent. -/
structure WellFormed (c : Connection) : Prop where
  keys : ∀ k p, c.streams.get k = some p → (c.heap p).streamId = k ∧ p < c.nextPtr
  order : ∀ p a, a ∈ (c.heap p).children → p < a ∧ a < c.nextPtr

/-- What a handler that creates no stream does to the table and the links: no
allocation, no new key, no id changed, no child added. -/
structure Shape (c c1 : Connection) : Prop where
  nextPtr : c1.nextPtr = c.nextPtr
  streams : ∃ q : Int → Bool, c1.streams = c.streams.filter fun e => q e.1
  ids : ∀ p, (c1.heap p).streamId = (c.heap p).streamId
  children : ∀ p a, a ∈ (c1.heap p).children → a ∈ (c.heap p).children

/-- The reason codes that the `switch` of `handleRstStream` tests are pairwise
different constants (a Go `switch` does not compile with a repeated case). -/
def Env.rstDistinct (E : Env) : Prop :=
  [E.rstInvalidStream, E.rstRefusedStream, E.rstUnsupportedVersion, E.rstCancel,
    E.rstFlowControlError, E.rstStreamInUse, E.rstStreamAlreadyClosed].Nodup

instance Env.rstDistinctDecidable (E : Env) : Decidable E.rstDistinct := by
  unfold Env.rstDistinct
  infer_instance

/-- The table of the specification that translates the reason of a received
`RST_STREAM` frame into the error the stream is finished with. -/
def rstErrorSpec (E : Env) (version : Int) (f : rstStreamFrame) (err : Err) : Prop :=
  (f.Reason = E.rstInvalidStream → err = Err.InvalidStream f.StreamId) ∧
  (f.Reason = E.rstRefusedStream → err = Err.RefusedStream f.StreamId) ∧
  (f.Reason = E.rstUnsupportedVersion → err = Err.StreamVersion f.StreamId version) ∧
  (f.Reason = E.rstCancel → err = Err.Cancel f.StreamId) ∧
  (f.Reason = E.rstFlowControlError → err = Err.StreamFlowControl f.StreamId) ∧
  (f.Reason = E.rstStreamInUse → err = Err.StreamInUse f.StreamId) ∧
  (f.Reason = E.rstStreamAlreadyClosed → err = Err.StreamAlreadyClosed f.StreamId) ∧
  (f.Reason ≠ E.rstInvalidStream → f.Reason ≠ E.rstRefusedStream →
    f.Reason ≠ E.rstUnsupportedVersion → f.Reason ≠ E.rstCancel →
    f.Reason ≠ E.rstFlowControlError → f.Reason ≠ E.rstStreamInUse →
    f.Reason ≠ E.rstStreamAlreadyClosed → err = Err.StreamProtocol f.StreamId)

/-- The reason codes that `handleGoAway` tests are pairwise different constants. -/
def Env.goAwayDistinct (E : Env) : Prop :=
  [E.rstSuccess, E.rstUnsupportedVersion, E.rstFlowControlError].Nodup

instance Env.goAwayDistinctDecidable (E : Env) : Decidable E.goAwayDistinct := by
  unfold Env.goAwayDistinct
  infer_instance

/-- The table of the specification that translates the reason of a received
`GOAWAY` frame into the session error its streams are finished with. -/
def goAwayErrorSpec (E : Env) (version : Int) (f : goAwayFrame) (err : Err) : Prop :=
  (f.Reason = E.rstSuccess → err = Err.GoAway) ∧
  (f.Reason = E.rstUnsupportedVersion → err = Err.SessionVersion version) ∧
  (f.Reason = E.rstFlowControlError → err = Err.SessionFlowControl) ∧
  (f.Reason ≠ E.rstSuccess → f.Reason ≠ E.rstUnsupportedVersion →
    f.Reason ≠ E.rstFlowControlError → err = Err.SessionProtocol)

/-- The lists `f` yields on the members of `l`, appended in order; `none` as
soon as `f` yields none. -/
def visitList (f : Ptr → Option (List Ptr)) : List Ptr → Option (List Ptr)
  | [] => some []
  | a :: rest =>
    match f a, visitList f rest with
    | some l1, some l2 => some (l1 ++ l2)
    | _, _ => none

/-- The streams on which a run of `finishStream` on `s` is called, in the order
of the calls: `s`, then for each child in turn the streams of its own run. The
recursion is bounded as in `finishStream`. -/
def visited : Nat → (Ptr → stream) → Ptr → Option (List Ptr)
  | 0, _, _ => none
  | fuel + 1, h, s => (visitList (visited fuel h) (h s).children).map fun l => s :: l

/-- The effect of runs of `finishStream` on the table and on the link and error
fields: the streams of `L` have left the table and carry the error on both
directions, a transmit error channel is closed once for each occurrence in
`L`, the streams of `N` have lost their parent, and the children lists are
given by `ch`. -/
structure Effect (err : Err) (c : Connection) (L N : List Ptr) (ch : Ptr → List Ptr)
    (c1 : Connection) : Prop where
  streams : c1.streams =
    c.streams.filter fun e => decide (e.1 ∉ L.map fun p => (c.heap p).streamId)
  ids : ∀ p, (c1.heap p).streamId = (c.heap p).streamId
  rx : ∀ p, (c1.heap p).rxError = if p ∈ L then some err else (c.heap p).rxError
  tx : ∀ p, (c1.heap p).txError = if p ∈ L then some err else (c.heap p).txError
  closes : ∀ p, (c1.heap p).txErrorChannelCloses = (c.heap p).txErrorChannelCloses + L.count p
  parent : ∀ p, (c1.heap p).parent = if p ∈ N then none else (c.heap p).parent
  children : ∀ p, (c1.heap p).children = ch p

/-- The stream `q` is `s` or is reached from `s` through children lists. -/
inductive Desc (c : Connection) (s : Ptr) : Ptr → Prop where
  | self : Desc c s s
  | child (z a : Ptr) : Desc c s z → a ∈ (c.heap z).children → Desc c s a

/-- The stream at address `p` is in the table, under its own id. -/
def Connection.live (c : Connection) (p : Ptr) : Prop :=
  c.streams.get (c.heap p).streamId = some p

/-- The invariant of the states that the dispatcher reaches: the table and the
heap are well formed, the table has one entry for a key, ids of one parity
grow with the order of allocation and stay below the allocator (local parity)
or at most `lastStreamOpened` (remote parity), a stream in the table has
not been finished, no transmit error channel has been closed twice, and the
children lists form a forest of streams of the
table: no list repeats a member, the children of a stream of the table are in
the table, and a stream of the table that is in a children list points to the
owner of the list as its parent. -/
structure Sound (c : Connection) : Prop where
  wf : WellFormed c
  keysNodup : (c.streams.map Prod.fst).Nodup
  ordered : ∀ p q, p < q → q < c.nextPtr →
    lowBit (c.heap p).streamId = lowBit (c.heap q).streamId →
    (c.heap p).streamId < (c.heap q).streamId
  localBound : ∀ p, p < c.nextPtr → lowBit (c.heap p).streamId = lowBit c.nextStreamId →
    (c.heap p).streamId < c.nextStreamId
  remoteBound : ∀ p, p < c.nextPtr → lowBit (c.heap p).streamId ≠ lowBit c.nextStreamId →
    (c.heap p).streamId ≤ c.lastStreamOpened
  fresh : ∀ p, c.live p → (c.heap p).rxError = none ∧ (c.heap p).txError = none ∧
    (c.heap p).txErrorChannelCloses = 0
  once : ∀ p, (c.heap p).txErrorChannelCloses ≤ 1
  childrenNodup : ∀ p, (c.heap p).children.Nodup
  childLive : ∀ y a, c.live y → a ∈ (c.heap y).children → c.live a
  parentLink : ∀ y a, a ∈ (c.heap y).children → c.live a → (c.heap a).parent = some y

/-- The fields of a stream that the invariant reads. -/
def stream.links (x : stream) :
    Int × Option Ptr × List Ptr × Option Err × Option Err × Nat :=
  (x.streamId, x.parent, x.children, x.rxError, x.txError, x.txErrorChannelCloses)

/-- What a handler that neither creates nor finishes a stream keeps: the table,
the allocators and the link and error fields of every stream;
`lastStreamOpened` does not decrease. -/
structure Inert (c c1 : Connection) : Prop where
  streams : c1.streams = c.streams
  nextPtr : c1.nextPtr = c.nextPtr
  nextStreamId : c1.nextStreamId = c.nextStreamId
  last : c.lastStreamOpened ≤ c1.lastStreamOpened
  links : ∀ p, (c1.heap p).links = (c.heap p).links

/-- The creation of one stream, at address `c.nextPtr`, with id `id`: `ins`
tells whether it enters the table (and then the children of `par`). The id is
either the next local id, or an id of the remote parity above every remote id
allocated before. -/
structure Born (c : Connection) (id : Int) (par : Option Ptr) (ins : Bool) (c1 : Connection) :
    Prop where
  nextPtr : c1.nextPtr = c.nextPtr + 1
  streams : c1.streams = if ins then c.streams.set id c.nextPtr else c.streams
  newLinks : ((c1.heap c.nextPtr).links = (id, par, [], none, none, 0)) ∨
    (ins = false ∧ ∃ q, (c1.heap c.nextPtr).links = (id, q, [], none, none, 0))
  oldLinks : ∀ p, p ≠ c.nextPtr → (c1.heap p).links =
    ((c.heap p).streamId, (c.heap p).parent,
      (if ins = true ∧ par = some p then (c.heap p).children ++ [c.nextPtr]
        else (c.heap p).children),
      (c.heap p).rxError, (c.heap p).txError, (c.heap p).txErrorChannelCloses)
  parValid : ∀ p, par = some p → p < c.nextPtr
  kind : (id = c.nextStreamId ∧ c1.nextStreamId = c.nextStreamId + 2 ∧
      c.lastStreamOpened ≤ c1.lastStreamOpened) ∨
    (lowBit id ≠ lowBit c.nextStreamId ∧
      (∀ p, p < c.nextPtr → lowBit (c.heap p).streamId ≠ lowBit c.nextStreamId →
        (c.heap p).streamId < id) ∧
      id ≤ c1.lastStreamOpened ∧ c1.nextStreamId = c.nextStreamId)

/-- The state `ci` of a loop that started in `c0` and finishes streams of the
table with `err`, the ones whose key satisfies `cond` (and with them their
descendants): the state is sound, it differs from `c0` by runs of
`finishStream`, and a stream that was in the table of `c0` is either still in
the table, untouched, or out of the table, finished once with `err`, below a
stream of the table of `c0` whose id satisfies `cond`. -/
structure Swept (err : Err) (cond : Int → Bool) (c0 ci : Connection) : Prop where
  sound : Sound ci
  rel : FinRel c0 ci
  part : ∀ p, c0.live p →
    (ci.live p ∧ (ci.heap p).rxError = (c0.heap p).rxError ∧
      (ci.heap p).txError = (c0.heap p).txError ∧
      (ci.heap p).txErrorChannelCloses = (c0.heap p).txErrorChannelCloses) ∨
    (¬ ci.live p ∧ (ci.heap p).rxError = some err ∧ (ci.heap p).txError = some err ∧
      (ci.heap p).txErrorChannelCloses = (c0.heap p).txErrorChannelCloses + 1 ∧
      ∃ r, c0.live r ∧ cond (c0.heap r).streamId = true ∧ Desc c0 r p)

/-- The `http.Response` literal of `handleSynReply` for frame `f` and the
stream at address `s`, with the status code and the content length filled in. -/
def handleSynReply.response (E : Env) (c : Connection) (f : synReplyFrame) (s : Ptr) :
    Response :=
  { Status := f.Status
    StatusCode := (E.atoi ((splitN2 f.Status).getD 0 "")).1
    Proto := f.Proto
    ProtoMajor := f.ProtoMajor
    ProtoMinor := f.ProtoMinor
    Header := f.Header
    ContentLength :=
      if (E.parseInt (f.Header.Get "Content-Length")).2 then
        (E.parseInt (f.Header.Get "Content-Length")).1
      else 0
    Body := some s
    Request := (c.heap s).request }

/-! ## A reference codec

The examples below need a concrete `Env`. `wire` decodes the fixed fields of
the SPDY/3 frame layouts and takes every header block as empty. -/

/-- Decimal value of a string of digits. -/
def decimal : List Char → Option Nat
  | [] => none
  | cs => cs.foldl (fun acc ch =>
      match acc with
      | some n => if ch.isDigit then some (n * 10 + (ch.toNat - 48)) else none
      | none => none) (some 0)

/-- A reading of `strconv.ParseInt` and `strconv.Atoi` on unsigned decimals. -/
def readInt (s : String) : Int × Bool :=
  match decimal s.toList with
  | some n => (n, true)
  | none => (0, false)

/-- The flag byte of a frame header. -/
def flagByte (d : List UInt8) : Nat := (d.getD 4 0).toNat

/-- The 15-bit version of a control frame header. -/
def wireVersion (d : List UInt8) : Int := ((fromBig32 d / 2 ^ 16) % 2 ^ 15 : Nat)

/-- The 31-bit id stored in the word at offset `i`. -/
def wireId (d : List UInt8) (i : Nat) : Int := ((fromBig32 (d.drop i) % 2 ^ 31 : Nat))

/-- The reference codec and the SPDY/3 constants. -/
def wire : Env where
  parseSynStream := fun _ d => .ok
    { Version := wireVersion d
      StreamId := wireId d 8
      AssociatedStreamId := wireId d 12
      Finished := decide (flagByte d % 2 = 1)
      Unidirectional := decide (flagByte d / 2 % 2 = 1)
      Header := []
      Priority := ((d.getD 16 0).toNat / 32 : Nat)
      URL := { Host := "", Path := "/" }
      Proto := "HTTP/1.1"
      ProtoMajor := 1
      ProtoMinor := 1
      Method := "GET" }
  parseSynReply := fun _ d => .ok
    { Version := wireVersion d
      StreamId := wireId d 8
      Finished := decide (flagByte d % 2 = 1)
      Header := []
      Status := "200 OK"
      Proto := "HTTP/1.1"
      ProtoMajor := 1
      ProtoMinor := 1 }
  parseHeaders := fun _ d => .ok
    { Version := wireVersion d
      StreamId := wireId d 8
      Finished := decide (flagByte d % 2 = 1)
      Header := [] }
  parseRstStream := fun d => .ok
    { Version := wireVersion d
      StreamId := wireId d 8
      Reason := (fromBig32 (d.drop 12) : Nat) }
  parseSettings := fun d => .ok
    { Version := wireVersion d
      HaveWindow := false
      Window := 0 }
  parseWindowUpdate := fun d => .ok
    { Version := wireVersion d
      StreamId := wireId d 8
      WindowDelta := wireId d 12 }
  parsePing := fun d => .ok
    { Version := wireVersion d
      Id := fromBig32 (d.drop 8) }
  parseGoAway := fun d => .ok
    { Version := wireVersion d
      LastStreamId := wireId d 8
      Reason := (fromBig32 (d.drop 12) : Nat) }
  parseData := fun d => .ok
    { StreamId := wireId d 0
      Finished := decide (flagByte d % 2 = 1)
      Compressed := decide (flagByte d / 2 % 2 = 1)
      Data := d.drop 8 }
  parseInt := readInt
  atoi := readInt
  synStreamCode := 0x80000001
  synReplyCode := 0x80000002
  rstStreamCode := 0x80000003
  settingsCode := 0x80000004
  pingCode := 0x80000006
  goAwayCode := 0x80000007
  headersCode := 0x80000008
  windowUpdateCode := 0x80000009
  rstSuccess := 0
  rstProtocolError := 1
  rstInvalidStream := 2
  rstRefusedStream := 3
  rstUnsupportedVersion := 4
  rstCancel := 5
  rstFlowControlError := 7
  rstStreamInUse := 8
  rstStreamAlreadyClosed := 9
  defaultWindow := 65536

/-- A SPDY/3 `SYN_STREAM` buffer with an empty header block. -/
def synStreamBytes (flags id assoc : UInt8) : List UInt8 :=
  [0x80, 3, 0, 1, flags, 0, 0, 10, 0, 0, 0, id, 0, 0, 0, assoc, 0, 0]

/-- A `DATA` buffer. -/
def dataBytes (id flags : UInt8) (payload : List UInt8) : List UInt8 :=
  [0, 0, 0, id, flags, 0, 0, UInt8.ofNat payload.length] ++ payload

/-- A `PING` buffer of the given version and id. -/
def pingBytes (version id : UInt8) : List UInt8 :=
  [0x80, version, 0, 6, 0, 0, 0, 4, 0, 0, 0, id]

/-- A SPDY/3 `RST_STREAM` buffer. -/
def rstStreamBytes (id reason : UInt8) : List UInt8 :=
  [0x80, 3, 0, 3, 0, 0, 0, 8, 0, 0, 0, id, 0, 0, 0, reason]

/-- A SPDY/3 `GOAWAY` buffer. -/
def goAwayBytes (last reason : UInt8) : List UInt8 :=
  [0x80, 3, 0, 7, 0, 0, 0, 8, 0, 0, 0, last, 0, 0, 0, reason]

/-- A SPDY/3 `SYN_REPLY` buffer with an empty header block. -/
def synReplyBytes (flags id : UInt8) : List UInt8 :=
  [0x80, 3, 0, 2, flags, 0, 0, 4, 0, 0, 0, id]

/-- The reference codec with a `SETTINGS` parser that reads the first entry of
the frame: the window is present when the entry has id 7
(`SETTINGS_INITIAL_WINDOW_SIZE`). -/
def wireSettings : Env :=
  { wire with
    parseSettings := fun d => .ok
      { Version := wireVersion d
        HaveWindow := decide (fromBig32 (d.drop 12) % 2 ^ 24 = 7)
        Window := wireId d 16 } }

/-- A SPDY/3 `SETTINGS` buffer with the single entry `INITIAL_WINDOW_SIZE`. -/
def settingsBytes (w2 w3 : UInt8) : List UInt8 :=
  [0x80, 3, 0, 4, 0, 0, 0, 12, 0, 0, 0, 1, 0, 0, 0, 7, 0, 0, w2, w3]

/-- A SPDY/3 `WINDOW_UPDATE` buffer: the stream id and the four bytes of the
delta. -/
def windowUpdateBytes (id d0 d1 d2 d3 : UInt8) : List UInt8 :=
  [0x80, 3, 0, 9, 0, 0, 0, 8, 0, 0, 0, id, d0, d1, d2, d3]

/-- A SPDY/3 `SETTINGS` buffer with the single entry `INITIAL_WINDOW_SIZE`, all
four bytes of the value given. -/
def settingsWindowBytes (w0 w1 w2 w3 : UInt8) : List UInt8 :=
  [0x80, 3, 0, 4, 0, 0, 0, 12, 0, 0, 0, 1, 0, 0, 0, 7, w0, w1, w2, w3]

/-! ## Example states -/

/-- A client connection with a push handler, freshly created. -/
def exClient : Connection := NewConnection wire "peer" (some 1) 3 false

/-- The client connection after the peer has opened streams up to 4. -/
def exLate : Connection := { exClient with lastStreamOpened := 4 }

/-- The client connection after the peer's `SYN_STREAM` for stream 2. -/
def exAfter2 : Connection :=
  (Run 1 wire exClient [.dispatch (synStreamBytes 0 2 0)]).getD exClient

/-- The client connection after the peer's `SYN_STREAM` frames for 2, again 2, and 4. -/
def exAfter4 : Connection :=
  (Run 1 wire exAfter2 [.dispatch (synStreamBytes 0 2 0), .dispatch (synStreamBytes 0 4 0)]).getD
    exClient

/-- A SPDY `SYN_STREAM` buffer of the given version with an empty header block. -/
def synStreamBytesV (version flags id assoc : UInt8) : List UInt8 :=
  [0x80, version, 0, 1, flags, 0, 0, 10, 0, 0, 0, id, 0, 0, 0, assoc, 0, 0]

/-- A start request for a plain bidirectional stream without a child handler. -/
def exStart : Event :=
  .startRequest default false
    { Unidirectional := false, Priority := 0, Compressed := false, AssociatedHandler := none } none

/-- A start request for a stream that carries child handler 7 for its pushes. -/
def exStartPush : Event :=
  .startRequest default false
    { Unidirectional := false, Priority := 0, Compressed := false, AssociatedHandler := some 7 }
    none

/-- The client connection after one local start request: stream 1 is in the table. -/
def exLocal : Connection := (Run 1 wire exClient [exStart]).getD exClient

/-- A client connection created with a nil handler. -/
def exNoHandler : Connection := NewConnection wire "peer" none 3 false

/-- The nil-handler client after starting stream 1 with a child handler. -/
def exPush : Connection := (Run 1 wire exNoHandler [exStartPush]).getD exNoHandler

/-- The client after its stream 1 has received a `DATA` frame with the finished flag. -/
def exFin : Connection := (Run 1 wire exLocal [.dispatch (dataBytes 1 1 [9])]).getD exLocal

/-- The client with stream 1 open, over two `DATA` frames for stream 1. -/
def exData : List (List UInt8) := [dataBytes 1 0 [1, 2], dataBytes 1 1 [3]]

/-- The client's state after the two frames of `exData`. -/
def exAfterData : Connection := (handleDataSeq wire exLocal exData).getD exLocal

/-- A control buffer of 40 bytes whose header announces a payload of 100 bytes. -/
def exShort : List UInt8 := [0x80, 3, 0, 1, 0, 0, 0, 100] ++ List.replicate 32 0

/-- The client connection once `goAway` is set. -/
def exGoAway : Connection := { exClient with goAway := true }

/-- The client connection with its id allocator past the 31-bit range. -/
def exMaxed : Connection := { exClient with nextStreamId := 2147483649 }

/-- The client after two start requests with a peer `SYN_STREAM` in between. -/
def exTwoStarted : Connection :=
  (Run 1 wire exClient [exStart, .dispatch (synStreamBytes 0 2 0), exStart]).getD exClient

/-- The send queues after teardown has closed the control channel, with a
window update still waiting. -/
def exTxClosed : TxQueues :=
  { sendControl := { queue := [], closed := true }
    sendWindowUpdate :=
      { queue := [frame.windowUpdate { Version := 3, StreamId := 1, WindowDelta := 10 }]
        closed := false }
    sendData := List.replicate 8 FrameChan.idle
    flushes := 0 }

/-- Open send queues with frames waiting in the data queues 2 and 5. -/
def exTxData : TxQueues :=
  { sendControl := FrameChan.idle
    sendWindowUpdate := FrameChan.idle
    sendData := [FrameChan.idle, FrameChan.idle,
      { queue := [frame.data { StreamId := 1, Finished := false, Compressed := false, Data := [1] },
          frame.data { StreamId := 1, Finished := true, Compressed := false, Data := [2] }]
        closed := false },
      FrameChan.idle, FrameChan.idle,
      { queue := [frame.data { StreamId := 3, Finished := true, Compressed := false, Data := [] }]
        closed := false },
      FrameChan.idle, FrameChan.idle]
    flushes := 0 }

/-- The client after it has started stream 1 with a child handler and the peer
has pushed stream 2 onto it. -/
def exFamily : Connection :=
  (Run 1 wire exClient [exStartPush, .dispatch (synStreamBytes 0 2 1)]).getD exClient

/-- A start request whose transmit direction is finished from the start. -/
def exStartFin : Event :=
  .startRequest default true
    { Unidirectional := false, Priority := 0, Compressed := false, AssociatedHandler := none } none

/-- A server connection, freshly created. -/
def exServer : Connection := NewConnection wire "peer" (some 1) 3 true

/-- The client with local streams 1, 3 and 5 and the peer's stream 2 pushed
onto stream 1. -/
def exSweep : Connection :=
  (Run 1 wire exClient
    [exStartPush, exStart, .dispatch (synStreamBytes 0 2 1), exStart]).getD exClient

/-- The client whose stream 1 was started transmit-finished and has received a
`DATA` frame with the finished flag. -/
def exBothFinished : Connection :=
  (Run 1 wire exClient [exStartFin, .dispatch (dataBytes 1 1 [9])]).getD exClient

/-- The client after the peer has reset its stream 1. -/
def exReset : Connection :=
  (Run 2 wire exLocal [.dispatch (rstStreamBytes 1 5)]).getD exLocal

/-- A start request for a unidirectional push onto the stream at address 1. -/
def exStartOnto : Event :=
  .startRequest default false
    { Unidirectional := true, Priority := 0, Compressed := false, AssociatedHandler := none }
    (some 1)

/-- The server after the peer has opened streams 1 and 3 and the server has
pushed a stream onto stream 3. -/
def exServerPush : Connection :=
  (Run 1 wire exServer [.dispatch (synStreamBytes 0 1 0), .dispatch (synStreamBytes 0 3 0),
    exStartOnto]).getD exServer

/-- The client after it has started streams 1 and 3 and the peer has pushed
stream 2 onto stream 3. -/
def exClientPush : Connection :=
  (Run 1 wire exClient [exStartPush, exStartPush, .dispatch (synStreamBytes 0 2 3)]).getD exClient

/-- A start request for a stream whose parent is the stream at address 0. -/
def exStartChild : Event :=
  .startRequest default false
    { Unidirectional := false, Priority := 0, Compressed := false, AssociatedHandler := none }
    (some 0)

/-- The client after it has started stream 1 and a stream with stream 1 as parent. -/
def exLocalPush : Connection :=
  (Run 1 wire exClient [exStartPush, exStartChild]).getD exClient

/-- The client with the local streams 1, 3 and 5 in its table. -/
def exThree : Connection := (Run 1 wire exClient [exStart, exStart, exStart]).getD exClient

/-- The client with the local streams 1, 3 and 5 after a `GOAWAY` with last
stream id 3. -/
def exAfterGoAway : Connection :=
  (Run 4 wire exThree [.dispatch (goAwayBytes 3 0)]).getD exThree

/-- The client with stream 1 and its pushed child after a `GOAWAY` with last
stream id 1. -/
def exFamilyAway : Connection :=
  (Run 3 wire exFamily [.dispatch (goAwayBytes 1 0)]).getD exFamily

/-- The fresh client after a `GOAWAY` frame with last stream id 0. -/
def exAway : Connection := (Run 1 wire exClient [.dispatch (goAwayBytes 0 0)]).getD exClient

/-- The events that bring a transmit window to the edge of the range of a Go
`int`: a start request for stream 1, `2 ^ 32 + 1` `WINDOW_UPDATE` frames for
stream 1 with the delta `2 ^ 31 - 1`, and one with the delta 2. -/
def exWindowEvents : List Event :=
  [exStart] ++ (List.replicate (2 ^ 32 + 1) (.dispatch (windowUpdateBytes 1 0x7f 0xff 0xff 0xff)) ++
    [.dispatch (windowUpdateBytes 1 0 0 0 2)])

/-! ## Facts about 64-bit arithmetic -/

/-- A value in the range of a Go `int` is not changed by the reduction. -/
theorem wrapInt_of_range (x : Int) (h0 : -(2 ^ 63) ≤ x) (h1 : x < 2 ^ 63) : wrapInt x = x := by
  unfold wrapInt
  rw [Int.emod_eq_of_lt (by omega) (by omega)]
  omega

/-- The reduction lands in the range of a Go `int`. -/
theorem wrapInt_range (x : Int) : -(2 ^ 63) ≤ wrapInt x ∧ wrapInt x < 2 ^ 63 := by
  unfold wrapInt
  omega

/-- A sum may be reduced at the end only. -/
theorem wrapInt_add (x y : Int) : wrapInt (wrapInt x + y) = wrapInt (x + y) := by
  unfold wrapInt
  omega

/-! ## Facts about the stream table -/

theorem StreamTable.get_filter (q : Int → Bool) (m : StreamTable) (k : Int) :
    StreamTable.get (m.filter fun e => q e.1) k = if q k then StreamTable.get m k else none := by
  induction m with
  | nil => simp [StreamTable.get]
  | cons e m ih =>
    obtain ⟨k1, v⟩ := e
    by_cases hq : q k1 = true
    · by_cases hk : k1 = k
      · subst hk; simp [List.filter_cons, hq, StreamTable.get]
      · simp [List.filter_cons, hq, StreamTable.get, hk, ih]
    · by_cases hk : k1 = k
      · subst hk; simp [List.filter_cons, hq, ih]
      · simp [List.filter_cons, hq, StreamTable.get, hk, ih]

theorem StreamTable.get_delete (m : StreamTable) (id k : Int) :
    StreamTable.get (m.delete id) k = if k = id then none else StreamTable.get m k := by
  have h := StreamTable.get_filter (fun j => decide (j ≠ id)) m k
  unfold StreamTable.delete
  rw [h]
  by_cases hk : k = id <;> simp [hk]

theorem StreamTable.get_append_single (m : StreamTable) (id k : Int) (s : Ptr) :
    StreamTable.get (m ++ [(id, s)]) k =
      match StreamTable.get m k with
      | some v => some v
      | none => if id = k then some s else none := by
  induction m with
  | nil => simp [StreamTable.get]
  | cons e m ih =>
    obtain ⟨k1, v⟩ := e
    by_cases hk : k1 = k
    · simp [StreamTable.get, hk]
    · simp [StreamTable.get, hk, ih]

theorem StreamTable.get_set (m : StreamTable) (id k : Int) (s : Ptr) :
    StreamTable.get (m.set id s) k = if k = id then some s else StreamTable.get m k := by
  unfold StreamTable.set
  rw [StreamTable.get_append_single, StreamTable.get_delete]
  by_cases hk : k = id
  · simp [hk]
  · have hk2 : ¬ id = k := fun h => hk h.symm
    simp only [hk, hk2, if_false]
    cases StreamTable.get m k <;> rfl

/-! ## What `finishStream` leaves alone -/

@[simp] theorem Connection.store_heap (c : Connection) (p q : Ptr) (v : stream) :
    (c.store p v).heap q = if q = p then v else c.heap q := rfl

@[simp] theorem Connection.modify_heap (c : Connection) (p q : Ptr) (f : stream → stream) :
    (c.modify p f).heap q = if q = p then f (c.heap p) else c.heap q := rfl

/-! ### Projections of a heap update -/

@[simp] theorem Connection.store_version (c : Connection) (p : Ptr) (v : stream) :
    (c.store p v).version = c.version := rfl

@[simp] theorem Connection.store_handler (c : Connection) (p : Ptr) (v : stream) :
    (c.store p v).handler = c.handler := rfl

@[simp] theorem Connection.store_remoteAddr (c : Connection) (p : Ptr) (v : stream) :
    (c.store p v).remoteAddr = c.remoteAddr := rfl

@[simp] theorem Connection.store_tls (c : Connection) (p : Ptr) (v : stream) :
    (c.store p v).tls = c.tls := rfl

@[simp] theorem Connection.store_rxWindow (c : Connection) (p : Ptr) (v : stream) :
    (c.store p v).rxWindow = c.rxWindow := rfl

@[simp] theorem Connection.store_sendControl (c : Connection) (p : Ptr) (v : stream) :
    (c.store p v).sendControl = c.sendControl := rfl

@[simp] theorem Connection.store_sendControlCloses (c : Connection) (p : Ptr) (v : stream) :
    (c.store p v).sendControlCloses = c.sendControlCloses := rfl

@[simp] theorem Connection.store_onRequestStarted (c : Connection) (p : Ptr) (v : stream) :
    (c.store p v).onRequestStarted = c.onRequestStarted := rfl

@[simp] theorem Connection.store_streams (c : Connection) (p : Ptr) (v : stream) :
    (c.store p v).streams = c.streams := rfl

@[simp] theorem Connection.store_lastStreamOpened (c : Connection) (p : Ptr) (v : stream) :
    (c.store p v).lastStreamOpened = c.lastStreamOpened := rfl

@[simp] theorem Connection.store_nextStreamId (c : Connection) (p : Ptr) (v : stream) :
    (c.store p v).nextStreamId = c.nextStreamId := rfl

@[simp] theorem Connection.store_goAway (c : Connection) (p : Ptr) (v : stream) :
    (c.store p v).goAway = c.goAway := rfl

@[simp] theorem Connection.store_onGoAwayCloses (c : Connection) (p : Ptr) (v : stream) :
    (c.store p v).onGoAwayCloses = c.onGoAwayCloses := rfl

@[simp] theorem Connection.store_nextPingId (c : Connection) (p : Ptr) (v : stream) :
    (c.store p v).nextPingId = c.nextPingId := rfl

@[simp] theorem Connection.store_socketCloses (c : Connection) (p : Ptr) (v : stream) :
    (c.store p v).socketCloses = c.socketCloses := rfl

@[simp] theorem Connection.store_nextPtr (c : Connection) (p : Ptr) (v : stream) :
    (c.store p v).nextPtr = c.nextPtr := rfl

@[simp] theorem Connection.store_handlerThreads (c : Connection) (p : Ptr) (v : stream) :
    (c.store p v).handlerThreads = c.handlerThreads := rfl

@[simp] theorem Connection.store_dispatched (c : Connection) (p : Ptr) (v : stream) :
    (c.store p v).dispatched = c.dispatched := rfl

@[simp] theorem Connection.store_unzip (c : Connection) (p : Ptr) (v : stream) :
    (c.store p v).unzip = c.unzip := rfl

@[simp] theorem Connection.store_returned (c : Connection) (p : Ptr) (v : stream) :
    (c.store p v).returned = c.returned := rfl

@[simp] theorem Connection.modify_version (c : Connection) (p : Ptr) (f : stream → stream) :
    (c.modify p f).version = c.version := rfl

@[simp] theorem Connection.modify_handler (c : Connection) (p : Ptr) (f : stream → stream) :
    (c.modify p f).handler = c.handler := rfl

@[simp] theorem Connection.modify_remoteAddr (c : Connection) (p : Ptr) (f : stream → stream) :
    (c.modify p f).remoteAddr = c.remoteAddr := rfl

@[simp] theorem Connection.modify_tls (c : Connection) (p : Ptr) (f : stream → stream) :
    (c.modify p f).tls = c.tls := rfl

@[simp] theorem Connection.modify_rxWindow (c : Connection) (p : Ptr) (f : stream → stream) :
    (c.modify p f).rxWindow = c.rxWindow := rfl

@[simp] theorem Connection.modify_sendControl (c : Connection) (p : Ptr) (f : stream → stream) :
    (c.modify p f).sendControl = c.sendControl := rfl

@[simp] theorem Connection.modify_sendControlCloses (c : Connection) (p : Ptr) (f : stream → stream) :
    (c.modify p f).sendControlCloses = c.sendControlCloses := rfl

@[simp] theorem Connection.modify_onRequestStarted (c : Connection) (p : Ptr) (f : stream → stream) :
    (c.modify p f).onRequestStarted = c.onRequestStarted := rfl

@[simp] theorem Connection.modify_streams (c : Connection) (p : Ptr) (f : stream → stream) :
    (c.modify p f).streams = c.streams := rfl

@[simp] theorem Connection.modify_lastStreamOpened (c : Connection) (p : Ptr) (f : stream → stream) :
    (c.modify p f).lastStreamOpened = c.lastStreamOpened := rfl

@[simp] theorem Connection.modify_nextStreamId (c : Connection) (p : Ptr) (f : stream → stream) :
    (c.modify p f).nextStreamId = c.nextStreamId := rfl

@[simp] theorem Connection.modify_goAway (c : Connection) (p : Ptr) (f : stream → stream) :
    (c.modify p f).goAway = c.goAway := rfl

@[simp] theorem Connection.modify_onGoAwayCloses (c : Connection) (p : Ptr) (f : stream → stream) :
    (c.modify p f).onGoAwayCloses = c.onGoAwayCloses := rfl

@[simp] theorem Connection.modify_nextPingId (c : Connection) (p : Ptr) (f : stream → stream) :
    (c.modify p f).nextPingId = c.nextPingId := rfl

@[simp] theorem Connection.modify_socketCloses (c : Connection) (p : Ptr) (f : stream → stream) :
    (c.modify p f).socketCloses = c.socketCloses := rfl

@[simp] theorem Connection.modify_nextPtr (c : Connection) (p : Ptr) (f : stream → stream) :
    (c.modify p f).nextPtr = c.nextPtr := rfl

@[simp] theorem Connection.modify_handlerThreads (c : Connection) (p : Ptr) (f : stream → stream) :
    (c.modify p f).handlerThreads = c.handlerThreads := rfl

@[simp] theorem Connection.modify_dispatched (c : Connection) (p : Ptr) (f : stream → stream) :
    (c.modify p f).dispatched = c.dispatched := rfl

@[simp] theorem Connection.modify_unzip (c : Connection) (p : Ptr) (f : stream → stream) :
    (c.modify p f).unzip = c.unzip := rfl

@[simp] theorem Connection.modify_returned (c : Connection) (p : Ptr) (f : stream → stream) :
    (c.modify p f).returned = c.returned := rfl

@[simp] theorem Connection.alloc_version (c : Connection) (v : stream) :
    (c.alloc v).2.version = c.version := rfl

@[simp] theorem Connection.alloc_handler (c : Connection) (v : stream) :
    (c.alloc v).2.handler = c.handler := rfl

@[simp] theorem Connection.alloc_remoteAddr (c : Connection) (v : stream) :
    (c.alloc v).2.remoteAddr = c.remoteAddr := rfl

@[simp] theorem Connection.alloc_tls (c : Connection) (v : stream) :
    (c.alloc v).2.tls = c.tls := rfl

@[simp] theorem Connection.alloc_rxWindow (c : Connection) (v : stream) :
    (c.alloc v).2.rxWindow = c.rxWindow := rfl

@[simp] theorem Connection.alloc_sendControl (c : Connection) (v : stream) :
    (c.alloc v).2.sendControl = c.sendControl := rfl

@[simp] theorem Connection.alloc_sendControlCloses (c : Connection) (v : stream) :
    (c.alloc v).2.sendControlCloses = c.sendControlCloses := rfl

@[simp] theorem Connection.alloc_onRequestStarted (c : Connection) (v : stream) :
    (c.alloc v).2.onRequestStarted = c.onRequestStarted := rfl

@[simp] theorem Connection.alloc_streams (c : Connection) (v : stream) :
    (c.alloc v).2.streams = c.streams := rfl

@[simp] theorem Connection.alloc_lastStreamOpened (c : Connection) (v : stream) :
    (c.alloc v).2.lastStreamOpened = c.lastStreamOpened := rfl

@[simp] theorem Connection.alloc_nextStreamId (c : Connection) (v : stream) :
    (c.alloc v).2.nextStreamId = c.nextStreamId := rfl

@[simp] theorem Connection.alloc_goAway (c : Connection) (v : stream) :
    (c.alloc v).2.goAway = c.goAway := rfl

@[simp] theorem Connection.alloc_onGoAwayCloses (c : Connection) (v : stream) :
    (c.alloc v).2.onGoAwayCloses = c.onGoAwayCloses := rfl

@[simp] theorem Connection.alloc_nextPingId (c : Connection) (v : stream) :
    (c.alloc v).2.nextPingId = c.nextPingId := rfl

@[simp] theorem Connection.alloc_socketCloses (c : Connection) (v : stream) :
    (c.alloc v).2.socketCloses = c.socketCloses := rfl

@[simp] theorem Connection.alloc_handlerThreads (c : Connection) (v : stream) :
    (c.alloc v).2.handlerThreads = c.handlerThreads := rfl

@[simp] theorem Connection.alloc_dispatched (c : Connection) (v : stream) :
    (c.alloc v).2.dispatched = c.dispatched := rfl

@[simp] theorem Connection.alloc_unzip (c : Connection) (v : stream) :
    (c.alloc v).2.unzip = c.unzip := rfl

@[simp] theorem Connection.alloc_returned (c : Connection) (v : stream) :
    (c.alloc v).2.returned = c.returned := rfl

@[simp] theorem Connection.alloc_fst (c : Connection) (v : stream) : (c.alloc v).1 = c.nextPtr := rfl

@[simp] theorem Connection.alloc_nextPtr (c : Connection) (v : stream) :
    (c.alloc v).2.nextPtr = c.nextPtr + 1 := rfl

@[simp] theorem Connection.alloc_heap (c : Connection) (v : stream) (q : Ptr) :
    (c.alloc v).2.heap q = if q = c.nextPtr then v else c.heap q := rfl

theorem FinRel.frefl (c : Connection) : FinRel c c where
  ctl := rfl
  streams := ⟨fun _ => true, by simp⟩
  socket := le_refl _
  obj := fun _ => rfl
  children := fun _ _ h => h

theorem FinRel.ftrans {a b c : Connection} (h1 : FinRel a b) (h2 : FinRel b c) : FinRel a c where
  ctl := by
    have e1 := h1.ctl
    have e2 := h2.ctl
    cases a; cases b; cases c
    simp only [Connection.mk.injEq] at e1 e2 ⊢
    simp_all
  streams := by
    obtain ⟨q1, e1⟩ := h1.streams
    obtain ⟨q2, e2⟩ := h2.streams
    refine ⟨fun k => q1 k && q2 k, ?_⟩
    rw [e2, e1, List.filter_filter]
    congr 1
    funext e
    exact Bool.and_comm _ _
  socket := le_trans h1.socket h2.socket
  obj := fun p => by
    have e1 := h1.obj p
    have e2 := h2.obj p
    generalize a.heap p = x at e1 ⊢
    generalize b.heap p = y at e1 e2
    generalize c.heap p = z at e2 ⊢
    cases x; cases y; cases z
    simp only [stream.mk.injEq] at e1 e2 ⊢
    simp_all
  children := fun p x h => h1.children p x (h2.children p x h)

/-- A relation that is reflexive, transitive and kept by every iteration is
kept by a whole loop. -/
theorem foldlM_rel {α : Type} (R : Connection → Connection → Prop)
    (hrefl : ∀ c, R c c) (htrans : ∀ a b c, R a b → R b c → R a c)
    (f : Connection → α → Option Connection) (l : List α)
    (hstep : ∀ ci a cj, a ∈ l → f ci a = some cj → R ci cj) :
    ∀ c c1, l.foldlM f c = some c1 → R c c1 := by
  induction l with
  | nil =>
    intro c c1 h
    simp only [List.foldlM, pure, Option.some.injEq] at h
    subst h
    exact hrefl c
  | cons a l ih =>
    intro c c1 h
    simp only [List.foldlM, bind, Option.bind_eq_some] at h
    obtain ⟨cm, h1, h2⟩ := h
    exact htrans _ _ _ (hstep c a cm (List.mem_cons_self _ _) h1)
      (ih (fun ci b cj hb => hstep ci b cj (List.mem_cons_of_mem _ hb)) cm c1 h2)

theorem FinRel.modify_parent (c : Connection) (a : Ptr) (v : Option Ptr) :
    FinRel c (c.modify a fun x => { x with parent := v }) where
  ctl := rfl
  streams := ⟨fun _ => true, by simp [Connection.modify, Connection.store]⟩
  socket := le_refl _
  obj := fun p => by
    simp only [Connection.modify_heap]
    split
    · next h => subst h; rfl
    · rfl
  children := fun p x h => by
    simp only [Connection.modify_heap] at h
    split at h
    · next hp => subst hp; exact h
    · exact h

theorem FinRel.setErrors (c : Connection) (s : Ptr) (err : Err) :
    FinRel c (finishStream.setErrors c s err) where
  ctl := rfl
  streams := ⟨fun _ => true, by simp [finishStream.setErrors, Connection.modify, Connection.store]⟩
  socket := le_refl _
  obj := fun p => by
    simp only [finishStream.setErrors, Connection.modify_heap]
    by_cases h : p = s
    · subst h; simp
    · simp [h]
  children := fun p x h => by
    simp only [finishStream.setErrors, Connection.modify_heap] at h
    by_cases hp : p = s
    · subst hp; simpa using h
    · simpa [hp] using h

theorem FinRel.removeFromParent (c : Connection) (s : Ptr) :
    FinRel c (finishStream.removeFromParent c s) := by
  unfold finishStream.removeFromParent
  split
  · next p _ =>
    exact
      { ctl := rfl
        streams := ⟨fun _ => true, by simp [Connection.modify, Connection.store]⟩
        socket := le_refl _
        obj := fun q => by
          simp only [Connection.modify_heap]
          by_cases h : q = p
          · subst h; simp
          · simp [h]
        children := fun q x h => by
          simp only [Connection.modify_heap] at h
          by_cases hq : q = p
          · subst hq
            simp only [if_true] at h
            exact List.mem_of_mem_erase h
          · simpa [hq] using h }
  · exact FinRel.frefl c

theorem FinRel.closeSocket (c : Connection) : FinRel c (finishStream.closeSocket c) := by
  unfold finishStream.closeSocket
  split
  · exact
      { ctl := rfl
        streams := ⟨fun _ => true, by simp⟩
        socket := Nat.le_succ _
        obj := fun _ => rfl
        children := fun _ _ h => h }
  · exact FinRel.frefl c

theorem finishStream_succ (fuel : Nat) (c : Connection) (s : Ptr) (err : Err) :
    finishStream (fuel + 1) c s err =
      (((c.heap s).children.foldlM
        (fun ci a => finishStream fuel (ci.modify a fun x => { x with parent := none }) a err)
        { c with streams := c.streams.delete (c.heap s).streamId }).map fun c2 =>
          finishStream.closeSocket
            (finishStream.removeFromParent (finishStream.setErrors c2 s err) s)) := rfl

theorem finishStream_rel : ∀ (fuel : Nat) (c : Connection) (s : Ptr) (err : Err) (c1 : Connection),
    finishStream fuel c s err = some c1 → FinRel c c1 := by
  intro fuel
  induction fuel with
  | zero => intro c s err c1 h; simp [finishStream] at h
  | succ fuel ih =>
    intro c s err c1 h
    rw [finishStream_succ] at h
    obtain ⟨c2, hloop, htail⟩ := Option.map_eq_some'.mp h
    have r1 : FinRel c { c with streams := c.streams.delete (c.heap s).streamId } :=
      { ctl := rfl
        streams := ⟨fun k => decide (k ≠ (c.heap s).streamId), rfl⟩
        socket := le_refl _
        obj := fun _ => rfl
        children := fun _ _ h => h }
    have r2 := foldlM_rel FinRel FinRel.frefl (fun _ _ _ => FinRel.ftrans) _ _
      (fun ci a cj _ hstep => FinRel.ftrans (FinRel.modify_parent ci a none) (ih _ _ _ _ hstep))
      _ _ hloop
    subst htail
    exact FinRel.ftrans r1 (FinRel.ftrans r2 (FinRel.ftrans (FinRel.setErrors _ _ _)
      (FinRel.ftrans (FinRel.removeFromParent _ _) (FinRel.closeSocket _))))

/-- A key missing from the table is still missing after `finishStream`. -/
theorem FinRel.get_none {c c1 : Connection} (h : FinRel c c1) (k : Int)
    (hk : c.streams.get k = none) : c1.streams.get k = none := by
  obtain ⟨q, e⟩ := h.streams
  rw [e, StreamTable.get_filter, hk]
  simp

/-- A key still in the table after `finishStream` holds the stream it held before. -/
theorem FinRel.get_some {c c1 : Connection} (h : FinRel c c1) (k : Int) (p : Ptr)
    (hk : c1.streams.get k = some p) : c.streams.get k = some p := by
  obtain ⟨q, e⟩ := h.streams
  rw [e, StreamTable.get_filter] at hk
  split at hk
  · exact hk
  · exact absurd hk (by simp)

/-- A loop succeeds when every iteration does and keeps the invariant. -/
theorem foldlM_total {α : Type} (Inv : Connection → Prop)
    (f : Connection → α → Option Connection) (l : List α)
    (hstep : ∀ ci a, a ∈ l → Inv ci → ∃ cj, f ci a = some cj ∧ Inv cj) :
    ∀ c, Inv c → ∃ c1, l.foldlM f c = some c1 ∧ Inv c1 := by
  induction l with
  | nil => intro c hc; exact ⟨c, rfl, hc⟩
  | cons a l ih =>
    intro c hc
    obtain ⟨cm, h1, h2⟩ := hstep c a (List.mem_cons_self _ _) hc
    obtain ⟨c1, h3, h4⟩ := ih (fun ci b hb => hstep ci b (List.mem_cons_of_mem _ hb)) cm h2
    refine ⟨c1, ?_, h4⟩
    simp only [List.foldlM, bind, Option.bind_eq_some]
    exact ⟨cm, h1, h3⟩

theorem Ranked.of_rel {rank : Ptr → Nat} {c c1 : Connection} (h : Ranked rank c)
    (r : FinRel c c1) : Ranked rank c1 :=
  fun p a ha => h p a (r.children p a ha)

/-- With the children relation well founded, `finishStream` returns once the
fuel exceeds the rank of the stream. -/
theorem finishStream_total (rank : Ptr → Nat) : ∀ (fuel : Nat) (c : Connection) (s : Ptr)
    (err : Err), Ranked rank c → rank s < fuel → ∃ c1, finishStream fuel c s err = some c1 := by
  intro fuel
  induction fuel with
  | zero => intro c s err _ h; exact absurd h (Nat.not_lt_zero _)
  | succ fuel ih =>
    intro c s err hr hs
    rw [finishStream_succ]
    have hr1 : Ranked rank { c with streams := c.streams.delete (c.heap s).streamId } := hr
    obtain ⟨c2, h2, _⟩ := foldlM_total (Ranked rank)
      (fun ci a => finishStream fuel (ci.modify a fun x => { x with parent := none }) a err)
      (c.heap s).children
      (fun ci a ha hci => by
        have hm : Ranked rank (ci.modify a fun x => { x with parent := none }) :=
          hci.of_rel (FinRel.modify_parent ci a none)
        have hlt : rank a < fuel := Nat.lt_of_lt_of_le (hr s a ha) (Nat.le_of_lt_succ hs)
        obtain ⟨cj, hj⟩ := ih _ a err hm hlt
        exact ⟨cj, hj, hm.of_rel (finishStream_rel _ _ _ _ _ hj)⟩)
      _ hr1
    exact ⟨_, by rw [h2]; rfl⟩

/-- After `finishStream` the stream carries the error on both directions. -/
theorem finishStream_errors (fuel : Nat) (c : Connection) (s : Ptr) (err : Err) (c1 : Connection)
    (h : finishStream fuel c s err = some c1) :
    (c1.heap s).rxError = some err ∧ (c1.heap s).txError = some err := by
  cases fuel with
  | zero => simp [finishStream] at h
  | succ fuel =>
    rw [finishStream_succ] at h
    obtain ⟨c2, _, htail⟩ := Option.map_eq_some'.mp h
    subst htail
    have key : ∀ cx : Connection, (cx.heap s).rxError = some err ∧ (cx.heap s).txError = some err →
        ((finishStream.closeSocket (finishStream.removeFromParent cx s)).heap s).rxError = some err ∧
        ((finishStream.closeSocket (finishStream.removeFromParent cx s)).heap s).txError = some err := by
      intro cx hx
      have hh : (finishStream.closeSocket (finishStream.removeFromParent cx s)).heap =
          (finishStream.removeFromParent cx s).heap := by
        unfold finishStream.closeSocket
        split <;> rfl
      rw [hh]
      unfold finishStream.removeFromParent
      split
      · next p _ =>
        simp only [Connection.modify_heap]
        by_cases hp : s = p
        · subst hp; simpa using hx
        · simpa [hp] using hx
      · exact hx
    apply key
    simp [finishStream.setErrors]

/-- After `finishStream` the id of the stream is no longer a key of the table. -/
theorem finishStream_deleted (fuel : Nat) (c : Connection) (s : Ptr) (err : Err) (c1 : Connection)
    (h : finishStream fuel c s err = some c1) :
    c1.streams.get (c.heap s).streamId = none := by
  cases fuel with
  | zero => simp [finishStream] at h
  | succ fuel =>
    rw [finishStream_succ] at h
    obtain ⟨c2, hloop, htail⟩ := Option.map_eq_some'.mp h
    have r2 := foldlM_rel FinRel FinRel.frefl (fun _ _ _ => FinRel.ftrans) _ _
      (fun ci a cj _ hstep => FinRel.ftrans (FinRel.modify_parent ci a none)
        (finishStream_rel _ _ _ _ _ hstep))
      _ _ hloop
    subst htail
    have r3 := FinRel.ftrans r2 (FinRel.ftrans (FinRel.setErrors c2 s err)
      (FinRel.ftrans (FinRel.removeFromParent _ s) (FinRel.closeSocket _)))
    apply r3.get_none
    simp [StreamTable.get_delete]

/-! ## What the handlers leave alone -/

theorem Quiet.qrefl (c : Connection) : Quiet c c :=
  ⟨rfl, rfl, rfl, rfl, rfl, le_refl _, fun h => h⟩

theorem Quiet.qtrans {a b c : Connection} (h1 : Quiet a b) (h2 : Quiet b c) : Quiet a c :=
  ⟨h2.nextStreamId.trans h1.nextStreamId, h2.onRequestStarted.trans h1.onRequestStarted,
    h2.handler.trans h1.handler, h2.version.trans h1.version, h2.syn.trans h1.syn,
    le_trans h1.last h2.last, fun h => h2.goAway (h1.goAway h)⟩

theorem Quiet.of_finish {c c1 : Connection} (h : FinRel c c1) : Quiet c c1 := by
  have e := h.ctl
  have e1 := congrArg Connection.nextStreamId e
  have e2 := congrArg Connection.onRequestStarted e
  have e3 := congrArg Connection.handler e
  have e4 := congrArg Connection.version e
  have e5 := congrArg Connection.sendControl e
  have e6 := congrArg Connection.lastStreamOpened e
  have e7 := congrArg Connection.goAway e
  simp only at e1 e2 e3 e4 e5 e6 e7
  exact ⟨e1, e2, e3, e4, by rw [e5], le_of_eq e6.symm, fun h => by rw [e7]; exact h⟩

theorem Quiet.of_sendReset (c : Connection) (sid reason : Int) :
    Quiet c (Spdy.sendReset c sid reason) :=
  ⟨rfl, rfl, rfl, rfl, by simp [Spdy.sendReset, synIds, List.filterMap_append], le_refl _,
    fun h => h⟩

/-- Two states that agree on the six fields are related. -/
theorem Quiet.same {c c1 : Connection} (h1 : c1.nextStreamId = c.nextStreamId)
    (h2 : c1.onRequestStarted = c.onRequestStarted) (h3 : c1.handler = c.handler)
    (h4 : c1.version = c.version) (h5 : c1.sendControl = c.sendControl)
    (h6 : c1.lastStreamOpened = c.lastStreamOpened) (h7 : c1.goAway = c.goAway) : Quiet c c1 :=
  ⟨h1, h2, h3, h4, by rw [h5], le_of_eq h6.symm, fun h => by rw [h7]; exact h⟩

theorem handleData_quiet (E : Env) (c : Connection) (d : List UInt8) :
    Quiet c (handleData E c d).2 := by
  simp only [handleData]
  split
  · exact Quiet.qrefl c
  split
  · exact Quiet.qrefl c
  split
  · exact Quiet.qrefl c
  split
  · exact Quiet.qrefl c
  split
  · exact Quiet.qrefl c
  · constructor <;> simp

theorem handleSynStream_accept_quiet (E : Env) (c : Connection) (f : synStreamFrame)
    (handler : Handler) (parent : Option Ptr) :
    Quiet c (handleSynStream.accept E c f handler parent) := by
  cases parent <;> simp only [handleSynStream.accept] <;> split_ifs <;>
    constructor <;> simp

theorem handleSynStream_quiet (E : Env) (c : Connection) (d : List UInt8) :
    Quiet c (handleSynStream E c d).2 := by
  simp only [handleSynStream]
  split
  · constructor <;> simp
  split
  · constructor <;> simp
  split
  · constructor <;> simp
  split
  · constructor <;> simp
  split
  · constructor <;> simp
  next hlt =>
  have hle : c.lastStreamOpened ≤ _ := le_of_lt (not_le.mp hlt)
  have base : Quiet c { c with unzip := c.unzip ++ [d], lastStreamOpened := _ } :=
    ⟨rfl, rfl, rfl, rfl, rfl, hle, fun h => h⟩
  split
  · split
    · exact base
    · split
      · exact base
      · split
        · exact base
        · exact base.qtrans (by dsimp only; exact handleSynStream_accept_quiet _ _ _ _ _)
  · split
    · exact base
    · exact base.qtrans (by dsimp only; exact handleSynStream_accept_quiet _ _ _ _ _)

theorem handleSynReply_quiet (E : Env) (c : Connection) (d : List UInt8) :
    Quiet c (handleSynReply E c d).2 := by
  simp only [handleSynReply]
  split
  · constructor <;> simp
  split
  · constructor <;> simp
  split
  · constructor <;> simp
  split
  · constructor <;> simp
  split
  · constructor <;> simp
  split
  · constructor <;> simp
  split
  · constructor <;> simp
  · constructor <;> simp

theorem handleHeaders_quiet (E : Env) (c : Connection) (d : List UInt8) :
    Quiet c (handleHeaders E c d).2 := by
  simp only [handleHeaders]
  split
  · constructor <;> simp
  split
  · constructor <;> simp
  split
  · constructor <;> simp
  split
  · constructor <;> simp
  split
  · constructor <;> simp
  · constructor <;> simp

theorem handleRstStream_quiet (fuel : Nat) (E : Env) (c : Connection) (d : List UInt8)
    (r : Option Err × Connection) (h : handleRstStream fuel E c d = some r) : Quiet c r.2 := by
  simp only [handleRstStream] at h
  split at h
  · cases h; exact Quiet.qrefl c
  split at h
  · cases h; exact Quiet.qrefl c
  · obtain ⟨c1, h1, h2⟩ := Option.map_eq_some'.mp h
    subst h2
    exact Quiet.of_finish (finishStream_rel _ _ _ _ _ h1)

theorem foldl_modify_quiet (g : Int × Ptr → stream → stream) (l : StreamTable) :
    ∀ c : Connection, Quiet c (l.foldl (fun ci e => ci.modify e.2 (g e)) c) := by
  induction l with
  | nil => intro c; exact Quiet.qrefl c
  | cons e l ih =>
    intro c
    exact Quiet.qtrans (by constructor <;> simp) (ih (c.modify e.2 (g e)))

theorem handleSettings_quiet (E : Env) (c : Connection) (d : List UInt8) :
    Quiet c (handleSettings E c d).2 := by
  simp only [handleSettings]
  split
  · exact Quiet.qrefl c
  split
  · exact Quiet.qrefl c
  split
  · exact Quiet.qrefl c
  · exact Quiet.qtrans (b := { c with rxWindow := _ }) (by constructor <;> simp)
      (foldl_modify_quiet (fun _ x => { x with txWindow := wrapInt (x.txWindow + _) }) _ _)

theorem handleWindowUpdate_quiet (E : Env) (c : Connection) (d : List UInt8) :
    Quiet c (handleWindowUpdate E c d).2 := by
  simp only [handleWindowUpdate]
  split
  · exact Quiet.qrefl c
  split
  · exact Quiet.qrefl c
  split
  · exact Quiet.qrefl c
  · constructor <;> simp

theorem handlePing_quiet (E : Env) (c : Connection) (d : List UInt8) :
    Quiet c (handlePing E c d).2 := by
  simp only [handlePing]
  split
  · exact Quiet.qrefl c
  split
  · exact Quiet.qrefl c
  split
  · constructor <;> simp [synIds, List.filterMap_append]
  · exact Quiet.qrefl c

theorem handleGoAway_quiet (fuel : Nat) (E : Env) (c : Connection) (d : List UInt8)
    (r : Option Err × Connection) (h : handleGoAway fuel E c d = some r) : Quiet c r.2 := by
  simp only [handleGoAway] at h
  split at h
  · cases h; exact Quiet.qrefl c
  split at h
  · cases h; exact Quiet.qrefl c
  · obtain ⟨c1, h1, h2⟩ := Option.map_eq_some'.mp h
    subst h2
    refine Quiet.qtrans (b := { c with goAway := true, onGoAwayCloses := c.onGoAwayCloses + 1 })
      (by constructor <;> simp) ?_
    refine foldlM_rel Quiet Quiet.qrefl (fun _ _ _ => Quiet.qtrans) _ _ ?_ _ _ h1
    intro ci e cj _ hstep
    split at hstep
    · cases hstep; exact Quiet.qrefl ci
    · split at hstep
      · exact Quiet.of_finish (finishStream_rel _ _ _ _ _ hstep)
      · cases hstep; exact Quiet.qrefl ci

theorem handleFrame_quiet (fuel : Nat) (E : Env) (c : Connection) (d : List UInt8)
    (r : Option Err × Connection) (h : handleFrame fuel E c d = some r) : Quiet c r.2 := by
  simp only [handleFrame] at h
  split at h
  · cases h; exact handleData_quiet E c d
  split at h
  · cases h; exact Quiet.qrefl c
  split at h
  · cases h; exact handleSynStream_quiet E c d
  split at h
  · cases h; exact handleSynReply_quiet E c d
  split at h
  · exact handleRstStream_quiet fuel E c d r h
  split at h
  · cases h; exact handleSettings_quiet E c d
  split at h
  · cases h; exact handlePing_quiet E c d
  split at h
  · cases h; exact handleWindowUpdate_quiet E c d
  split at h
  · cases h; exact handleHeaders_quiet E c d
  split at h
  · exact handleGoAway_quiet fuel E c d r h
  · cases h; exact Quiet.qrefl c

theorem onDispatch_quiet (fuel : Nat) (E : Env) (c c1 : Connection) (d : List UInt8)
    (h : onDispatch fuel E c d = some c1) : Quiet c c1 := by
  simp only [onDispatch] at h
  split at h
  · cases h
  · next c2 hf =>
    cases h
    exact Quiet.qtrans (handleFrame_quiet fuel E c d _ hf) (by constructor <;> simp)
  · next err c2 hf =>
    have q2 := handleFrame_quiet fuel E c d _ hf
    split at h
    · cases h
      exact Quiet.qtrans q2 (by constructor <;> simp)
    · next sid _ =>
      have q3 : Quiet c2 (sendReset c2 sid (resetCode E err)) := Quiet.of_sendReset _ _ _
      split at h
      · obtain ⟨c3, h3, h4⟩ := Option.map_eq_some'.mp h
        subst h4
        exact Quiet.qtrans q2 (Quiet.qtrans q3
          (Quiet.qtrans (Quiet.of_finish (finishStream_rel _ _ _ _ _ h3)) (by constructor <;> simp)))
      · cases h
        exact Quiet.qtrans q2 (Quiet.qtrans q3 (by constructor <;> simp))

theorem onStreamFinished_quiet (fuel : Nat) (E : Env) (c c1 : Connection) (s : Ptr)
    (h : onStreamFinished fuel E c s = some c1) : Quiet c c1 := by
  simp only [onStreamFinished] at h
  split at h
  · cases h; exact Quiet.qrefl c
  · refine Quiet.qtrans ?_ (Quiet.of_finish (finishStream_rel _ _ _ _ _ h))
    split
    · exact Quiet.of_sendReset _ _ _
    · exact Quiet.qrefl c

theorem onRxError_quiet (fuel : Nat) (c c1 : Connection) (err : Err)
    (h : onRxError fuel c err = some c1) : Quiet c c1 := by
  simp only [onRxError] at h
  obtain ⟨c3, h3, h4⟩ := Option.map_eq_some'.mp h
  subst h4
  have q1 : Quiet c { c with goAway := true, onGoAwayCloses := c.onGoAwayCloses + 1 } := by
    constructor <;> simp
  have q3 : Quiet c3 { c3 with
      sendControlCloses := c3.sendControlCloses + 1
      socketCloses := c3.socketCloses + 1
      returned := true } := by
    constructor <;> simp
  refine Quiet.qtrans q1 (Quiet.qtrans ?_ q3)
  refine foldlM_rel Quiet Quiet.qrefl (fun _ _ _ => Quiet.qtrans) _ _ ?_ _ _ h3
  intro ci e cj _ hstep
  split at hstep
  · cases hstep; exact Quiet.qrefl ci
  · exact Quiet.of_finish (finishStream_rel _ _ _ _ _ hstep)

theorem handleSynStream_accept_last (E : Env) (c : Connection) (f : synStreamFrame)
    (handler : Handler) (parent : Option Ptr) :
    (handleSynStream.accept E c f handler parent).lastStreamOpened = c.lastStreamOpened := by
  cases parent <;> simp only [handleSynStream.accept] <;> split_ifs <;> simp

/-- A `SYN_STREAM` that passes the four tests on its id and version sets
`lastStreamOpened` to its id, whatever comes of it afterwards. -/
theorem handleSynStream_last (E : Env) (c : Connection) (d : List UInt8) (f : synStreamFrame)
    (hparse : E.parseSynStream c.unzip d = .ok f)
    (h1 : c.streams.get f.StreamId = none) (h2 : f.Version = c.version)
    (h3 : lowBit f.StreamId ≠ lowBit c.nextStreamId) (h4 : c.lastStreamOpened < f.StreamId) :
    (handleSynStream E c d).2.lastStreamOpened = f.StreamId := by
  have h4b : ¬ f.StreamId ≤ c.lastStreamOpened := not_le.mpr h4
  simp only [handleSynStream, hparse, h1, h2, h3, h4b, Option.isSome_none, ne_eq,
    not_true_eq_false, if_false, Bool.false_eq_true]
  split
  · split
    · rfl
    · split
      · rfl
      · split
        · rfl
        · exact handleSynStream_accept_last _ _ _ _ _
  · split
    · rfl
    · exact handleSynStream_accept_last _ _ _ _ _

/-- An accepted `SYN_STREAM` has an id above `lastStreamOpened`, which it replaces. -/
theorem handleSynStream_accepted (E : Env) (c : Connection) (d : List UInt8) (f : synStreamFrame)
    (hparse : E.parseSynStream c.unzip d = .ok f) (hok : (handleSynStream E c d).1 = none) :
    c.lastStreamOpened < f.StreamId ∧ (handleSynStream E c d).2.lastStreamOpened = f.StreamId := by
  have hok2 := hok
  simp only [handleSynStream, hparse] at hok
  split at hok
  · cases hok
  split at hok
  · cases hok
  split at hok
  · cases hok
  split at hok
  · cases hok
  next h1 h2 h3 h4 =>
  have h1b : c.streams.get f.StreamId = none := by
    cases hg : c.streams.get f.StreamId with
    | none => rfl
    | some v => exact absurd (by simp [hg]) h1
  exact ⟨not_le.mp h4, handleSynStream_last E c d f hparse h1b (not_not.mp h2) h3 (not_le.mp h4)⟩

/-! ## Reachable states are well formed -/

theorem Shape.srefl (c : Connection) : Shape c c :=
  ⟨rfl, ⟨fun _ => true, by simp⟩, fun _ => rfl, fun _ _ h => h⟩

theorem Shape.strans {a b c : Connection} (h1 : Shape a b) (h2 : Shape b c) : Shape a c where
  nextPtr := h2.nextPtr.trans h1.nextPtr
  streams := by
    obtain ⟨q1, e1⟩ := h1.streams
    obtain ⟨q2, e2⟩ := h2.streams
    refine ⟨fun k => q1 k && q2 k, ?_⟩
    rw [e2, e1, List.filter_filter]
    congr 1
    funext e
    exact Bool.and_comm _ _
  ids := fun p => (h2.ids p).trans (h1.ids p)
  children := fun p x h => h1.children p x (h2.children p x h)

theorem Shape.of_finishing {c c1 : Connection} (h : FinRel c c1) : Shape c c1 where
  nextPtr := by
    have e := congrArg Connection.nextPtr h.ctl
    exact e
  streams := h.streams
  ids := fun p => by
    have e := congrArg stream.streamId (h.obj p)
    exact e
  children := h.children

/-- The same table, heap and allocator. -/
theorem Shape.of_eq {c c1 : Connection} (h1 : c1.nextPtr = c.nextPtr)
    (h2 : c1.streams = c.streams) (h3 : c1.heap = c.heap) : Shape c c1 :=
  ⟨h1, ⟨fun _ => true, by simp [h2]⟩, fun p => by rw [h3], fun p a h => by rw [h3] at h; exact h⟩

/-- An update of one stream that keeps its id and its children. -/
theorem Shape.modify (c : Connection) (s : Ptr) (f : stream → stream)
    (hid : ∀ x, (f x).streamId = x.streamId) (hch : ∀ x, (f x).children = x.children) :
    Shape c (c.modify s f) where
  nextPtr := rfl
  streams := ⟨fun _ => true, by simp⟩
  ids := fun p => by
    simp only [Connection.modify_heap]
    split
    · next h => subst h; exact hid _
    · rfl
  children := fun p a h => by
    simp only [Connection.modify_heap] at h
    split at h
    · next hp => subst hp; rw [hch] at h; exact h
    · exact h

theorem WellFormed.of_shape {c c1 : Connection} (h : WellFormed c) (r : Shape c c1) :
    WellFormed c1 where
  keys := fun k p hk => by
    obtain ⟨q, e⟩ := r.streams
    rw [e, StreamTable.get_filter] at hk
    split at hk
    · obtain ⟨h1, h2⟩ := h.keys k p hk
      rw [r.ids, r.nextPtr]
      exact ⟨h1, h2⟩
    · cases hk
  order := fun p a ha => by
    rw [r.nextPtr]
    exact h.order p a (r.children p a ha)

theorem handleData_shape (E : Env) (c : Connection) (d : List UInt8) :
    Shape c (handleData E c d).2 := by
  simp only [handleData]
  split
  · exact Shape.srefl c
  split
  · exact Shape.srefl c
  split
  · exact Shape.srefl c
  split
  · exact Shape.srefl c
  split
  · exact Shape.srefl c
  · dsimp only
    refine Shape.strans ?_ (Shape.modify _ _ _ (fun _ => rfl) (fun _ => rfl))
    refine Shape.strans ?_ (Shape.modify _ _ _ (fun _ => rfl) (fun _ => rfl))
    refine Shape.strans ?_ (Shape.modify _ _ _ (fun _ => rfl) (fun _ => rfl))
    exact Shape.modify _ _ _ (fun _ => rfl) (fun _ => rfl)

theorem handleSynReply_shape (E : Env) (c : Connection) (d : List UInt8) :
    Shape c (handleSynReply E c d).2 := by
  simp only [handleSynReply]
  split
  · exact Shape.of_eq rfl rfl rfl
  split
  · exact Shape.of_eq rfl rfl rfl
  split
  · exact Shape.of_eq rfl rfl rfl
  split
  · exact Shape.of_eq rfl rfl rfl
  split
  · exact Shape.of_eq rfl rfl rfl
  split
  · exact Shape.of_eq rfl rfl rfl
  split
  · exact Shape.of_eq rfl rfl rfl
  · dsimp only
    refine Shape.strans ?_ (Shape.modify _ _ _ (fun _ => rfl) (fun _ => rfl))
    refine Shape.strans ?_ (Shape.modify _ _ _ (fun _ => rfl) (fun _ => rfl))
    exact Shape.of_eq rfl rfl rfl

theorem handleHeaders_shape (E : Env) (c : Connection) (d : List UInt8) :
    Shape c (handleHeaders E c d).2 := by
  simp only [handleHeaders]
  split
  · exact Shape.of_eq rfl rfl rfl
  split
  · exact Shape.of_eq rfl rfl rfl
  split
  · exact Shape.of_eq rfl rfl rfl
  split
  · exact Shape.of_eq rfl rfl rfl
  split
  · dsimp only
    refine Shape.strans ?_ (Shape.modify _ _ _ (fun _ => rfl) (fun _ => rfl))
    exact Shape.of_eq rfl rfl rfl
  · exact Shape.of_eq rfl rfl rfl

theorem handleRstStream_shape (fuel : Nat) (E : Env) (c : Connection) (d : List UInt8)
    (r : Option Err × Connection) (h : handleRstStream fuel E c d = some r) : Shape c r.2 := by
  simp only [handleRstStream] at h
  split at h
  · cases h; exact Shape.srefl c
  split at h
  · cases h; exact Shape.srefl c
  · obtain ⟨c1, h1, h2⟩ := Option.map_eq_some'.mp h
    subst h2
    exact Shape.of_finishing (finishStream_rel _ _ _ _ _ h1)

theorem foldl_modify_shape (g : Int × Ptr → stream → stream)
    (hid : ∀ e x, (g e x).streamId = x.streamId) (hch : ∀ e x, (g e x).children = x.children)
    (l : StreamTable) :
    ∀ c : Connection, Shape c (l.foldl (fun ci e => ci.modify e.2 (g e)) c) := by
  induction l with
  | nil => intro c; exact Shape.srefl c
  | cons e l ih =>
    intro c
    exact Shape.strans (Shape.modify c e.2 (g e) (hid e) (hch e)) (ih (c.modify e.2 (g e)))

theorem handleSettings_shape (E : Env) (c : Connection) (d : List UInt8) :
    Shape c (handleSettings E c d).2 := by
  simp only [handleSettings]
  split
  · exact Shape.srefl c
  split
  · exact Shape.srefl c
  split
  · exact Shape.srefl c
  · rename_i _ f _ _ _
    dsimp only
    refine Shape.strans (b := { c with rxWindow := f.Window }) (Shape.of_eq rfl rfl rfl) ?_
    refine foldl_modify_shape _ ?_ ?_ _ _ <;> intro _ _ <;> rfl

theorem handleWindowUpdate_shape (E : Env) (c : Connection) (d : List UInt8) :
    Shape c (handleWindowUpdate E c d).2 := by
  simp only [handleWindowUpdate]
  split
  · exact Shape.srefl c
  split
  · exact Shape.srefl c
  split
  · exact Shape.srefl c
  · dsimp only
    refine Shape.modify _ _ _ ?_ ?_ <;> intro _ <;> rfl

theorem handlePing_shape (E : Env) (c : Connection) (d : List UInt8) :
    Shape c (handlePing E c d).2 := by
  simp only [handlePing]
  split
  · exact Shape.srefl c
  split
  · exact Shape.srefl c
  split
  · exact Shape.of_eq rfl rfl rfl
  · exact Shape.srefl c

theorem handleGoAway_shape (fuel : Nat) (E : Env) (c : Connection) (d : List UInt8)
    (r : Option Err × Connection) (h : handleGoAway fuel E c d = some r) : Shape c r.2 := by
  simp only [handleGoAway] at h
  split at h
  · cases h; exact Shape.srefl c
  split at h
  · cases h; exact Shape.srefl c
  · obtain ⟨c1, h1, h2⟩ := Option.map_eq_some'.mp h
    subst h2
    refine Shape.strans (b := { c with goAway := true, onGoAwayCloses := c.onGoAwayCloses + 1 })
      (Shape.of_eq rfl rfl rfl) ?_
    refine foldlM_rel Shape Shape.srefl (fun _ _ _ => Shape.strans) _ _ ?_ _ _ h1
    intro ci e cj _ hstep
    split at hstep
    · cases hstep; exact Shape.srefl ci
    · split at hstep
      · exact Shape.of_finishing (finishStream_rel _ _ _ _ _ hstep)
      · cases hstep; exact Shape.srefl ci

theorem WellFormed.alloc {c : Connection} (h : WellFormed c) (v : stream)
    (hv : v.children = []) : WellFormed (c.alloc v).2 where
  keys := fun k p hk => by
    have hk2 : c.streams.get k = some p := hk
    obtain ⟨h1, h2⟩ := h.keys k p hk2
    have hne : p ≠ c.nextPtr := Nat.ne_of_lt h2
    simp only [Connection.alloc_heap, Connection.alloc_nextPtr, hne, if_false]
    exact ⟨h1, Nat.lt_succ_of_lt h2⟩
  order := fun p a ha => by
    simp only [Connection.alloc_heap] at ha
    simp only [Connection.alloc_nextPtr]
    split at ha
    · rw [hv] at ha; exact absurd ha (List.not_mem_nil a)
    · obtain ⟨h1, h2⟩ := h.order p a ha
      exact ⟨h1, Nat.lt_succ_of_lt h2⟩

/-- A stream that is not in the table may be given any id. -/
theorem WellFormed.modify_fresh {c : Connection} (h : WellFormed c) (s : Ptr)
    (f : stream → stream) (hs : ∀ k, c.streams.get k ≠ some s)
    (hch : ∀ x, (f x).children = x.children) : WellFormed (c.modify s f) where
  keys := fun k p hk => by
    have hk2 : c.streams.get k = some p := hk
    have hne : p ≠ s := fun e => hs k (e ▸ hk2)
    simp only [Connection.modify_heap, Connection.modify_nextPtr, hne, if_false]
    exact h.keys k p hk2
  order := fun p a ha => by
    simp only [Connection.modify_heap] at ha
    simp only [Connection.modify_nextPtr]
    split at ha
    · next hp => subst hp; rw [hch] at ha; exact h.order _ a ha
    · exact h.order p a ha

theorem WellFormed.set {c : Connection} (h : WellFormed c) (id : Int) (s : Ptr)
    (hid : (c.heap s).streamId = id) (hs : s < c.nextPtr) :
    WellFormed { c with streams := c.streams.set id s } where
  keys := fun k p hk => by
    simp only [StreamTable.get_set] at hk
    split at hk
    · next hkid =>
      cases hk
      exact ⟨hkid ▸ hid, hs⟩
    · exact h.keys k p hk
  order := h.order

theorem WellFormed.add_child {c : Connection} (h : WellFormed c) (p s : Ptr)
    (hps : p < s) (hs : s < c.nextPtr) :
    WellFormed (c.modify p fun x => { x with children := x.children ++ [s] }) where
  keys := fun k q hk => by
    have hk2 : c.streams.get k = some q := hk
    obtain ⟨h1, h2⟩ := h.keys k q hk2
    simp only [Connection.modify_heap, Connection.modify_nextPtr]
    refine ⟨?_, h2⟩
    split
    · next hq => subst hq; exact h1
    · exact h1
  order := fun q a ha => by
    simp only [Connection.modify_heap] at ha
    simp only [Connection.modify_nextPtr]
    split at ha
    · next hq =>
      subst hq
      simp only [List.mem_append, List.mem_singleton] at ha
      rcases ha with ha | ha
      · exact h.order _ a ha
      · subst ha; exact ⟨hps, hs⟩
    · exact h.order q a ha

theorem WellFormed.threads {c : Connection} (h : WellFormed c)
    (l : List (Handler × Ptr × Request)) : WellFormed { c with handlerThreads := l } :=
  ⟨h.keys, h.order⟩

/-- The stream created by an accepted `SYN_STREAM` keeps the state well formed. -/
theorem handleSynStream_accept_wf (E : Env) (c : Connection) (f : synStreamFrame)
    (handler : Handler) (parent : Option Ptr) (h : WellFormed c)
    (hp : ∀ p, parent = some p → p < c.nextPtr) :
    WellFormed (handleSynStream.accept E c f handler parent) := by
  simp only [handleSynStream.accept, Connection.alloc_fst]
  apply WellFormed.threads
  generalize hv : newStream E _ f.Unidirectional _ = v
  have hvc : v.children = [] := by rw [← hv]; rfl
  have w2 := h.alloc v hvc
  have hfresh : ∀ k, (c.alloc v).2.streams.get k ≠ some c.nextPtr := by
    intro k hk
    exact absurd (h.keys k _ hk).2 (Nat.lt_irrefl _)
  have w3 := w2.modify_fresh c.nextPtr (fun x => { x with streamId := f.StreamId }) hfresh
    (fun _ => rfl)
  have w4 := w3.of_shape (Shape.modify _ c.nextPtr (fun x => { x with isRecipient := true })
    (fun _ => rfl) (fun _ => rfl))
  have w5 := w4.of_shape (Shape.modify _ c.nextPtr
    (fun x => { x with request := { x.request with Body := some c.nextPtr } })
    (fun _ => rfl) (fun _ => rfl))
  split
  · have w7 := w5.set f.StreamId c.nextPtr (by simp) (by simp)
    cases parent with
    | none => exact w7
    | some p =>
      have hps := hp p rfl
      have w8 := w7.add_child p c.nextPtr hps (by simp)
      exact w8.of_shape (Shape.modify _ c.nextPtr (fun x => { x with parent := some p })
        (fun _ => rfl) (fun _ => rfl))
  · exact w5

theorem handleSynStream_wf (E : Env) (c : Connection) (d : List UInt8) (h : WellFormed c) :
    WellFormed (handleSynStream E c d).2 := by
  have h0 : WellFormed { c with unzip := c.unzip ++ [d] } := ⟨h.keys, h.order⟩
  simp only [handleSynStream]
  split
  · exact h0
  split
  · exact h0
  split
  · exact h0
  split
  · exact h0
  split
  · exact h0
  rename_i _ f _ _ _ _ _
  have h1 : WellFormed { c with unzip := c.unzip ++ [d], lastStreamOpened := f.StreamId } :=
    ⟨h.keys, h.order⟩
  split
  · split
    · exact h1
    · split
      · exact h1
      · split
        · exact h1
        · next p hp _ _ _ =>
          dsimp only
          exact handleSynStream_accept_wf E _ f _ (some p) h1
            (fun q hq => by cases hq; exact (h.keys _ p hp).2)
  · split
    · exact h1
    · dsimp only
      exact handleSynStream_accept_wf E _ f _ none h1 (fun q hq => by cases hq)

theorem handleFrame_wf (fuel : Nat) (E : Env) (c : Connection) (d : List UInt8)
    (r : Option Err × Connection) (hf : handleFrame fuel E c d = some r) (h : WellFormed c) :
    WellFormed r.2 := by
  simp only [handleFrame] at hf
  split at hf
  · cases hf; exact h.of_shape (handleData_shape E c d)
  split at hf
  · cases hf; exact h
  split at hf
  · cases hf; exact handleSynStream_wf E c d h
  split at hf
  · cases hf; exact h.of_shape (handleSynReply_shape E c d)
  split at hf
  · exact h.of_shape (handleRstStream_shape fuel E c d r hf)
  split at hf
  · cases hf; exact h.of_shape (handleSettings_shape E c d)
  split at hf
  · cases hf; exact h.of_shape (handlePing_shape E c d)
  split at hf
  · cases hf; exact h.of_shape (handleWindowUpdate_shape E c d)
  split at hf
  · cases hf; exact h.of_shape (handleHeaders_shape E c d)
  split at hf
  · exact h.of_shape (handleGoAway_shape fuel E c d r hf)
  · cases hf; exact h

theorem WellFormed.ack {c : Connection} (h : WellFormed c) (l : List (Option Err)) :
    WellFormed { c with dispatched := l } :=
  ⟨h.keys, h.order⟩

theorem WellFormed.sendReset {c : Connection} (h : WellFormed c) (sid reason : Int) :
    WellFormed (Spdy.sendReset c sid reason) :=
  ⟨h.keys, h.order⟩

theorem onDispatch_wf (fuel : Nat) (E : Env) (c c1 : Connection) (d : List UInt8)
    (hd : onDispatch fuel E c d = some c1) (h : WellFormed c) : WellFormed c1 := by
  simp only [onDispatch] at hd
  split at hd
  · cases hd
  · next c2 hf =>
    cases hd
    exact (handleFrame_wf fuel E c d _ hf h).ack _
  · next err c2 hf =>
    have w2 : WellFormed c2 := handleFrame_wf fuel E c d _ hf h
    split at hd
    · cases hd
      exact w2.ack _
    · next sid _ =>
      have w3 : WellFormed (Spdy.sendReset c2 sid (resetCode E err)) := w2.sendReset _ _
      split at hd
      · obtain ⟨c3, h3, h4⟩ := Option.map_eq_some'.mp hd
        subst h4
        exact (w3.of_shape (Shape.of_finishing (finishStream_rel _ _ _ _ _ h3))).ack _
      · cases hd
        exact w3.ack _

theorem onStreamFinished_wf (fuel : Nat) (E : Env) (c c1 : Connection) (s : Ptr)
    (hs : onStreamFinished fuel E c s = some c1) (h : WellFormed c) : WellFormed c1 := by
  simp only [onStreamFinished] at hs
  split at hs
  · cases hs; exact h
  · refine WellFormed.of_shape ?_ (Shape.of_finishing (finishStream_rel _ _ _ _ _ hs))
    split
    · exact h.sendReset _ _
    · exact h

theorem onRxError_wf (fuel : Nat) (c c1 : Connection) (err : Err)
    (hs : onRxError fuel c err = some c1) (h : WellFormed c) : WellFormed c1 := by
  simp only [onRxError] at hs
  obtain ⟨c3, h3, h4⟩ := Option.map_eq_some'.mp hs
  subst h4
  have w1 : WellFormed { c with goAway := true, onGoAwayCloses := c.onGoAwayCloses + 1 } :=
    ⟨h.keys, h.order⟩
  have r : Shape { c with goAway := true, onGoAwayCloses := c.onGoAwayCloses + 1 } c3 := by
    refine foldlM_rel Shape Shape.srefl (fun _ _ _ => Shape.strans) _ _ ?_ _ _ h3
    intro ci e cj _ hstep
    split at hstep
    · cases hstep; exact Shape.srefl ci
    · exact Shape.of_finishing (finishStream_rel _ _ _ _ _ hstep)
  have w3 := w1.of_shape r
  exact ⟨w3.keys, w3.order⟩

/-- A start request for a stream whose parent was allocated earlier keeps the
state well formed. -/
theorem startRequest_wf (E : Env) (c : Connection) (req : Request) (txFinished : Bool)
    (extra : RequestExtra) (parent : Option Ptr) (h : WellFormed c)
    (hp : ∀ p, parent = some p → p < c.nextPtr) :
    WellFormed (onStartRequest
      (c.alloc { newStream E req txFinished extra with parent := parent }).2 c.nextPtr) := by
  generalize hv : ({ newStream E req txFinished extra with parent := parent } : stream) = v
  have hvc : v.children = [] := by rw [← hv]; rfl
  have hvp : v.parent = parent := by rw [← hv]
  have w2 := h.alloc v hvc
  have hfresh : ∀ k, (c.alloc v).2.streams.get k ≠ some c.nextPtr := by
    intro k hk
    exact absurd (h.keys k _ hk).2 (Nat.lt_irrefl _)
  have w3 := w2.modify_fresh c.nextPtr (fun x => { x with streamId := c.nextStreamId }) hfresh
    (fun _ => rfl)
  have hpar : (((c.alloc v).2.modify c.nextPtr
      fun x => { x with streamId := c.nextStreamId }).heap c.nextPtr).parent = parent := by
    simp [hvp]
  simp only [onStartRequest, handleStartRequest, Connection.alloc_nextStreamId]
  split
  · exact w3.of_shape (Shape.of_eq (by simp) (by simp) (by funext q; simp))
  · split
    · exact w3.of_shape (Shape.of_eq (by simp) (by simp) (by funext q; simp))
    · have w4 : WellFormed { (c.alloc v).2.modify c.nextPtr
          fun x => { x with streamId := c.nextStreamId } with
          streams := ((c.alloc v).2.modify c.nextPtr
            fun x => { x with streamId := c.nextStreamId }).streams.set c.nextStreamId
              c.nextPtr } :=
        w3.set c.nextStreamId c.nextPtr (by simp) (by simp)
      split
      · next p hpp =>
        have hpp2 : parent = some p := by
          rw [← hpar]; exact hpp
        have hlt := hp p hpp2
        have w5 := w4.add_child p c.nextPtr hlt (by simp)
        exact w5.of_shape (Shape.of_eq (by simp) (by simp) (by funext q; simp))
      · exact w4.of_shape (Shape.of_eq (by simp) (by simp) (by funext q; simp))

theorem step_wf (fuel : Nat) (E : Env) (c c1 : Connection) (ev : Event)
    (hv : ev.valid c) (hs : step fuel E c ev = some c1) (h : WellFormed c) : WellFormed c1 := by
  cases ev with
  | startRequest req txFinished extra parent =>
    simp only [step] at hs
    split at hs
    · cases hs; exact h
    · cases hs
      refine startRequest_wf E c req txFinished extra parent h ?_
      intro p hp
      subst hp
      exact hv
  | streamFinished s =>
    simp only [step] at hs
    split at hs
    · cases hs; exact h
    · exact onStreamFinished_wf fuel E c c1 s hs h
  | dispatch d =>
    simp only [step] at hs
    split at hs
    · cases hs; exact h
    · exact onDispatch_wf fuel E c c1 d hs h
  | rxError err =>
    simp only [step] at hs
    split at hs
    · cases hs; exact h
    · exact onRxError_wf fuel c c1 err hs h

theorem WellFormed.at_new (E : Env) (addr : String) (handler : Option Handler) (version : Int)
    (server : Bool) : WellFormed (NewConnection E addr handler version server) where
  keys := fun k p hk => by simp [NewConnection, StreamTable.get] at hk
  order := fun p a ha => by
    have : ((NewConnection E addr handler version server).heap p).children = [] := rfl
    rw [this] at ha
    exact absurd ha (List.not_mem_nil a)

/-- Every state reached from `NewConnection` by valid events is well formed. -/
theorem ValidRun.wellFormed (fuel : Nat) (E : Env) (evs : List Event) :
    ∀ c c1 : Connection, WellFormed c → ValidRun fuel E c evs c1 → WellFormed c1 := by
  induction evs with
  | nil => intro c c1 h hr; cases hr; exact h
  | cons ev evs ih =>
    intro c c1 h hr
    obtain ⟨hv, cm, hs, hrest⟩ := hr
    exact ih cm c1 (step_wf fuel E c cm ev hv hs h) hrest

/-- In a well-formed state the children relation is well founded: a child has
a larger address than its parent, below `nextPtr`. -/
theorem WellFormed.ranked {c : Connection} (h : WellFormed c) :
    Ranked (fun p => c.nextPtr - p) c := by
  intro p a ha
  obtain ⟨h1, h2⟩ := h.order p a ha
  have h3 : p < c.nextPtr := Nat.lt_trans h1 h2
  show c.nextPtr - a < c.nextPtr - p
  exact Nat.sub_lt_sub_left h3 h1

/-! ## The dispatch of one frame -/

theorem handleSynStream_inUse (E : Env) (c : Connection) (d : List UInt8) (f : synStreamFrame)
    (s : Ptr) (hparse : E.parseSynStream c.unzip d = .ok f)
    (hs : c.streams.get f.StreamId = some s) :
    handleSynStream E c d =
      (some (Err.StreamInUse f.StreamId), { c with unzip := c.unzip ++ [d] }) := by
  simp [handleSynStream, hparse, hs]

theorem handleFrame_synStream (fuel : Nat) (E : Env) (c : Connection) (d : List UInt8)
    (hctl : fromBig32 d &&& 0x80000000 ≠ 0)
    (hlen : (fromBig32 (d.drop 4) &&& 0xFFFFFF) + 8 = d.length)
    (hcode : fromBig32 d &&& 0x8000FFFF = E.synStreamCode) :
    handleFrame fuel E c d = some (handleSynStream E c d) := by
  simp [handleFrame, hctl, hlen, hcode]

theorem step_dispatch (fuel : Nat) (E : Env) (c : Connection) (d : List UInt8)
    (hrun : c.returned = false) : step fuel E c (.dispatch d) = onDispatch fuel E c d := by
  simp [step, hrun]

/-- The dispatcher on a stream error for a stream of the table: reset, finish, acknowledge. -/
theorem onDispatch_stream_error (fuel : Nat) (E : Env) (c c1 c3 : Connection) (d : List UInt8)
    (err : Err) (sid : Int) (s : Ptr)
    (hf : handleFrame fuel E c d = some (some err, c1))
    (hsid : err.streamId? = some sid)
    (hs : c1.streams.get sid = some s)
    (hfin : finishStream fuel (sendReset c1 sid (resetCode E err)) s err = some c3) :
    onDispatch fuel E c d = some { c3 with dispatched := c3.dispatched ++ [none] } := by
  have hs2 : (sendReset c1 sid (resetCode E err)).streams.get sid = some s := hs
  simp only [onDispatch, hf, hsid, hs2, hfin, Option.map_some']

/-- The dispatcher on a stream error for an id that is not in the table: reset and acknowledge. -/
theorem onDispatch_stream_error_absent (fuel : Nat) (E : Env) (c c1 : Connection) (d : List UInt8)
    (err : Err) (sid : Int)
    (hf : handleFrame fuel E c d = some (some err, c1))
    (hsid : err.streamId? = some sid)
    (hs : c1.streams.get sid = none) :
    onDispatch fuel E c d =
      some { sendReset c1 sid (resetCode E err) with
        dispatched := (sendReset c1 sid (resetCode E err)).dispatched ++ [none] } := by
  have hs2 : (sendReset c1 sid (resetCode E err)).streams.get sid = none := hs
  simp only [onDispatch, hf, hsid, hs2]

/-! ## C1: a `SYN_STREAM` for an id already in the table -/

/-- The dispatch of a `SYN_STREAM` for an id of the table, in a state whose
children relation is well founded. -/
theorem dispatch_syn_stream_in_use (E : Env) (c : Connection) (d : List UInt8) (f : synStreamFrame)
    (s : Ptr) (rank : Ptr → Nat) (fuel : Nat)
    (hrun : c.returned = false)
    (hctl : fromBig32 d &&& 0x80000000 ≠ 0)
    (hlen : (fromBig32 (d.drop 4) &&& 0xFFFFFF) + 8 = d.length)
    (hcode : fromBig32 d &&& 0x8000FFFF = E.synStreamCode)
    (hparse : E.parseSynStream c.unzip d = .ok f)
    (hs : c.streams.get f.StreamId = some s)
    (hid : (c.heap s).streamId = f.StreamId)
    (hrank : Ranked rank c) (hfuel : rank s < fuel) :
    (handleSynStream E c d).1 = some (Err.StreamInUse f.StreamId) ∧
    ∃ c1, step fuel E c (.dispatch d) = some c1 ∧
      c1.sendControl = c.sendControl ++
        [frame.rstStream { Version := c.version, StreamId := f.StreamId, Reason := E.rstStreamInUse }] ∧
      c1.streams.get f.StreamId = none ∧
      (c1.heap s).rxError = some (Err.StreamInUse f.StreamId) ∧
      (c1.heap s).txError = some (Err.StreamInUse f.StreamId) ∧
      c1.dispatched = c.dispatched ++ [none] := by
  have h1 := handleSynStream_inUse E c d f s hparse hs
  refine ⟨by rw [h1], ?_⟩
  obtain ⟨c3, h3⟩ := finishStream_total rank fuel
    (sendReset { c with unzip := c.unzip ++ [d] } f.StreamId (resetCode E (Err.StreamInUse f.StreamId)))
    s (Err.StreamInUse f.StreamId) hrank hfuel
  have r := finishStream_rel _ _ _ _ _ h3
  have he := finishStream_errors _ _ _ _ _ h3
  have hd := finishStream_deleted _ _ _ _ _ h3
  refine ⟨{ c3 with dispatched := c3.dispatched ++ [none] }, ?_, ?_, ?_, he.1, he.2, ?_⟩
  · rw [step_dispatch fuel E c d hrun]
    exact onDispatch_stream_error fuel E c { c with unzip := c.unzip ++ [d] } c3 d
      (Err.StreamInUse f.StreamId) f.StreamId s
      (by rw [handleFrame_synStream fuel E c d hctl hlen hcode, h1]) rfl hs h3
  · have := congrArg Connection.sendControl r.ctl
    simpa [sendReset, resetCode] using this
  · have hh : (sendReset { c with unzip := c.unzip ++ [d] } f.StreamId
        (resetCode E (Err.StreamInUse f.StreamId))).heap s = c.heap s := rfl
    rw [hh, hid] at hd
    exact hd
  · have := congrArg Connection.dispatched r.ctl
    simpa [sendReset] using this


/-- C1. In every well-formed state (every state the dispatch loop reaches is
well formed), a `SYN_STREAM` buffer that parses to a frame whose id is a key of
the table makes `handleSynStream` return `StreamInUse` for that id, whatever
else the frame holds. The dispatcher step for the buffer then sends exactly one
`RST_STREAM` for the id with the stream-in-use reason on the control channel,
finishes the stream found in the table with that error on both directions,
leaves the id out of the table, and acknowledges nil to the receive pump. The
recursion of `finishStream` ends within `fuel` greater than the number of
streams allocated. -/
theorem C1_syn_stream_in_use (E : Env) (c : Connection) (d : List UInt8) (f : synStreamFrame)
    (s : Ptr) (fuel : Nat)
    (hwf : WellFormed c) (hfuel : c.nextPtr < fuel)
    (hrun : c.returned = false)
    (hctl : fromBig32 d &&& 0x80000000 ≠ 0)
    (hlen : (fromBig32 (d.drop 4) &&& 0xFFFFFF) + 8 = d.length)
    (hcode : fromBig32 d &&& 0x8000FFFF = E.synStreamCode)
    (hparse : E.parseSynStream c.unzip d = .ok f)
    (hs : c.streams.get f.StreamId = some s) :
    (handleSynStream E c d).1 = some (Err.StreamInUse f.StreamId) ∧
    ∃ c1, step fuel E c (.dispatch d) = some c1 ∧
      c1.sendControl = c.sendControl ++
        [frame.rstStream { Version := c.version, StreamId := f.StreamId, Reason := E.rstStreamInUse }] ∧
      c1.streams.get f.StreamId = none ∧
      (c1.heap s).rxError = some (Err.StreamInUse f.StreamId) ∧
      (c1.heap s).txError = some (Err.StreamInUse f.StreamId) ∧
      c1.dispatched = c.dispatched ++ [none] :=
  dispatch_syn_stream_in_use E c d f s (fun p => c.nextPtr - p) fuel hrun hctl hlen hcode hparse hs
    (hwf.keys _ s hs).1 hwf.ranked (Nat.lt_of_le_of_lt (Nat.sub_le _ _) hfuel)

/-- C1, witness: the peer repeats its `SYN_STREAM` for stream 2; the state is
the one the loop reaches after the first. -/
theorem C1_syn_stream_in_use_witness :
    (handleSynStream wire exAfter2 (synStreamBytes 0 2 0)).1 = some (Err.StreamInUse 2) ∧
    ∃ c1, step 2 wire exAfter2 (.dispatch (synStreamBytes 0 2 0)) = some c1 ∧
      c1.sendControl = exAfter2.sendControl ++
        [frame.rstStream { Version := 3, StreamId := 2, Reason := 8 }] ∧
      c1.streams.get 2 = none ∧
      (c1.heap 0).rxError = some (Err.StreamInUse 2) ∧
      (c1.heap 0).txError = some (Err.StreamInUse 2) ∧
      c1.dispatched = exAfter2.dispatched ++ [none] :=
  C1_syn_stream_in_use wire exAfter2 (synStreamBytes 0 2 0)
    { Version := 3, StreamId := 2, AssociatedStreamId := 0, Finished := false,
      Unidirectional := false, Header := [], Priority := 0, URL := { Host := "", Path := "/" },
      Proto := "HTTP/1.1", ProtoMajor := 1, ProtoMinor := 1, Method := "GET" }
    0 2
    (ValidRun.wellFormed 1 wire [.dispatch (synStreamBytes 0 2 0)] exClient exAfter2
      (WellFormed.at_new wire "peer" (some 1) 3 false) ⟨trivial, exAfter2, rfl, rfl⟩)
    (by decide) (by decide) (by decide) (by decide) (by decide) rfl (by decide)

/-! ## C2: remote stream ids only go up -/

/-- What `handleStartRequest` keeps and how it moves the id allocator. -/
theorem handleStartRequest_fields (c : Connection) (s : Ptr) :
    (handleStartRequest c s).2.lastStreamOpened = c.lastStreamOpened ∧
    (handleStartRequest c s).2.handler = c.handler ∧
    (handleStartRequest c s).2.version = c.version ∧
    (handleStartRequest c s).2.onRequestStarted = c.onRequestStarted ∧
    (handleStartRequest c s).2.returned = c.returned ∧
    (handleStartRequest c s).2.nextStreamId = wrapInt (c.nextStreamId + 2) := by
  simp only [handleStartRequest]
  split
  · simp
  · split
    · simp
    · split <;> simp

theorem step_last (fuel : Nat) (E : Env) (c c1 : Connection) (ev : Event)
    (h : step fuel E c ev = some c1) : c.lastStreamOpened ≤ c1.lastStreamOpened := by
  cases ev with
  | startRequest req txFinished extra parent =>
    simp only [step] at h
    split at h
    · cases h; exact le_refl _
    · cases h
      simp only [onStartRequest]
      exact le_of_eq (by rw [(handleStartRequest_fields _ _).1]; rfl)
  | streamFinished s =>
    simp only [step] at h
    split at h
    · cases h; exact le_refl _
    · exact (onStreamFinished_quiet fuel E c c1 s h).last
  | dispatch d =>
    simp only [step] at h
    split at h
    · cases h; exact le_refl _
    · exact (onDispatch_quiet fuel E c c1 d h).last
  | rxError err =>
    simp only [step] at h
    split at h
    · cases h; exact le_refl _
    · exact (onRxError_quiet fuel c c1 err h).last

theorem Run_last (fuel : Nat) (E : Env) (evs : List Event) :
    ∀ c c1 : Connection, Run fuel E c evs = some c1 →
      c.lastStreamOpened ≤ c1.lastStreamOpened := by
  induction evs with
  | nil => intro c c1 h; cases h; exact le_refl _
  | cons ev evs ih =>
    intro c c1 h
    simp only [Run, Option.bind_eq_some] at h
    obtain ⟨cm, h1, h2⟩ := h
    exact le_trans (step_last fuel E c cm ev h1) (ih cm c1 h2)

/-- A dispatched buffer that `handleSynStream` accepts moves `lastStreamOpened`
up to its id. -/
theorem step_accepted (fuel : Nat) (E : Env) (c c1 : Connection) (d : List UInt8) (id : Int)
    (hrun : c.returned = false) (hacc : acceptedSynStream E c d = some id)
    (h : step fuel E c (.dispatch d) = some c1) :
    c.lastStreamOpened < id ∧ c1.lastStreamOpened = id := by
  simp only [acceptedSynStream] at hacc
  split at hacc
  · cases hacc
  split at hacc
  · cases hacc
  split at hacc
  · next hctl hlen hcode =>
    split at hacc
    · next f hparse hok =>
      cases hacc
      have hf := handleFrame_synStream fuel E c d hctl (not_not.mp hlen) hcode
      obtain ⟨hlt, hlast⟩ := handleSynStream_accepted E c d f hparse hok
      rw [step_dispatch fuel E c d hrun] at h
      simp only [onDispatch, hf] at h
      generalize hr : handleSynStream E c d = r at h hok hlast
      obtain ⟨e, c2⟩ := r
      simp only at hok
      subst hok
      simp only at h
      cases h
      exact ⟨hlt, hlast⟩
    · cases hacc
  · cases hacc

theorem acceptedAt_cases (E : Env) (c : Connection) (ev : Event) :
    acceptedAt E c ev = [] ∨ ∃ d id, ev = .dispatch d ∧ c.returned = false ∧
      acceptedSynStream E c d = some id ∧ acceptedAt E c ev = [id] := by
  cases ev with
  | dispatch d =>
    simp only [acceptedAt]
    split
    · exact Or.inl rfl
    · next hr =>
      cases ha : acceptedSynStream E c d with
      | none => exact Or.inl rfl
      | some id => exact Or.inr ⟨d, id, rfl, by simpa using hr, ha, rfl⟩
  | startRequest _ _ _ _ => exact Or.inl rfl
  | streamFinished _ => exact Or.inl rfl
  | rxError _ => exact Or.inl rfl

theorem acceptedSynStream_gt (E : Env) (c : Connection) (d : List UInt8) (id : Int)
    (hacc : acceptedSynStream E c d = some id) : c.lastStreamOpened < id := by
  simp only [acceptedSynStream] at hacc
  split at hacc
  · cases hacc
  split at hacc
  · cases hacc
  split at hacc
  · split at hacc
    · next f hparse hok =>
      cases hacc
      exact (handleSynStream_accepted E c d f hparse hok).1
    · cases hacc
  · cases hacc

theorem acceptedSynIds_sorted (fuel : Nat) (E : Env) (evs : List Event) :
    ∀ c : Connection, (∀ id ∈ acceptedSynIds fuel E c evs, c.lastStreamOpened < id) ∧
      (acceptedSynIds fuel E c evs).Pairwise (· < ·) := by
  induction evs with
  | nil => intro c; simp [acceptedSynIds]
  | cons ev evs ih =>
    intro c
    simp only [acceptedSynIds]
    cases hstep : step fuel E c ev with
    | none =>
      simp only
      rcases acceptedAt_cases E c ev with h0 | ⟨d, id, _, _, hacc, h1⟩
      · rw [h0]; simp
      · rw [h1]
        have := acceptedSynStream_gt E c d id hacc
        simp [this]
    | some c1 =>
      simp only
      obtain ⟨ih1, ih2⟩ := ih c1
      rcases acceptedAt_cases E c ev with h0 | ⟨d, id, hev, hrun, hacc, h1⟩
      · rw [h0]
        simp only [List.nil_append]
        have hle := step_last fuel E c c1 ev hstep
        exact ⟨fun id hid => lt_of_le_of_lt hle (ih1 id hid), ih2⟩
      · rw [h1]
        subst hev
        obtain ⟨hlt, hlast⟩ := step_accepted fuel E c c1 d id hrun hacc hstep
        rw [hlast] at ih1
        constructor
        · intro x hx
          simp only [List.singleton_append, List.mem_cons] at hx
          rcases hx with hx | hx
          · rw [hx]; exact hlt
          · exact lt_trans hlt (ih1 x hx)
        · simp only [List.singleton_append, List.pairwise_cons]
          exact ⟨ih1, ih2⟩

/-- C2. Remote stream ids are strictly monotonic. First, in every state, a
`SYN_STREAM` whose id is not in the table, whose version matches, whose parity
is the remote one and whose id is at most `lastStreamOpened` makes
`handleSynStream` return `StreamProtocol` for that id and leaves the table and
`lastStreamOpened` as they were. Second, along every run of the dispatch loop
from `NewConnection`, `lastStreamOpened` never decreases. Third, the ids of the
`SYN_STREAM` frames that `handleSynStream` accepts along such a run form a
strictly increasing sequence. -/
theorem C2_remote_ids_monotonic (fuel : Nat) (E : Env) :
    (∀ (c : Connection) (d : List UInt8) (f : synStreamFrame),
      E.parseSynStream c.unzip d = .ok f → c.streams.get f.StreamId = none →
      f.Version = c.version → lowBit f.StreamId ≠ lowBit c.nextStreamId →
      f.StreamId ≤ c.lastStreamOpened →
        (handleSynStream E c d).1 = some (Err.StreamProtocol f.StreamId) ∧
        (handleSynStream E c d).2.streams = c.streams ∧
        (handleSynStream E c d).2.lastStreamOpened = c.lastStreamOpened) ∧
    (∀ (addr : String) (handler : Option Handler) (version : Int) (server : Bool)
      (evs1 evs2 : List Event) (c1 c2 : Connection),
      Run fuel E (NewConnection E addr handler version server) evs1 = some c1 →
      Run fuel E c1 evs2 = some c2 → c1.lastStreamOpened ≤ c2.lastStreamOpened) ∧
    (∀ (addr : String) (handler : Option Handler) (version : Int) (server : Bool)
      (evs : List Event),
      (acceptedSynIds fuel E (NewConnection E addr handler version server) evs).Pairwise
        (· < ·)) := by
  refine ⟨?_, ?_, ?_⟩
  · intro c d f hparse hnone hver hpar hle
    simp [handleSynStream, hparse, hnone, hver, hpar, hle]
  · intro _ _ _ _ _ evs2 c1 c2 _ h2
    exact Run_last fuel E evs2 c1 c2 h2
  · intro addr handler version server evs
    exact (acceptedSynIds_sorted fuel E evs _).2

/-- C2, witness: a late id is rejected, and a run that accepts 2 and 4. -/
theorem C2_remote_ids_monotonic_witness :
    ((handleSynStream wire exLate (synStreamBytes 0 2 0)).1 = some (Err.StreamProtocol 2) ∧
      (handleSynStream wire exLate (synStreamBytes 0 2 0)).2.streams = exLate.streams ∧
      (handleSynStream wire exLate (synStreamBytes 0 2 0)).2.lastStreamOpened =
        exLate.lastStreamOpened) ∧
    exAfter2.lastStreamOpened ≤ exAfter4.lastStreamOpened ∧
    (acceptedSynIds 1 wire (NewConnection wire "peer" (some 1) 3 false)
      [.dispatch (synStreamBytes 0 2 0), .dispatch (synStreamBytes 0 2 0),
        .dispatch (synStreamBytes 0 4 0)]).Pairwise (· < ·) :=
  ⟨(C2_remote_ids_monotonic 1 wire).1 exLate (synStreamBytes 0 2 0)
      { Version := 3, StreamId := 2, AssociatedStreamId := 0, Finished := false,
        Unidirectional := false, Header := [], Priority := 0, URL := { Host := "", Path := "/" },
        Proto := "HTTP/1.1", ProtoMajor := 1, ProtoMinor := 1, Method := "GET" }
      rfl (by decide) (by decide) (by decide) (by decide),
    (C2_remote_ids_monotonic 1 wire).2.1 "peer" (some 1) 3 false
      [.dispatch (synStreamBytes 0 2 0)]
      [.dispatch (synStreamBytes 0 2 0), .dispatch (synStreamBytes 0 4 0)]
      exAfter2 exAfter4 rfl rfl,
    (C2_remote_ids_monotonic 1 wire).2.2 "peer" (some 1) 3 false _⟩

/-! ## C3: a `SYN_STREAM` with the local parity -/

/-- C3, counterexample. On a client whose own stream 1 is in the table, a
`SYN_STREAM` for id 1 has the local parity and yields `StreamInUse`; on a fresh
client of version 3 a version 2 `SYN_STREAM` for id 1 yields `StreamVersion`.
Neither yields `StreamProtocol`: the in-use and version tests come first. -/
theorem C3_counterexample :
    lowBit 1 = lowBit exLocal.nextStreamId ∧
    (handleSynStream wire exLocal (synStreamBytes 0 1 0)).1 = some (Err.StreamInUse 1) ∧
    lowBit 1 = lowBit exClient.nextStreamId ∧
    (handleSynStream wire exClient (synStreamBytesV 2 0 1 0)).1 = some (Err.StreamVersion 1 2) := by
  decide

/-- C3, amended. A `SYN_STREAM` whose id has the local parity (that of
`nextStreamId`), is not in the table, and whose version matches makes
`handleSynStream` return `StreamProtocol` for that id. -/
theorem C3_local_parity_rejected (E : Env) (c : Connection) (d : List UInt8) (f : synStreamFrame)
    (hparse : E.parseSynStream c.unzip d = .ok f)
    (hnone : c.streams.get f.StreamId = none)
    (hver : f.Version = c.version)
    (hpar : lowBit f.StreamId = lowBit c.nextStreamId) :
    (handleSynStream E c d).1 = some (Err.StreamProtocol f.StreamId) := by
  simp [handleSynStream, hparse, hnone, hver, hpar]

/-- C3, witness: a fresh client rejects a `SYN_STREAM` for the odd id 1. -/
theorem C3_local_parity_rejected_witness :
    (handleSynStream wire exClient (synStreamBytes 0 1 0)).1 = some (Err.StreamProtocol 1) :=
  C3_local_parity_rejected wire exClient (synStreamBytes 0 1 0)
    { Version := 3, StreamId := 1, AssociatedStreamId := 0, Finished := false,
      Unidirectional := false, Header := [], Priority := 0, URL := { Host := "", Path := "/" },
      Proto := "HTTP/1.1", ProtoMajor := 1, ProtoMinor := 1, Method := "GET" }
    rfl (by decide) (by decide) (by decide)

/-! ## C4: the associated stream of a `SYN_STREAM` -/

/-- C4, counterexample. On a client with stream 1 open, a `SYN_STREAM` for id 2
associated with id 4 passes the four tests on its id and version; id 4 has the
remote parity and is not in the table, and `handleSynStream` returns
`StreamProtocol` for id 2, not `InvalidAssociatedStream`. -/
theorem C4_counterexample :
    (wire.parseSynStream exLocal.unzip (synStreamBytes 0 2 4)).toOption.map
      (fun f => (f.StreamId, f.AssociatedStreamId)) = some (2, 4) ∧
    exLocal.streams.get 2 = none ∧ lowBit 2 ≠ lowBit exLocal.nextStreamId ∧
    exLocal.lastStreamOpened < 2 ∧ lowBit 4 ≠ lowBit exLocal.nextStreamId ∧
    exLocal.streams.get 4 = none ∧
    (handleSynStream wire exLocal (synStreamBytes 0 2 4)).1 = some (Err.StreamProtocol 2) := by
  decide

/-- C4, amended. For a `SYN_STREAM` that passes the in-use, version, parity and
monotonicity tests and has a positive associated id: when the associated id
does not have the local parity `handleSynStream` returns `StreamProtocol` for
the new id; when it has the local parity and is not in the table the result is
`InvalidAssociatedStream` with the new id and the associated id; in both cases
the table, the heap and the started handlers are as before, so no stream is
created or inserted. -/
theorem C4_associated_stream (E : Env) (c : Connection) (d : List UInt8) (f : synStreamFrame)
    (hparse : E.parseSynStream c.unzip d = .ok f)
    (hnone : c.streams.get f.StreamId = none)
    (hver : f.Version = c.version)
    (hpar : lowBit f.StreamId ≠ lowBit c.nextStreamId)
    (hlast : c.lastStreamOpened < f.StreamId)
    (hassoc : 0 < f.AssociatedStreamId) :
    (lowBit f.AssociatedStreamId ≠ lowBit c.nextStreamId →
      (handleSynStream E c d).1 = some (Err.StreamProtocol f.StreamId)) ∧
    (lowBit f.AssociatedStreamId = lowBit c.nextStreamId →
      c.streams.get f.AssociatedStreamId = none →
      (handleSynStream E c d).1 =
        some (Err.InvalidAssociatedStream f.StreamId f.AssociatedStreamId)) ∧
    ((lowBit f.AssociatedStreamId ≠ lowBit c.nextStreamId ∨
        c.streams.get f.AssociatedStreamId = none) →
      (handleSynStream E c d).2.streams = c.streams ∧
      (handleSynStream E c d).2.handlerThreads = c.handlerThreads ∧
      (handleSynStream E c d).2.nextPtr = c.nextPtr ∧
      (handleSynStream E c d).2.heap = c.heap) := by
  have hlast2 : ¬ f.StreamId ≤ c.lastStreamOpened := not_le.mpr hlast
  refine ⟨?_, ?_, ?_⟩
  · intro h1
    simp [handleSynStream, hparse, hnone, hver, hpar, hlast2, hassoc, h1]
  · intro h1 h2
    simp [handleSynStream, hparse, hnone, hver, hpar, hlast2, hassoc, h1, h2]
  · intro h
    by_cases h1 : lowBit f.AssociatedStreamId = lowBit c.nextStreamId
    · have h2 : c.streams.get f.AssociatedStreamId = none := by
        rcases h with h | h
        · exact absurd h1 h
        · exact h
      simp [handleSynStream, hparse, hnone, hver, hpar, hlast2, hassoc, h1, h2]
    · simp [handleSynStream, hparse, hnone, hver, hpar, hlast2, hassoc, h1]

/-- C4, witness: associated ids 4 (remote parity) and 3 (local parity, absent). -/
theorem C4_associated_stream_witness :
    (handleSynStream wire exLocal (synStreamBytes 0 2 4)).1 = some (Err.StreamProtocol 2) ∧
    (handleSynStream wire exLocal (synStreamBytes 0 2 3)).1 =
      some (Err.InvalidAssociatedStream 2 3) ∧
    (handleSynStream wire exLocal (synStreamBytes 0 2 3)).2.streams = exLocal.streams :=
  ⟨(C4_associated_stream wire exLocal (synStreamBytes 0 2 4)
      { Version := 3, StreamId := 2, AssociatedStreamId := 4, Finished := false,
        Unidirectional := false, Header := [], Priority := 0, URL := { Host := "", Path := "/" },
        Proto := "HTTP/1.1", ProtoMajor := 1, ProtoMinor := 1, Method := "GET" }
      rfl (by decide) (by decide) (by decide) (by decide) (by decide)).1 (by decide),
    (C4_associated_stream wire exLocal (synStreamBytes 0 2 3)
      { Version := 3, StreamId := 2, AssociatedStreamId := 3, Finished := false,
        Unidirectional := false, Header := [], Priority := 0, URL := { Host := "", Path := "/" },
        Proto := "HTTP/1.1", ProtoMajor := 1, ProtoMinor := 1, Method := "GET" }
      rfl (by decide) (by decide) (by decide) (by decide) (by decide)).2.1 (by decide) (by decide),
    ((C4_associated_stream wire exLocal (synStreamBytes 0 2 3)
      { Version := 3, StreamId := 2, AssociatedStreamId := 3, Finished := false,
        Unidirectional := false, Header := [], Priority := 0, URL := { Host := "", Path := "/" },
        Proto := "HTTP/1.1", ProtoMajor := 1, ProtoMinor := 1, Method := "GET" }
      rfl (by decide) (by decide) (by decide) (by decide) (by decide)).2.2
        (Or.inr (by decide))).1⟩

/-! ## C5: a connection without a push handler -/

theorem step_handler (fuel : Nat) (E : Env) (c c1 : Connection) (ev : Event)
    (h : step fuel E c ev = some c1) : c1.handler = c.handler := by
  cases ev with
  | startRequest req txFinished extra parent =>
    simp only [step] at h
    split at h
    · cases h; rfl
    · cases h
      simp only [onStartRequest]
      rw [(handleStartRequest_fields _ _).2.1]; rfl
  | streamFinished s =>
    simp only [step] at h
    split at h
    · cases h; rfl
    · exact (onStreamFinished_quiet fuel E c c1 s h).handler
  | dispatch d =>
    simp only [step] at h
    split at h
    · cases h; rfl
    · exact (onDispatch_quiet fuel E c c1 d h).handler
  | rxError err =>
    simp only [step] at h
    split at h
    · cases h; rfl
    · exact (onRxError_quiet fuel c c1 err h).handler

theorem Run_handler (fuel : Nat) (E : Env) (evs : List Event) :
    ∀ c c1 : Connection, Run fuel E c evs = some c1 → c1.handler = c.handler := by
  induction evs with
  | nil => intro c c1 h; cases h; rfl
  | cons ev evs ih =>
    intro c c1 h
    simp only [Run, Option.bind_eq_some] at h
    obtain ⟨cm, h1, h2⟩ := h
    exact (ih cm c1 h2).trans (step_handler fuel E c cm ev h1)

/-- With no connection handler, `handleSynStream` refuses every frame that does
not name a parent stream with a child handler. -/
theorem handleSynStream_no_handler (E : Env) (c : Connection) (d : List UInt8)
    (hnil : c.handler = none)
    (hcond : ∀ f, E.parseSynStream c.unzip d = .ok f →
      f.AssociatedStreamId ≤ 0 ∨
        ∀ p, c.streams.get f.AssociatedStreamId = some p → (c.heap p).childHandler = none) :
    (handleSynStream E c d).1 ≠ none ∧
    (handleSynStream E c d).2.streams = c.streams ∧
    (handleSynStream E c d).2.handlerThreads = c.handlerThreads ∧
    (handleSynStream E c d).2.nextPtr = c.nextPtr ∧
    (handleSynStream E c d).2.heap = c.heap := by
  cases hparse : E.parseSynStream c.unzip d with
  | error err => simp [handleSynStream, hparse]
  | ok f =>
    have hc := hcond f hparse
    simp only [handleSynStream, hparse]
    split
    · simp
    split
    · simp
    split
    · simp
    split
    · simp
    split
    · next hpos =>
      split
      · simp
      · split
        · simp
        · next p hp =>
          have hch : (c.heap p).childHandler = none := by
            rcases hc with h0 | h1
            · exact absurd hpos (not_lt.mpr h0)
            · exact h1 p hp
          simp [hch]
    · simp [hnil]

/-- C5, the code at the failing input. A client created by `NewConnection` with
a nil handler starts stream 1 with child handler 7; the state is reachable. A
`SYN_STREAM` for id 2 associated with id 1 is then accepted, against the
comment of `NewConnection` (a nil handler refuses pushed streams):
`handleSynStream` takes the handler from the parent, returns nil, enters
stream 2 in the table and starts handler 7 on it; the dispatcher step sends no
`RST_STREAM` and acknowledges nil. -/
theorem C5_push_without_handler :
    (Run 1 wire (NewConnection wire "peer" none 3 false) [exStartPush]).map
      (fun c => (c.handler, c.streams)) = some (none, [(1, 0)]) ∧
    (handleSynStream wire exPush (synStreamBytes 0 2 1)).1 = none ∧
    (handleSynStream wire exPush (synStreamBytes 0 2 1)).2.streams = [(1, 0), (2, 1)] ∧
    exPush.handlerThreads = [] ∧
    (handleSynStream wire exPush (synStreamBytes 0 2 1)).2.handlerThreads.map
      (fun h => (h.1, h.2.1)) = [(7, 1)] ∧
    (step 2 wire exPush (.dispatch (synStreamBytes 0 2 1))).map
      (fun c => (c.streams, c.sendControl.length, c.dispatched)) =
      some ([(1, 0), (2, 1)], exPush.sendControl.length, [none]) := by
  decide

/-- What the code does ensure for a nil handler. On a connection created by
`NewConnection` with a nil handler,
in every state reached by the dispatch loop, `handleSynStream` returns an error,
inserts no stream and starts no handler for every buffer whose frame has no
associated stream or whose associated stream has no child handler; the error is
`RefusedStream` when the frame passes every earlier test. -/
theorem nil_handler_refuses (fuel : Nat) (E : Env) (addr : String) (version : Int)
    (server : Bool) (evs : List Event) (c : Connection) (d : List UInt8)
    (hrun : Run fuel E (NewConnection E addr none version server) evs = some c)
    (hcond : ∀ f, E.parseSynStream c.unzip d = .ok f →
      f.AssociatedStreamId ≤ 0 ∨
        ∀ p, c.streams.get f.AssociatedStreamId = some p → (c.heap p).childHandler = none) :
    (handleSynStream E c d).1 ≠ none ∧
    (handleSynStream E c d).2.streams = c.streams ∧
    (handleSynStream E c d).2.handlerThreads = c.handlerThreads ∧
    (∀ f, E.parseSynStream c.unzip d = .ok f →
      c.streams.get f.StreamId = none → f.Version = c.version →
      lowBit f.StreamId ≠ lowBit c.nextStreamId → c.lastStreamOpened < f.StreamId →
      (f.AssociatedStreamId ≤ 0 ∨
        (lowBit f.AssociatedStreamId = lowBit c.nextStreamId ∧
          c.streams.get f.AssociatedStreamId ≠ none)) →
      (handleSynStream E c d).1 = some (Err.RefusedStream f.StreamId)) := by
  have hnil : c.handler = none := Run_handler fuel E evs _ c hrun
  obtain ⟨h1, h2, h3, _, _⟩ := handleSynStream_no_handler E c d hnil hcond
  refine ⟨h1, h2, h3, ?_⟩
  intro f hparse hnone hver hpar hlast hassoc
  have hlast2 : ¬ f.StreamId ≤ c.lastStreamOpened := not_le.mpr hlast
  rcases hassoc with h0 | ⟨hp, hin⟩
  · have h0b : ¬ 0 < f.AssociatedStreamId := not_lt.mpr h0
    simp [handleSynStream, hparse, hnone, hver, hpar, hlast2, h0b, hnil]
  · by_cases hpos : 0 < f.AssociatedStreamId
    · cases hg : c.streams.get f.AssociatedStreamId with
      | none => exact absurd hg hin
      | some p =>
        have hch : (c.heap p).childHandler = none := by
          rcases hcond f hparse with h0 | h1
          · exact absurd hpos (not_lt.mpr h0)
          · exact h1 p hg
        simp [handleSynStream, hparse, hnone, hver, hpar, hlast2, hpos, hp, hg, hch]
    · simp [handleSynStream, hparse, hnone, hver, hpar, hlast2, hpos, hnil]

/-- The nil-handler client that has started stream 1 refuses an unassociated
`SYN_STREAM` for id 2. -/
theorem nil_handler_refuses_example :
    (handleSynStream wire exPush (synStreamBytes 0 2 0)).1 ≠ none ∧
    (handleSynStream wire exPush (synStreamBytes 0 2 0)).2.streams = exPush.streams ∧
    (handleSynStream wire exPush (synStreamBytes 0 2 0)).2.handlerThreads =
      exPush.handlerThreads ∧
    (handleSynStream wire exPush (synStreamBytes 0 2 0)).1 = some (Err.RefusedStream 2) :=
  have h := nil_handler_refuses 1 wire "peer" 3 false [exStartPush] exPush
    (synStreamBytes 0 2 0) rfl (fun f hf => Or.inl (by cases hf; decide))
  ⟨h.1, h.2.1, h.2.2.1, h.2.2.2
    { Version := 3, StreamId := 2, AssociatedStreamId := 0, Finished := false,
      Unidirectional := false, Header := [], Priority := 0, URL := { Host := "", Path := "/" },
      Proto := "HTTP/1.1", ProtoMajor := 1, ProtoMinor := 1, Method := "GET" }
    rfl (by decide) (by decide) (by decide) (by decide) (Or.inl (by decide))⟩

/-! ## C6: start requests that are refused -/

theorem toUint_of_nonneg (x : Int) (h0 : 0 ≤ x) (h1 : x < 2 ^ 63) : (toUint x : Int) = x := by
  unfold toUint
  have : x % 2 ^ 64 = x := Int.emod_eq_of_lt h0 (by omega)
  rw [this]
  exact Int.toNat_of_nonneg h0

/-- The refusal of `handleStartRequest`: the id test or `goAway`. -/
theorem handleStartRequest_refused (c : Connection) (s : Ptr)
    (h : (toUint c.nextStreamId > maxStreamId || c.goAway) = true) :
    handleStartRequest c s =
      (some Err.GoAway,
        { c.modify s fun x => { x with streamId := c.nextStreamId } with
          nextStreamId := wrapInt (c.nextStreamId + 2) }) := by
  simp only [handleStartRequest, Connection.modify_heap, Connection.modify_goAway, if_true]
  simp only [h, if_true]
  rfl

theorem handleStartRequest_goAway (c : Connection) (s : Ptr) :
    (handleStartRequest c s).2.goAway = c.goAway := by
  simp only [handleStartRequest]
  split
  · simp
  · split
    · simp
    · split <;> simp

theorem step_goAway (fuel : Nat) (E : Env) (c c1 : Connection) (ev : Event)
    (h : step fuel E c ev = some c1) (hg : c.goAway = true) : c1.goAway = true := by
  cases ev with
  | startRequest req txFinished extra parent =>
    simp only [step] at h
    split at h
    · cases h; exact hg
    · cases h
      simp only [onStartRequest]
      rw [handleStartRequest_goAway]; exact hg
  | streamFinished s =>
    simp only [step] at h
    split at h
    · cases h; exact hg
    · exact (onStreamFinished_quiet fuel E c c1 s h).goAway hg
  | dispatch d =>
    simp only [step] at h
    split at h
    · cases h; exact hg
    · exact (onDispatch_quiet fuel E c c1 d h).goAway hg
  | rxError err =>
    simp only [step] at h
    split at h
    · cases h; exact hg
    · exact (onRxError_quiet fuel c c1 err h).goAway hg

theorem Run_goAway (fuel : Nat) (E : Env) (evs : List Event) :
    ∀ c c1 : Connection, Run fuel E c evs = some c1 → c.goAway = true → c1.goAway = true := by
  induction evs with
  | nil => intro c c1 h hg; cases h; exact hg
  | cons ev evs ih =>
    intro c c1 h hg
    simp only [Run, Option.bind_eq_some] at h
    obtain ⟨cm, h1, h2⟩ := h
    exact ih cm c1 h2 (step_goAway fuel E c cm ev h1 hg)

/-- C6. In every state, when `goAway` is set or the id the stream is given
(`nextStreamId`, a Go `int` below `2 ^ 63`) exceeds `maxStreamId`,
`handleStartRequest` returns the `GoAway` error, sends nothing on the control
channel, leaves the table as it was and appends the stream to no children list.
Moreover `goAway` stays set along every run of the dispatch loop, and a start
request received after it is set adds no stream to the table and sends no
`SYN_STREAM`. -/
theorem C6_start_request_refused (fuel : Nat) (E : Env) :
    (∀ (c : Connection) (s : Ptr),
      (c.goAway = true ∨ ((maxStreamId : Int) < c.nextStreamId ∧ c.nextStreamId < 2 ^ 63)) →
        (handleStartRequest c s).1 = some Err.GoAway ∧
        (handleStartRequest c s).2.sendControl = c.sendControl ∧
        (handleStartRequest c s).2.streams = c.streams ∧
        ∀ p, ((handleStartRequest c s).2.heap p).children = (c.heap p).children) ∧
    (∀ (c c1 : Connection) (evs : List Event) (req : Request) (txFinished : Bool)
      (extra : RequestExtra) (parent : Option Ptr),
      c.goAway = true → Run fuel E c evs = some c1 →
        c1.goAway = true ∧
        ∃ c2, step fuel E c1 (.startRequest req txFinished extra parent) = some c2 ∧
          c2.streams = c1.streams ∧ c2.sendControl = c1.sendControl) := by
  have key : ∀ (c : Connection) (s : Ptr),
      (c.goAway = true ∨ ((maxStreamId : Int) < c.nextStreamId ∧ c.nextStreamId < 2 ^ 63)) →
        (handleStartRequest c s).1 = some Err.GoAway ∧
        (handleStartRequest c s).2.sendControl = c.sendControl ∧
        (handleStartRequest c s).2.streams = c.streams ∧
        ∀ p, ((handleStartRequest c s).2.heap p).children = (c.heap p).children := by
    intro c s h
    have hc : (toUint c.nextStreamId > maxStreamId || c.goAway) = true := by
      rcases h with hg | ⟨h1, h2⟩
      · simp [hg]
      · have h0 : 0 ≤ c.nextStreamId := le_trans (by decide) (le_of_lt h1)
        have := toUint_of_nonneg c.nextStreamId h0 h2
        have : maxStreamId < toUint c.nextStreamId := by omega
        simp [this]
    rw [handleStartRequest_refused c s hc]
    refine ⟨rfl, rfl, rfl, ?_⟩
    intro p
    simp only [Connection.modify_heap]
    split
    · next hp => subst hp; rfl
    · rfl
  refine ⟨key, ?_⟩
  intro c c1 evs req txFinished extra parent hg hrun
  have hg1 := Run_goAway fuel E evs c c1 hrun hg
  refine ⟨hg1, ?_⟩
  simp only [step]
  split
  · exact ⟨c1, rfl, rfl, rfl⟩
  · refine ⟨_, rfl, ?_, ?_⟩
    · simp only [onStartRequest]
      rw [(key _ _ (Or.inl (by simpa using hg1))).2.2.1]
      simp
    · simp only [onStartRequest]
      rw [(key _ _ (Or.inl (by simpa using hg1))).2.1]
      simp


/-- C6, witness: a client that is going away, and one whose ids are used up. -/
theorem C6_start_request_refused_witness :
    ((handleStartRequest exGoAway 0).1 = some Err.GoAway ∧
      (handleStartRequest exGoAway 0).2.sendControl = exGoAway.sendControl ∧
      (handleStartRequest exGoAway 0).2.streams = exGoAway.streams ∧
      ∀ p, ((handleStartRequest exGoAway 0).2.heap p).children = (exGoAway.heap p).children) ∧
    (handleStartRequest exMaxed 0).1 = some Err.GoAway ∧
    (exGoAway.goAway = true ∧
      ∃ c2, step 1 wire exGoAway exStart = some c2 ∧
        c2.streams = exGoAway.streams ∧ c2.sendControl = exGoAway.sendControl) :=
  ⟨(C6_start_request_refused 1 wire).1 exGoAway 0 (Or.inl rfl),
    ((C6_start_request_refused 1 wire).1 exMaxed 0 (Or.inr ⟨by decide, by decide⟩)).1,
    (C6_start_request_refused 1 wire).2 exGoAway exGoAway [] default false
      { Unidirectional := false, Priority := 0, Compressed := false, AssociatedHandler := none }
      none rfl rfl⟩

/-! ## C7: locally allocated ids -/

/-- The id `handleStartRequest` gives its stream and the `SYN_STREAM` it sends. -/
theorem handleStartRequest_alloc (c : Connection) (s : Ptr) :
    ((handleStartRequest c s).2.heap s).streamId = c.nextStreamId ∧
    (synIds (handleStartRequest c s).2.sendControl = synIds c.sendControl ∨
      synIds (handleStartRequest c s).2.sendControl = synIds c.sendControl ++ [c.nextStreamId]) := by
  simp only [handleStartRequest]
  split
  · simp
  · split
    · simp [synIds, List.filterMap_append]
    · split
      · next p _ =>
        by_cases hp : s = p
        · simp [synIds, List.filterMap_append, hp]
        · simp [synIds, List.filterMap_append, hp]
      · simp [synIds, List.filterMap_append]

/-- What `handleStartRequest` sends: nothing when it refuses the request, and
otherwise one `SYN_STREAM` frame, appended to the control channel, that
carries the id just allocated and the version of the connection. -/
theorem handleStartRequest_sends (c : Connection) (s : Ptr) :
    ((toUint c.nextStreamId > maxStreamId || c.goAway) = true →
      (handleStartRequest c s).1 = some Err.GoAway ∧
      (handleStartRequest c s).2.sendControl = c.sendControl) ∧
    ((toUint c.nextStreamId > maxStreamId || c.goAway) = false →
      (handleStartRequest c s).1 = none ∧
      ∃ fr, (handleStartRequest c s).2.sendControl = c.sendControl ++ [frame.synStream fr] ∧
        fr.StreamId = c.nextStreamId ∧ fr.Version = c.version) := by
  constructor
  · intro h
    rw [handleStartRequest_refused c s h]
    exact ⟨rfl, rfl⟩
  · intro h
    simp only [handleStartRequest, Connection.modify_heap, Connection.modify_goAway, if_true]
    simp only [h]
    split
    · next hc => cases hc
    · split
      · exact ⟨rfl, _, rfl, rfl, rfl⟩
      · split
        · exact ⟨rfl, _, rfl, rfl, rfl⟩
        · exact ⟨rfl, _, rfl, rfl, rfl⟩

theorem Allocated.of_quiet {seed : Int} {c c1 : Connection} (h : Allocated seed c)
    (q : Quiet c c1) : Allocated seed c1 where
  seed0 := h.seed0
  next := by rw [q.nextStreamId, q.onRequestStarted]; exact h.next
  below := by rw [q.nextStreamId, q.syn, q.onRequestStarted]; exact h.below
  sorted := by rw [q.syn, q.onRequestStarted]; exact h.sorted

theorem Allocated.onStartRequest {seed : Int} {c : Connection} (h : Allocated seed c) (s : Ptr) :
    Allocated seed (Spdy.onStartRequest c s) := by
  obtain ⟨_, _, _, h4, _, h6⟩ := handleStartRequest_fields c s
  obtain ⟨_, h8⟩ := handleStartRequest_alloc c s
  have h0 := h.seed0
  have hlen : (Spdy.onStartRequest c s).onRequestStarted.length =
      c.onRequestStarted.length + 1 := by
    simp only [Spdy.onStartRequest, h4, List.length_append, List.length_singleton]
  have hnext : (Spdy.onStartRequest c s).nextStreamId =
      wrapInt (seed + 2 * ((c.onRequestStarted.length + 1 : Nat) : Int)) := by
    simp only [Spdy.onStartRequest, h6]
    rw [h.next, wrapInt_add]
    congr 1
    push_cast
    ring
  have hsyn : synIds (Spdy.onStartRequest c s).sendControl =
      synIds (handleStartRequest c s).2.sendControl := rfl
  have hold : seed + 2 * ((c.onRequestStarted.length + 1 : Nat) : Int) < 2 ^ 63 →
      seed + 2 * (c.onRequestStarted.length : Int) < 2 ^ 63 ∧
      c.nextStreamId = seed + 2 * (c.onRequestStarted.length : Int) ∧
      (Spdy.onStartRequest c s).nextStreamId = c.nextStreamId + 2 := by
    intro hk
    push_cast at hk
    have e1 : c.nextStreamId = seed + 2 * (c.onRequestStarted.length : Int) := by
      rw [h.next]
      exact wrapInt_of_range _ (by omega) (by omega)
    refine ⟨by omega, e1, ?_⟩
    rw [hnext, e1, wrapInt_of_range _ (by push_cast; omega) (by push_cast; omega)]
    push_cast
    ring
  constructor
  · exact h0
  · rw [hlen]; exact hnext
  · rw [hlen]
    intro hk id hid
    obtain ⟨hk0, _, e2⟩ := hold hk
    have hb := h.below hk0
    rw [e2]
    rw [hsyn] at hid
    rcases h8 with e | e
    · rw [e] at hid
      exact lt_trans (hb id hid) (by omega)
    · rw [e] at hid
      simp only [List.mem_append, List.mem_singleton] at hid
      rcases hid with hid | hid
      · exact lt_trans (hb id hid) (by omega)
      · omega
  · rw [hlen]
    intro hk
    obtain ⟨hk0, _, _⟩ := hold hk
    have hb := h.below hk0
    have hs := h.sorted hk0
    rw [hsyn]
    rcases h8 with e | e
    · rw [e]; exact hs
    · rw [e, List.pairwise_append]
      refine ⟨hs, List.pairwise_singleton _ _, ?_⟩
      intro a ha b hb2
      simp only [List.mem_singleton] at hb2
      rw [hb2]
      exact hb a ha

theorem Allocated.step {seed : Int} {c c1 : Connection} (h : Allocated seed c) (fuel : Nat)
    (E : Env) (ev : Event) (hs : step fuel E c ev = some c1) : Allocated seed c1 := by
  cases ev with
  | startRequest req txFinished extra parent =>
    simp only [Spdy.step] at hs
    split at hs
    · cases hs; exact h
    · cases hs
      apply Allocated.onStartRequest
      exact ⟨h.seed0, h.next, h.below, h.sorted⟩
  | streamFinished s =>
    simp only [Spdy.step] at hs
    split at hs
    · cases hs; exact h
    · exact h.of_quiet (onStreamFinished_quiet fuel E c c1 s hs)
  | dispatch d =>
    simp only [Spdy.step] at hs
    split at hs
    · cases hs; exact h
    · exact h.of_quiet (onDispatch_quiet fuel E c c1 d hs)
  | rxError err =>
    simp only [Spdy.step] at hs
    split at hs
    · cases hs; exact h
    · exact h.of_quiet (onRxError_quiet fuel c c1 err hs)

theorem Allocated.run {seed : Int} (fuel : Nat) (E : Env) (evs : List Event) :
    ∀ c c1 : Connection, Allocated seed c → Run fuel E c evs = some c1 → Allocated seed c1 := by
  induction evs with
  | nil => intro c c1 h hr; cases hr; exact h
  | cons ev evs ih =>
    intro c c1 h hr
    simp only [Run, Option.bind_eq_some] at hr
    obtain ⟨cm, h1, h2⟩ := hr
    exact ih cm c1 (h.step fuel E ev h1) h2

theorem Allocated.at_start (E : Env) (addr : String) (handler : Option Handler) (version : Int)
    (server : Bool) :
    Allocated (if server then 2 else 1) (NewConnection E addr handler version server) := by
  cases server
  · exact ⟨by decide, by simp [NewConnection, wrapInt], by simp [NewConnection, synIds],
      by simp [NewConnection, synIds]⟩
  · exact ⟨by decide, by simp [NewConnection, wrapInt], by simp [NewConnection, synIds],
      by simp [NewConnection, synIds]⟩

theorem step_onRequestStarted (fuel : Nat) (E : Env) (c c1 : Connection) (ev : Event)
    (hs : step fuel E c ev = some c1) :
    c1.onRequestStarted.length = c.onRequestStarted.length + isStartCall c ev := by
  cases ev with
  | startRequest req txFinished extra parent =>
    simp only [Spdy.step] at hs
    split at hs
    · next hr => cases hs; simp [isStartCall, hr]
    · next hr =>
      cases hs
      simp [isStartCall, hr, onStartRequest, (handleStartRequest_fields _ _).2.2.2.1]
  | streamFinished s =>
    simp only [Spdy.step] at hs
    split at hs
    · cases hs; rfl
    · rw [(onStreamFinished_quiet fuel E c c1 s hs).onRequestStarted]; rfl
  | dispatch d =>
    simp only [Spdy.step] at hs
    split at hs
    · cases hs; rfl
    · rw [(onDispatch_quiet fuel E c c1 d hs).onRequestStarted]; rfl
  | rxError err =>
    simp only [Spdy.step] at hs
    split at hs
    · cases hs; rfl
    · rw [(onRxError_quiet fuel c c1 err hs).onRequestStarted]; rfl

/-- Every call of `handleStartRequest` is acknowledged once on `onRequestStarted`. -/
theorem Run_onRequestStarted (fuel : Nat) (E : Env) (evs : List Event) :
    ∀ c c1 : Connection, Run fuel E c evs = some c1 →
      c1.onRequestStarted.length = c.onRequestStarted.length + startRequestCalls fuel E c evs := by
  induction evs with
  | nil => intro c c1 h; cases h; rfl
  | cons ev evs ih =>
    intro c c1 h
    simp only [Run, Option.bind_eq_some] at h
    obtain ⟨cm, h1, h2⟩ := h
    simp only [startRequestCalls, h1]
    rw [ih cm c1 h2, step_onRequestStarted fuel E c cm ev h1]
    omega

/-- A run of `n` start requests on a connection whose loop is running ends, the
loop is still running, and `handleStartRequest` has been called `n` times. -/
theorem Run_replicate_start (fuel : Nat) (E : Env) (req : Request) (txFinished : Bool)
    (extra : RequestExtra) (parent : Option Ptr) : ∀ (n : Nat) (c : Connection),
    c.returned = false →
    ∃ c1, Run fuel E c (List.replicate n (.startRequest req txFinished extra parent)) = some c1 ∧
      c1.returned = false ∧
      startRequestCalls fuel E c
        (List.replicate n (.startRequest req txFinished extra parent)) = n := by
  intro n
  induction n with
  | zero => intro c h; exact ⟨c, rfl, h, rfl⟩
  | succ n ih =>
    intro c h
    have hstep : step fuel E c (.startRequest req txFinished extra parent) =
        some (onStartRequest (c.alloc { newStream E req txFinished extra with parent := parent }).2
          c.nextPtr) := by
      simp [step, h]
    have hret : (onStartRequest
        (c.alloc { newStream E req txFinished extra with parent := parent }).2
        c.nextPtr).returned = false := by
      simp only [onStartRequest]
      rw [(handleStartRequest_fields _ _).2.2.2.2.1]
      exact h
    obtain ⟨c1, h1, h2, h3⟩ := ih _ hret
    refine ⟨c1, ?_, h2, ?_⟩
    · simp only [List.replicate_succ, Run, hstep, Option.some_bind]
      exact h1
    · simp only [List.replicate_succ, startRequestCalls, hstep, isStartCall, h, h3]
      simp
      omega

/-- C7, counterexample. A client receives `2 ^ 62` start requests: the run ends
with the loop still running and `handleStartRequest` has been called `2 ^ 62`
times. The next start request, the call number `2 ^ 62 + 1`, gives its stream
the id `-(2 ^ 63) + 1`: the allocator, a Go `int`, has wrapped. The id is not
`1 + 2 * 2 ^ 62`, and it is below the id 1 that the first call allocated. -/
theorem C7_counterexample :
    ∃ c, Run 1 wire exClient (List.replicate (2 ^ 62) exStart) = some c ∧
      startRequestCalls 1 wire exClient (List.replicate (2 ^ 62) exStart) = 2 ^ 62 ∧
      c.returned = false ∧
      (step 1 wire c exStart).map (fun c1 => (c1.heap c.nextPtr).streamId) =
        some (-(2 ^ 63) + 1) ∧
      (-(2 ^ 63) + 1 : Int) ≠ 1 + 2 * 2 ^ 62 ∧ (-(2 ^ 63) + 1 : Int) < 1 := by
  obtain ⟨c, h1, h2, h3⟩ := Run_replicate_start 1 wire default false
    { Unidirectional := false, Priority := 0, Compressed := false, AssociatedHandler := none }
    none (2 ^ 62) exClient rfl
  have ha : Allocated 1 c :=
    Allocated.run 1 wire _ exClient c (Allocated.at_start wire "peer" (some 1) 3 false) h1
  have hk := Run_onRequestStarted 1 wire _ exClient c h1
  have hk0 : exClient.onRequestStarted.length = 0 := rfl
  rw [hk0, Nat.zero_add, h3] at hk
  have hn : c.nextStreamId = -(2 ^ 63) + 1 := by
    rw [ha.next, hk]
    norm_num [wrapInt]
  refine ⟨c, h1, h3, h2, ?_, by norm_num, by norm_num⟩
  have hstep : step 1 wire c exStart =
      some (onStartRequest (c.alloc { newStream wire default false
        { Unidirectional := false, Priority := 0, Compressed := false,
          AssociatedHandler := none } with parent := none }).2 c.nextPtr) := by
    simp [step, h2, exStart]
  rw [hstep]
  simp only [Option.map_some', onStartRequest]
  rw [(handleStartRequest_alloc _ _).1, Connection.alloc_nextStreamId, hn]

/-- C7, amended. Along every run of the dispatch loop from the state built by
`NewConnection`, whose `nextStreamId` is the seed (2 for a server, 1 for a
client): when `k - 1` calls of `handleStartRequest` have been made, the next
start request (the `k`-th call) gives its stream the id `seed + 2 * (k - 1)`
reduced to the 64 bits of a Go `int` and moves the allocator two further. When
the call refuses the request (an id above `maxStreamId`, or `goAway`) it
sends nothing and acknowledges `GoAway`; otherwise it appends exactly one
`SYN_STREAM` frame to the control channel, which carries the id just allocated,
and acknowledges nil. As long as `seed + 2 * (k - 1)` is below `2 ^ 63` the id
is that number, it has the parity of the seed, it is above the id of every
`SYN_STREAM` frame sent before, and the `SYN_STREAM` frames of the control
channel are in strictly ascending order of stream id before and after the
call. -/
theorem C7_local_ids_in_order (fuel : Nat) (E : Env) (addr : String) (handler : Option Handler)
    (version : Int) (server : Bool) (evs : List Event) (c : Connection)
    (req : Request) (txFinished : Bool) (extra : RequestExtra) (parent : Option Ptr)
    (hrun : Run fuel E (NewConnection E addr handler version server) evs = some c)
    (hlive : c.returned = false) :
    (NewConnection E addr handler version server).nextStreamId = (if server then 2 else 1) ∧
    ∃ c1, step fuel E c (.startRequest req txFinished extra parent) = some c1 ∧
      (c1.heap c.nextPtr).streamId = wrapInt ((if server then 2 else 1) +
        2 * startRequestCalls fuel E (NewConnection E addr handler version server) evs) ∧
      c1.nextStreamId = wrapInt ((c1.heap c.nextPtr).streamId + 2) ∧
      ((toUint (c1.heap c.nextPtr).streamId > maxStreamId || c.goAway) = true →
        c1.sendControl = c.sendControl ∧
        c1.onRequestStarted = c.onRequestStarted ++ [some Err.GoAway]) ∧
      ((toUint (c1.heap c.nextPtr).streamId > maxStreamId || c.goAway) = false →
        c1.onRequestStarted = c.onRequestStarted ++ [none] ∧
        ∃ fr, c1.sendControl = c.sendControl ++ [frame.synStream fr] ∧
          fr.StreamId = (c1.heap c.nextPtr).streamId ∧ fr.Version = c.version) ∧
      ((if server then 2 else 1) +
          2 * (startRequestCalls fuel E (NewConnection E addr handler version server) evs : Int)
          < 2 ^ 63 →
        (c1.heap c.nextPtr).streamId = (if server then 2 else 1) +
          2 * startRequestCalls fuel E (NewConnection E addr handler version server) evs ∧
        lowBit (c1.heap c.nextPtr).streamId = lowBit (if server then 2 else 1) ∧
        (∀ id ∈ synIds c.sendControl, id < (c1.heap c.nextPtr).streamId) ∧
        (synIds c.sendControl).Pairwise (· < ·) ∧
        (synIds c1.sendControl).Pairwise (· < ·)) := by
  have h := Allocated.run fuel E evs _ c (Allocated.at_start E addr handler version server) hrun
  have hk := Run_onRequestStarted fuel E evs _ c hrun
  have hk0 : (NewConnection E addr handler version server).onRequestStarted.length = 0 := rfl
  rw [hk0, Nat.zero_add] at hk
  refine ⟨rfl, ?_⟩
  generalize hv : ({ newStream E req txFinished extra with parent := parent } : stream) = v
  have hstep : step fuel E c (.startRequest req txFinished extra parent) =
      some (onStartRequest (c.alloc v).2 c.nextPtr) := by
    simp [step, hlive, hv]
  have hid : ((onStartRequest (c.alloc v).2 c.nextPtr).heap c.nextPtr).streamId =
      c.nextStreamId := by
    simp only [onStartRequest]
    rw [(handleStartRequest_alloc _ _).1, Connection.alloc_nextStreamId]
  have hsend := handleStartRequest_sends (c.alloc v).2 c.nextPtr
  simp only [Connection.alloc_nextStreamId, Connection.alloc_goAway,
    Connection.alloc_sendControl, Connection.alloc_version] at hsend
  refine ⟨_, hstep, ?_, ?_, ?_, ?_, ?_⟩
  · rw [hid, h.next, hk]
  · rw [hid]
    simp only [onStartRequest]
    rw [(handleStartRequest_fields _ _).2.2.2.2.2, Connection.alloc_nextStreamId]
  · rw [hid]
    intro hc
    obtain ⟨e1, e2⟩ := hsend.1 hc
    simp only [onStartRequest]
    rw [(handleStartRequest_fields _ _).2.2.2.1, e1, e2]
    exact ⟨rfl, rfl⟩
  · rw [hid]
    intro hc
    obtain ⟨e1, fr, e2, e3, e4⟩ := hsend.2 hc
    simp only [onStartRequest]
    rw [(handleStartRequest_fields _ _).2.2.2.1, e1]
    exact ⟨rfl, fr, e2, e3, e4⟩
  · intro hroom
    rw [← hk] at hroom
    have h0 := h.seed0
    have e : c.nextStreamId = (if server then 2 else 1) +
        2 * (c.onRequestStarted.length : Int) := by
      rw [h.next]
      exact wrapInt_of_range _ (by omega) hroom
    have hb := h.below hroom
    have hs := h.sorted hroom
    rw [hid]
    refine ⟨by rw [e, hk], ?_, hb, hs, ?_⟩
    · rw [e]
      unfold lowBit
      omega
    · have hsyn : synIds (onStartRequest (c.alloc v).2 c.nextPtr).sendControl =
          synIds (handleStartRequest (c.alloc v).2 c.nextPtr).2.sendControl := rfl
      rw [hsyn]
      rcases (handleStartRequest_alloc (c.alloc v).2 c.nextPtr).2 with e2 | e2
      · rw [e2]; exact hs
      · rw [e2, List.pairwise_append]
        refine ⟨hs, List.pairwise_singleton _ _, ?_⟩
        intro a ha b hb2
        simp only [List.mem_singleton, Connection.alloc_nextStreamId] at hb2
        rw [hb2]
        exact hb a ha

/-- C7, witness: a client has made two calls, with a peer `SYN_STREAM` in
between; the third start request gets the id 5 and sends one `SYN_STREAM`
frame with that id. -/
theorem C7_local_ids_in_order_witness :
    (NewConnection wire "peer" (some 1) 3 false).nextStreamId = 1 ∧
    ∃ c1, step 1 wire exTwoStarted exStart = some c1 ∧
      (c1.heap exTwoStarted.nextPtr).streamId = wrapInt (1 +
        2 * startRequestCalls 1 wire (NewConnection wire "peer" (some 1) 3 false)
          [exStart, .dispatch (synStreamBytes 0 2 0), exStart]) ∧
      c1.nextStreamId = wrapInt ((c1.heap exTwoStarted.nextPtr).streamId + 2) ∧
      ((toUint (c1.heap exTwoStarted.nextPtr).streamId > maxStreamId || exTwoStarted.goAway)
          = true →
        c1.sendControl = exTwoStarted.sendControl ∧
        c1.onRequestStarted = exTwoStarted.onRequestStarted ++ [some Err.GoAway]) ∧
      ((toUint (c1.heap exTwoStarted.nextPtr).streamId > maxStreamId || exTwoStarted.goAway)
          = false →
        c1.onRequestStarted = exTwoStarted.onRequestStarted ++ [none] ∧
        ∃ fr, c1.sendControl = exTwoStarted.sendControl ++ [frame.synStream fr] ∧
          fr.StreamId = (c1.heap exTwoStarted.nextPtr).streamId ∧
          fr.Version = exTwoStarted.version) ∧
      ((1 : Int) +
          2 * (startRequestCalls 1 wire (NewConnection wire "peer" (some 1) 3 false)
            [exStart, .dispatch (synStreamBytes 0 2 0), exStart] : Int) < 2 ^ 63 →
        (c1.heap exTwoStarted.nextPtr).streamId = 1 +
          2 * startRequestCalls 1 wire (NewConnection wire "peer" (some 1) 3 false)
            [exStart, .dispatch (synStreamBytes 0 2 0), exStart] ∧
        lowBit (c1.heap exTwoStarted.nextPtr).streamId = lowBit 1 ∧
        (∀ id ∈ synIds exTwoStarted.sendControl, id < (c1.heap exTwoStarted.nextPtr).streamId) ∧
        (synIds exTwoStarted.sendControl).Pairwise (· < ·) ∧
        (synIds c1.sendControl).Pairwise (· < ·)) :=
  C7_local_ids_in_order 1 wire "peer" (some 1) 3 false
    [exStart, .dispatch (synStreamBytes 0 2 0), exStart] exTwoStarted default false
    { Unidirectional := false, Priority := 0, Compressed := false, AssociatedHandler := none }
    none rfl (by decide)

/-- The third start request of the client at work: the id is 5 and the control
channel gains the `SYN_STREAM` frame for stream 5 and nothing else. -/
theorem third_start_request_example :
    startRequestCalls 1 wire (NewConnection wire "peer" (some 1) 3 false)
      [exStart, .dispatch (synStreamBytes 0 2 0), exStart] = 2 ∧
    synIds exTwoStarted.sendControl = [1, 3] ∧
    (step 1 wire exTwoStarted exStart).map
      (fun c1 => ((c1.heap exTwoStarted.nextPtr).streamId, c1.nextStreamId,
        synIds c1.sendControl, c1.sendControl.length)) =
      some (5, 7, [1, 3, 5], exTwoStarted.sendControl.length + 1) := by
  decide

/-! ## C8: `DATA` for a stream that is unknown or receive-finished -/

theorem handleFrame_data (fuel : Nat) (E : Env) (c : Connection) (d : List UInt8)
    (hdata : fromBig32 d &&& 0x80000000 = 0) :
    handleFrame fuel E c d = some (handleData E c d) := by
  simp [handleFrame, hdata]

/-- C8, counterexample. On a fresh client a `DATA` frame for the unknown stream
1 makes `handleData` return `InvalidStream`, and the dispatcher step sends a
`RST_STREAM` for it. On the client whose stream 1 is receive-finished, a further
`DATA` frame for stream 1 makes `handleData` return `StreamAlreadyClosed`, and
the dispatcher step sends a `RST_STREAM` and finishes stream 1 with that error.
The frame is not ignored in either case. -/
theorem C8_counterexample :
    exClient.streams.get 1 = none ∧
    (handleData wire exClient (dataBytes 1 0 [1, 2, 3])).1 = some (Err.InvalidStream 1) ∧
    (step 1 wire exClient (.dispatch (dataBytes 1 0 [1, 2, 3]))).map (fun c => c.sendControl) =
      some [frame.rstStream { Version := 3, StreamId := 1, Reason := 2 }] ∧
    exFin.streams.get 1 = some 0 ∧ (exFin.heap 0).rxFinished = true ∧
    (handleData wire exFin (dataBytes 1 0 [7])).1 = some (Err.StreamAlreadyClosed 1) ∧
    (step 1 wire exFin (.dispatch (dataBytes 1 0 [7]))).map
        (fun c => (c.sendControl.drop 1, c.streams, (c.heap 0).rxError)) =
      some ([frame.rstStream { Version := 3, StreamId := 1, Reason := 9 }], [],
        some (Err.StreamAlreadyClosed 1)) := by
  decide

/-- The dispatch of a `DATA` frame for a stream that is unknown or
receive-finished, in a state whose children relation is well founded. -/
theorem dispatch_data_for_closed_stream (fuel : Nat) (E : Env) (c : Connection) (d : List UInt8)
    (f : dataFrame)
    (hrun : c.returned = false)
    (hdata : fromBig32 d &&& 0x80000000 = 0)
    (hparse : E.parseData d = .ok f) :
    (c.streams.get f.StreamId = none →
      handleData E c d = (some (Err.InvalidStream f.StreamId), c) ∧
      ∃ c1, step fuel E c (.dispatch d) = some c1 ∧
        c1.sendControl = c.sendControl ++ [frame.rstStream
          { Version := c.version, StreamId := f.StreamId, Reason := E.rstInvalidStream }] ∧
        c1.streams = c.streams ∧ c1.heap = c.heap ∧ c1.dispatched = c.dispatched ++ [none]) ∧
    (∀ (s : Ptr) (rank : Ptr → Nat), c.streams.get f.StreamId = some s →
      (c.heap s).rxFinished = true → (c.heap s).streamId = f.StreamId →
      Ranked rank c → rank s < fuel →
      handleData E c d = (some (Err.StreamAlreadyClosed f.StreamId), c) ∧
      ∃ c1, step fuel E c (.dispatch d) = some c1 ∧
        c1.sendControl = c.sendControl ++ [frame.rstStream
          { Version := c.version, StreamId := f.StreamId, Reason := E.rstStreamAlreadyClosed }] ∧
        c1.streams.get f.StreamId = none ∧
        (c1.heap s).rxError = some (Err.StreamAlreadyClosed f.StreamId) ∧
        (c1.heap s).txError = some (Err.StreamAlreadyClosed f.StreamId) ∧
        c1.dispatched = c.dispatched ++ [none]) := by
  constructor
  · intro hnone
    have h1 : handleData E c d = (some (Err.InvalidStream f.StreamId), c) := by
      simp [handleData, hparse, hnone]
    refine ⟨h1, { sendReset c f.StreamId (resetCode E (Err.InvalidStream f.StreamId)) with
      dispatched := c.dispatched ++ [none] }, ?_, rfl, rfl, rfl, rfl⟩
    rw [step_dispatch fuel E c d hrun]
    exact onDispatch_stream_error_absent fuel E c c d (Err.InvalidStream f.StreamId) f.StreamId
      (by rw [handleFrame_data fuel E c d hdata, h1]) rfl hnone
  · intro s rank hs hfin hid hrank hfuel
    have h1 : handleData E c d = (some (Err.StreamAlreadyClosed f.StreamId), c) := by
      simp [handleData, hparse, hs, hfin]
    refine ⟨h1, ?_⟩
    obtain ⟨c3, h3⟩ := finishStream_total rank fuel
      (sendReset c f.StreamId (resetCode E (Err.StreamAlreadyClosed f.StreamId)))
      s (Err.StreamAlreadyClosed f.StreamId) hrank hfuel
    have r := finishStream_rel _ _ _ _ _ h3
    have he := finishStream_errors _ _ _ _ _ h3
    have hd := finishStream_deleted _ _ _ _ _ h3
    refine ⟨{ c3 with dispatched := c3.dispatched ++ [none] }, ?_, ?_, ?_, he.1, he.2, ?_⟩
    · rw [step_dispatch fuel E c d hrun]
      exact onDispatch_stream_error fuel E c c c3 d (Err.StreamAlreadyClosed f.StreamId)
        f.StreamId s (by rw [handleFrame_data fuel E c d hdata, h1]) rfl hs h3
    · have := congrArg Connection.sendControl r.ctl
      simpa [sendReset, resetCode] using this
    · have hh : (sendReset c f.StreamId
          (resetCode E (Err.StreamAlreadyClosed f.StreamId))).heap s = c.heap s := rfl
      rw [hh, hid] at hd
      exact hd
    · have := congrArg Connection.dispatched r.ctl
      simpa [sendReset] using this


/-- C8, amended. For a `DATA` buffer whose frame names a stream that is not in
the table, `handleData` returns `InvalidStream` for the id and leaves the state
as it was, and the dispatcher step sends exactly one `RST_STREAM` for the id
with the invalid-stream reason, leaves the table and the streams as they were
and acknowledges nil. For a frame whose stream is in the table and
receive-finished, `handleData` returns `StreamAlreadyClosed` and leaves the
state as it was, and the dispatcher step sends exactly one `RST_STREAM` with
the already-closed reason, finishes the stream with that error on both
directions, takes it out of the table and acknowledges nil; there the state is
well formed, as every state the dispatch loop reaches is. -/
theorem C8_data_for_closed_stream (fuel : Nat) (E : Env) (c : Connection) (d : List UInt8)
    (f : dataFrame)
    (hrun : c.returned = false)
    (hdata : fromBig32 d &&& 0x80000000 = 0)
    (hparse : E.parseData d = .ok f) :
    (c.streams.get f.StreamId = none →
      handleData E c d = (some (Err.InvalidStream f.StreamId), c) ∧
      ∃ c1, step fuel E c (.dispatch d) = some c1 ∧
        c1.sendControl = c.sendControl ++ [frame.rstStream
          { Version := c.version, StreamId := f.StreamId, Reason := E.rstInvalidStream }] ∧
        c1.streams = c.streams ∧ c1.heap = c.heap ∧ c1.dispatched = c.dispatched ++ [none]) ∧
    (∀ s : Ptr, c.streams.get f.StreamId = some s → (c.heap s).rxFinished = true →
      WellFormed c → c.nextPtr < fuel →
      handleData E c d = (some (Err.StreamAlreadyClosed f.StreamId), c) ∧
      ∃ c1, step fuel E c (.dispatch d) = some c1 ∧
        c1.sendControl = c.sendControl ++ [frame.rstStream
          { Version := c.version, StreamId := f.StreamId, Reason := E.rstStreamAlreadyClosed }] ∧
        c1.streams.get f.StreamId = none ∧
        (c1.heap s).rxError = some (Err.StreamAlreadyClosed f.StreamId) ∧
        (c1.heap s).txError = some (Err.StreamAlreadyClosed f.StreamId) ∧
        c1.dispatched = c.dispatched ++ [none]) :=
  ⟨(dispatch_data_for_closed_stream fuel E c d f hrun hdata hparse).1,
    fun s hs hfin hwf hfuel =>
      (dispatch_data_for_closed_stream fuel E c d f hrun hdata hparse).2 s
        (fun p => c.nextPtr - p) hs hfin (hwf.keys _ s hs).1 hwf.ranked
        (Nat.lt_of_le_of_lt (Nat.sub_le _ _) hfuel)⟩

/-- C8, witness: a frame for the unknown stream 1 on a fresh client, and one for
the client's stream 1 after a frame with the finished flag. -/
theorem C8_data_for_closed_stream_witness :
    (handleData wire exClient (dataBytes 1 0 [1, 2, 3]) = (some (Err.InvalidStream 1), exClient) ∧
      ∃ c1, step 2 wire exClient (.dispatch (dataBytes 1 0 [1, 2, 3])) = some c1 ∧
        c1.sendControl = exClient.sendControl ++
          [frame.rstStream { Version := 3, StreamId := 1, Reason := 2 }] ∧
        c1.streams = exClient.streams ∧ c1.heap = exClient.heap ∧
        c1.dispatched = exClient.dispatched ++ [none]) ∧
    (handleData wire exFin (dataBytes 1 0 [7]) = (some (Err.StreamAlreadyClosed 1), exFin) ∧
      ∃ c1, step 2 wire exFin (.dispatch (dataBytes 1 0 [7])) = some c1 ∧
        c1.sendControl = exFin.sendControl ++
          [frame.rstStream { Version := 3, StreamId := 1, Reason := 9 }] ∧
        c1.streams.get 1 = none ∧
        (c1.heap 0).rxError = some (Err.StreamAlreadyClosed 1) ∧
        (c1.heap 0).txError = some (Err.StreamAlreadyClosed 1) ∧
        c1.dispatched = exFin.dispatched ++ [none]) :=
  ⟨(C8_data_for_closed_stream 2 wire exClient (dataBytes 1 0 [1, 2, 3])
      { StreamId := 1, Finished := false, Compressed := false, Data := [1, 2, 3] }
      rfl (by decide) rfl).1 (by decide),
    (C8_data_for_closed_stream 2 wire exFin (dataBytes 1 0 [7])
      { StreamId := 1, Finished := false, Compressed := false, Data := [7] }
      (by decide) (by decide) rfl).2 0 (by decide) (by decide)
      (ValidRun.wellFormed 1 wire [exStart, .dispatch (dataBytes 1 1 [9])] exClient exFin
        (WellFormed.at_new wire "peer" (some 1) 3 false)
        ⟨trivial, exLocal, rfl, trivial, exFin, rfl, rfl⟩)
      (by decide)⟩

/-! ## C9: `DATA` frames are appended in arrival order -/

/-- What one accepted `DATA` frame does to its stream and to the rest. -/
theorem handleData_accept (E : Env) (c : Connection) (d : List UInt8) (f : dataFrame) (s : Ptr)
    (hparse : E.parseData d = .ok f) (hs : c.streams.get f.StreamId = some s)
    (hok : (handleData E c d).1 = none) :
    ((handleData E c d).2.heap s).rxBuffer = (c.heap s).rxBuffer ++ f.Data ∧
    ((handleData E c d).2.heap s).rxHaveData = true ∧
    ((handleData E c d).2.heap s).rxCompressed = f.Compressed ∧
    ((handleData E c d).2.heap s).rxFinished = f.Finished ∧
    (∀ p, p ≠ s → (handleData E c d).2.heap p = c.heap p) ∧
    (handleData E c d).2.streams = c.streams ∧
    ((c.heap s).rxHaveData = true → (c.heap s).rxCompressed = f.Compressed) := by
  simp only [handleData, hparse, hs] at hok ⊢
  split at hok
  · cases hok
  split at hok
  · cases hok
  split at hok
  · cases hok
  next h1 h2 h3 =>
  simp only [h1, h2, h3, if_false, Bool.false_eq_true]
  refine ⟨by simp, by simp, by simp, by simp, ?_, by simp, ?_⟩
  · intro p hp
    simp [hp]
  · intro hh
    simpa [hh] using h3

theorem dataOf_ok (E : Env) (d : List UInt8) (f : dataFrame) (h : E.parseData d = .ok f) :
    dataOf E d = f := by
  simp [dataOf, h]

/-- The effect of an accepted sequence of `DATA` frames for the stream `s`. -/
theorem handleDataSeq_effect (E : Env) (id : Int) (s : Ptr) (ds : List (List UInt8)) :
    ∀ c c1 : Connection,
      (∀ d ∈ ds, ∃ f, E.parseData d = .ok f ∧ f.StreamId = id) →
      c.streams.get id = some s → handleDataSeq E c ds = some c1 →
      (c1.heap s).rxBuffer = (c.heap s).rxBuffer ++ (ds.map fun d => (dataOf E d).Data).flatten ∧
      (∀ p, p ≠ s → c1.heap p = c.heap p) ∧
      c1.streams = c.streams ∧
      ((c.heap s).rxHaveData = true →
        (c1.heap s).rxCompressed = (c.heap s).rxCompressed ∧
        ∀ d ∈ ds, (dataOf E d).Compressed = (c.heap s).rxCompressed) ∧
      (ds ≠ [] →
        (c1.heap s).rxHaveData = true ∧
        (∀ d ∈ ds, (dataOf E d).Compressed = (c1.heap s).rxCompressed) ∧
        ∀ d, ds.getLast? = some d → (c1.heap s).rxFinished = (dataOf E d).Finished) := by
  induction ds with
  | nil =>
    intro c c1 _ _ hacc
    simp only [handleDataSeq, Option.some.injEq] at hacc
    subst hacc
    simp
  | cons d rest ih =>
    intro c c1 hfor hs hacc
    obtain ⟨f, hparse, hid⟩ := hfor d (List.mem_cons_self _ _)
    subst hid
    have hdo := dataOf_ok E d f hparse
    simp only [handleDataSeq] at hacc
    split at hacc
    · next hok =>
      obtain ⟨a1, a2, a3, a4, a5, a6, a7⟩ := handleData_accept E c d f s hparse hs hok
      have hs2 : (handleData E c d).2.streams.get f.StreamId = some s := by rw [a6]; exact hs
      obtain ⟨b1, b2, b3, b4, b5⟩ := ih (handleData E c d).2 c1
        (fun x hx => hfor x (List.mem_cons_of_mem _ hx)) hs2 hacc
      obtain ⟨b4a, b4b⟩ := b4 a2
      refine ⟨?_, ?_, ?_, ?_, ?_⟩
      · rw [b1, a1]
        simp [hdo]
      · intro p hp
        rw [b2 p hp, a5 p hp]
      · rw [b3, a6]
      · intro hh
        have e := a7 hh
        refine ⟨by rw [b4a, a3, e], ?_⟩
        intro x hx
        rcases List.mem_cons.mp hx with hx | hx
        · rw [hx, hdo, e]
        · rw [b4b x hx, a3, e]
      · intro _
        have hc : (c1.heap s).rxCompressed = f.Compressed := by rw [b4a, a3]
        refine ⟨?_, ?_, ?_⟩
        · cases rest with
          | nil =>
            simp only [handleDataSeq, Option.some.injEq] at hacc
            subst hacc
            exact a2
          | cons y ys => exact (b5 (List.cons_ne_nil _ _)).1
        · intro x hx
          rcases List.mem_cons.mp hx with hx | hx
          · rw [hx, hdo, hc]
          · rw [b4b x hx, a3, hc]
        · intro x hx
          cases rest with
          | nil =>
            simp only [handleDataSeq, Option.some.injEq] at hacc
            subst hacc
            simp only [List.getLast?_singleton, Option.some.injEq] at hx
            subst hx
            rw [a4, hdo]
          | cons y ys =>
            rw [List.getLast?_cons_cons] at hx
            exact (b5 (List.cons_ne_nil _ _)).2.2 x hx
    · cases hacc

/-- When `handleData` accepts a frame for a stream of the table. -/
theorem handleData_accepts_iff (E : Env) (c : Connection) (d : List UInt8) (f : dataFrame)
    (s : Ptr) (hparse : E.parseData d = .ok f) (hs : c.streams.get f.StreamId = some s) :
    (handleData E c d).1 = none ↔
      ((c.heap s).rxFinished = false ∧
        fromBig32 (d.drop 4) &&& 0xFFFFFF = f.Data.length ∧
        ((c.heap s).rxHaveData = true → (c.heap s).rxCompressed = f.Compressed)) := by
  simp only [handleData, hparse, hs]
  constructor
  · intro hok
    split at hok
    · cases hok
    split at hok
    · cases hok
    split at hok
    · cases hok
    next h1 h2 h3 =>
    refine ⟨by simpa using h1, not_not.mp h2, ?_⟩
    intro hh
    simpa [hh] using h3
  · rintro ⟨h1, h2, h3⟩
    have h3b : ¬ ((c.heap s).rxHaveData && (c.heap s).rxCompressed != f.Compressed) = true := by
      cases hh : (c.heap s).rxHaveData with
      | false => simp
      | true => simp [h3 hh]
    simp [h1, h2, h3b]

/-- C9. For a stream `s` of the table and a non-empty sequence of `DATA` buffers
for it that `handleData` accepts one after the other: afterwards the receive
buffer of `s` is its previous content followed by the payloads in arrival
order, `rxHaveData` is set, `rxCompressed` is the compression flag of every
frame of the sequence, `rxFinished` is the finished flag of the last frame, and
the receive buffer of every other stream is as before. A frame for a stream of
the table is accepted exactly when the stream is not receive-finished, the
length in the header is the length of the payload delivered, and the
compression flag is the one in use once data has arrived. -/
theorem C9_data_appended (E : Env) (c c1 : Connection) (id : Int) (s : Ptr)
    (ds : List (List UInt8))
    (hne : ds ≠ [])
    (hfor : ∀ d ∈ ds, ∃ f, E.parseData d = .ok f ∧ f.StreamId = id)
    (hs : c.streams.get id = some s)
    (hacc : handleDataSeq E c ds = some c1) :
    (c1.heap s).rxBuffer = (c.heap s).rxBuffer ++ (ds.map fun d => (dataOf E d).Data).flatten ∧
    (c1.heap s).rxHaveData = true ∧
    (∀ d ∈ ds, (c1.heap s).rxCompressed = (dataOf E d).Compressed) ∧
    (∀ d, ds.getLast? = some d → (c1.heap s).rxFinished = (dataOf E d).Finished) ∧
    (∀ p, p ≠ s → (c1.heap p).rxBuffer = (c.heap p).rxBuffer) ∧
    (∀ (c2 : Connection) (d : List UInt8) (f : dataFrame), E.parseData d = .ok f →
      c2.streams.get f.StreamId = some s →
      ((handleData E c2 d).1 = none ↔
        ((c2.heap s).rxFinished = false ∧
          fromBig32 (d.drop 4) &&& 0xFFFFFF = f.Data.length ∧
          ((c2.heap s).rxHaveData = true → (c2.heap s).rxCompressed = f.Compressed)))) := by
  obtain ⟨h1, h2, _, _, h5⟩ := handleDataSeq_effect E id s ds c c1 hfor hs hacc
  obtain ⟨h6, h7, h8⟩ := h5 hne
  exact ⟨h1, h6, fun d hd => (h7 d hd).symm, h8, fun p hp => by rw [h2 p hp],
    fun c2 d f hp hs2 => handleData_accepts_iff E c2 d f s hp hs2⟩

/-- C9, witness: payloads `[1, 2]` and `[3]` for stream 1, the second one finished. -/
theorem C9_data_appended_witness :
    (exAfterData.heap 0).rxBuffer = (exLocal.heap 0).rxBuffer ++ [1, 2, 3] ∧
    (exAfterData.heap 0).rxHaveData = true ∧
    (exAfterData.heap 0).rxFinished = true :=
  have h := C9_data_appended wire exLocal exAfterData 1 0 exData (by decide)
    (fun d hd => by
      simp only [exData, List.mem_cons, List.mem_singleton, List.not_mem_nil, or_false] at hd
      rcases hd with hd | hd
      · subst hd; exact ⟨_, rfl, by decide⟩
      · subst hd; exact ⟨_, rfl, by decide⟩)
    (by decide) rfl
  ⟨h.1, h.2.1, h.2.2.2.1 (dataBytes 1 1 [3]) rfl⟩

/-! ## C10: a control frame whose length field disagrees with the buffer -/

/-- C10. For a buffer of at least 8 bytes whose first bit is 1 and whose 24-bit
length field plus 8 is not the length of the buffer, `handleFrame` returns
`SessionFlowControl` with the connection as it was, whatever the type field
holds: no handler of a frame type runs. The dispatcher step then forwards the
session error to the receive pump and changes nothing else. -/
theorem C10_control_length_mismatch (fuel : Nat) (E : Env) (c : Connection) (d : List UInt8)
    (_hlen : 8 ≤ d.length)
    (hctl : fromBig32 d &&& 0x80000000 ≠ 0)
    (hbad : (fromBig32 (d.drop 4) &&& 0xFFFFFF) + 8 ≠ d.length) :
    handleFrame fuel E c d = some (some Err.SessionFlowControl, c) ∧
    (c.returned = false →
      step fuel E c (.dispatch d) =
        some { c with dispatched := c.dispatched ++ [some Err.SessionFlowControl] }) := by
  have h1 : handleFrame fuel E c d = some (some Err.SessionFlowControl, c) := by
    simp [handleFrame, hctl, hbad]
  refine ⟨h1, ?_⟩
  intro hrun
  rw [step_dispatch fuel E c d hrun]
  simp only [onDispatch, h1, Err.streamId?]

/-- C10, witness: 40 bytes delivered for an announced payload of 100. -/
theorem C10_control_length_mismatch_witness :
    handleFrame 1 wire exLocal exShort = some (some Err.SessionFlowControl, exLocal) :=
  (C10_control_length_mismatch 1 wire exLocal exShort (by decide) (by decide) (by decide)).1


/-! ## The exact effect of `finishStream` and the invariant of reachable states -/

theorem visitList_congr (f g : Ptr → Option (List Ptr)) (l : List Ptr)
    (h : ∀ a, a ∈ l → f a = g a) : visitList f l = visitList g l := by
  induction l with
  | nil => rfl
  | cons a rest ih =>
    simp only [visitList]
    rw [h a (List.mem_cons_self _ _), ih (fun b hb => h b (List.mem_cons_of_mem _ hb))]

theorem visited_congr (h1 h2 : Ptr → stream)
    (hc : ∀ p, (h1 p).children = (h2 p).children) :
    ∀ (fuel : Nat) (s : Ptr), visited fuel h1 s = visited fuel h2 s := by
  intro fuel
  induction fuel with
  | zero => intro s; rfl
  | succ n ih =>
    intro s
    simp only [visited]
    rw [hc s, visitList_congr _ _ _ (fun a _ => ih a)]

theorem Effect.erefl (err : Err) (c : Connection) :
    Effect err c [] [] (fun p => (c.heap p).children) c where
  streams := by simp
  ids := fun _ => rfl
  rx := fun _ => by simp
  tx := fun _ => by simp
  closes := fun _ => by simp
  parent := fun _ => by simp
  children := fun _ => rfl

theorem Effect.etrans {err : Err} {a b c : Connection} {L1 L2 : List Ptr}
    (h1 : Effect err a L1 L1 (fun p => (a.heap p).children) b)
    (h2 : Effect err b L2 L2 (fun p => (b.heap p).children) c) :
    Effect err a (L1 ++ L2) (L1 ++ L2) (fun p => (a.heap p).children) c where
  streams := by
    rw [h2.streams, h1.streams, List.filter_filter]
    congr 1
    funext e
    simp only [h1.ids, List.map_append, List.mem_append, not_or, Bool.decide_and]
    exact Bool.and_comm _ _
  ids := fun p => (h2.ids p).trans (h1.ids p)
  rx := fun p => by
    rw [h2.rx, h1.rx]
    by_cases p1 : p ∈ L1 <;> by_cases p2 : p ∈ L2 <;> simp [p1, p2]
  tx := fun p => by
    rw [h2.tx, h1.tx]
    by_cases p1 : p ∈ L1 <;> by_cases p2 : p ∈ L2 <;> simp [p1, p2]
  closes := fun p => by
    rw [h2.closes, h1.closes, List.count_append, Nat.add_assoc]
  parent := fun p => by
    rw [h2.parent, h1.parent]
    by_cases p1 : p ∈ L1 <;> by_cases p2 : p ∈ L2 <;> simp [p1, p2]
  children := fun p => (h2.children p).trans (h1.children p)

theorem closeSocket_heap (c : Connection) : (finishStream.closeSocket c).heap = c.heap := by
  unfold finishStream.closeSocket; split <;> rfl

theorem closeSocket_streams (c : Connection) :
    (finishStream.closeSocket c).streams = c.streams := by
  unfold finishStream.closeSocket; split <;> rfl

theorem removeFromParent_streams (c : Connection) (s : Ptr) :
    (finishStream.removeFromParent c s).streams = c.streams := by
  unfold finishStream.removeFromParent; split <;> simp

theorem setErrors_streams (c : Connection) (s : Ptr) (err : Err) :
    (finishStream.setErrors c s err).streams = c.streams := by
  simp [finishStream.setErrors]

theorem setErrors_heap (c : Connection) (s : Ptr) (err : Err) (p : Ptr) :
    (finishStream.setErrors c s err).heap p =
      if p = s then
        { c.heap s with
          rxError := some err
          txError := some err
          txErrorChannelCloses := (c.heap s).txErrorChannelCloses + 1 }
      else c.heap p := by
  simp only [finishStream.setErrors, Connection.modify_heap]
  split
  · simp
  · rfl

theorem removeFromParent_heap (c : Connection) (s : Ptr) (p : Ptr) :
    (finishStream.removeFromParent c s).heap p =
      if (c.heap s).parent = some p then
        { c.heap p with children := (c.heap p).children.erase s }
      else c.heap p := by
  unfold finishStream.removeFromParent
  split
  · next q hq =>
    simp only [Connection.modify_heap, hq, Option.some.injEq]
    by_cases h : p = q
    · subst h; simp
    · simp [h, Ne.symm h]
  · next hq => simp [hq]

/-- The last three steps of `finishStream`. -/
theorem finish_tail (c : Connection) (s : Ptr) (err : Err) :
    (finishStream.closeSocket
      (finishStream.removeFromParent (finishStream.setErrors c s err) s)).streams = c.streams ∧
    ∀ p, (finishStream.closeSocket
      (finishStream.removeFromParent (finishStream.setErrors c s err) s)).heap p =
      { (if p = s then
          { c.heap s with
            rxError := some err
            txError := some err
            txErrorChannelCloses := (c.heap s).txErrorChannelCloses + 1 }
          else c.heap p) with
        children := if (c.heap s).parent = some p then (c.heap p).children.erase s
          else (c.heap p).children } := by
  refine ⟨by rw [closeSocket_streams, removeFromParent_streams, setErrors_streams], fun p => ?_⟩
  rw [closeSocket_heap, removeFromParent_heap]
  have hs : ((finishStream.setErrors c s err).heap s).parent = (c.heap s).parent := by
    rw [setErrors_heap]; simp
  rw [hs, setErrors_heap]
  by_cases h2 : p = s
  · subst h2
    by_cases h1 : (c.heap p).parent = some p
    · rw [if_pos h1, if_pos h1]; simp
    · rw [if_neg h1, if_neg h1]; simp
  · by_cases h1 : (c.heap s).parent = some p
    · rw [if_pos h1, if_pos h1]; simp [h2]
    · rw [if_neg h1, if_neg h1]; simp [h2]

theorem modify_parent_heap (b : Connection) (a : Ptr) (p : Ptr) :
    (b.modify a fun x => { x with parent := none }).heap p =
      if p = a then { b.heap a with parent := none } else b.heap p := by
  simp only [Connection.modify_heap]

theorem Effect.of_child {err : Err} {b : Connection} {a : Ptr} {Lt : List Ptr} {cj : Connection}
    (he : Effect err (b.modify a fun x => { x with parent := none }) (a :: Lt) Lt
      (fun p => if (if a ∈ Lt then none
          else ((b.modify a fun x => { x with parent := none }).heap a).parent) = some p
        then ((b.modify a fun x => { x with parent := none }).heap p).children.erase a
        else ((b.modify a fun x => { x with parent := none }).heap p).children) cj) :
    Effect err b (a :: Lt) (a :: Lt) (fun p => (b.heap p).children) cj where
  streams := by
    have hf : (fun p => ((b.modify a fun x => { x with parent := none }).heap p).streamId) =
        fun p => (b.heap p).streamId := by
      funext p
      rw [modify_parent_heap]; split
      · next h => rw [h]
      · rfl
    rw [he.streams, hf]
    rfl
  ids := fun p => by
    rw [he.ids, modify_parent_heap]; split
    · next h => rw [h]
    · rfl
  rx := fun p => by
    rw [he.rx, modify_parent_heap]
    by_cases h : p = a
    · simp [h]
    · simp [h]
  tx := fun p => by
    rw [he.tx, modify_parent_heap]
    by_cases h : p = a
    · simp [h]
    · simp [h]
  closes := fun p => by
    rw [he.closes, modify_parent_heap]
    by_cases h : p = a
    · simp [h]
    · simp [h]
  parent := fun p => by
    rw [he.parent, modify_parent_heap]
    by_cases h : p = a
    · subst h; simp
    · by_cases h2 : p ∈ Lt <;> simp [h, h2]
  children := fun p => by
    rw [he.children]
    have : (if a ∈ Lt then none
        else ((b.modify a fun x => { x with parent := none }).heap a).parent) ≠ some p := by
      rw [modify_parent_heap]; simp
    rw [if_neg this, modify_parent_heap]
    split
    · next h => rw [h]
    · rfl

theorem finish_children (fuel : Nat) (err : Err)
    (ih : ∀ (c : Connection) (a : Ptr) (c1 : Connection), finishStream fuel c a err = some c1 →
      ∃ Lt, visited fuel c.heap a = some (a :: Lt) ∧
        Effect err c (a :: Lt) Lt
          (fun p => if (if a ∈ Lt then none else (c.heap a).parent) = some p
            then (c.heap p).children.erase a else (c.heap p).children) c1) :
    ∀ (l : List Ptr) (b c2 : Connection),
      l.foldlM (fun ci a =>
        finishStream fuel (ci.modify a fun x => { x with parent := none }) a err) b = some c2 →
      ∃ L, visitList (visited fuel b.heap) l = some L ∧
        Effect err b L L (fun p => (b.heap p).children) c2 := by
  intro l
  induction l with
  | nil =>
    intro b c2 h
    cases h
    exact ⟨[], rfl, Effect.erefl err b⟩
  | cons a rest ihl =>
    intro b c2 h
    simp only [List.foldlM, bind, Option.bind_eq_some] at h
    obtain ⟨cj, h1, h2⟩ := h
    obtain ⟨Lt, hv, he⟩ := ih _ a cj h1
    have e0 := Effect.of_child he
    have hv1 : visited fuel b.heap a = some (a :: Lt) := by
      rw [← hv]
      refine visited_congr _ _ (fun p => ?_) fuel a
      rw [modify_parent_heap]; split
      · next h => rw [h]
      · rfl
    obtain ⟨L2, hv2, he2⟩ := ihl cj c2 h2
    have hv3 : visitList (visited fuel b.heap) rest = some L2 := by
      rw [← hv2]
      exact visitList_congr _ _ _ (fun x _ => visited_congr _ _ (fun p => (e0.children p).symm) fuel x)
    refine ⟨(a :: Lt) ++ L2, by simp only [visitList, hv1, hv3], ?_⟩
    exact e0.etrans he2

/-- The exact effect of `finishStream`. -/
theorem finishStream_effect : ∀ (fuel : Nat) (c : Connection) (s : Ptr) (err : Err)
    (c1 : Connection), finishStream fuel c s err = some c1 →
    ∃ Lt, visited fuel c.heap s = some (s :: Lt) ∧
      Effect err c (s :: Lt) Lt
        (fun p => if (if s ∈ Lt then none else (c.heap s).parent) = some p
          then (c.heap p).children.erase s else (c.heap p).children) c1 := by
  intro fuel
  induction fuel with
  | zero => intro c s err c1 h; simp [finishStream] at h
  | succ fuel ih =>
    intro c s err c1 h
    rw [finishStream_succ] at h
    obtain ⟨c2, hloop, htail⟩ := Option.map_eq_some'.mp h
    obtain ⟨L, hv, he⟩ := finish_children fuel err (fun c a c1 => ih c a err c1) _ _ _ hloop
    have hv1 : visitList (visited fuel c.heap) (c.heap s).children = some L := hv
    refine ⟨L, by simp only [visited, hv1]; rfl, ?_⟩
    obtain ⟨t1, t2⟩ := finish_tail c2 s err
    subst htail
    have hid : ∀ p, (c2.heap p).streamId = (c.heap p).streamId := he.ids
    refine
      { streams := ?_
        ids := fun p => ?_
        rx := fun p => ?_
        tx := fun p => ?_
        closes := fun p => ?_
        parent := fun p => ?_
        children := fun p => ?_ }
    · rw [t1, he.streams]
      show List.filter _ (List.filter _ c.streams) = _
      rw [List.filter_filter]
      congr 1
      funext e
      simp only [List.map_cons, List.mem_cons, not_or, Bool.decide_and]
      exact Bool.and_comm _ _
    · rw [t2]
      by_cases hp : p = s
      · simp [hp, hid]
      · simp [hp, hid]
    · rw [t2]
      by_cases hp : p = s
      · simp [hp]
      · simp only [hp, if_false, List.mem_cons, false_or]
        exact he.rx p
    · rw [t2]
      by_cases hp : p = s
      · simp [hp]
      · simp only [hp, if_false, List.mem_cons, false_or]
        exact he.tx p
    · rw [t2]
      by_cases hp : p = s
      · subst hp
        simp only [if_true, List.count_cons_self]
        rw [he.closes]
        rfl
      · simp only [hp, if_false]
        rw [List.count_cons_of_ne hp]
        exact he.closes p
    · rw [t2]
      by_cases hp : p = s
      · subst hp
        simp only [if_true]
        exact he.parent p
      · simp only [hp, if_false]
        exact he.parent p
    · rw [t2]
      simp only [he.children, he.parent]

theorem Desc.dtrans {c : Connection} {s a q : Ptr} (h1 : Desc c s a) (h2 : Desc c a q) :
    Desc c s q := by
  induction h2 with
  | self => exact h1
  | child z b _ hb ih => exact Desc.child z b ih hb

theorem Desc.le {c : Connection} (h : WellFormed c) {s q : Ptr} (hd : Desc c s q) : s ≤ q := by
  induction hd with
  | self => exact Nat.le_refl _
  | child z b _ hb ih => exact Nat.le_of_lt (Nat.lt_of_le_of_lt ih (h.order z b hb).1)

theorem Desc.alive {c : Connection} (h : Sound c) {s q : Ptr} (hs : c.live s)
    (hd : Desc c s q) : c.live q := by
  induction hd with
  | self => exact hs
  | child z b _ hb ih => exact h.childLive z b ih hb

/-- Children lists that only lose members give fewer descendants. -/
theorem Desc.mono {c c1 : Connection}
    (hch : ∀ p a, a ∈ (c1.heap p).children → a ∈ (c.heap p).children) {s q : Ptr}
    (hd : Desc c1 s q) : Desc c s q := by
  induction hd with
  | self => exact Desc.self
  | child z b _ hb ih => exact Desc.child z b ih (hch z b hb)

/-- Two streams of the table above a common descendant are on one branch. -/
theorem Desc.chain {c : Connection} (h : Sound c) {a b q : Ptr} (la : c.live a)
    (h1 : Desc c a q) (h2 : Desc c b q) : Desc c a b ∨ Desc c b a := by
  induction h1 with
  | self => exact Or.inr h2
  | child z x hz hx ih =>
    cases h2 with
    | self => exact Or.inl (Desc.child z _ hz hx)
    | child z2 _ hz2 hx2 =>
      have lx : c.live x := h.childLive z x (Desc.alive h la hz) hx
      have e1 := h.parentLink z x hx lx
      have e2 := h.parentLink z2 x hx2 lx
      rw [e1] at e2
      cases e2
      exact ih hz2

/-- Two different children of one stream of the table are not below each other. -/
theorem Desc.sibling {c : Connection} (h : Sound c) {s a b : Ptr} (ls : c.live s)
    (ha : a ∈ (c.heap s).children) (hb : b ∈ (c.heap s).children) (hab : a ≠ b) :
    ¬ Desc c a b := by
  intro hd
  cases hd with
  | self => exact hab rfl
  | child z _ hz hx =>
    have lb : c.live b := h.childLive s b ls hb
    have e1 := h.parentLink z b hx lb
    have e2 := h.parentLink s b hb lb
    rw [e1] at e2
    cases e2
    exact absurd (Nat.lt_of_lt_of_le (h.wf.order s a ha).1 (Desc.le h.wf hz)) (Nat.lt_irrefl _)

theorem visitList_mem (f : Ptr → Option (List Ptr)) : ∀ (l : List Ptr) (L : List Ptr),
    visitList f l = some L → ∀ q, q ∈ L → ∃ a, a ∈ l ∧ ∃ La, f a = some La ∧ q ∈ La := by
  intro l
  induction l with
  | nil => intro L h q hq; cases h; cases hq
  | cons a rest ih =>
    intro L h q hq
    simp only [visitList] at h
    split at h
    · next l1 l2 h1 h2 =>
      cases h
      rcases List.mem_append.mp hq with hq | hq
      · exact ⟨a, List.mem_cons_self _ _, l1, h1, hq⟩
      · obtain ⟨b, hb, Lb, hfb, hqb⟩ := ih l2 h2 q hq
        exact ⟨b, List.mem_cons_of_mem _ hb, Lb, hfb, hqb⟩
    · cases h

theorem visitList_sub (f : Ptr → Option (List Ptr)) : ∀ (l : List Ptr) (L : List Ptr),
    visitList f l = some L → ∀ a, a ∈ l → ∃ La, f a = some La ∧ ∀ q, q ∈ La → q ∈ L := by
  intro l
  induction l with
  | nil => intro L _ a ha; cases ha
  | cons b rest ih =>
    intro L h a ha
    simp only [visitList] at h
    split at h
    · next l1 l2 h1 h2 =>
      cases h
      rcases List.mem_cons.mp ha with ha | ha
      · subst ha
        exact ⟨l1, h1, fun q hq => List.mem_append_left _ hq⟩
      · obtain ⟨La, hfa, hsub⟩ := ih l2 h2 a ha
        exact ⟨La, hfa, fun q hq => List.mem_append_right _ (hsub q hq)⟩
    · cases h

theorem visitList_nodup (f : Ptr → Option (List Ptr)) : ∀ (l : List Ptr) (L : List Ptr),
    l.Nodup →
    (∀ a, a ∈ l → ∀ La, f a = some La → La.Nodup) →
    (∀ a b, a ∈ l → b ∈ l → a ≠ b → ∀ La Lb, f a = some La → f b = some Lb →
      ∀ q, q ∈ La → q ∈ Lb → False) →
    visitList f l = some L → L.Nodup := by
  intro l
  induction l with
  | nil => intro L _ _ _ h; cases h; exact List.nodup_nil
  | cons a rest ih =>
    intro L hnd h1 h2 h
    simp only [visitList] at h
    rw [List.nodup_cons] at hnd
    split at h
    · next l1 l2 e1 e2 =>
      cases h
      refine List.nodup_append.mpr ⟨h1 a (List.mem_cons_self _ _) l1 e1, ?_, ?_⟩
      · exact ih l2 hnd.2 (fun b hb => h1 b (List.mem_cons_of_mem _ hb))
          (fun x y hx hy => h2 x y (List.mem_cons_of_mem _ hx) (List.mem_cons_of_mem _ hy)) e2
      · intro q hq1 hq2
        obtain ⟨b, hb, Lb, hfb, hqb⟩ := visitList_mem f rest l2 e2 q hq2
        exact h2 a b (List.mem_cons_self _ _) (List.mem_cons_of_mem _ hb)
          (fun e => hnd.1 (e ▸ hb)) l1 Lb e1 hfb q hq1 hqb
    · cases h

/-- A visited stream is the root or below it. -/
theorem visited_desc (c : Connection) : ∀ (fuel : Nat) (s : Ptr) (L : List Ptr),
    visited fuel c.heap s = some L → ∀ q, q ∈ L → Desc c s q := by
  intro fuel
  induction fuel with
  | zero => intro s L h; cases h
  | succ n ih =>
    intro s L h q hq
    simp only [visited] at h
    obtain ⟨L1, h1, h2⟩ := Option.map_eq_some'.mp h
    subst h2
    rcases List.mem_cons.mp hq with hq | hq
    · subst hq; exact Desc.self
    · obtain ⟨a, ha, La, hfa, hqa⟩ := visitList_mem _ _ _ h1 q hq
      exact Desc.dtrans (Desc.child s a Desc.self ha) (ih a La hfa q hqa)

/-- The list of visited streams starts with the root. -/
theorem visited_head (h : Ptr → stream) (fuel : Nat) (s : Ptr) (L : List Ptr)
    (hv : visited fuel h s = some L) : ∃ Lt, L = s :: Lt := by
  cases fuel with
  | zero => cases hv
  | succ n =>
    simp only [visited] at hv
    obtain ⟨L1, _, h2⟩ := Option.map_eq_some'.mp hv
    exact ⟨L1, h2.symm⟩

/-- A visited stream other than the root is a child of a visited stream. -/
theorem visited_child (h : Ptr → stream) : ∀ (fuel : Nat) (s : Ptr) (Lt : List Ptr),
    visited fuel h s = some (s :: Lt) → ∀ q, q ∈ Lt →
      ∃ z, z ∈ s :: Lt ∧ q ∈ (h z).children := by
  intro fuel
  induction fuel with
  | zero => intro s Lt hv; cases hv
  | succ n ih =>
    intro s Lt hv q hq
    simp only [visited] at hv
    obtain ⟨L1, h1, h2⟩ := Option.map_eq_some'.mp hv
    cases h2
    obtain ⟨a, ha, La, hfa, hqa⟩ := visitList_mem _ _ _ h1 q hq
    obtain ⟨La2, hfa2, hsub⟩ := visitList_sub _ _ _ h1 a ha
    rw [hfa] at hfa2
    cases hfa2
    obtain ⟨Lt2, e⟩ := visited_head h n a La hfa
    subst e
    rcases List.mem_cons.mp hqa with hqa | hqa
    · subst hqa
      exact ⟨s, List.mem_cons_self _ _, ha⟩
    · obtain ⟨z, hz, hqz⟩ := ih a Lt2 hfa q hqa
      exact ⟨z, List.mem_cons_of_mem _ (hsub z hz), hqz⟩

/-- In a sound state the run of `finishStream` on a stream of the table visits
no stream twice. -/
theorem visited_nodup (c : Connection) (hs : Sound c) : ∀ (fuel : Nat) (s : Ptr) (L : List Ptr),
    c.live s → visited fuel c.heap s = some L → L.Nodup := by
  intro fuel
  induction fuel with
  | zero => intro s L _ h; cases h
  | succ n ih =>
    intro s L ls h
    simp only [visited] at h
    obtain ⟨L1, h1, h2⟩ := Option.map_eq_some'.mp h
    subst h2
    refine List.nodup_cons.mpr ⟨?_, ?_⟩
    · intro hmem
      obtain ⟨a, ha, La, hfa, hqa⟩ := visitList_mem _ _ _ h1 s hmem
      exact absurd (Nat.lt_of_lt_of_le (hs.wf.order s a ha).1
        (Desc.le hs.wf (visited_desc c n a La hfa s hqa))) (Nat.lt_irrefl _)
    · refine visitList_nodup _ _ _ (hs.childrenNodup s) ?_ ?_ h1
      · intro a ha La hfa
        exact ih a La (hs.childLive s a ls ha) hfa
      · intro a b ha hb hab La Lb hfa hfb q hqa hqb
        have la := hs.childLive s a ls ha
        rcases Desc.chain hs la (visited_desc c n a La hfa q hqa)
          (visited_desc c n b Lb hfb q hqb) with hd | hd
        · exact Desc.sibling hs ls ha hb hab hd
        · exact Desc.sibling hs ls hb ha (Ne.symm hab) hd

/-- Streams allocated with the same id are the same stream. -/
theorem Sound.inj {c : Connection} (h : Sound c) {p q : Ptr} (hp : p < c.nextPtr)
    (hq : q < c.nextPtr) (e : (c.heap p).streamId = (c.heap q).streamId) : p = q := by
  rcases Nat.lt_trichotomy p q with hlt | heq | hgt
  · have := h.ordered p q hlt hq (by rw [e])
    rw [e] at this
    exact absurd this (lt_irrefl _)
  · exact heq
  · have := h.ordered q p hgt hp (by rw [e])
    rw [e] at this
    exact absurd this (lt_irrefl _)

theorem Connection.live_lt {c : Connection} (h : WellFormed c) {p : Ptr} (lp : c.live p) :
    p < c.nextPtr :=
  (h.keys _ p lp).2

theorem WellFormed.live_of_get {c : Connection} (h : WellFormed c) {k : Int} {p : Ptr}
    (hk : c.streams.get k = some p) : c.live p := by
  unfold Connection.live
  rw [(h.keys k p hk).1]
  exact hk

theorem FinRel.nextPtr_eq {c c1 : Connection} (h : FinRel c c1) : c1.nextPtr = c.nextPtr := by
  have e := congrArg Connection.nextPtr h.ctl
  exact e

theorem FinRel.nextStreamId_eq {c c1 : Connection} (h : FinRel c c1) :
    c1.nextStreamId = c.nextStreamId := by
  have e := congrArg Connection.nextStreamId h.ctl
  exact e

theorem FinRel.last_eq {c c1 : Connection} (h : FinRel c c1) :
    c1.lastStreamOpened = c.lastStreamOpened := by
  have e := congrArg Connection.lastStreamOpened h.ctl
  exact e

/-- What the run of `finishStream` on a stream of the table does in a sound
state. -/
theorem Sound.finish {c : Connection} (h : Sound c) (fuel : Nat) (s : Ptr) (err : Err)
    (c1 : Connection) (ls : c.live s) (hf : finishStream fuel c s err = some c1) :
    ∃ Lt, visited fuel c.heap s = some (s :: Lt) ∧ Sound c1 ∧
      Effect err c (s :: Lt) Lt
        (fun p => if (c.heap s).parent = some p then (c.heap p).children.erase s
          else (c.heap p).children) c1 ∧
      (s :: Lt).Nodup ∧ (∀ q, q ∈ s :: Lt → c.live q) ∧
      (∀ p, c1.live p ↔ c.live p ∧ p ∉ s :: Lt) := by
  obtain ⟨Lt, hv, he⟩ := finishStream_effect fuel c s err c1 hf
  have rel := finishStream_rel fuel c s err c1 hf
  have hnd := visited_nodup c h fuel s _ ls hv
  have hsLt : s ∉ Lt := (List.nodup_cons.mp hnd).1
  rw [if_neg hsLt] at he
  have hdesc := visited_desc c fuel s _ hv
  have hlive : ∀ q, q ∈ s :: Lt → c.live q := fun q hq => Desc.alive h ls (hdesc q hq)
  have hnext : c1.nextPtr = c.nextPtr := rel.nextPtr_eq
  have hnsi : c1.nextStreamId = c.nextStreamId := rel.nextStreamId_eq
  have hlast : c1.lastStreamOpened = c.lastStreamOpened := rel.last_eq
  have hl1 : ∀ p, c1.live p ↔ c.live p ∧ p ∉ s :: Lt := by
    intro p
    unfold Connection.live
    rw [he.ids, he.streams,
      StreamTable.get_filter (fun k => decide (k ∉ (s :: Lt).map fun p => (c.heap p).streamId))]
    constructor
    · intro hp
      split at hp
      · next hk =>
        refine ⟨hp, fun hmem => ?_⟩
        simp only [decide_eq_true_eq] at hk
        exact hk (List.mem_map_of_mem _ hmem)
      · cases hp
    · rintro ⟨hp, hmem⟩
      rw [if_pos]
      · exact hp
      · simp only [decide_eq_true_eq]
        intro hk
        obtain ⟨q, hq, e⟩ := List.mem_map.mp hk
        have := h.inj (Connection.live_lt h.wf (hlive q hq)) (Connection.live_lt h.wf hp) e
        exact hmem (this ▸ hq)
  have hs1 : Sound c1 :=
    { wf := h.wf.of_shape (Shape.of_finishing rel)
      keysNodup := by
        rw [he.streams]
        exact h.keysNodup.sublist ((List.filter_sublist _).map _)
      ordered := fun p q hpq hq hb => by
        rw [he.ids, he.ids] at hb ⊢
        exact h.ordered p q hpq (hnext ▸ hq) hb
      localBound := fun p hp hb => by
        rw [he.ids, hnsi] at hb ⊢
        exact h.localBound p (hnext ▸ hp) hb
      remoteBound := fun p hp hb => by
        rw [he.ids, hnsi] at hb
        rw [he.ids, hlast]
        exact h.remoteBound p (hnext ▸ hp) hb
      fresh := fun p lp => by
        obtain ⟨lp0, hmem⟩ := (hl1 p).mp lp
        obtain ⟨f1, f2, f3⟩ := h.fresh p lp0
        rw [he.rx, he.tx, he.closes, if_neg hmem, if_neg hmem, List.count_eq_zero_of_not_mem hmem]
        exact ⟨f1, f2, f3⟩
      once := fun p => by
        rw [he.closes]
        by_cases hmem : p ∈ s :: Lt
        · rw [List.count_eq_one_of_mem hnd hmem, (h.fresh p (hlive p hmem)).2.2]
        · rw [List.count_eq_zero_of_not_mem hmem]
          exact h.once p
      childrenNodup := fun p => by
        rw [he.children]
        split
        · exact (h.childrenNodup p).erase s
        · exact h.childrenNodup p
      childLive := fun y a ly ha => by
        obtain ⟨ly0, hy⟩ := (hl1 y).mp ly
        rw [he.children] at ha
        have ha0 : a ∈ (c.heap y).children := by
          split at ha
          · exact List.mem_of_mem_erase ha
          · exact ha
        have la0 := h.childLive y a ly0 ha0
        refine (hl1 a).mpr ⟨la0, fun hmem => ?_⟩
        rcases List.mem_cons.mp hmem with e | hmem
        · subst e
          rw [if_pos (h.parentLink y a ha0 la0)] at ha
          exact (List.Nodup.not_mem_erase (h.childrenNodup y)) ha
        · obtain ⟨z, hz, haz⟩ := visited_child c.heap fuel s Lt hv a hmem
          have e1 := h.parentLink z a haz la0
          have e2 := h.parentLink y a ha0 la0
          rw [e1] at e2
          cases e2
          exact hy hz
      parentLink := fun y a ha la => by
        obtain ⟨la0, hmem⟩ := (hl1 a).mp la
        rw [he.children] at ha
        have ha0 : a ∈ (c.heap y).children := by
          split at ha
          · exact List.mem_of_mem_erase ha
          · exact ha
        rw [he.parent, if_neg (fun hm => hmem (List.mem_cons_of_mem _ hm))]
        exact h.parentLink y a ha0 la0 }
  exact ⟨Lt, hv, hs1, he, hnd, hlive, hl1⟩

theorem Inert.id_same {c c1 : Connection} (h : Inert c c1) (p : Ptr) :
    (c1.heap p).streamId = (c.heap p).streamId := by
  have e := congrArg (fun t => t.1) (h.links p)
  exact e

theorem Inert.parent_same {c c1 : Connection} (h : Inert c c1) (p : Ptr) :
    (c1.heap p).parent = (c.heap p).parent := by
  have e := congrArg (fun t => t.2.1) (h.links p)
  exact e

theorem Inert.children_same {c c1 : Connection} (h : Inert c c1) (p : Ptr) :
    (c1.heap p).children = (c.heap p).children := by
  have e := congrArg (fun t => t.2.2.1) (h.links p)
  exact e

theorem Inert.rx_same {c c1 : Connection} (h : Inert c c1) (p : Ptr) :
    (c1.heap p).rxError = (c.heap p).rxError := by
  have e := congrArg (fun t => t.2.2.2.1) (h.links p)
  exact e

theorem Inert.tx_same {c c1 : Connection} (h : Inert c c1) (p : Ptr) :
    (c1.heap p).txError = (c.heap p).txError := by
  have e := congrArg (fun t => t.2.2.2.2.1) (h.links p)
  exact e

theorem Inert.closes_same {c c1 : Connection} (h : Inert c c1) (p : Ptr) :
    (c1.heap p).txErrorChannelCloses = (c.heap p).txErrorChannelCloses := by
  have e := congrArg (fun t => t.2.2.2.2.2) (h.links p)
  exact e

theorem Inert.live_eq {c c1 : Connection} (h : Inert c c1) (p : Ptr) : c1.live p ↔ c.live p := by
  unfold Connection.live
  rw [h.streams, h.id_same]

theorem Inert.irefl (c : Connection) : Inert c c :=
  ⟨rfl, rfl, rfl, le_refl _, fun _ => rfl⟩

theorem Inert.itrans {a b c : Connection} (h1 : Inert a b) (h2 : Inert b c) : Inert a c :=
  ⟨h2.streams.trans h1.streams, h2.nextPtr.trans h1.nextPtr,
    h2.nextStreamId.trans h1.nextStreamId, le_trans h1.last h2.last,
    fun p => (h2.links p).trans (h1.links p)⟩

/-- The same table, heap and allocators. -/
theorem Inert.of_same {c c1 : Connection} (h1 : c1.streams = c.streams)
    (h2 : c1.nextPtr = c.nextPtr) (h3 : c1.nextStreamId = c.nextStreamId)
    (h4 : c.lastStreamOpened ≤ c1.lastStreamOpened) (h5 : c1.heap = c.heap) : Inert c c1 :=
  ⟨h1, h2, h3, h4, fun p => by rw [h5]⟩

/-- An update of one stream that keeps its link and error fields. -/
theorem Inert.of_modify (c : Connection) (s : Ptr) (f : stream → stream)
    (hf : ∀ x, (f x).links = x.links) : Inert c (c.modify s f) where
  streams := by simp
  nextPtr := by simp
  nextStreamId := by simp
  last := by simp
  links := fun p => by
    simp only [Connection.modify_heap]
    split
    · next h => subst h; exact hf _
    · rfl

theorem Sound.inert {c c1 : Connection} (h : Sound c) (r : Inert c c1) : Sound c1 where
  wf :=
    { keys := fun k p hk => by
        rw [r.streams] at hk
        rw [r.id_same, r.nextPtr]
        exact h.wf.keys k p hk
      order := fun p a ha => by
        rw [r.children_same] at ha
        rw [r.nextPtr]
        exact h.wf.order p a ha }
  keysNodup := by rw [r.streams]; exact h.keysNodup
  ordered := fun p q hpq hq hb => by
    rw [r.id_same, r.id_same] at hb ⊢
    exact h.ordered p q hpq (r.nextPtr ▸ hq) hb
  localBound := fun p hp hb => by
    rw [r.id_same, r.nextStreamId] at hb ⊢
    exact h.localBound p (r.nextPtr ▸ hp) hb
  remoteBound := fun p hp hb => by
    rw [r.id_same, r.nextStreamId] at hb
    rw [r.id_same]
    exact le_trans (h.remoteBound p (r.nextPtr ▸ hp) hb) r.last
  fresh := fun p lp => by
    rw [r.rx_same, r.tx_same, r.closes_same]
    exact h.fresh p ((r.live_eq p).mp lp)
  once := fun p => by rw [r.closes_same]; exact h.once p
  childrenNodup := fun p => by rw [r.children_same]; exact h.childrenNodup p
  childLive := fun y a ly ha => by
    rw [r.children_same] at ha
    exact (r.live_eq a).mpr (h.childLive y a ((r.live_eq y).mp ly) ha)
  parentLink := fun y a ha la => by
    rw [r.children_same] at ha
    rw [r.parent_same]
    exact h.parentLink y a ha ((r.live_eq a).mp la)

theorem lowBit_add_two (x : Int) : lowBit (x + 2) = lowBit x := by
  unfold lowBit
  omega

theorem StreamTable.set_nodup (m : StreamTable) (id : Int) (s : Ptr)
    (h : (m.map Prod.fst).Nodup) : ((m.set id s).map Prod.fst).Nodup := by
  unfold StreamTable.set StreamTable.delete
  rw [List.map_append]
  refine List.nodup_append.mpr ⟨h.sublist ((List.filter_sublist _).map _), by simp, ?_⟩
  intro k hk1 hk2
  simp only [List.map_cons, List.map_nil, List.mem_singleton] at hk2
  subst hk2
  obtain ⟨e, he, hek⟩ := List.mem_map.mp hk1
  have := (List.mem_filter.mp he).2
  simp only [decide_eq_true_eq] at this
  exact this hek

theorem Born.new_id {c c1 : Connection} {id : Int} {par : Option Ptr} {ins : Bool}
    (b : Born c id par ins c1) : (c1.heap c.nextPtr).streamId = id := by
  rcases b.newLinks with e | ⟨_, q, e⟩
  · have := congrArg (fun t => t.1) e; exact this
  · have := congrArg (fun t => t.1) e; exact this

theorem Born.new_children {c c1 : Connection} {id : Int} {par : Option Ptr} {ins : Bool}
    (b : Born c id par ins c1) : (c1.heap c.nextPtr).children = [] := by
  rcases b.newLinks with e | ⟨_, q, e⟩
  · have := congrArg (fun t => t.2.2.1) e; exact this
  · have := congrArg (fun t => t.2.2.1) e; exact this

theorem Born.new_fresh {c c1 : Connection} {id : Int} {par : Option Ptr} {ins : Bool}
    (b : Born c id par ins c1) : (c1.heap c.nextPtr).rxError = none ∧
      (c1.heap c.nextPtr).txError = none ∧ (c1.heap c.nextPtr).txErrorChannelCloses = 0 := by
  rcases b.newLinks with e | ⟨_, q, e⟩
  · exact ⟨congrArg (fun t => t.2.2.2.1) e, congrArg (fun t => t.2.2.2.2.1) e,
      congrArg (fun t => t.2.2.2.2.2) e⟩
  · exact ⟨congrArg (fun t => t.2.2.2.1) e, congrArg (fun t => t.2.2.2.2.1) e,
      congrArg (fun t => t.2.2.2.2.2) e⟩

theorem Born.new_parent {c c1 : Connection} {id : Int} {par : Option Ptr} {ins : Bool}
    (b : Born c id par ins c1) (hi : ins = true) : (c1.heap c.nextPtr).parent = par := by
  rcases b.newLinks with e | ⟨h, _⟩
  · have := congrArg (fun t => t.2.1) e; exact this
  · rw [hi] at h; cases h

theorem Born.old_id {c c1 : Connection} {id : Int} {par : Option Ptr} {ins : Bool}
    (b : Born c id par ins c1) {p : Ptr} (hp : p ≠ c.nextPtr) :
    (c1.heap p).streamId = (c.heap p).streamId := by
  have := congrArg (fun t => t.1) (b.oldLinks p hp); exact this

theorem Born.old_parent {c c1 : Connection} {id : Int} {par : Option Ptr} {ins : Bool}
    (b : Born c id par ins c1) {p : Ptr} (hp : p ≠ c.nextPtr) :
    (c1.heap p).parent = (c.heap p).parent := by
  have := congrArg (fun t => t.2.1) (b.oldLinks p hp); exact this

theorem Born.old_children {c c1 : Connection} {id : Int} {par : Option Ptr} {ins : Bool}
    (b : Born c id par ins c1) {p : Ptr} (hp : p ≠ c.nextPtr) :
    (c1.heap p).children = if ins = true ∧ par = some p then (c.heap p).children ++ [c.nextPtr]
      else (c.heap p).children := by
  have := congrArg (fun t => t.2.2.1) (b.oldLinks p hp); exact this

theorem Born.old_fresh {c c1 : Connection} {id : Int} {par : Option Ptr} {ins : Bool}
    (b : Born c id par ins c1) {p : Ptr} (hp : p ≠ c.nextPtr) :
    (c1.heap p).rxError = (c.heap p).rxError ∧ (c1.heap p).txError = (c.heap p).txError ∧
      (c1.heap p).txErrorChannelCloses = (c.heap p).txErrorChannelCloses :=
  ⟨congrArg (fun t => t.2.2.2.1) (b.oldLinks p hp),
    congrArg (fun t => t.2.2.2.2.1) (b.oldLinks p hp),
    congrArg (fun t => t.2.2.2.2.2) (b.oldLinks p hp)⟩

/-- The id of a stream about to be created is not a key of the table. -/
theorem Born.key_free {c c1 : Connection} {id : Int} {par : Option Ptr} {ins : Bool}
    (h : Sound c) (b : Born c id par ins c1) : c.streams.get id = none := by
  cases hg : c.streams.get id with
  | none => rfl
  | some p =>
    exfalso
    obtain ⟨h1, h2⟩ := h.wf.keys id p hg
    rcases b.kind with ⟨e, _, _⟩ | ⟨e1, e2, _, _⟩
    · have := h.localBound p h2 (by rw [h1, e])
      rw [h1, e] at this
      exact lt_irrefl _ this
    · have := e2 p h2 (by rw [h1]; exact e1)
      rw [h1] at this
      exact lt_irrefl _ this

theorem Born.old_children_mem {c c1 : Connection} {id : Int} {par : Option Ptr} {ins : Bool}
    (b : Born c id par ins c1) {p a : Ptr} (hp : p ≠ c.nextPtr)
    (ha : a ∈ (c1.heap p).children) :
    a ∈ (c.heap p).children ∨ (a = c.nextPtr ∧ ins = true ∧ par = some p) := by
  rw [b.old_children hp] at ha
  split at ha
  · next h =>
    rcases List.mem_append.mp ha with ha | ha
    · exact Or.inl ha
    · exact Or.inr ⟨List.mem_singleton.mp ha, h⟩
  · exact Or.inl ha

theorem Born.live_iff {c c1 : Connection} {id : Int} {par : Option Ptr} {ins : Bool}
    (h : Sound c) (b : Born c id par ins c1) (p : Ptr) :
    c1.live p ↔ (ins = true ∧ p = c.nextPtr) ∨ c.live p := by
  have hfree := b.key_free h
  unfold Connection.live
  by_cases hp : p = c.nextPtr
  · subst hp
    rw [b.new_id, b.streams]
    cases ins with
    | true =>
      simp only [if_true, StreamTable.get_set, true_and, true_or]
    | false =>
      simp only [Bool.false_eq_true, if_false, false_and, false_or, hfree]
      constructor
      · intro e; cases e
      · intro e
        exact absurd (h.wf.keys _ _ e).2 (Nat.lt_irrefl _)
  · rw [b.old_id hp, b.streams]
    cases ins with
    | true =>
      simp only [if_true, StreamTable.get_set, true_and, hp, false_or]
      split
      · next e =>
        rw [e, hfree]
        constructor
        · intro e2; cases e2; exact absurd rfl hp
        · intro e2; cases e2
      · rfl
    | false =>
      simp only [Bool.false_eq_true, if_false, false_and, false_or]

theorem Sound.born {c c1 : Connection} {id : Int} {par : Option Ptr} {ins : Bool}
    (h : Sound c) (b : Born c id par ins c1) : Sound c1 := by
  have hfree := b.key_free h
  have hlive := b.live_iff h
  have hold : ∀ p, c.live p → p ≠ c.nextPtr := fun p lp =>
    Nat.ne_of_lt (Connection.live_lt h.wf lp)
  have hkeys : ∀ k p, c1.streams.get k = some p →
      (c1.heap p).streamId = k ∧ p < c1.nextPtr := by
    intro k p hk
    rw [b.streams] at hk
    rw [b.nextPtr]
    have old : c.streams.get k = some p → (c1.heap p).streamId = k ∧ p < c.nextPtr + 1 := by
      intro hk
      obtain ⟨h1, h2⟩ := h.wf.keys k p hk
      rw [b.old_id (Nat.ne_of_lt h2)]
      exact ⟨h1, Nat.lt_succ_of_lt h2⟩
    cases ins with
    | true =>
      simp only [if_true, StreamTable.get_set] at hk
      split at hk
      · next e =>
        cases hk
        rw [b.new_id, e]
        exact ⟨rfl, Nat.lt_succ_self _⟩
      · exact old hk
    | false => exact old hk
  have horder : ∀ p a, a ∈ (c1.heap p).children → p < a ∧ a < c1.nextPtr := by
    intro p a ha
    rw [b.nextPtr]
    by_cases hp : p = c.nextPtr
    · subst hp
      rw [b.new_children] at ha
      cases ha
    · rcases b.old_children_mem hp ha with ha | ⟨e, _, hpar⟩
      · obtain ⟨h1, h2⟩ := h.wf.order p a ha
        exact ⟨h1, Nat.lt_succ_of_lt h2⟩
      · subst e
        exact ⟨b.parValid p hpar, Nat.lt_succ_self _⟩
  refine
    { wf := ⟨hkeys, horder⟩
      keysNodup := ?_
      ordered := ?_
      localBound := ?_
      remoteBound := ?_
      fresh := ?_
      once := ?_
      childrenNodup := ?_
      childLive := ?_
      parentLink := ?_ }
  · rw [b.streams]
    split
    · exact StreamTable.set_nodup _ _ _ h.keysNodup
    · exact h.keysNodup
  · intro p q hpq hq hb
    rw [b.nextPtr] at hq
    have hp : p < c.nextPtr := Nat.lt_of_lt_of_le hpq (Nat.le_of_lt_succ hq)
    have hpn : p ≠ c.nextPtr := Nat.ne_of_lt hp
    rw [b.old_id hpn] at hb ⊢
    by_cases hqn : q = c.nextPtr
    · subst hqn
      rw [b.new_id] at hb ⊢
      rcases b.kind with ⟨e, _, _⟩ | ⟨e1, e2, _, _⟩
      · rw [e] at hb ⊢
        exact h.localBound p hp hb
      · exact e2 p hp (by rw [hb]; exact e1)
    · rw [b.old_id hqn] at hb ⊢
      exact h.ordered p q hpq (Nat.lt_of_le_of_ne (Nat.le_of_lt_succ hq) hqn) hb
  · intro p hp hb
    rw [b.nextPtr] at hp
    rcases b.kind with ⟨e, e2, _⟩ | ⟨e1, _, _, e4⟩
    · rw [e2, lowBit_add_two] at hb
      rw [e2]
      by_cases hpn : p = c.nextPtr
      · subst hpn
        rw [b.new_id, e]
        omega
      · rw [b.old_id hpn] at hb ⊢
        have := h.localBound p (Nat.lt_of_le_of_ne (Nat.le_of_lt_succ hp) hpn) hb
        omega
    · rw [e4] at hb ⊢
      by_cases hpn : p = c.nextPtr
      · subst hpn
        rw [b.new_id] at hb
        exact absurd hb e1
      · rw [b.old_id hpn] at hb ⊢
        exact h.localBound p (Nat.lt_of_le_of_ne (Nat.le_of_lt_succ hp) hpn) hb
  · intro p hp hb
    rw [b.nextPtr] at hp
    rcases b.kind with ⟨e, e2, e3⟩ | ⟨e1, e2, e3, e4⟩
    · rw [e2, lowBit_add_two] at hb
      by_cases hpn : p = c.nextPtr
      · subst hpn
        rw [b.new_id, e] at hb
        exact absurd rfl hb
      · rw [b.old_id hpn] at hb ⊢
        exact le_trans (h.remoteBound p (Nat.lt_of_le_of_ne (Nat.le_of_lt_succ hp) hpn) hb) e3
    · rw [e4] at hb
      by_cases hpn : p = c.nextPtr
      · subst hpn
        rw [b.new_id]
        exact e3
      · rw [b.old_id hpn] at hb ⊢
        exact le_trans (le_of_lt (e2 p (Nat.lt_of_le_of_ne (Nat.le_of_lt_succ hp) hpn) hb)) e3
  · intro p lp
    rcases (hlive p).mp lp with ⟨_, e⟩ | lp0
    · subst e
      exact b.new_fresh
    · obtain ⟨e1, e2, e3⟩ := b.old_fresh (hold p lp0)
      rw [e1, e2, e3]
      exact h.fresh p lp0
  · intro p
    by_cases hp : p = c.nextPtr
    · subst hp
      rw [b.new_fresh.2.2]
      exact Nat.zero_le 1
    · rw [(b.old_fresh hp).2.2]
      exact h.once p
  · intro p
    by_cases hp : p = c.nextPtr
    · subst hp
      rw [b.new_children]
      exact List.nodup_nil
    · rw [b.old_children hp]
      split
      · refine List.nodup_append.mpr ⟨h.childrenNodup p, by simp, ?_⟩
        intro a ha1 ha2
        rw [List.mem_singleton] at ha2
        subst ha2
        exact absurd (h.wf.order p _ ha1).2 (Nat.lt_irrefl _)
      · exact h.childrenNodup p
  · intro y a ly ha
    by_cases hy : y = c.nextPtr
    · subst hy
      rw [b.new_children] at ha
      cases ha
    · rcases (hlive y).mp ly with ⟨_, e⟩ | ly0
      · exact absurd e hy
      · rcases b.old_children_mem hy ha with ha | ⟨e, hi, _⟩
        · exact (hlive a).mpr (Or.inr (h.childLive y a ly0 ha))
        · exact (hlive a).mpr (Or.inl ⟨hi, e⟩)
  · intro y a ha la
    by_cases hy : y = c.nextPtr
    · subst hy
      rw [b.new_children] at ha
      cases ha
    · rcases b.old_children_mem hy ha with ha | ⟨e, hi, hpar⟩
      · have han : a ≠ c.nextPtr := Nat.ne_of_lt (h.wf.order y a ha).2
        rcases (hlive a).mp la with ⟨_, e⟩ | la0
        · exact absurd e han
        · rw [b.old_parent han]
          exact h.parentLink y a ha la0
      · subst e
        rw [b.new_parent hi]
        exact hpar

theorem FinRel.id_eq {c c1 : Connection} (h : FinRel c c1) (p : Ptr) :
    (c1.heap p).streamId = (c.heap p).streamId := by
  have e := congrArg stream.streamId (h.obj p)
  exact e

/-- A stream in the table after runs of `finishStream` was in the table before. -/
theorem FinRel.live_of_live {c c1 : Connection} (h : FinRel c c1) {p : Ptr} (lp : c1.live p) :
    c.live p := by
  unfold Connection.live at lp ⊢
  rw [h.id_eq] at lp
  exact h.get_some _ p lp

theorem Swept.start (err : Err) (cond : Int → Bool) {c : Connection} (h : Sound c) :
    Swept err cond c c :=
  ⟨h, FinRel.frefl c, fun _ lp => Or.inl ⟨lp, rfl, rfl, rfl⟩⟩

/-- One run of `finishStream` inside the loop. -/
theorem Swept.after_finish {err : Err} {cond : Int → Bool} {c0 ci cj : Connection}
    (h : Swept err cond c0 ci) (fuel : Nat) (s : Ptr) (ls : ci.live s)
    (hc : cond (ci.heap s).streamId = true)
    (hf : finishStream fuel ci s err = some cj) : Swept err cond c0 cj := by
  obtain ⟨Lt, hv, hs1, he, hnd, hlive, hl1⟩ := h.sound.finish fuel s err cj ls hf
  have rel1 := finishStream_rel fuel ci s err cj hf
  refine ⟨hs1, FinRel.ftrans h.rel rel1, fun p lp => ?_⟩
  have ls0 : c0.live s := h.rel.live_of_live ls
  rcases h.part p lp with ⟨lpi, e1, e2, e3⟩ | ⟨lpi, e1, e2, e3, r, hr⟩
  · by_cases hp : p ∈ s :: Lt
    · refine Or.inr ⟨fun l => ((hl1 p).mp l).2 hp, ?_, ?_, ?_, s, ls0, ?_, ?_⟩
      · rw [he.rx, if_pos hp]
      · rw [he.tx, if_pos hp]
      · rw [he.closes, List.count_eq_one_of_mem hnd hp, e3]
      · rw [← h.rel.id_eq]; exact hc
      · exact Desc.mono h.rel.children (visited_desc ci fuel s _ hv p hp)
    · refine Or.inl ⟨(hl1 p).mpr ⟨lpi, hp⟩, ?_, ?_, ?_⟩
      · rw [he.rx, if_neg hp, e1]
      · rw [he.tx, if_neg hp, e2]
      · rw [he.closes, List.count_eq_zero_of_not_mem hp, e3]; rfl
  · have hp : p ∉ s :: Lt := fun hm => lpi (hlive p hm)
    refine Or.inr ⟨fun l => lpi ((hl1 p).mp l).1, ?_, ?_, ?_, r, hr⟩
    · rw [he.rx, if_neg hp, e1]
    · rw [he.tx, if_neg hp, e2]
    · rw [he.closes, List.count_eq_zero_of_not_mem hp, e3]

/-- The loop over the entries of the table that finishes the streams whose key
satisfies `cond`. -/
theorem sweep_spec (fuel : Nat) (err : Err) (cond : Int → Bool) (c0 : Connection)
    (f : Connection → Int × Ptr → Option Connection)
    (hf : ∀ ci e, FinRel c0 ci → f ci e =
      match ci.streams.get e.1 with
      | none => some ci
      | some s => if cond e.1 = true then finishStream fuel ci s err else some ci) :
    ∀ (l : List (Int × Ptr)) (ci c3 : Connection), Swept err cond c0 ci →
      l.foldlM f ci = some c3 →
      Swept err cond c0 c3 ∧ FinRel ci c3 ∧
        ∀ e, e ∈ l → cond e.1 = true → c3.streams.get e.1 = none := by
  intro l
  induction l with
  | nil =>
    intro ci c3 h hl
    cases hl
    exact ⟨h, FinRel.frefl _, fun e he => absurd he (List.not_mem_nil e)⟩
  | cons e rest ih =>
    intro ci c3 h hl
    simp only [List.foldlM, bind, Option.bind_eq_some] at hl
    obtain ⟨cj, h1, h2⟩ := hl
    rw [hf ci e h.rel] at h1
    have key : Swept err cond c0 cj ∧ FinRel ci cj ∧
        (cond e.1 = true → cj.streams.get e.1 = none) := by
      split at h1
      · next hg =>
        cases h1
        exact ⟨h, FinRel.frefl _, fun _ => hg⟩
      · next s hg =>
        split at h1
        · next hc =>
          have ls := h.sound.wf.live_of_get hg
          have hid := (h.sound.wf.keys _ s hg).1
          refine ⟨h.after_finish fuel s ls (by rw [hid]; exact hc) h1,
            finishStream_rel fuel ci s err cj h1, fun _ => ?_⟩
          have := finishStream_deleted fuel ci s err cj h1
          rw [hid] at this
          exact this
        · next hc =>
          cases h1
          exact ⟨h, FinRel.frefl _, fun hc2 => absurd hc2 hc⟩
    obtain ⟨h3, rel, h4⟩ := ih cj c3 key.1 h2
    refine ⟨h3, FinRel.ftrans key.2.1 rel, fun x hx hcx => ?_⟩
    rcases List.mem_cons.mp hx with hx | hx
    · subst hx
      exact rel.get_none _ (key.2.2 hcx)
    · exact h4 x hx hcx

theorem handleData_inert (E : Env) (c : Connection) (d : List UInt8) :
    Inert c (handleData E c d).2 := by
  simp only [handleData]
  split
  · exact Inert.irefl c
  split
  · exact Inert.irefl c
  split
  · exact Inert.irefl c
  split
  · exact Inert.irefl c
  split
  · exact Inert.irefl c
  · dsimp only
    refine Inert.itrans ?_ (Inert.of_modify _ _ _ (fun _ => rfl))
    refine Inert.itrans ?_ (Inert.of_modify _ _ _ (fun _ => rfl))
    refine Inert.itrans ?_ (Inert.of_modify _ _ _ (fun _ => rfl))
    exact Inert.of_modify _ _ _ (fun _ => rfl)

theorem handleSynReply_inert (E : Env) (c : Connection) (d : List UInt8) :
    Inert c (handleSynReply E c d).2 := by
  simp only [handleSynReply]
  split
  · exact Inert.of_same rfl rfl rfl (le_refl _) rfl
  split
  · exact Inert.of_same rfl rfl rfl (le_refl _) rfl
  split
  · exact Inert.of_same rfl rfl rfl (le_refl _) rfl
  split
  · exact Inert.of_same rfl rfl rfl (le_refl _) rfl
  split
  · exact Inert.of_same rfl rfl rfl (le_refl _) rfl
  split
  · exact Inert.of_same rfl rfl rfl (le_refl _) rfl
  split
  · exact Inert.of_same rfl rfl rfl (le_refl _) rfl
  · dsimp only
    refine Inert.itrans ?_ (Inert.of_modify _ _ _ (fun _ => rfl))
    refine Inert.itrans ?_ (Inert.of_modify _ _ _ (fun _ => rfl))
    exact Inert.of_same rfl rfl rfl (le_refl _) rfl

theorem handleHeaders_inert (E : Env) (c : Connection) (d : List UInt8) :
    Inert c (handleHeaders E c d).2 := by
  simp only [handleHeaders]
  split
  · exact Inert.of_same rfl rfl rfl (le_refl _) rfl
  split
  · exact Inert.of_same rfl rfl rfl (le_refl _) rfl
  split
  · exact Inert.of_same rfl rfl rfl (le_refl _) rfl
  split
  · exact Inert.of_same rfl rfl rfl (le_refl _) rfl
  split
  · dsimp only
    refine Inert.itrans ?_ (Inert.of_modify _ _ _ (fun _ => rfl))
    exact Inert.of_same rfl rfl rfl (le_refl _) rfl
  · exact Inert.of_same rfl rfl rfl (le_refl _) rfl

theorem foldl_modify_inert (g : Int × Ptr → stream → stream)
    (hg : ∀ e x, (g e x).links = x.links) (l : StreamTable) :
    ∀ c : Connection, Inert c (l.foldl (fun ci e => ci.modify e.2 (g e)) c) := by
  induction l with
  | nil => intro c; exact Inert.irefl c
  | cons e l ih =>
    intro c
    exact Inert.itrans (Inert.of_modify c e.2 (g e) (hg e)) (ih (c.modify e.2 (g e)))

theorem handleSettings_inert (E : Env) (c : Connection) (d : List UInt8) :
    Inert c (handleSettings E c d).2 := by
  simp only [handleSettings]
  split
  · exact Inert.irefl c
  split
  · exact Inert.irefl c
  split
  · exact Inert.irefl c
  · rename_i _ f _ _ _
    dsimp only
    refine Inert.itrans (b := { c with rxWindow := f.Window })
      (Inert.of_same rfl rfl rfl (le_refl _) rfl) ?_
    refine foldl_modify_inert _ ?_ _ _
    intro _ _
    rfl

theorem handleWindowUpdate_inert (E : Env) (c : Connection) (d : List UInt8) :
    Inert c (handleWindowUpdate E c d).2 := by
  simp only [handleWindowUpdate]
  split
  · exact Inert.irefl c
  split
  · exact Inert.irefl c
  split
  · exact Inert.irefl c
  · dsimp only
    exact Inert.of_modify _ _ _ (fun _ => rfl)

theorem handlePing_inert (E : Env) (c : Connection) (d : List UInt8) :
    Inert c (handlePing E c d).2 := by
  simp only [handlePing]
  split
  · exact Inert.irefl c
  split
  · exact Inert.irefl c
  split
  · exact Inert.of_same rfl rfl rfl (le_refl _) rfl
  · exact Inert.irefl c

theorem accept_born (E : Env) (c : Connection) (f : synStreamFrame) (handler : Handler)
    (parent : Option Ptr) (h1 : lowBit f.StreamId ≠ lowBit c.nextStreamId)
    (h2 : ∀ p, p < c.nextPtr → lowBit (c.heap p).streamId ≠ lowBit c.nextStreamId →
      (c.heap p).streamId < f.StreamId)
    (h3 : f.StreamId ≤ c.lastStreamOpened)
    (hp : ∀ p, parent = some p → p < c.nextPtr) :
    ∃ ins, Born c f.StreamId parent ins (handleSynStream.accept E c f handler parent) := by
  simp only [handleSynStream.accept, Connection.alloc_fst]
  generalize hv : newStream E _ f.Unidirectional _ = v
  have hvl : v.links = (0, none, [], none, none, 0) := by rw [← hv]; rfl
  have hv1 : v.parent = none := congrArg (fun t => t.2.1) hvl
  have hv2 : v.children = [] := congrArg (fun t => t.2.2.1) hvl
  have hv3 : v.rxError = none := congrArg (fun t => t.2.2.2.1) hvl
  have hv4 : v.txError = none := congrArg (fun t => t.2.2.2.2.1) hvl
  have hv5 : v.txErrorChannelCloses = 0 := congrArg (fun t => t.2.2.2.2.2) hvl
  have kind : (f.StreamId = c.nextStreamId ∧ c.nextStreamId = c.nextStreamId + 2 ∧
      c.lastStreamOpened ≤ c.lastStreamOpened) ∨
    (lowBit f.StreamId ≠ lowBit c.nextStreamId ∧
      (∀ p, p < c.nextPtr → lowBit (c.heap p).streamId ≠ lowBit c.nextStreamId →
        (c.heap p).streamId < f.StreamId) ∧
      f.StreamId ≤ c.lastStreamOpened ∧ c.nextStreamId = c.nextStreamId) :=
    Or.inr ⟨h1, h2, h3, rfl⟩
  split
  · refine ⟨true, ?_⟩
    cases parent with
    | none =>
      exact
        { nextPtr := by simp
          streams := by simp
          newLinks := Or.inl (by simp [stream.links, hv1, hv2, hv3, hv4, hv5])
          oldLinks := fun p hpn => by simp [stream.links, hpn]
          parValid := hp
          kind := by simpa using kind }
    | some q =>
      have hq : q ≠ c.nextPtr := Nat.ne_of_lt (hp q rfl)
      exact
        { nextPtr := by simp
          streams := by simp
          newLinks := Or.inl (by simp [stream.links, hv2, hv3, hv4, hv5, Ne.symm hq])
          oldLinks := fun p hpn => by
            by_cases hpq : p = q
            · subst hpq; simp [stream.links, hpn]
            · simp [stream.links, hpn, hpq, Ne.symm hpq]
          parValid := hp
          kind := by simpa using kind }
  · refine ⟨false, ?_⟩
    exact
      { nextPtr := by simp
        streams := by simp
        newLinks := Or.inr ⟨rfl, none, by simp [stream.links, hv1, hv2, hv3, hv4, hv5]⟩
        oldLinks := fun p hpn => by simp [stream.links, hpn]
        parValid := hp
        kind := by simpa using kind }

theorem handleSynStream_sound (E : Env) (c : Connection) (d : List UInt8) (h : Sound c) :
    Sound (handleSynStream E c d).2 := by
  have h0 : Sound { c with unzip := c.unzip ++ [d] } :=
    h.inert (Inert.of_same rfl rfl rfl (le_refl _) rfl)
  simp only [handleSynStream]
  split
  · exact h0
  split
  · exact h0
  split
  · exact h0
  split
  · exact h0
  split
  · exact h0
  rename_i _ f _ _ _ hpar hlast
  have hlt : c.lastStreamOpened < f.StreamId := lt_of_not_le hlast
  have h1 : Sound { c with unzip := c.unzip ++ [d], lastStreamOpened := f.StreamId } :=
    h.inert (Inert.of_same rfl rfl rfl (le_of_lt hlt) rfl)
  have hb : ∀ handler parent, (∀ p, parent = some p → p < c.nextPtr) →
      Sound (handleSynStream.accept E
        { c with unzip := c.unzip ++ [d], lastStreamOpened := f.StreamId } f handler parent) := by
    intro handler parent hp
    obtain ⟨ins, b⟩ := accept_born E
      { c with unzip := c.unzip ++ [d], lastStreamOpened := f.StreamId } f handler parent
      hpar (fun p hp hb => lt_of_le_of_lt (h.remoteBound p hp hb) hlt) (le_refl _) hp
    exact h1.born b
  split
  · split
    · exact h1
    · split
      · exact h1
      · split
        · exact h1
        · next p hp _ _ _ =>
          dsimp only
          exact hb _ (some p) (fun q hq => by cases hq; exact (h.wf.keys _ p hp).2)
  · split
    · exact h1
    · dsimp only
      exact hb _ none (fun q hq => by cases hq)

theorem startRequest_born (E : Env) (c : Connection) (req : Request) (txFinished : Bool)
    (extra : RequestExtra) (parent : Option Ptr) (hp : ∀ p, parent = some p → p < c.nextPtr)
    (hroom : c.room 1) :
    ∃ ins, Born c c.nextStreamId parent ins (onStartRequest
      (c.alloc { newStream E req txFinished extra with parent := parent }).2 c.nextPtr) := by
  generalize hv : ({ newStream E req txFinished extra with parent := parent } : stream) = v
  have hvl : v.links = (0, parent, [], none, none, 0) := by rw [← hv]; rfl
  have hv1 : v.parent = parent := congrArg (fun t => t.2.1) hvl
  have hv2 : v.children = [] := congrArg (fun t => t.2.2.1) hvl
  have hv3 : v.rxError = none := congrArg (fun t => t.2.2.2.1) hvl
  have hv4 : v.txError = none := congrArg (fun t => t.2.2.2.2.1) hvl
  have hv5 : v.txErrorChannelCloses = 0 := congrArg (fun t => t.2.2.2.2.2) hvl
  have hpar : (((c.alloc v).2.modify c.nextPtr
      fun x => { x with streamId := c.nextStreamId }).heap c.nextPtr).parent = parent := by
    simp [hv1]
  have hw : wrapInt (c.nextStreamId + 2) = c.nextStreamId + 2 := by
    obtain ⟨h0, h1⟩ := hroom
    exact wrapInt_of_range _ (by omega) (by omega)
  simp only [onStartRequest, handleStartRequest, Connection.alloc_nextStreamId, hw]
  split
  · refine ⟨false, ?_⟩
    exact
      { nextPtr := by simp
        streams := by simp
        newLinks := Or.inl (by simp [stream.links, hv1, hv2, hv3, hv4, hv5])
        oldLinks := fun p hpn => by simp [stream.links, hpn]
        parValid := hp
        kind := Or.inl ⟨rfl, by simpa using hw, by simp⟩ }
  · split
    · refine ⟨false, ?_⟩
      exact
        { nextPtr := by simp
          streams := by simp
          newLinks := Or.inl (by simp [stream.links, hv1, hv2, hv3, hv4, hv5])
          oldLinks := fun p hpn => by simp [stream.links, hpn]
          parValid := hp
          kind := Or.inl ⟨rfl, by simpa using hw, by simp⟩ }
    · refine ⟨true, ?_⟩
      split
      · next q hq =>
        have hq2 : parent = some q := by
          rw [← hpar]; exact hq
        have hqn : q ≠ c.nextPtr := Nat.ne_of_lt (hp q hq2)
        exact
          { nextPtr := by simp
            streams := by simp
            newLinks := Or.inl (by simp [stream.links, hv1, hv2, hv3, hv4, hv5, Ne.symm hqn])
            oldLinks := fun p hpn => by
              by_cases hpq : p = q
              · subst hpq; simp [stream.links, hpn, hq2]
              · simp [stream.links, hpn, hpq, hq2, Ne.symm hpq]
            parValid := hp
            kind := Or.inl ⟨rfl, by simpa using hw, by simp⟩ }
      · next hq =>
        have hq2 : parent = none := by
          rw [← hpar]; exact hq
        exact
          { nextPtr := by simp
            streams := by simp
            newLinks := Or.inl (by simp [stream.links, hv1, hv2, hv3, hv4, hv5])
            oldLinks := fun p hpn => by simp [stream.links, hpn, hq2]
            parValid := hp
            kind := Or.inl ⟨rfl, by simpa using hw, by simp⟩ }

theorem Swept.ptr_eq {err : Err} {cond : Int → Bool} {c0 ci : Connection}
    (h : Swept err cond c0 ci) : ci.nextPtr = c0.nextPtr := h.rel.nextPtr_eq

/-- The loop ends when the fuel exceeds the number of streams allocated. -/
theorem sweep_total (fuel : Nat) (err : Err) (cond : Int → Bool) (c0 : Connection)
    (f : Connection → Int × Ptr → Option Connection)
    (hf : ∀ ci e, FinRel c0 ci → f ci e =
      match ci.streams.get e.1 with
      | none => some ci
      | some s => if cond e.1 = true then finishStream fuel ci s err else some ci)
    (hfuel : c0.nextPtr < fuel) (l : List (Int × Ptr)) (h : Sound c0) :
    ∃ c3, l.foldlM f c0 = some c3 := by
  obtain ⟨c3, h3, _⟩ := foldlM_total (Swept err cond c0) f l (fun ci e _ hi => by
    rw [hf ci e hi.rel]
    split
    · exact ⟨ci, rfl, hi⟩
    · next s hg =>
      split
      · next hc =>
        obtain ⟨cj, hj⟩ := finishStream_total (fun p => ci.nextPtr - p) fuel ci s err
          hi.sound.wf.ranked (Nat.lt_of_le_of_lt (Nat.sub_le _ _) (hi.ptr_eq ▸ hfuel))
        have ls := hi.sound.wf.live_of_get hg
        have hid := (hi.sound.wf.keys _ s hg).1
        exact ⟨cj, hj, hi.after_finish fuel s ls (by rw [hid]; exact hc) hj⟩
      · exact ⟨ci, rfl, hi⟩) c0 (Swept.start err cond h)
  exact ⟨c3, h3⟩

theorem goAway_body (fuel : Nat) (c : Connection) (L : Int) (err : Err) (ci : Connection)
    (e : Int × Ptr)
    (rel : FinRel { c with goAway := true, onGoAwayCloses := c.onGoAwayCloses + 1 } ci) :
    (match ci.streams.get e.1 with
      | none => some ci
      | some s =>
        if (decide (e.1 > L) && decide (lowBit e.1 = lowBit ci.nextStreamId)) = true
        then finishStream fuel ci s err else some ci) =
    match ci.streams.get e.1 with
    | none => some ci
    | some s =>
      if (fun k => decide (k > L) && decide (lowBit k = lowBit c.nextStreamId)) e.1
        = true then finishStream fuel ci s err else some ci := by
  have : ci.nextStreamId = c.nextStreamId := rel.nextStreamId_eq
  rw [this]

/-- The loop of `handleGoAway`, started in a sound state. -/
theorem goAway_loop (fuel : Nat) (c : Connection) (L : Int) (err : Err) (h : Sound c)
    (c3 : Connection)
    (h3 : c.streams.foldlM (fun (ci : Connection) (e : Int × Ptr) =>
        match ci.streams.get e.1 with
        | none => some ci
        | some s =>
          if e.1 > L && lowBit e.1 = lowBit ci.nextStreamId then
            finishStream fuel ci s err
          else some ci) { c with goAway := true, onGoAwayCloses := c.onGoAwayCloses + 1 }
      = some c3) :
    Swept err (fun k => decide (k > L) && decide (lowBit k = lowBit c.nextStreamId))
        { c with goAway := true, onGoAwayCloses := c.onGoAwayCloses + 1 } c3 ∧
      ∀ e, e ∈ c.streams →
        (decide (e.1 > L) && decide (lowBit e.1 = lowBit c.nextStreamId)) = true →
        c3.streams.get e.1 = none := by
  have h2 : Sound { c with goAway := true, onGoAwayCloses := c.onGoAwayCloses + 1 } :=
    h.inert (Inert.of_same rfl rfl rfl (le_refl _) rfl)
  obtain ⟨s1, _, s3⟩ := sweep_spec fuel err
    (fun k => decide (k > L) && decide (lowBit k = lowBit c.nextStreamId))
    { c with goAway := true, onGoAwayCloses := c.onGoAwayCloses + 1 }
    (fun ci e => match ci.streams.get e.1 with
      | none => some ci
      | some s =>
        if (decide (e.1 > L) && decide (lowBit e.1 = lowBit ci.nextStreamId)) = true
        then finishStream fuel ci s err else some ci) (goAway_body fuel c L err) c.streams _ c3
    (Swept.start err _ h2) h3
  exact ⟨s1, s3⟩

theorem goAway_loop_total (fuel : Nat) (c : Connection) (L : Int) (err : Err) (h : Sound c)
    (hfuel : c.nextPtr < fuel) :
    ∃ c3, c.streams.foldlM (fun (ci : Connection) (e : Int × Ptr) =>
        match ci.streams.get e.1 with
        | none => some ci
        | some s =>
          if e.1 > L && lowBit e.1 = lowBit ci.nextStreamId then
            finishStream fuel ci s err
          else some ci) { c with goAway := true, onGoAwayCloses := c.onGoAwayCloses + 1 }
      = some c3 :=
  sweep_total fuel err
    (fun k => decide (k > L) && decide (lowBit k = lowBit c.nextStreamId))
    { c with goAway := true, onGoAwayCloses := c.onGoAwayCloses + 1 }
    (fun ci e => match ci.streams.get e.1 with
      | none => some ci
      | some s =>
        if (decide (e.1 > L) && decide (lowBit e.1 = lowBit ci.nextStreamId)) = true
        then finishStream fuel ci s err else some ci) (goAway_body fuel c L err) hfuel c.streams
    (h.inert (Inert.of_same rfl rfl rfl (le_refl _) rfl))

theorem teardown_body (fuel : Nat) (c : Connection) (err : Err) (ci : Connection)
    (e : Int × Ptr)
    (_rel : FinRel { c with goAway := true, onGoAwayCloses := c.onGoAwayCloses + 1 } ci) :
    (match ci.streams.get e.1 with
      | none => some ci
      | some s => finishStream fuel ci s err) =
    match ci.streams.get e.1 with
    | none => some ci
    | some s =>
      if (fun _ => true) e.1 = true then finishStream fuel ci s err else some ci := by
  simp

/-- The loop of the teardown, started in a sound state. -/
theorem teardown_loop (fuel : Nat) (c : Connection) (err : Err) (h : Sound c)
    (c3 : Connection)
    (h3 : c.streams.foldlM (fun (ci : Connection) (e : Int × Ptr) =>
        match ci.streams.get e.1 with
        | none => some ci
        | some s => finishStream fuel ci s err)
        { c with goAway := true, onGoAwayCloses := c.onGoAwayCloses + 1 } = some c3) :
    Swept err (fun _ => true)
        { c with goAway := true, onGoAwayCloses := c.onGoAwayCloses + 1 } c3 ∧
      ∀ e, e ∈ c.streams → c3.streams.get e.1 = none := by
  have h2 : Sound { c with goAway := true, onGoAwayCloses := c.onGoAwayCloses + 1 } :=
    h.inert (Inert.of_same rfl rfl rfl (le_refl _) rfl)
  obtain ⟨s1, _, s3⟩ := sweep_spec fuel err (fun _ => true)
    { c with goAway := true, onGoAwayCloses := c.onGoAwayCloses + 1 }
    (fun ci e => match ci.streams.get e.1 with
      | none => some ci
      | some s => finishStream fuel ci s err) (teardown_body fuel c err) c.streams _ c3
    (Swept.start err _ h2) h3
  exact ⟨s1, fun e he => s3 e he rfl⟩

theorem teardown_loop_total (fuel : Nat) (c : Connection) (err : Err) (h : Sound c)
    (hfuel : c.nextPtr < fuel) :
    ∃ c3, c.streams.foldlM (fun (ci : Connection) (e : Int × Ptr) =>
        match ci.streams.get e.1 with
        | none => some ci
        | some s => finishStream fuel ci s err)
        { c with goAway := true, onGoAwayCloses := c.onGoAwayCloses + 1 } = some c3 :=
  sweep_total fuel err (fun _ => true)
    { c with goAway := true, onGoAwayCloses := c.onGoAwayCloses + 1 }
    (fun ci e => match ci.streams.get e.1 with
      | none => some ci
      | some s => finishStream fuel ci s err) (teardown_body fuel c err) hfuel c.streams
    (h.inert (Inert.of_same rfl rfl rfl (le_refl _) rfl))

theorem handleRstStream_sound (fuel : Nat) (E : Env) (c : Connection) (d : List UInt8)
    (r : Option Err × Connection) (hr : handleRstStream fuel E c d = some r) (h : Sound c) :
    Sound r.2 := by
  simp only [handleRstStream] at hr
  split at hr
  · cases hr; exact h
  split at hr
  · cases hr; exact h
  · next s hs =>
    obtain ⟨c1, h1, h2⟩ := Option.map_eq_some'.mp hr
    subst h2
    obtain ⟨_, _, hs1, _⟩ := h.finish fuel s _ c1 (h.wf.live_of_get hs) h1
    exact hs1

theorem handleGoAway_sound (fuel : Nat) (E : Env) (c : Connection) (d : List UInt8)
    (r : Option Err × Connection) (hr : handleGoAway fuel E c d = some r) (h : Sound c) :
    Sound r.2 := by
  simp only [handleGoAway] at hr
  split at hr
  · cases hr; exact h
  split at hr
  · cases hr; exact h
  · obtain ⟨c1, h1, h2⟩ := Option.map_eq_some'.mp hr
    subst h2
    exact (goAway_loop fuel c _ _ h c1 h1).1.sound

theorem handleFrame_sound (fuel : Nat) (E : Env) (c : Connection) (d : List UInt8)
    (r : Option Err × Connection) (hf : handleFrame fuel E c d = some r) (h : Sound c) :
    Sound r.2 := by
  simp only [handleFrame] at hf
  split at hf
  · cases hf; exact h.inert (handleData_inert E c d)
  split at hf
  · cases hf; exact h
  split at hf
  · cases hf; exact handleSynStream_sound E c d h
  split at hf
  · cases hf; exact h.inert (handleSynReply_inert E c d)
  split at hf
  · exact handleRstStream_sound fuel E c d r hf h
  split at hf
  · cases hf; exact h.inert (handleSettings_inert E c d)
  split at hf
  · cases hf; exact h.inert (handlePing_inert E c d)
  split at hf
  · cases hf; exact h.inert (handleWindowUpdate_inert E c d)
  split at hf
  · cases hf; exact h.inert (handleHeaders_inert E c d)
  split at hf
  · exact handleGoAway_sound fuel E c d r hf h
  · cases hf; exact h

theorem onDispatch_sound (fuel : Nat) (E : Env) (c c1 : Connection) (d : List UInt8)
    (hd : onDispatch fuel E c d = some c1) (h : Sound c) : Sound c1 := by
  simp only [onDispatch] at hd
  split at hd
  · cases hd
  · next c2 hf =>
    cases hd
    exact (handleFrame_sound fuel E c d _ hf h).inert (Inert.of_same rfl rfl rfl (le_refl _) rfl)
  · next err c2 hf =>
    have w2 : Sound c2 := handleFrame_sound fuel E c d _ hf h
    split at hd
    · cases hd
      exact w2.inert (Inert.of_same rfl rfl rfl (le_refl _) rfl)
    · next sid _ =>
      have w3 : Sound (Spdy.sendReset c2 sid (resetCode E err)) :=
        w2.inert (Inert.of_same rfl rfl rfl (le_refl _) rfl)
      split at hd
      · next s hs =>
        obtain ⟨c3, h3, h4⟩ := Option.map_eq_some'.mp hd
        subst h4
        obtain ⟨_, _, hs1, _⟩ := w3.finish fuel s _ c3 (w3.wf.live_of_get hs) h3
        exact hs1.inert (Inert.of_same rfl rfl rfl (le_refl _) rfl)
      · cases hd
        exact w3.inert (Inert.of_same rfl rfl rfl (le_refl _) rfl)

theorem onStreamFinished_sound (fuel : Nat) (E : Env) (c c1 : Connection) (s : Ptr)
    (hs : onStreamFinished fuel E c s = some c1) (h : Sound c) : Sound c1 := by
  simp only [onStreamFinished] at hs
  split at hs
  · cases hs; exact h
  · next hl =>
    have hl2 : c.streams.get (c.heap s).streamId = some s := not_not.mp hl
    have w : ∀ c2 : Connection, Inert c c2 → ∀ e, finishStream fuel c2 s e = some c1 →
        Sound c1 := by
      intro c2 r e hf
      obtain ⟨_, _, hs1, _⟩ := (h.inert r).finish fuel s e c1 ((r.live_eq s).mpr hl2) hf
      exact hs1
    refine w _ ?_ _ hs
    split
    · exact Inert.of_same rfl rfl rfl (le_refl _) rfl
    · exact Inert.irefl c

theorem onRxError_sound (fuel : Nat) (c c1 : Connection) (err : Err)
    (hs : onRxError fuel c err = some c1) (h : Sound c) : Sound c1 := by
  simp only [onRxError] at hs
  obtain ⟨c3, h3, h4⟩ := Option.map_eq_some'.mp hs
  subst h4
  exact (teardown_loop fuel c err h c3 h3).1.sound.inert
    (Inert.of_same rfl rfl rfl (le_refl _) rfl)

theorem step_sound (fuel : Nat) (E : Env) (c c1 : Connection) (ev : Event)
    (hv : ev.valid c) (hs : step fuel E c ev = some c1) (h : Sound c) (hroom : c.room 1) :
    Sound c1 := by
  cases ev with
  | startRequest req txFinished extra parent =>
    simp only [step] at hs
    split at hs
    · cases hs; exact h
    · cases hs
      obtain ⟨ins, b⟩ := startRequest_born E c req txFinished extra parent (by
        intro p hp
        subst hp
        exact hv) hroom
      exact h.born b
  | streamFinished s =>
    simp only [step] at hs
    split at hs
    · cases hs; exact h
    · exact onStreamFinished_sound fuel E c c1 s hs h
  | dispatch d =>
    simp only [step] at hs
    split at hs
    · cases hs; exact h
    · exact onDispatch_sound fuel E c c1 d hs h
  | rxError err =>
    simp only [step] at hs
    split at hs
    · cases hs; exact h
    · exact onRxError_sound fuel c c1 err hs h

theorem Sound.at_first (E : Env) (addr : String) (handler : Option Handler) (version : Int)
    (server : Bool) : Sound (NewConnection E addr handler version server) where
  wf := WellFormed.at_new E addr handler version server
  keysNodup := List.nodup_nil
  ordered := fun p q _ hq => absurd hq (Nat.not_lt_zero q)
  localBound := fun p hp => absurd hp (Nat.not_lt_zero p)
  remoteBound := fun p hp => absurd hp (Nat.not_lt_zero p)
  fresh := fun p lp => by cases lp
  once := fun p => Nat.zero_le 1
  childrenNodup := fun p => List.nodup_nil
  childLive := fun y a ly => by cases ly
  parentLink := fun y a ha => absurd ha (List.not_mem_nil a)

/-- A step uses up at most one unit of the room of the id allocator. -/
theorem step_room (fuel : Nat) (E : Env) (c c1 : Connection) (ev : Event) (n : Nat)
    (hs : step fuel E c ev = some c1) (h : c.room (n + 1)) : c1.room n := by
  obtain ⟨h0, h1⟩ := h
  have hsame : c1.nextStreamId = c.nextStreamId → c1.room n := by
    intro e
    refine ⟨e ▸ h0, ?_⟩
    rw [e]
    push_cast at h1
    omega
  have hplus : c1.nextStreamId = c.nextStreamId + 2 → c1.room n := by
    intro e
    unfold Connection.room
    rw [e]
    push_cast at h1
    exact ⟨by omega, by omega⟩
  cases ev with
  | startRequest req txFinished extra parent =>
    simp only [step] at hs
    split at hs
    · cases hs; exact hsame rfl
    · cases hs
      apply hplus
      simp only [onStartRequest]
      rw [(handleStartRequest_fields _ _).2.2.2.2.2, Connection.alloc_nextStreamId]
      push_cast at h1
      exact wrapInt_of_range _ (by omega) (by omega)
  | streamFinished s =>
    simp only [step] at hs
    split at hs
    · cases hs; exact hsame rfl
    · exact hsame (onStreamFinished_quiet fuel E c c1 s hs).nextStreamId
  | dispatch d =>
    simp only [step] at hs
    split at hs
    · cases hs; exact hsame rfl
    · exact hsame (onDispatch_quiet fuel E c c1 d hs).nextStreamId
  | rxError err =>
    simp only [step] at hs
    split at hs
    · cases hs; exact hsame rfl
    · exact hsame (onRxError_quiet fuel c c1 err hs).nextStreamId

/-- The allocator of a new connection has room for `2 ^ 61` start requests. -/
theorem NewConnection_room (E : Env) (addr : String) (handler : Option Handler)
    (version : Int) (server : Bool) (n : Nat) (h : n < 2 ^ 61) :
    (NewConnection E addr handler version server).room n := by
  have h2 : (n : Int) < 2 ^ 61 := by exact_mod_cast h
  cases server
  · exact ⟨by simp [NewConnection], by simp only [NewConnection]; simp; omega⟩
  · exact ⟨by simp [NewConnection], by simp only [NewConnection]; simp; omega⟩

/-- Every state reached by valid events from a sound state whose id allocator
has room for them is sound. -/
theorem ValidRun.sound (fuel : Nat) (E : Env) (evs : List Event) :
    ∀ c c1 : Connection, Sound c → c.room evs.length → ValidRun fuel E c evs c1 →
      Sound c1 := by
  induction evs with
  | nil => intro c c1 h _ hr; cases hr; exact h
  | cons ev evs ih =>
    intro c c1 h hroom hr
    obtain ⟨hv, cm, hs, hrest⟩ := hr
    have h1 : c.room 1 := by
      obtain ⟨a, b⟩ := hroom
      refine ⟨a, ?_⟩
      simp only [List.length_cons] at b
      push_cast at b ⊢
      omega
    exact ih cm c1 (step_sound fuel E c cm ev hv hs h h1)
      (step_room fuel E c cm ev evs.length hs hroom) hrest

/-- Every state reached from `NewConnection` by fewer than `2 ^ 61` valid
events, so that the id allocator has not wrapped, is sound. -/
theorem ValidRun.sound_of_new (fuel : Nat) (E : Env) (addr : String)
    (handler : Option Handler) (version : Int) (server : Bool) (evs : List Event)
    (c : Connection) (hroom : evs.length < 2 ^ 61)
    (hreach : ValidRun fuel E (NewConnection E addr handler version server) evs c) :
    Sound c :=
  ValidRun.sound fuel E evs _ c (Sound.at_first E addr handler version server)
    (NewConnection_room E addr handler version server evs.length hroom) hreach

theorem StreamTable.mem_of_get : ∀ (m : StreamTable) (k : Int) (p : Ptr),
    StreamTable.get m k = some p → (k, p) ∈ m := by
  intro m
  induction m with
  | nil => intro k p h; cases h
  | cons e rest ih =>
    intro k p h
    obtain ⟨k0, v0⟩ := e
    simp only [StreamTable.get] at h
    split at h
    · next hk =>
      cases h
      subst hk
      exact List.mem_cons_self _ _
    · exact List.mem_cons_of_mem _ (ih k p h)

/-- Descendants depend on the heap only. -/
theorem Desc.of_heap {c c1 : Connection} {s q : Ptr} (hd : Desc c1 s q)
    (h : c1.heap = c.heap) : Desc c s q :=
  Desc.mono (fun p a ha => by rw [h] at ha; exact ha) hd

theorem handleGoAway_translate (E : Env) (version : Int) (f : goAwayFrame)
    (hd : E.goAwayDistinct) :
    goAwayErrorSpec E version f
      (if f.Reason = E.rstSuccess then Err.GoAway
        else if f.Reason = E.rstUnsupportedVersion then Err.SessionVersion version
        else if f.Reason = E.rstFlowControlError then Err.SessionFlowControl
        else Err.SessionProtocol) := by
  simp only [Env.goAwayDistinct, List.nodup_cons, List.mem_cons, List.mem_singleton, not_or,
    List.not_mem_nil, not_false_eq_true, List.nodup_nil, and_true] at hd
  obtain ⟨⟨h12, h13⟩, h23⟩ := hd
  refine ⟨?_, ?_, ?_, ?_⟩
  · intro h; rw [if_pos h]
  · intro h
    rw [if_neg (by rw [h]; exact fun e => h12 e.symm), if_pos h]
  · intro h
    rw [if_neg (by rw [h]; exact fun e => h13 e.symm), if_neg (by rw [h]; exact fun e => h23 e.symm),
      if_pos h]
  · intro h1 h2 h3
    rw [if_neg h1, if_neg h2, if_neg h3]

/-- What `handleGoAway` does in a sound state in which `onGoAway` has not been
closed: the channel is closed once, no transmit error channel is closed twice,
the streams of the local parity above `LastStreamId` leave the table with the
translated error, and the other streams that are not below one of them stay,
untouched. -/
theorem handleGoAway_effect (fuel : Nat) (E : Env) (c : Connection) (d : List UInt8)
    (f : goAwayFrame) (hs : Sound c) (hfuel : c.nextPtr < fuel) (hd : E.goAwayDistinct)
    (hopen : c.onGoAwayCloses = 0)
    (hparse : E.parseGoAway d = .ok f) (hver : f.Version = c.version) :
    ∃ c1 err, handleGoAway fuel E c d = some (none, c1) ∧
      goAwayErrorSpec E c.version f err ∧ c1.goAway = true ∧ c1.onGoAwayCloses = 1 ∧
      (∀ p, (c1.heap p).txErrorChannelCloses ≤ 1) ∧
      (∀ k p, c.streams.get k = some p → lowBit k = lowBit c.nextStreamId →
        f.LastStreamId < k →
        c1.streams.get k = none ∧ (c1.heap p).rxError = some err ∧
          (c1.heap p).txError = some err) ∧
      (∀ k p, c.streams.get k = some p → lowBit k = lowBit c.nextStreamId →
        k ≤ f.LastStreamId →
        c1.streams.get k = some p ∧ (c1.heap p).rxError = none ∧
          (c1.heap p).txError = none) ∧
      (∀ k p, c.streams.get k = some p →
        (∀ j t, c.streams.get j = some t → lowBit j = lowBit c.nextStreamId →
          f.LastStreamId < j → ¬ Desc c t p) →
        c1.streams.get k = some p ∧ (c1.heap p).rxError = none ∧
          (c1.heap p).txError = none) := by
  generalize herr : (if f.Reason = E.rstSuccess then Err.GoAway
      else if f.Reason = E.rstUnsupportedVersion then Err.SessionVersion c.version
      else if f.Reason = E.rstFlowControlError then Err.SessionFlowControl
      else Err.SessionProtocol) = err
  have hspec : goAwayErrorSpec E c.version f err := herr ▸ handleGoAway_translate E c.version f hd
  obtain ⟨c3, h3⟩ := goAway_loop_total fuel c f.LastStreamId err hs hfuel
  obtain ⟨sw, gone⟩ := goAway_loop fuel c f.LastStreamId err hs c3 h3
  have hrun : handleGoAway fuel E c d = some (none, c3) := by
    simp only [handleGoAway, hparse, hver, ne_eq, not_true_eq_false, if_false, herr]
    exact Option.map_eq_some'.mpr ⟨c3, h3, rfl⟩
  have hga : c3.goAway = true := by
    have e := congrArg Connection.goAway sw.rel.ctl
    exact e
  -- a stream of the table either stays, untouched, or is below a finished stream
  have part : ∀ k p, c.streams.get k = some p →
      (c3.streams.get k = some p ∧ (c3.heap p).rxError = none ∧ (c3.heap p).txError = none) ∨
      (c3.streams.get k = none ∧ (c3.heap p).rxError = some err ∧
        (c3.heap p).txError = some err ∧
        ∃ r, c.live r ∧ f.LastStreamId < (c.heap r).streamId ∧
          lowBit (c.heap r).streamId = lowBit c.nextStreamId ∧ Desc c r p) := by
    intro k p hk
    have lp : c.live p := hs.wf.live_of_get hk
    have hid : (c.heap p).streamId = k := (hs.wf.keys k p hk).1
    have hid3 : (c3.heap p).streamId = k := (sw.rel.id_eq p).trans hid
    obtain ⟨f1, f2, _⟩ := hs.fresh p lp
    rcases sw.part p lp with ⟨l3, e1, e2, _⟩ | ⟨l3, e1, e2, _, r, lr, hc, hdesc⟩
    · left
      unfold Connection.live at l3
      rw [hid3] at l3
      exact ⟨l3, e1.trans f1, e2.trans f2⟩
    · right
      refine ⟨?_, e1, e2, r, lr, ?_, ?_, hdesc.of_heap rfl⟩
      · cases hg : c3.streams.get k with
        | none => rfl
        | some q =>
          exfalso
          have := sw.rel.get_some k q hg
          rw [hk] at this
          cases this
          exact l3 (by unfold Connection.live; rw [hid3]; exact hg)
      · simp only [Bool.and_eq_true, decide_eq_true_eq] at hc
        exact hc.1
      · simp only [Bool.and_eq_true, decide_eq_true_eq] at hc
        exact hc.2
  have hcl : c3.onGoAwayCloses = 1 := by
    have e := congrArg Connection.onGoAwayCloses sw.rel.ctl
    have e2 : c3.onGoAwayCloses = c.onGoAwayCloses + 1 := e
    rw [e2, hopen]
  refine ⟨c3, err, hrun, hspec, hga, hcl, sw.sound.once, ?_, ?_, ?_⟩
  · intro k p hk hpar hgt
    have hnone := gone (k, p) (StreamTable.mem_of_get _ k p hk) (by
      simp only [Bool.and_eq_true, decide_eq_true_eq]
      exact ⟨hgt, hpar⟩)
    rcases part k p hk with ⟨h1, _⟩ | ⟨_, h2, h3, _⟩
    · rw [hnone] at h1; cases h1
    · exact ⟨hnone, h2, h3⟩
  · intro k p hk hpar hle
    rcases part k p hk with h1 | ⟨_, _, _, r, lr, hgt, hlow, hdesc⟩
    · exact h1
    · exfalso
      have hid : (c.heap p).streamId = k := (hs.wf.keys k p hk).1
      have hp : p < c.nextPtr := (hs.wf.keys k p hk).2
      rcases Nat.eq_or_lt_of_le (Desc.le hs.wf hdesc) with e | hlt
      · subst e
        rw [hid] at hgt
        exact absurd (lt_of_lt_of_le hgt hle) (lt_irrefl _)
      · have := hs.ordered r p hlt hp (by rw [hlow, hid, hpar])
        rw [hid] at this
        exact absurd (lt_of_lt_of_le (lt_trans hgt this) hle) (lt_irrefl _)
  · intro k p hk hnot
    rcases part k p hk with h1 | ⟨_, _, _, r, lr, hgt, hlow, hdesc⟩
    · exact h1
    · exact absurd hdesc (hnot _ r lr hlow hgt)

/-- A table that has lost every key it had is empty. -/
theorem StreamTable.filter_empty (m : StreamTable) (q : Int → Bool)
    (h : ∀ e, e ∈ m → StreamTable.get (m.filter fun e => q e.1) e.1 = none) :
    (m.filter fun e => q e.1) = [] := by
  cases hm : (m.filter fun e => q e.1) with
  | nil => rfl
  | cons x rest =>
    exfalso
    have hx : x ∈ m.filter fun e => q e.1 := by rw [hm]; exact List.mem_cons_self _ _
    have := h x (List.mem_filter.mp hx).1
    rw [hm] at this
    simp [StreamTable.get] at this

/-- What the teardown does in a sound state in which `onGoAway` has not been
closed: the channel is closed once, the table is emptied, the control channel
and the socket are closed, and every stream of the table, with every stream
below it, is finished once with the error. -/
theorem teardown_effect (fuel : Nat) (E : Env) (c : Connection) (err : Err) (hs : Sound c)
    (hfuel : c.nextPtr < fuel) (hrun : c.returned = false) (hopen : c.onGoAwayCloses = 0) :
    ∃ c1, step fuel E c (.rxError err) = some c1 ∧
      c1.goAway = true ∧ c1.onGoAwayCloses = 1 ∧ c1.streams = [] ∧
      c1.sendControlCloses = c.sendControlCloses + 1 ∧
      c.socketCloses < c1.socketCloses ∧ c1.returned = true ∧
      ∀ k p, c.streams.get k = some p → ∀ a, Desc c p a →
        (c1.heap a).rxError = some err ∧ (c1.heap a).txError = some err ∧
        (c.heap a).txErrorChannelCloses = 0 ∧ (c1.heap a).txErrorChannelCloses = 1 := by
  obtain ⟨c3, h3⟩ := teardown_loop_total fuel c err hs hfuel
  obtain ⟨sw, gone⟩ := teardown_loop fuel c err hs c3 h3
  have hstep : step fuel E c (.rxError err) = some
      { c3 with
        sendControlCloses := c3.sendControlCloses + 1
        socketCloses := c3.socketCloses + 1
        returned := true } := by
    have h0 : step fuel E c (.rxError err) = onRxError fuel c err := by
      simp only [step, hrun]
      rfl
    rw [h0]
    exact Option.map_eq_some'.mpr ⟨c3, h3, rfl⟩
  have hga : c3.goAway = true := by
    have e := congrArg Connection.goAway sw.rel.ctl
    exact e
  have hctl : c3.sendControlCloses = c.sendControlCloses := by
    have e := congrArg Connection.sendControlCloses sw.rel.ctl
    exact e
  have hsock : c.socketCloses ≤ c3.socketCloses := sw.rel.socket
  have hempty : c3.streams = [] := by
    obtain ⟨q, hq⟩ := sw.rel.streams
    rw [hq]
    refine StreamTable.filter_empty c.streams q (fun e he => ?_)
    have := gone e he
    rw [hq] at this
    exact this
  have hcl : c3.onGoAwayCloses = 1 := by
    have e := congrArg Connection.onGoAwayCloses sw.rel.ctl
    have e2 : c3.onGoAwayCloses = c.onGoAwayCloses + 1 := e
    rw [e2, hopen]
  refine ⟨_, hstep, hga, hcl, hempty, by rw [← hctl], Nat.lt_succ_of_le hsock, rfl, ?_⟩
  intro k p hk a hdesc
  have lp : c.live p := hs.wf.live_of_get hk
  have la : c.live a := Desc.alive hs lp hdesc
  obtain ⟨_, _, f3⟩ := hs.fresh a la
  rcases sw.part a la with ⟨l3, _⟩ | ⟨_, e1, e2, e3, _⟩
  · exfalso
    unfold Connection.live at l3
    rw [hempty] at l3
    cases l3
  · refine ⟨e1, e2, f3, ?_⟩
    show (c3.heap a).txErrorChannelCloses = 1
    rw [e3]
    show (c.heap a).txErrorChannelCloses + 1 = 1
    rw [f3]

/-- The stream that `handleSynStream.accept` creates is in the table exactly
when not both of its directions are finished. -/
theorem accept_inserted (E : Env) (c : Connection) (f : synStreamFrame) (handler : Handler)
    (parent : Option Ptr) (hwf : WellFormed c) (hp : ∀ p, parent = some p → p < c.nextPtr) :
    (handleSynStream.accept E c f handler parent).nextPtr = c.nextPtr + 1 ∧
    ((handleSynStream.accept E c f handler parent).live c.nextPtr ↔
      ¬ (((handleSynStream.accept E c f handler parent).heap c.nextPtr).txFinished = true ∧
        ((handleSynStream.accept E c f handler parent).heap c.nextPtr).rxFinished = true)) := by
  have hfree : ∀ k, c.streams.get k ≠ some c.nextPtr := fun k hk =>
    absurd (hwf.keys k _ hk).2 (Nat.lt_irrefl _)
  unfold Connection.live
  simp only [handleSynStream.accept, Connection.alloc_fst]
  generalize newStream E _ f.Unidirectional _ = v
  split
  · next hins =>
    cases parent with
    | none =>
      refine ⟨by simp, ?_⟩
      simp only [Connection.modify_heap, Connection.alloc_heap, if_true, Connection.modify_streams,
        Connection.alloc_streams, StreamTable.get_set, true_iff]
      cases h1 : v.txFinished <;> cases h2 : v.rxFinished <;> simp [h1, h2] at hins ⊢
    | some q =>
      have hq : q ≠ c.nextPtr := Nat.ne_of_lt (hp q rfl)
      refine ⟨by simp, ?_⟩
      simp only [Connection.modify_heap, Connection.alloc_heap, if_true, Connection.modify_streams,
        Connection.alloc_streams, StreamTable.get_set, true_iff, Ne.symm hq, if_false]
      cases h1 : v.txFinished <;> cases h2 : v.rxFinished <;> simp [h1, h2] at hins ⊢
  · next hins =>
    refine ⟨by simp, ?_⟩
    simp only [Connection.modify_heap, Connection.alloc_heap, if_true, Connection.modify_streams,
      Connection.alloc_streams]
    constructor
    · intro h
      exact absurd h (hfree _)
    · intro h
      exfalso
      apply h
      cases h1 : v.txFinished <;> cases h2 : v.rxFinished <;> simp [h1, h2] at hins ⊢


/-- The stream that an accepted `SYN_STREAM` creates is in the table exactly
when not both of its directions are finished. -/
theorem handleSynStream_created (E : Env) (c : Connection) (d : List UInt8) (hwf : WellFormed c)
    (hok : (handleSynStream E c d).1 = none) :
    (handleSynStream E c d).2.nextPtr = c.nextPtr + 1 ∧
    ((handleSynStream E c d).2.live c.nextPtr ↔
      ¬ (((handleSynStream E c d).2.heap c.nextPtr).txFinished = true ∧
        ((handleSynStream E c d).2.heap c.nextPtr).rxFinished = true)) := by
  cases hparse : E.parseSynStream c.unzip d with
  | error err => simp [handleSynStream, hparse] at hok
  | ok f =>
    simp only [handleSynStream, hparse] at hok ⊢
    split at hok
    · cases hok
    split at hok
    · cases hok
    split at hok
    · cases hok
    split at hok
    · cases hok
    rw [if_neg (by assumption), if_neg (by assumption), if_neg (by assumption),
      if_neg (by assumption)]
    have h1 : WellFormed { c with unzip := c.unzip ++ [d], lastStreamOpened := f.StreamId } :=
      ⟨hwf.keys, hwf.order⟩
    split at hok
    · next hassoc =>
      rw [if_pos hassoc]
      split at hok
      · cases hok
      · next hpar =>
        rw [if_neg hpar]
        split at hok
        · cases hok
        · next p hp =>
          split at hok
          · cases hok
          · next handler hh =>
            simp only [hp, hh]
            exact accept_inserted E _ f handler (some p) h1
              (fun q hq => by cases hq; exact (hwf.keys _ p hp).2)
    · next hassoc =>
      rw [if_neg hassoc]
      split at hok
      · cases hok
      · next handler hh =>
        simp only [hh]
        exact accept_inserted E _ f handler none ⟨hwf.keys, hwf.order⟩ (fun q hq => by cases hq)

/-- The stream of a start request is in the table exactly when the request is
not refused and not both of its directions are finished. -/
theorem startRequest_created (E : Env) (c : Connection) (req : Request) (txFinished : Bool)
    (extra : RequestExtra) (parent : Option Ptr) (hwf : WellFormed c)
    (hp : ∀ p, parent = some p → p < c.nextPtr) :
    ∃ r, (onStartRequest (c.alloc { newStream E req txFinished extra with parent := parent }).2
        c.nextPtr).onRequestStarted = c.onRequestStarted ++ [r] ∧
      (r = none →
        ((onStartRequest (c.alloc { newStream E req txFinished extra with parent := parent }).2
            c.nextPtr).live c.nextPtr ↔
          ¬ (((onStartRequest
              (c.alloc { newStream E req txFinished extra with parent := parent }).2
              c.nextPtr).heap c.nextPtr).txFinished = true ∧
            ((onStartRequest
              (c.alloc { newStream E req txFinished extra with parent := parent }).2
              c.nextPtr).heap c.nextPtr).rxFinished = true))) ∧
      (r ≠ none →
        ¬ (onStartRequest (c.alloc { newStream E req txFinished extra with parent := parent }).2
            c.nextPtr).live c.nextPtr) := by
  have hfree : ∀ k, c.streams.get k ≠ some c.nextPtr := fun k hk =>
    absurd (hwf.keys k _ hk).2 (Nat.lt_irrefl _)
  generalize hv : ({ newStream E req txFinished extra with parent := parent } : stream) = v
  have hv1 : v.parent = parent := by rw [← hv]
  have hpar : (((c.alloc v).2.modify c.nextPtr
      fun x => { x with streamId := c.nextStreamId }).heap c.nextPtr).parent = parent := by
    simp [hv1]
  unfold Connection.live
  simp only [onStartRequest, handleStartRequest, Connection.alloc_nextStreamId]
  split
  · refine ⟨some Err.GoAway, ?_, ?_, ?_⟩
    · simp
    · intro h; cases h
    · intro _
      simp only [Connection.modify_heap, Connection.alloc_heap, if_true,
        Connection.modify_streams, Connection.alloc_streams]
      exact hfree _
  · split
    · next hboth =>
      refine ⟨none, ?_, ?_, ?_⟩
      · simp
      · intro _
        simp only [Connection.modify_heap, Connection.alloc_heap, if_true,
          Connection.modify_streams, Connection.alloc_streams]
        constructor
        · intro h
          exact absurd h (hfree _)
        · intro h
          exfalso
          apply h
          cases h1 : v.txFinished <;> cases h2 : v.rxFinished <;> simp [h1, h2] at hboth ⊢
      · intro h; exact absurd rfl h
    · next hboth =>
      refine ⟨none, ?_, ?_, ?_⟩
      · split <;> simp
      · intro _
        split
        · next q hq =>
          have hq2 : parent = some q := by
            rw [← hpar]; exact hq
          have hqn : q ≠ c.nextPtr := Nat.ne_of_lt (hp q hq2)
          simp only [Connection.modify_heap, Connection.alloc_heap, if_true,
            Connection.modify_streams, Connection.alloc_streams, StreamTable.get_set, true_iff,
            Ne.symm hqn, if_false]
          cases h1 : v.txFinished <;> cases h2 : v.rxFinished <;> simp [h1, h2] at hboth ⊢
        · simp only [Connection.modify_heap, Connection.alloc_heap, if_true,
            Connection.modify_streams, Connection.alloc_streams, StreamTable.get_set, true_iff]
          cases h1 : v.txFinished <;> cases h2 : v.rxFinished <;> simp [h1, h2] at hboth ⊢
      · intro h; exact absurd rfl h

/-! ## C11: a `SETTINGS` frame that changes the window -/

/-- The loop of `handleSettings` over a table that holds every stream once. -/
theorem foldl_modify_window (change : Int) (l : StreamTable) :
    ∀ c : Connection, (l.map Prod.snd).Nodup →
      (l.foldl (fun ci e => ci.modify e.2 fun x =>
          { x with txWindow := wrapInt (x.txWindow + change) }) c).rxWindow = c.rxWindow ∧
      (l.foldl (fun ci e => ci.modify e.2 fun x =>
          { x with txWindow := wrapInt (x.txWindow + change) }) c).streams = c.streams ∧
      ∀ p, (l.foldl (fun ci e => ci.modify e.2 fun x =>
          { x with txWindow := wrapInt (x.txWindow + change) }) c).heap p =
        if p ∈ l.map Prod.snd then
          { c.heap p with txWindow := wrapInt ((c.heap p).txWindow + change) }
        else c.heap p := by
  induction l with
  | nil => intro c _; simp
  | cons e l ih =>
    intro c hnd
    rw [List.map_cons, List.nodup_cons] at hnd
    obtain ⟨h1, h2, h3⟩ := ih
      (c.modify e.2 fun x => { x with txWindow := wrapInt (x.txWindow + change) }) hnd.2
    rw [List.foldl_cons]
    refine ⟨by rw [h1]; simp, by rw [h2]; simp, fun p => ?_⟩
    rw [h3 p]
    by_cases hp : p = e.2
    · subst hp
      simp [hnd.1]
    · by_cases hm : p ∈ l.map Prod.snd
      · simp [hm, hp]
      · simp only [hm, if_false, List.map_cons, List.mem_cons, hp, or_self]
        simp [hp]

/-- In a table without repeated keys an entry is what the table returns for its key. -/
theorem StreamTable.get_of_mem : ∀ (m : StreamTable), (m.map Prod.fst).Nodup →
    ∀ (k : Int) (p : Ptr), (k, p) ∈ m → StreamTable.get m k = some p := by
  intro m
  induction m with
  | nil => intro _ k p h; cases h
  | cons e rest ih =>
    intro hnd k p h
    obtain ⟨k0, v0⟩ := e
    rw [List.map_cons, List.nodup_cons] at hnd
    simp only [StreamTable.get]
    rcases List.mem_cons.mp h with h | h
    · cases h
      simp
    · have hne : k0 ≠ k := fun e => hnd.1 (List.mem_map.mpr ⟨(k, p), h, e.symm⟩)
      rw [if_neg hne]
      exact ih hnd.2 k p h

/-- In a sound state, and so in every state the dispatcher reaches, no stream is
held by two entries of the table. -/
theorem Sound.ptrs_nodup {c : Connection} (h : Sound c) : (c.streams.map Prod.snd).Nodup := by
  refine List.Nodup.map_on ?_ (List.Nodup.of_map _ h.keysNodup)
  intro x hx y hy hxy
  obtain ⟨kx, px⟩ := x
  obtain ⟨ky, py⟩ := y
  have e1 := (h.wf.keys kx px (StreamTable.get_of_mem _ h.keysNodup kx px hx)).1
  have e2 := (h.wf.keys ky py (StreamTable.get_of_mem _ h.keysNodup ky py hy)).1
  have hp : px = py := hxy
  subst hp
  rw [e1] at e2
  rw [e2]

/-- What `handleSettings` does with a window. In a state whose table holds each of its streams once, a
`SETTINGS` buffer that parses to a frame of the version of the connection with
`HaveWindow` set makes `handleSettings` return nil, leaves `rxWindow` equal to
the window `W` of the frame, leaves the table as it was, and replaces every
stream of the table by itself with `txWindow` set to the old value plus
`W - R`, where `R` is the old `rxWindow`, both the difference and the sum
reduced to the 64 bits of a Go `int`; when `W - R` and the sum lie in the
range of an `int` the new `txWindow` is the old value plus `W - R` (which may
be negative). No other field of a stream of the table changes and no other
stream changes. -/
theorem handleSettings_window (E : Env) (c : Connection) (d : List UInt8) (f : settingsFrame)
    (hparse : E.parseSettings d = .ok f) (hver : f.Version = c.version)
    (hwin : f.HaveWindow = true) (hnd : (c.streams.map Prod.snd).Nodup) :
    (handleSettings E c d).1 = none ∧
    (handleSettings E c d).2.rxWindow = f.Window ∧
    (handleSettings E c d).2.streams = c.streams ∧
    (∀ e, e ∈ c.streams → (handleSettings E c d).2.heap e.2 =
      { c.heap e.2 with
        txWindow := wrapInt ((c.heap e.2).txWindow + wrapInt (f.Window - c.rxWindow)) }) ∧
    (∀ e, e ∈ c.streams → inInt (f.Window - c.rxWindow) →
      inInt ((c.heap e.2).txWindow + (f.Window - c.rxWindow)) →
      (handleSettings E c d).2.heap e.2 =
        { c.heap e.2 with txWindow := (c.heap e.2).txWindow + (f.Window - c.rxWindow) }) ∧
    (∀ p, p ∉ c.streams.map Prod.snd → (handleSettings E c d).2.heap p = c.heap p) := by
  have h := foldl_modify_window (wrapInt (f.Window - c.rxWindow)) c.streams
    { c with rxWindow := f.Window } hnd
  have hs : handleSettings E c d = (none, c.streams.foldl
      (fun ci e => ci.modify e.2 fun x =>
        { x with txWindow := wrapInt (x.txWindow + wrapInt (f.Window - c.rxWindow)) })
      { c with rxWindow := f.Window }) := by
    simp [handleSettings, hparse, hver, hwin]
  have hexact : ∀ e, e ∈ c.streams → (handleSettings E c d).2.heap e.2 =
      { c.heap e.2 with
        txWindow := wrapInt ((c.heap e.2).txWindow + wrapInt (f.Window - c.rxWindow)) } := by
    intro e he
    rw [hs]
    have := h.2.2 e.2
    rw [if_pos (List.mem_map_of_mem _ he)] at this
    exact this
  refine ⟨by rw [hs], by rw [hs]; exact h.1, by rw [hs]; exact h.2.1, hexact, ?_, ?_⟩
  · intro e he h1 h2
    rw [hexact e he, wrapInt_of_range _ h1.1 h1.2, wrapInt_of_range _ h2.1 h2.2]
  · intro p hp
    rw [hs]
    have := h.2.2 p
    rw [if_neg hp] at this
    exact this

/-- The dispatcher step for a `WINDOW_UPDATE` frame of the version of the
connection for a stream of the table: the delta is added to `txWindow` on 64
bits, and there is no test of the result. -/
theorem step_windowUpdate (fuel : Nat) (E : Env) (c : Connection) (s : Ptr) (d : List UInt8)
    (f : windowUpdateFrame)
    (hf : handleFrame fuel E c d = some (handleWindowUpdate E c d))
    (hparse : E.parseWindowUpdate d = .ok f)
    (hrun : c.returned = false) (hver : f.Version = c.version)
    (hs : c.streams.get f.StreamId = some s) :
    step fuel E c (.dispatch d) = some
      { c.modify s fun x => { x with txWindow := wrapInt (x.txWindow + f.WindowDelta) } with
        dispatched := c.dispatched ++ [none] } := by
  rw [step_dispatch fuel E c _ hrun, onDispatch, hf]
  simp only [handleWindowUpdate, hparse, hs, hver, ne_eq, not_true_eq_false, if_false]
  rfl

/-- A run of `n` such frames adds `n` times the delta, on 64 bits, and changes
nothing else but the acknowledgements. -/
theorem Run_windowUpdates (fuel : Nat) (E : Env) (s : Ptr) (d : List UInt8)
    (f : windowUpdateFrame)
    (hf : ∀ c, handleFrame fuel E c d = some (handleWindowUpdate E c d))
    (hparse : E.parseWindowUpdate d = .ok f) : ∀ (n : Nat) (c : Connection),
    c.returned = false → f.Version = c.version → c.streams.get f.StreamId = some s →
    inInt (c.heap s).txWindow →
    ∃ c1, Run fuel E c (List.replicate n (.dispatch d)) = some c1 ∧
      c1.returned = false ∧ c1.version = c.version ∧ c1.streams = c.streams ∧
      c1.rxWindow = c.rxWindow ∧ c1.nextPtr = c.nextPtr ∧
      (c1.heap s).txWindow = wrapInt ((c.heap s).txWindow + n * f.WindowDelta) := by
  intro n
  induction n with
  | zero =>
    intro c h1 _ _ h4
    refine ⟨c, rfl, h1, rfl, rfl, rfl, rfl, ?_⟩
    simp only [Nat.cast_zero, zero_mul, add_zero]
    exact (wrapInt_of_range _ h4.1 h4.2).symm
  | succ n ih =>
    intro c h1 h2 h3 _
    have hstep := step_windowUpdate fuel E c s d f (hf c) hparse h1 h2 h3
    obtain ⟨c1, e1, e2, e3, e4, e5, e6, e7⟩ := ih
      { c.modify s fun x => { x with txWindow := wrapInt (x.txWindow + f.WindowDelta) } with
        dispatched := c.dispatched ++ [none] } h1 h2 h3
      (by simpa using wrapInt_range _)
    refine ⟨c1, ?_, e2, e3, e4, e5, e6, ?_⟩
    · simp only [List.replicate_succ, Run, hstep, Option.some_bind]
      exact e1
    · rw [e7]
      simp only [Connection.modify_heap, if_true]
      rw [wrapInt_add]
      congr 1
      push_cast
      ring

/-- A run over two lists of events is the run over the second from the end of
the run over the first. -/
theorem Run_append (fuel : Nat) (E : Env) (l1 l2 : List Event) : ∀ c : Connection,
    Run fuel E c (l1 ++ l2) = (Run fuel E c l1).bind fun c1 => Run fuel E c1 l2 := by
  induction l1 with
  | nil => intro c; rfl
  | cons ev l1 ih =>
    intro c
    simp only [List.cons_append, Run]
    cases step fuel E c ev with
    | none => rfl
    | some cm => exact ih cm

/-- The client is brought to the edge of the range of a Go `int`: after a start
request for stream 1 and `2 ^ 32 + 2` `WINDOW_UPDATE` frames for it, stream 1
is in the table with a transmit window of `2 ^ 63 - 2147418111`, and the
session window is still 65536. -/
theorem exWindowEvents_run :
    ∃ c, Run 1 wireSettings exClient exWindowEvents = some c ∧
      c.streams = [(1, 0)] ∧ c.rxWindow = 65536 ∧ c.version = 3 ∧
      (c.heap 0).txWindow = 2 ^ 63 - 2147418111 := by
  have h0 : Run 1 wireSettings exClient [exStart] = some exLocal := rfl
  have hl : exLocal.returned = false ∧ (3 : Int) = exLocal.version ∧
      exLocal.streams.get 1 = some 0 ∧ (exLocal.heap 0).txWindow = 65536 ∧
      exLocal.streams = [(1, 0)] ∧ exLocal.rxWindow = 65536 := by decide
  obtain ⟨l1, l2, l3, l4, l5, l6⟩ := hl
  obtain ⟨c1, e1, e2, e3, e4, e5, _, e7⟩ := Run_windowUpdates 1 wireSettings 0
    (windowUpdateBytes 1 0x7f 0xff 0xff 0xff)
    { Version := 3, StreamId := 1, WindowDelta := 2147483647 } (fun _ => rfl) rfl
    (2 ^ 32 + 1) exLocal l1 l2 l3 (by rw [l4]; unfold inInt; norm_num)
  have hstep := step_windowUpdate 1 wireSettings c1 0 (windowUpdateBytes 1 0 0 0 2)
    { Version := 3, StreamId := 1, WindowDelta := 2 } rfl rfl e2 (by rw [e3]; exact l2)
    (by rw [e4]; exact l3)
  refine ⟨{ c1.modify 0 fun x => { x with txWindow := wrapInt (x.txWindow + 2) } with
    dispatched := c1.dispatched ++ [none] }, ?_, ?_, ?_, ?_, ?_⟩
  · rw [exWindowEvents, Run_append, h0, Option.some_bind, Run_append, e1, Option.some_bind]
    simp only [Run, hstep, Option.some_bind]
  · simp only [Connection.modify_streams]
    rw [e4, l5]
  · simp only [Connection.modify_rxWindow]
    rw [e5, l6]
  · simp only [Connection.modify_version]
    rw [e3, ← l2]
  · simp only [Connection.modify_heap, if_true]
    rw [e7, l4]
    norm_num [wrapInt]

/-- C11, counterexample. In the state that the client reaches by the events of
`exWindowEvents`, stream 1 is in the table with a transmit window of
`2 ^ 63 - 2147418111` and the session window is 65536. A `SETTINGS` frame of
version 3 that sets the window to `2 ^ 31 - 1` is handled without error: the
difference is 2147418111, the old value plus the difference is `2 ^ 63`, and
the transmit window of stream 1 is `-(2 ^ 63)` afterwards, the sum wrapped on
the 64 bits of a Go `int`. -/
theorem C11_counterexample :
    ∃ c, Run 1 wireSettings exClient exWindowEvents = some c ∧
      c.streams = [(1, 0)] ∧ c.rxWindow = 65536 ∧
      (c.heap 0).txWindow = 2 ^ 63 - 2147418111 ∧
      (wireSettings.parseSettings (settingsWindowBytes 0x7f 0xff 0xff 0xff)).toOption =
        some { Version := 3, HaveWindow := true, Window := 2147483647 } ∧
      (handleSettings wireSettings c (settingsWindowBytes 0x7f 0xff 0xff 0xff)).1 = none ∧
      ((handleSettings wireSettings c (settingsWindowBytes 0x7f 0xff 0xff 0xff)).2.heap 0).txWindow
        = -(2 ^ 63) ∧
      (2 ^ 63 - 2147418111 : Int) + (2147483647 - 65536) = 2 ^ 63 := by
  obtain ⟨c, h1, h2, h3, h4, h5⟩ := exWindowEvents_run
  have hw := handleSettings_window wireSettings c (settingsWindowBytes 0x7f 0xff 0xff 0xff)
    { Version := 3, HaveWindow := true, Window := 2147483647 } rfl h4.symm rfl
    (by rw [h2]; decide)
  refine ⟨c, h1, h2, h3, h5, by decide, hw.1, ?_, by norm_num⟩
  have := hw.2.2.2.1 (1, 0) (by rw [h2]; exact List.mem_singleton.mpr rfl)
  rw [this]
  show wrapInt ((c.heap 0).txWindow + wrapInt (2147483647 - c.rxWindow)) = _
  rw [h5, h3]
  norm_num [wrapInt]

/-- C11, amended. In a state whose table holds each of its streams once, a
`SETTINGS` buffer that parses to a frame of the version of the connection with
`HaveWindow` set makes `handleSettings` return nil, leaves `rxWindow` equal to
the window `W` of the frame, leaves the table as it was, and replaces every
stream of the table by itself with `txWindow` set to the old value plus
`W - R`, where `R` is the old `rxWindow`, both the difference and the sum
reduced to the 64 bits of a Go `int`; when `W - R` and the sum lie in the
range of an `int` the new `txWindow` is the old value plus `W - R` (which may
be negative). No other field of a stream of the table changes and no other
stream changes. A sound state holds each stream once (`Sound.ptrs_nodup`). -/
theorem C11_settings_window (E : Env) (c : Connection) (d : List UInt8) (f : settingsFrame)
    (hparse : E.parseSettings d = .ok f) (hver : f.Version = c.version)
    (hwin : f.HaveWindow = true) (hnd : (c.streams.map Prod.snd).Nodup) :
    (handleSettings E c d).1 = none ∧
    (handleSettings E c d).2.rxWindow = f.Window ∧
    (handleSettings E c d).2.streams = c.streams ∧
    (∀ e, e ∈ c.streams → (handleSettings E c d).2.heap e.2 =
      { c.heap e.2 with
        txWindow := wrapInt ((c.heap e.2).txWindow + wrapInt (f.Window - c.rxWindow)) }) ∧
    (∀ e, e ∈ c.streams → inInt (f.Window - c.rxWindow) →
      inInt ((c.heap e.2).txWindow + (f.Window - c.rxWindow)) →
      (handleSettings E c d).2.heap e.2 =
        { c.heap e.2 with txWindow := (c.heap e.2).txWindow + (f.Window - c.rxWindow) }) ∧
    (∀ p, p ∉ c.streams.map Prod.snd → (handleSettings E c d).2.heap p = c.heap p) :=
  handleSettings_window E c d f hparse hver hwin hnd

/-- C11, witness: the client with streams 1, 2 and 3 in its table and a session
window of 65536 receives a `SETTINGS` frame that sets the window to 100; the
transmit window of every stream goes down by 65436. -/
theorem C11_settings_window_witness :
    (handleSettings wireSettings exTwoStarted (settingsBytes 0 100)).1 = none ∧
    (handleSettings wireSettings exTwoStarted (settingsBytes 0 100)).2.rxWindow = 100 ∧
    (handleSettings wireSettings exTwoStarted (settingsBytes 0 100)).2.streams =
      exTwoStarted.streams ∧
    (∀ e, e ∈ exTwoStarted.streams →
      (handleSettings wireSettings exTwoStarted (settingsBytes 0 100)).2.heap e.2 =
        { exTwoStarted.heap e.2 with
          txWindow := wrapInt ((exTwoStarted.heap e.2).txWindow +
            wrapInt (100 - exTwoStarted.rxWindow)) }) ∧
    (∀ e, e ∈ exTwoStarted.streams → inInt (100 - exTwoStarted.rxWindow) →
      inInt ((exTwoStarted.heap e.2).txWindow + (100 - exTwoStarted.rxWindow)) →
      (handleSettings wireSettings exTwoStarted (settingsBytes 0 100)).2.heap e.2 =
        { exTwoStarted.heap e.2 with
          txWindow := (exTwoStarted.heap e.2).txWindow + (100 - exTwoStarted.rxWindow) }) ∧
    (∀ p, p ∉ exTwoStarted.streams.map Prod.snd →
      (handleSettings wireSettings exTwoStarted (settingsBytes 0 100)).2.heap p =
        exTwoStarted.heap p) :=
  C11_settings_window wireSettings exTwoStarted (settingsBytes 0 100)
    { Version := 3, HaveWindow := true, Window := 100 } rfl rfl rfl (by decide)

/-- The `SETTINGS` frame of the witness at work: the three streams of the table
go from 65536 to 100. -/
theorem settings_window_example :
    exTwoStarted.streams.map Prod.snd = [0, 1, 2] ∧ exTwoStarted.rxWindow = 65536 ∧
    [0, 1, 2].map (fun p => (exTwoStarted.heap p).txWindow) = [65536, 65536, 65536] ∧
    [0, 1, 2].map (fun p =>
      ((handleSettings wireSettings exTwoStarted (settingsBytes 0 100)).2.heap p).txWindow) =
      [100, 100, 100] := by
  decide

/-! ## C12: the echo of a `PING` frame -/

/-- C12, counterexample. A client of version 3 whose `nextPingId` is 1 handles a
`PING` frame of version 2 with id 2, an id of the other parity. `handlePing`
returns the session error `SessionVersion 2` and enqueues nothing; the
dispatcher step hands the error to the receive pump and the control channel
stays empty: the ping is not echoed. -/
theorem C12_counterexample :
    (wire.parsePing (pingBytes 2 2)).toOption = some { Version := 2, Id := 2 } ∧
    exClient.version = 3 ∧ exClient.nextPingId = 1 ∧
    (handlePing wire exClient (pingBytes 2 2)).1 = some (Err.SessionVersion 2) ∧
    (handlePing wire exClient (pingBytes 2 2)).2.sendControl = [] ∧
    (step 1 wire exClient (.dispatch (pingBytes 2 2))).map
      (fun c => (c.sendControl, c.dispatched)) = some ([], [some (Err.SessionVersion 2)]) := by
  decide

/-- C12, amended. For a `PING` buffer that parses to a frame `f`: when `f` has
the version of the connection and its id has the parity of `nextPingId`,
`handlePing` returns nil and leaves the connection as it was, so nothing is
enqueued; when `f` has the version of the connection and its id has the other
parity, `handlePing` returns nil and appends exactly one `PING` frame with the
same id to the control channel, changing nothing else; when `f` has another
version, `handlePing` returns `SessionVersion` and leaves the connection as it
was, whatever the parity. -/
theorem C12_ping_echo (E : Env) (c : Connection) (d : List UInt8) (f : pingFrame)
    (hparse : E.parsePing d = .ok f) :
    (f.Version = c.version → f.Id % 2 = c.nextPingId % 2 → handlePing E c d = (none, c)) ∧
    (f.Version = c.version → f.Id % 2 ≠ c.nextPingId % 2 → handlePing E c d =
      (none, { c with sendControl := c.sendControl ++
        [frame.ping { Version := c.version, Id := f.Id }] })) ∧
    (f.Version ≠ c.version → handlePing E c d = (some (Err.SessionVersion f.Version), c)) := by
  refine ⟨?_, ?_, ?_⟩
  · intro hver h
    simp [handlePing, hparse, hver, h]
  · intro hver h
    simp [handlePing, hparse, hver, h]
  · intro hver
    simp [handlePing, hparse, hver]

/-- C12, witness: on the fresh client a version 3 ping with the local id 1 is
dropped and one with the remote id 2 is echoed. -/
theorem C12_ping_echo_witness :
    handlePing wire exClient (pingBytes 3 1) = (none, exClient) ∧
    handlePing wire exClient (pingBytes 3 2) =
      (none, { exClient with sendControl := exClient.sendControl ++
        [frame.ping { Version := exClient.version, Id := 2 }] }) :=
  ⟨(C12_ping_echo wire exClient (pingBytes 3 1) { Version := 3, Id := 1 } rfl).1 rfl
      (by decide),
   (C12_ping_echo wire exClient (pingBytes 3 2) { Version := 3, Id := 2 } rfl).2.1 rfl
      (by decide)⟩

/-! ## C13: a received `RST_STREAM` -/

/-- With pairwise different reason codes the `switch` of `handleRstStream`
computes the translation table of the specification. -/
theorem handleRstStream_translate (E : Env) (version : Int) (f : rstStreamFrame)
    (hd : E.rstDistinct) :
    rstErrorSpec E version f
      (if f.Reason = E.rstInvalidStream then Err.InvalidStream f.StreamId
        else if f.Reason = E.rstRefusedStream then Err.RefusedStream f.StreamId
        else if f.Reason = E.rstUnsupportedVersion then Err.StreamVersion f.StreamId version
        else if f.Reason = E.rstCancel then Err.Cancel f.StreamId
        else if f.Reason = E.rstFlowControlError then Err.StreamFlowControl f.StreamId
        else if f.Reason = E.rstStreamInUse then Err.StreamInUse f.StreamId
        else if f.Reason = E.rstStreamAlreadyClosed then Err.StreamAlreadyClosed f.StreamId
        else Err.StreamProtocol f.StreamId) := by
  simp only [Env.rstDistinct, List.nodup_cons, List.mem_cons, List.mem_singleton, not_or,
    List.not_mem_nil, not_false_eq_true, List.nodup_nil, and_true] at hd
  obtain ⟨⟨h12, h13, h14, h15, h16, h17⟩, ⟨h23, h24, h25, h26, h27⟩, ⟨h34, h35, h36, h37⟩,
    ⟨h45, h46, h47⟩, ⟨h56, h57⟩, h67⟩ := hd
  refine ⟨?_, ?_, ?_, ?_, ?_, ?_, ?_, ?_⟩
  · intro h; rw [if_pos h]
  · intro h
    rw [if_neg (by rw [h]; exact fun e => h12 e.symm), if_pos h]
  · intro h
    rw [if_neg (by rw [h]; exact fun e => h13 e.symm), if_neg (by rw [h]; exact fun e => h23 e.symm),
      if_pos h]
  · intro h
    rw [if_neg (by rw [h]; exact fun e => h14 e.symm), if_neg (by rw [h]; exact fun e => h24 e.symm),
      if_neg (by rw [h]; exact fun e => h34 e.symm), if_pos h]
  · intro h
    rw [if_neg (by rw [h]; exact fun e => h15 e.symm), if_neg (by rw [h]; exact fun e => h25 e.symm),
      if_neg (by rw [h]; exact fun e => h35 e.symm), if_neg (by rw [h]; exact fun e => h45 e.symm),
      if_pos h]
  · intro h
    rw [if_neg (by rw [h]; exact fun e => h16 e.symm), if_neg (by rw [h]; exact fun e => h26 e.symm),
      if_neg (by rw [h]; exact fun e => h36 e.symm), if_neg (by rw [h]; exact fun e => h46 e.symm),
      if_neg (by rw [h]; exact fun e => h56 e.symm), if_pos h]
  · intro h
    rw [if_neg (by rw [h]; exact fun e => h17 e.symm), if_neg (by rw [h]; exact fun e => h27 e.symm),
      if_neg (by rw [h]; exact fun e => h37 e.symm), if_neg (by rw [h]; exact fun e => h47 e.symm),
      if_neg (by rw [h]; exact fun e => h57 e.symm), if_neg (by rw [h]; exact fun e => h67 e.symm),
      if_pos h]
  · intro h1 h2 h3 h4 h5 h6 h7
    rw [if_neg h1, if_neg h2, if_neg h3, if_neg h4, if_neg h5, if_neg h6, if_neg h7]

/-- C13. In a well-formed state (every state the dispatcher reaches is), with
reason codes that are pairwise different and `fuel` above the number of streams
allocated, an `RST_STREAM` buffer that parses to a frame `f` makes
`handleRstStream` return nil. When the id of `f` is not a key of the table the
connection is left as it was. When the table holds stream `s` under the id,
the control channel is left as it was (no `RST_STREAM` is sent), the id is no
longer a key of the table, and `rxError` and `txError` of `s` are both the
error that the table of the specification (`rstErrorSpec`) gives for the
reason of `f`: `InvalidStream`, `RefusedStream`, `StreamVersion`, `Cancel`,
`StreamFlowControl`, `StreamInUse`, `StreamAlreadyClosed`, and `StreamProtocol`
for any other reason. When the state is moreover sound, as every state the
dispatcher reaches is, no transmit error channel has been closed twice: the
call ends without a panic. -/
theorem C13_rst_stream (fuel : Nat) (E : Env) (c : Connection) (d : List UInt8)
    (f : rstStreamFrame)
    (hwf : WellFormed c) (hfuel : c.nextPtr < fuel) (hd : E.rstDistinct)
    (hparse : E.parseRstStream d = .ok f) :
    (c.streams.get f.StreamId = none → handleRstStream fuel E c d = some (none, c)) ∧
    (∀ s, c.streams.get f.StreamId = some s →
      ∃ c1 err, handleRstStream fuel E c d = some (none, c1) ∧
        c1.sendControl = c.sendControl ∧
        c1.streams.get f.StreamId = none ∧
        (c1.heap s).rxError = some err ∧ (c1.heap s).txError = some err ∧
        rstErrorSpec E c.version f err ∧
        (Sound c → ∀ p, (c1.heap p).txErrorChannelCloses ≤ 1)) := by
  constructor
  · intro h
    simp only [handleRstStream, hparse, h]
  · intro s hs
    have hcall : ∀ r, handleRstStream fuel E c d = some r → Sound c → Sound r.2 :=
      fun r hr h => handleRstStream_sound fuel E c d r hr h
    revert hcall
    simp only [handleRstStream, hparse, hs]
    intro hcall
    generalize herr : (if f.Reason = E.rstInvalidStream then Err.InvalidStream f.StreamId
        else if f.Reason = E.rstRefusedStream then Err.RefusedStream f.StreamId
        else if f.Reason = E.rstUnsupportedVersion then Err.StreamVersion f.StreamId c.version
        else if f.Reason = E.rstCancel then Err.Cancel f.StreamId
        else if f.Reason = E.rstFlowControlError then Err.StreamFlowControl f.StreamId
        else if f.Reason = E.rstStreamInUse then Err.StreamInUse f.StreamId
        else if f.Reason = E.rstStreamAlreadyClosed then Err.StreamAlreadyClosed f.StreamId
        else Err.StreamProtocol f.StreamId) = err
    have hspec : rstErrorSpec E c.version f err := herr ▸ handleRstStream_translate E c.version f hd
    obtain ⟨c1, h1⟩ := finishStream_total (fun p => c.nextPtr - p) fuel c s err hwf.ranked
      (Nat.lt_of_le_of_lt (Nat.sub_le _ _) hfuel)
    have hrel := finishStream_rel fuel c s err c1 h1
    have hdel := finishStream_deleted fuel c s err c1 h1
    rw [(hwf.keys _ s hs).1] at hdel
    have herrs := finishStream_errors fuel c s err c1 h1
    rw [herr] at hcall
    refine ⟨c1, err, by rw [h1]; rfl, ?_, hdel, herrs.1, herrs.2, hspec,
      fun h => (hcall (none, c1) (by rw [h1]; rfl) h).once⟩
    have := congrArg Connection.sendControl hrel.ctl
    exact this

/-- The client with its stream 1 in the table is well formed. -/
theorem exLocal_wf : WellFormed exLocal :=
  ValidRun.wellFormed 1 wire [exStart] exClient exLocal
    (WellFormed.at_new wire "peer" (some 1) 3 false) ⟨trivial, exLocal, rfl, rfl⟩

/-- C13, witness: the client with stream 1 in its table receives `RST_STREAM`
frames with reason `CANCEL`, one for the unknown stream 3 and one for stream 1. -/
theorem C13_rst_stream_witness :
    handleRstStream 2 wire exLocal (rstStreamBytes 3 5) = some (none, exLocal) ∧
    ∃ c1 err, handleRstStream 2 wire exLocal (rstStreamBytes 1 5) = some (none, c1) ∧
      c1.sendControl = exLocal.sendControl ∧
      c1.streams.get 1 = none ∧
      (c1.heap 0).rxError = some err ∧ (c1.heap 0).txError = some err ∧
      rstErrorSpec wire 3 { Version := 3, StreamId := 1, Reason := 5 } err ∧
      (Sound exLocal → ∀ p, (c1.heap p).txErrorChannelCloses ≤ 1) :=
  ⟨(C13_rst_stream 2 wire exLocal (rstStreamBytes 3 5) { Version := 3, StreamId := 3, Reason := 5 }
      exLocal_wf (by decide) (by decide) rfl).1 (by decide),
   (C13_rst_stream 2 wire exLocal (rstStreamBytes 1 5) { Version := 3, StreamId := 1, Reason := 5 }
      exLocal_wf (by decide) (by decide) rfl).2 0 (by decide)⟩

/-! ## C14: a received `GOAWAY` -/

/-- In a state `c` that the dispatcher reaches from `NewConnection` by fewer
than `2 ^ 61` valid events (so that the id allocator, a Go `int`, has not
wrapped) and in which `onGoAway` has not been closed, with pairwise different
reason codes and `fuel` above the number of streams allocated, a `GOAWAY`
buffer that parses to a frame `f` of the version of the connection makes
`handleGoAway` return nil in a state `c1` where `goAway` is set, `onGoAway`
has been closed once, no transmit error channel has been closed twice, and,
with `err` the session error that the table of the specification
(`goAwayErrorSpec`) gives for the reason of `f`: every stream that was in the
table under a key of the local parity above `LastStreamId` is out of the
table with `rxError` and `txError` both `err`; every stream that was in the
table under a key of the local parity at most `LastStreamId` is still in the
table with both error fields unset; and so is every stream of the table that
is neither one of the streams of the first kind nor below one of them in the
children lists. -/
theorem handleGoAway_reached (fuel0 fuel : Nat) (E : Env) (addr : String)
    (handler : Option Handler) (version : Int) (server : Bool) (evs : List Event)
    (c : Connection) (d : List UInt8) (f : goAwayFrame)
    (hreach : ValidRun fuel0 E (NewConnection E addr handler version server) evs c)
    (hroom : evs.length < 2 ^ 61)
    (hfuel : c.nextPtr < fuel) (hd : E.goAwayDistinct) (hopen : c.onGoAwayCloses = 0)
    (hparse : E.parseGoAway d = .ok f) (hver : f.Version = c.version) :
    ∃ c1 err, handleGoAway fuel E c d = some (none, c1) ∧
      goAwayErrorSpec E c.version f err ∧ c1.goAway = true ∧ c1.onGoAwayCloses = 1 ∧
      (∀ p, (c1.heap p).txErrorChannelCloses ≤ 1) ∧
      (∀ k p, c.streams.get k = some p → lowBit k = lowBit c.nextStreamId →
        f.LastStreamId < k →
        c1.streams.get k = none ∧ (c1.heap p).rxError = some err ∧
          (c1.heap p).txError = some err) ∧
      (∀ k p, c.streams.get k = some p → lowBit k = lowBit c.nextStreamId →
        k ≤ f.LastStreamId →
        c1.streams.get k = some p ∧ (c1.heap p).rxError = none ∧
          (c1.heap p).txError = none) ∧
      (∀ k p, c.streams.get k = some p →
        (∀ j t, c.streams.get j = some t → lowBit j = lowBit c.nextStreamId →
          f.LastStreamId < j → ¬ Desc c t p) →
        c1.streams.get k = some p ∧ (c1.heap p).rxError = none ∧
          (c1.heap p).txError = none) :=
  handleGoAway_effect fuel E c d f
    (ValidRun.sound_of_new fuel0 E addr handler version server evs c hroom hreach)
    hfuel hd hopen hparse hver

/-- The client with local streams 1, 3 and 5 and the pushed stream 2 receives
its first `GOAWAY`, with last stream id 1 and status 0: streams 3 and 5 leave
the table with `GoAway`, stream 1 stays. -/
theorem handleGoAway_reached_example :
    ∃ c1 err, handleGoAway 5 wire exSweep (goAwayBytes 1 0) = some (none, c1) ∧
      goAwayErrorSpec wire 3 { Version := 3, LastStreamId := 1, Reason := 0 } err ∧
      c1.goAway = true ∧ c1.onGoAwayCloses = 1 ∧
      (c1.streams.get 3 = none ∧ (c1.heap 1).rxError = some err ∧
        (c1.heap 1).txError = some err) ∧
      (c1.streams.get 5 = none ∧ (c1.heap 3).rxError = some err ∧
        (c1.heap 3).txError = some err) ∧
      (c1.streams.get 1 = some 0 ∧ (c1.heap 0).rxError = none ∧
        (c1.heap 0).txError = none) :=
  let ⟨c1, err, h1, h2, h3, h3b, _, h4, h5, _⟩ :=
    handleGoAway_reached 1 5 wire "peer" (some 1) 3 false
      [exStartPush, exStart, .dispatch (synStreamBytes 0 2 1), exStart] exSweep
      (goAwayBytes 1 0) { Version := 3, LastStreamId := 1, Reason := 0 }
      ⟨trivial, _, rfl, trivial, _, rfl, trivial, _, rfl, trivial, _, rfl, rfl⟩
      (by decide) (by decide) (by decide) (by decide) rfl rfl
  ⟨c1, err, h1, h2, h3, h3b, h4 3 1 (by decide) (by decide) (by decide),
    h4 5 3 (by decide) (by decide) (by decide), h5 1 0 (by decide) (by decide) (by decide)⟩

/-- C14, the code at the failing input. The client with the local streams 1, 3
and 5 in its table receives `GOAWAY` with last stream id 3: stream 5 leaves
the table, streams 1 and 3 stay, and `onGoAway` has been closed once. In the
state so reached, where stream 3 is in the table under a key of the local
parity, the client receives a second `GOAWAY`, with last stream id 1:
`handleGoAway` closes `onGoAway` again before its loop over the table. The
counter reaches 2, which is the panic of the Go runtime on the close of a
closed channel; the loop that would take stream 3 out of the table is not
reached. -/
theorem C14_second_go_away :
    exThree.streams = [(1, 0), (3, 1), (5, 2)] ∧ exThree.onGoAwayCloses = 0 ∧
    (step 4 wire exThree (.dispatch (goAwayBytes 3 0))).map
      (fun c => (c.streams, c.onGoAwayCloses)) = some ([(1, 0), (3, 1)], 1) ∧
    exAfterGoAway.streams.get 3 = some 1 ∧ lowBit 3 = lowBit exAfterGoAway.nextStreamId ∧
    exAfterGoAway.onGoAwayCloses = 1 ∧
    (wire.parseGoAway (goAwayBytes 1 0)).toOption =
      some { Version := 3, LastStreamId := 1, Reason := 0 } ∧
    (handleGoAway 4 wire exAfterGoAway (goAwayBytes 1 0)).map
      (fun r => r.2.onGoAwayCloses) = some 2 := by
  decide

/-! ## C15: the socket after `GOAWAY` -/

/-- C15, the code at the failing inputs. On the fresh client, whose table is
empty, the dispatcher step for a `GOAWAY` frame sets `goAway` and leaves the
table empty, and the socket has been closed zero times: `handleGoAway` never
calls `Close` and `finishStream` is not called. On the client whose table
holds stream 1 and its pushed child stream 2, the step for the same frame
finishes stream 1 and with it stream 2, and the socket has been closed twice:
`finishStream` tests `goAway` and the empty table at the end of the nested
call for the child and again at the end of the call for the parent. -/
theorem C15_socket_close_count :
    exClient.streams = [] ∧ exClient.socketCloses = 0 ∧
    (step 1 wire exClient (.dispatch (goAwayBytes 0 0))).map
      (fun c => (c.goAway, c.streams, c.socketCloses)) = some (true, [], 0) ∧
    exFamily.streams = [(1, 0), (2, 1)] ∧ (exFamily.heap 0).children = [1] ∧
    exFamily.socketCloses = 0 ∧
    (step 3 wire exFamily (.dispatch (goAwayBytes 0 0))).map
      (fun c => (c.goAway, c.streams, c.socketCloses)) = some (true, [], 2) := by
  decide

/-! ## C16: a stream-finished notification -/

/-- C16. In a well-formed state whose loop is running, with `fuel` above the
number of streams allocated, the dispatcher step for a stream-finished
notification for `s`: when the table does not hold `s` under the id of `s`,
the step leaves the connection as it was; when it does, the step ends in a
state where the id is no longer a key of the table, `rxError` and `txError`
of `s` are `Cancel` of that id, and the control channel has gained exactly
one `RST_STREAM` for the id with the reason `CANCEL` when `s` is not a
recipient and not receive-finished, and nothing otherwise. When the state is
moreover sound, as every state the dispatcher reaches is, no transmit error
channel has been closed twice: the step ends without a panic. -/
theorem C16_stream_finished (fuel : Nat) (E : Env) (c : Connection) (s : Ptr)
    (hwf : WellFormed c) (hfuel : c.nextPtr < fuel) (hrun : c.returned = false) :
    (c.streams.get (c.heap s).streamId ≠ some s → step fuel E c (.streamFinished s) = some c) ∧
    (c.streams.get (c.heap s).streamId = some s →
      ∃ c1, step fuel E c (.streamFinished s) = some c1 ∧
        c1.streams.get (c.heap s).streamId = none ∧
        (c1.heap s).rxError = some (Err.Cancel (c.heap s).streamId) ∧
        (c1.heap s).txError = some (Err.Cancel (c.heap s).streamId) ∧
        c1.sendControl = c.sendControl ++
          (if (c.heap s).isRecipient = false ∧ (c.heap s).rxFinished = false then
            [frame.rstStream
              { Version := c.version, StreamId := (c.heap s).streamId, Reason := E.rstCancel }]
          else []) ∧
        (Sound c → ∀ p, (c1.heap p).txErrorChannelCloses ≤ 1)) := by
  constructor
  · intro h
    simp only [step, hrun, onStreamFinished, if_pos h]
    rfl
  · intro h
    have hstep : step fuel E c (.streamFinished s) = onStreamFinished fuel E c s := by
      simp only [step, hrun]; rfl
    rw [hstep]
    have hcall : ∀ c1, onStreamFinished fuel E c s = some c1 → Sound c → Sound c1 :=
      fun c1 hr h => onStreamFinished_sound fuel E c c1 s hr h
    revert hcall
    simp only [onStreamFinished, h, ne_eq, not_true_eq_false, if_false]
    intro hcall
    generalize hc1 : (if (!(c.heap s).isRecipient && !(c.heap s).rxFinished) = true then
        sendReset c (c.heap s).streamId E.rstCancel else c) = cs
    rw [hc1] at hcall
    have hheap : cs.heap = c.heap := by
      rw [← hc1]; split <;> rfl
    have hstreams : cs.streams = c.streams := by
      rw [← hc1]; split <;> rfl
    have hnext : cs.nextPtr = c.nextPtr := by
      rw [← hc1]; split <;> rfl
    have hctl : cs.sendControl = c.sendControl ++
          (if (c.heap s).isRecipient = false ∧ (c.heap s).rxFinished = false then
            [frame.rstStream
              { Version := c.version, StreamId := (c.heap s).streamId, Reason := E.rstCancel }]
          else []) := by
      rw [← hc1]
      cases (c.heap s).isRecipient <;> cases (c.heap s).rxFinished <;> simp [sendReset]
    have hwf1 : WellFormed cs := ⟨by rw [hstreams, hheap, hnext]; exact hwf.keys,
      by rw [hheap, hnext]; exact hwf.order⟩
    obtain ⟨c1, h1⟩ := finishStream_total (fun p => cs.nextPtr - p) fuel cs s
      (Err.Cancel (cs.heap s).streamId) hwf1.ranked
      (Nat.lt_of_le_of_lt (Nat.sub_le _ _) (hnext ▸ hfuel))
    have hrel := finishStream_rel _ _ _ _ _ h1
    have hdel := finishStream_deleted _ _ _ _ _ h1
    have herrs := finishStream_errors _ _ _ _ _ h1
    rw [hheap] at hdel herrs
    refine ⟨c1, by rw [← h1, hheap], hdel, herrs.1, herrs.2, ?_,
      fun hs => (hcall c1 h1 hs).once⟩
    rw [← hctl]
    have := congrArg Connection.sendControl hrel.ctl
    exact this

/-- The client with the peer's stream 2 in the table is well formed. -/
theorem exAfter2_wf : WellFormed exAfter2 :=
  ValidRun.wellFormed 1 wire [.dispatch (synStreamBytes 0 2 0)] exClient exAfter2
    (WellFormed.at_new wire "peer" (some 1) 3 false) ⟨trivial, exAfter2, rfl, rfl⟩

/-- C16, witness: a notification for a stream that is not in the table of the
fresh client changes nothing; one for the local stream 1, not receive-finished,
sends `RST_STREAM` with `CANCEL`; one for the peer's stream 2, of which the
client is the recipient, sends nothing. -/
theorem C16_stream_finished_witness :
    step 2 wire exClient (.streamFinished 0) = some exClient ∧
    (∃ c1, step 2 wire exLocal (.streamFinished 0) = some c1 ∧
      c1.streams.get 1 = none ∧
      (c1.heap 0).rxError = some (Err.Cancel 1) ∧ (c1.heap 0).txError = some (Err.Cancel 1) ∧
      c1.sendControl = exLocal.sendControl ++
        [frame.rstStream { Version := 3, StreamId := 1, Reason := 5 }] ∧
      (Sound exLocal → ∀ p, (c1.heap p).txErrorChannelCloses ≤ 1)) ∧
    (∃ c1, step 2 wire exAfter2 (.streamFinished 0) = some c1 ∧
      c1.streams.get 2 = none ∧
      (c1.heap 0).rxError = some (Err.Cancel 2) ∧ (c1.heap 0).txError = some (Err.Cancel 2) ∧
      c1.sendControl = exAfter2.sendControl ++ [] ∧
      (Sound exAfter2 → ∀ p, (c1.heap p).txErrorChannelCloses ≤ 1)) :=
  ⟨(C16_stream_finished 2 wire exClient 0 (WellFormed.at_new wire "peer" (some 1) 3 false)
      (by decide) rfl).1 (by decide),
   (C16_stream_finished 2 wire exLocal 0 exLocal_wf (by decide) rfl).2 (by decide),
   (C16_stream_finished 2 wire exAfter2 0 exAfter2_wf (by decide) rfl).2 (by decide)⟩

/-! ## C17: the teardown -/

/-- In a state `c` that the dispatcher reaches from `NewConnection` by fewer
than `2 ^ 61` valid events (so that the id allocator, a Go `int`, has not
wrapped), whose loop is running and in which `onGoAway` has not been closed,
with `fuel` above the number of streams allocated, the step for a receive
error `err` ends in a state where `goAway` is set, `onGoAway` has been closed
once, the table is empty, the control channel has been closed once more, the
socket has been closed at least once more, and `Run` has returned; every
stream that was in the table, and every stream below one in the children
lists, has `rxError` and `txError` both `err`, and its transmit error
channel, closed by no one before, has been closed exactly once: the stream
has been finished once. -/
theorem teardown_reached (fuel0 fuel : Nat) (E : Env) (addr : String)
    (handler : Option Handler) (version : Int) (server : Bool) (evs : List Event)
    (c : Connection) (err : Err)
    (hreach : ValidRun fuel0 E (NewConnection E addr handler version server) evs c)
    (hroom : evs.length < 2 ^ 61)
    (hfuel : c.nextPtr < fuel) (hrun : c.returned = false) (hopen : c.onGoAwayCloses = 0) :
    ∃ c1, step fuel E c (.rxError err) = some c1 ∧
      c1.goAway = true ∧ c1.onGoAwayCloses = 1 ∧ c1.streams = [] ∧
      c1.sendControlCloses = c.sendControlCloses + 1 ∧
      c.socketCloses < c1.socketCloses ∧ c1.returned = true ∧
      ∀ k p, c.streams.get k = some p → ∀ a, Desc c p a →
        (c1.heap a).rxError = some err ∧ (c1.heap a).txError = some err ∧
        (c.heap a).txErrorChannelCloses = 0 ∧ (c1.heap a).txErrorChannelCloses = 1 :=
  teardown_effect fuel E c err
    (ValidRun.sound_of_new fuel0 E addr handler version server evs c hroom hreach)
    hfuel hrun hopen

/-- The client with stream 1 and its pushed child stream 2 in the table, which
has received no `GOAWAY`, is torn down with `SessionProtocol`. -/
theorem teardown_reached_example :
    ∃ c1, step 3 wire exFamily (.rxError Err.SessionProtocol) = some c1 ∧
      c1.goAway = true ∧ c1.onGoAwayCloses = 1 ∧ c1.streams = [] ∧
      c1.sendControlCloses = exFamily.sendControlCloses + 1 ∧
      exFamily.socketCloses < c1.socketCloses ∧ c1.returned = true ∧
      ((c1.heap 0).rxError = some Err.SessionProtocol ∧
        (c1.heap 0).txError = some Err.SessionProtocol ∧
        (exFamily.heap 0).txErrorChannelCloses = 0 ∧ (c1.heap 0).txErrorChannelCloses = 1) ∧
      ((c1.heap 1).rxError = some Err.SessionProtocol ∧
        (c1.heap 1).txError = some Err.SessionProtocol ∧
        (exFamily.heap 1).txErrorChannelCloses = 0 ∧ (c1.heap 1).txErrorChannelCloses = 1) :=
  let ⟨c1, h1, h2, h2b, h3, h4, h5, h6, h7⟩ :=
    teardown_reached 1 3 wire "peer" (some 1) 3 false
      [exStartPush, .dispatch (synStreamBytes 0 2 1)] exFamily Err.SessionProtocol
      ⟨trivial, _, rfl, trivial, _, rfl, rfl⟩ (by decide) (by decide) rfl (by decide)
  ⟨c1, h1, h2, h2b, h3, h4, h5, h6, h7 1 0 (by decide) 0 Desc.self,
    h7 1 0 (by decide) 1 (Desc.child 0 1 Desc.self (by decide))⟩

/-- C17, the code at the failing input. The client with stream 1 and its pushed
child stream 2 in the table receives `GOAWAY` with last stream id 1: both
streams stay in the table and `onGoAway` has been closed once. In the state so
reached a receive error arrives, as when the peer closes the connection after
its `GOAWAY`: the teardown closes `onGoAway` again before it finishes any
stream. The counter reaches 2, which is the panic of the Go runtime on the
close of a closed channel; the statements that would finish streams 1 and 2,
close the control channel and close the socket are not reached. -/
theorem C17_teardown_after_go_away :
    (step 3 wire exFamily (.dispatch (goAwayBytes 1 0))).map
      (fun c => (c.streams, c.onGoAwayCloses, c.returned)) =
      some ([(1, 0), (2, 1)], 1, false) ∧
    exFamilyAway.streams = [(1, 0), (2, 1)] ∧ exFamilyAway.onGoAwayCloses = 1 ∧
    exFamilyAway.returned = false ∧
    (step 3 wire exFamilyAway (.rxError Err.SessionProtocol)).map
      (fun c => c.onGoAwayCloses) = some 2 := by
  decide

/-! ## C18: the next frame to transmit -/

/-- The loop of `nextTxFrame` over the data channels returns the head of the
first channel that holds a frame when the channels before it are open and
empty. -/
theorem nextTxFrame_poll (l : List FrameChan) : ∀ (i : Nat) (ch : FrameChan) (f : frame)
    (q : List frame),
    (∀ j, j < i → ∃ cj, l[j]? = some cj ∧ cj.queue = [] ∧ cj.closed = false) →
    l[i]? = some ch → ch.queue = f :: q →
    nextTxFrame.poll l = some (some f, l.set i { ch with queue := q }) := by
  induction l with
  | nil => intro i ch f q _ hi; simp at hi
  | cons a rest ih =>
    intro i ch f q hlow hi hq
    cases i with
    | zero =>
      simp only [List.getElem?_cons_zero, Option.some.injEq] at hi
      subst hi
      simp [nextTxFrame.poll, FrameChan.tryRecv, hq]
    | succ n =>
      obtain ⟨c0, h0, h0q, h0c⟩ := hlow 0 (Nat.succ_pos n)
      simp only [List.getElem?_cons_zero, Option.some.injEq] at h0
      subst h0
      have := ih n ch f q (fun j hj => by
        obtain ⟨cj, hcj, h1, h2⟩ := hlow (j + 1) (Nat.succ_lt_succ hj)
        exact ⟨cj, by simpa using hcj, h1, h2⟩) (by simpa using hi) hq
      simp [nextTxFrame.poll, FrameChan.tryRecv, h0q, h0c, this]

/-- C18, counterexample. After the teardown has closed the control channel,
with that channel drained and a window update waiting in the window-update
channel, `nextTxFrame` returns the nil frame that the closed control channel
yields, with a nil completion channel, and leaves the window update where it
is: it does not return the head of the window-update channel. -/
theorem C18_counterexample :
    exTxClosed.sendControl = { queue := [], closed := true } ∧
    exTxClosed.sendWindowUpdate.queue =
      [frame.windowUpdate { Version := 3, StreamId := 1, WindowDelta := 10 }] ∧
    nextTxFrame exTxClosed = (some (none, Completion.nil), exTxClosed) := by
  decide

/-- C18, amended. For every snapshot `t` of the send channels: when the control
channel holds a frame, `nextTxFrame` returns its head with a nil completion
channel; when the control channel is open and empty and the window-update
channel holds a frame, it returns the head of the window-update channel with a
nil completion channel; when both are open and empty, the data channels of
index below `i` are open and empty and data channel `i` holds a frame, it
returns the head of data channel `i` with the completion channel `dataSent`.
In each case the frame is taken out of its channel and nothing else changes;
in particular the writer is not flushed. -/
theorem C18_next_tx_frame (t : TxQueues) (f : frame) (q : List frame) :
    (t.sendControl.queue = f :: q →
      nextTxFrame t = (some (some f, Completion.nil),
        { t with sendControl := { t.sendControl with queue := q } })) ∧
    (t.sendControl = FrameChan.idle → t.sendWindowUpdate.queue = f :: q →
      nextTxFrame t = (some (some f, Completion.nil),
        { t with sendWindowUpdate := { t.sendWindowUpdate with queue := q } })) ∧
    (t.sendControl = FrameChan.idle → t.sendWindowUpdate = FrameChan.idle →
      ∀ (i : Nat) (ch : FrameChan),
        (∀ j, j < i → t.sendData[j]? = some FrameChan.idle) →
        t.sendData[i]? = some ch → ch.queue = f :: q →
        nextTxFrame t = (some (some f, Completion.dataSent),
          { t with sendData := t.sendData.set i { ch with queue := q } })) := by
  refine ⟨?_, ?_, ?_⟩
  · intro h
    simp [nextTxFrame, FrameChan.tryRecv, h]
  · intro hc h
    simp [nextTxFrame, FrameChan.tryRecv, h, hc, FrameChan.idle]
  · intro hc hw i ch hlow hi hq
    have := nextTxFrame_poll t.sendData i ch f q (fun j hj => ⟨_, hlow j hj, rfl, rfl⟩) hi hq
    simp [nextTxFrame, FrameChan.tryRecv, hc, hw, FrameChan.idle, this]

/-- C18, witness: with frames waiting in the data channels 2 and 5 only,
`nextTxFrame` returns the head of channel 2 with `dataSent` and does not flush. -/
theorem C18_next_tx_frame_witness :
    nextTxFrame exTxData = (some (some (frame.data
        { StreamId := 1, Finished := false, Compressed := false, Data := [1] }),
        Completion.dataSent),
      { exTxData with
        sendData := exTxData.sendData.set 2
          ({ queue := [frame.data
              { StreamId := 1, Finished := true, Compressed := false, Data := [2] }]
             closed := false } : FrameChan) }) ∧
    (nextTxFrame exTxData).2.flushes = exTxData.flushes :=
  ⟨(C18_next_tx_frame exTxData
      (frame.data { StreamId := 1, Finished := false, Compressed := false, Data := [1] })
      [frame.data { StreamId := 1, Finished := true, Compressed := false, Data := [2] }]).2.2
      rfl rfl 2 _ (by decide) rfl rfl, by decide⟩

/-! ## C19: the table and the finished flags -/

/-- C19, counterexample. The client starts stream 1 transmit-finished and then
receives a `DATA` frame for it with the finished flag: the state is reached by
a start request and an inbound frame, both directions of stream 1 are
finished, and stream 1 is still in the table. The client with stream 1 open
in both directions receives an `RST_STREAM` for it: no direction of stream 1
is finished, and stream 1 is not in the table. -/
theorem C19_counterexample :
    exBothFinished.streams.get 1 = some 0 ∧ (exBothFinished.heap 0).streamId = 1 ∧
    (exBothFinished.heap 0).txFinished = true ∧ (exBothFinished.heap 0).rxFinished = true ∧
    exReset.streams = [] ∧ (exReset.heap 0).streamId = 1 ∧
    (exReset.heap 0).txFinished = false ∧ (exReset.heap 0).rxFinished = false := by
  decide

/-- C19, amended. In a state `c` that the dispatcher reaches from
`NewConnection` by valid events and whose loop is running, the stream that a
step creates, at address `c.nextPtr`, is entered in the table as follows. For
a start request that names a parent allocated earlier, the step sends one
acknowledgement `r`: when `r` is nil the stream is in the table afterwards
exactly when not both `txFinished` and `rxFinished` hold for it, and when `r`
is an error the stream is not in the table. For a `SYN_STREAM` buffer that
`handleSynStream` accepts, the stream is in the table afterwards exactly when
not both `txFinished` and `rxFinished` hold for it. -/
theorem C19_table_at_creation (fuel0 fuel : Nat) (E : Env) (addr : String)
    (handler : Option Handler) (version : Int) (server : Bool) (evs : List Event)
    (c : Connection)
    (hreach : ValidRun fuel0 E (NewConnection E addr handler version server) evs c)
    (hrun : c.returned = false) :
    (∀ req txFinished extra parent, (∀ p, parent = some p → p < c.nextPtr) →
      ∃ c1 r, step fuel E c (.startRequest req txFinished extra parent) = some c1 ∧
        c1.onRequestStarted = c.onRequestStarted ++ [r] ∧
        (r = none → (c1.live c.nextPtr ↔
          ¬ ((c1.heap c.nextPtr).txFinished = true ∧ (c1.heap c.nextPtr).rxFinished = true))) ∧
        (r ≠ none → ¬ c1.live c.nextPtr)) ∧
    (∀ d, (handleSynStream E c d).1 = none →
      ((handleSynStream E c d).2.live c.nextPtr ↔
        ¬ (((handleSynStream E c d).2.heap c.nextPtr).txFinished = true ∧
          ((handleSynStream E c d).2.heap c.nextPtr).rxFinished = true))) := by
  have hwf : WellFormed c :=
    ValidRun.wellFormed fuel0 E evs _ c (WellFormed.at_new E addr handler version server) hreach
  constructor
  · intro req txFinished extra parent hp
    obtain ⟨r, h1, h2, h3⟩ := startRequest_created E c req txFinished extra parent hwf hp
    refine ⟨_, r, ?_, h1, h2, h3⟩
    simp only [step, hrun]
    rfl
  · intro d hok
    exact (handleSynStream_created E c d hwf hok).2

/-- C19, witness: on the fresh client the stream of an accepted `SYN_STREAM`
for stream 2 is in the table exactly when not both of its directions are
finished. -/
theorem C19_table_at_creation_witness :
    (handleSynStream wire exClient (synStreamBytes 0 2 0)).2.live 0 ↔
      ¬ (((handleSynStream wire exClient (synStreamBytes 0 2 0)).2.heap 0).txFinished = true ∧
        ((handleSynStream wire exClient (synStreamBytes 0 2 0)).2.heap 0).rxFinished = true) :=
  (C19_table_at_creation 1 1 wire "peer" (some 1) 3 false [] exClient rfl rfl).2
    (synStreamBytes 0 2 0) (by decide)

/-! ## C20: the id of a push stream -/

/-- What a start request does to the ids and the links, whatever its parent:
the new stream, at address `c.nextPtr`, gets the id `c.nextStreamId` and keeps
the parent it came with, no other stream changes its id, and when the new
stream is entered in the table it is appended to the children of its parent. -/
theorem startRequest_linked (E : Env) (c : Connection) (req : Request) (txFinished : Bool)
    (extra : RequestExtra) (parent : Option Ptr) (hwf : WellFormed c) :
    ((onStartRequest (c.alloc { newStream E req txFinished extra with parent := parent }).2
        c.nextPtr).heap c.nextPtr).streamId = c.nextStreamId ∧
    ((onStartRequest (c.alloc { newStream E req txFinished extra with parent := parent }).2
        c.nextPtr).heap c.nextPtr).parent = parent ∧
    (∀ q, q ≠ c.nextPtr →
      ((onStartRequest (c.alloc { newStream E req txFinished extra with parent := parent }).2
        c.nextPtr).heap q).streamId = (c.heap q).streamId) ∧
    ((onStartRequest (c.alloc { newStream E req txFinished extra with parent := parent }).2
        c.nextPtr).live c.nextPtr →
      ∀ p, parent = some p →
        c.nextPtr ∈ ((onStartRequest
          (c.alloc { newStream E req txFinished extra with parent := parent }).2
          c.nextPtr).heap p).children) := by
  have hfree : ∀ k, c.streams.get k ≠ some c.nextPtr := fun k hk =>
    absurd (hwf.keys k _ hk).2 (Nat.lt_irrefl _)
  generalize hv : ({ newStream E req txFinished extra with parent := parent } : stream) = v
  have hv1 : v.parent = parent := by rw [← hv]
  have hpar : (((c.alloc v).2.modify c.nextPtr
      fun x => { x with streamId := c.nextStreamId }).heap c.nextPtr).parent = parent := by
    simp [hv1]
  unfold Connection.live
  simp only [onStartRequest, handleStartRequest, Connection.alloc_nextStreamId]
  split
  · refine ⟨by simp, by simp [hv1], fun q hq => by simp [hq], ?_⟩
    intro h
    simp only [Connection.modify_heap, Connection.alloc_heap, if_true,
      Connection.modify_streams, Connection.alloc_streams] at h
    exact absurd h (hfree _)
  · split
    · refine ⟨by simp, by simp [hv1], fun q hq => by simp [hq], ?_⟩
      intro h
      simp only [Connection.modify_heap, Connection.alloc_heap, if_true,
        Connection.modify_streams, Connection.alloc_streams] at h
      exact absurd h (hfree _)
    · split
      · next q hq =>
        have hq2 : parent = some q := by
          rw [← hpar]; exact hq
        refine ⟨?_, ?_, fun r hr => ?_, ?_⟩
        · by_cases hqn : c.nextPtr = q
          · simp [hqn]
          · simp [hqn]
        · by_cases hqn : c.nextPtr = q
          · simp [hqn, hv1]
          · simp [hqn, hv1]
        · by_cases hrq : r = q
          · simp [hrq, hr]
            by_cases hqn : q = c.nextPtr
            · exact absurd (hrq ▸ hqn) hr
            · simp [hqn]
          · simp [hrq, hr]
        · intro _ p hp
          rw [hq2] at hp
          cases hp
          simp
      · next hq =>
        have hq2 : parent = none := by
          rw [← hpar]; exact hq
        refine ⟨by simp, by simp [hv1], fun r hr => by simp [hr], ?_⟩
        intro _ p hp
        rw [hq2] at hp
        cases hp

/-- What the creation of a stream does to the ids and the links: the new
stream gets its id, no other stream changes its id, and when the new stream is
entered in the table it is appended to the children of its parent and points
to it. -/
theorem Born.linked {c c1 : Connection} {id : Int} {par : Option Ptr} {ins : Bool}
    (h : Sound c) (b : Born c id par ins c1) :
    (c1.heap c.nextPtr).streamId = id ∧
    (∀ q, q ≠ c.nextPtr → (c1.heap q).streamId = (c.heap q).streamId) ∧
    (c1.live c.nextPtr → ∀ p, par = some p →
      c.nextPtr ∈ (c1.heap p).children ∧ (c1.heap c.nextPtr).parent = some p) := by
  refine ⟨b.new_id, fun q hq => b.old_id hq, fun hl p hp => ?_⟩
  have hi : ins = true := by
    rcases (b.live_iff h c.nextPtr).mp hl with ⟨hi, _⟩ | hc
    · exact hi
    · exact absurd (h.wf.keys _ _ hc).2 (Nat.lt_irrefl _)
  have hpn : p ≠ c.nextPtr := Nat.ne_of_lt (b.parValid p hp)
  refine ⟨?_, by rw [b.new_parent hi, hp]⟩
  rw [b.old_children hpn, if_pos ⟨hi, hp⟩]
  exact List.mem_append_right _ (List.mem_singleton.mpr rfl)

/-- An accepted `SYN_STREAM` frame with an associated stream id: the parent is
the stream that the table holds under the associated id, so it was allocated
before the new stream; its id has the local parity and the id of the new
stream the remote parity; and the new stream is linked to it as above. -/
theorem handleSynStream_linked (E : Env) (c : Connection) (d : List UInt8) (f : synStreamFrame)
    (h : Sound c) (hparse : E.parseSynStream c.unzip d = .ok f)
    (hok : (handleSynStream E c d).1 = none) (hassoc : 0 < f.AssociatedStreamId) :
    ∃ p, c.streams.get f.AssociatedStreamId = some p ∧ p < c.nextPtr ∧
      (c.heap p).streamId = f.AssociatedStreamId ∧
      lowBit (c.heap p).streamId = lowBit c.nextStreamId ∧
      lowBit f.StreamId ≠ lowBit c.nextStreamId ∧
      ((handleSynStream E c d).2.heap c.nextPtr).streamId = f.StreamId ∧
      (∀ q, q ≠ c.nextPtr →
        ((handleSynStream E c d).2.heap q).streamId = (c.heap q).streamId) ∧
      ((handleSynStream E c d).2.live c.nextPtr →
        c.nextPtr ∈ ((handleSynStream E c d).2.heap p).children ∧
        ((handleSynStream E c d).2.heap c.nextPtr).parent = some p) := by
  have hwf := h.wf
  simp only [handleSynStream, hparse] at hok ⊢
  split at hok
  · cases hok
  split at hok
  · cases hok
  split at hok
  · cases hok
  split at hok
  · cases hok
  rename_i h1 h2 hpar h4
  have hlt0 : c.lastStreamOpened < f.StreamId := lt_of_not_le h4
  have hs1 : Sound { c with unzip := c.unzip ++ [d], lastStreamOpened := f.StreamId } :=
    h.inert (Inert.of_same rfl rfl rfl (le_of_lt hlt0) rfl)
  rw [if_neg (by assumption), if_neg (by assumption), if_neg (by assumption),
    if_neg (by assumption), if_pos (show f.AssociatedStreamId > 0 from hassoc)]
  split at hok
  · cases hok
  · next hlow =>
    rw [if_neg hlow]
    have hlow2 : lowBit f.AssociatedStreamId = lowBit c.nextStreamId := not_not.mp hlow
    split at hok
    · cases hok
    · next p hp =>
      split at hok
      · cases hok
      · next handler hh =>
        simp only [hp, hh]
        obtain ⟨hid, hlt⟩ := hwf.keys _ p hp
        obtain ⟨ins, b⟩ := accept_born E
          { c with unzip := c.unzip ++ [d], lastStreamOpened := f.StreamId } f handler (some p)
          hpar (fun q hq hb => lt_of_le_of_lt (h.remoteBound q hq hb) hlt0) (le_refl _)
          (fun q hq => by cases hq; exact hlt)
        have hl := b.linked hs1
        exact ⟨p, rfl, hlt, hid, by rw [hid]; exact hlow2, hpar, hl.1, hl.2.1,
          fun hlive => hl.2.2 hlive p rfl⟩

/-- C20, counterexample. The server, whose ids are even, accepts the peer's
streams 1 and 3 and pushes a stream onto stream 3: `handleStartRequest` gives
the push the id 2 and links it to stream 3. The client starts streams 1 and 3
and the peer pushes stream 2 onto stream 3: `handleSynStream` accepts the
frame and links stream 2 to stream 3. In both states a push stream has an id
below the id of its parent. -/
theorem C20_counterexample :
    exServerPush.streams = [(1, 0), (3, 1), (2, 2)] ∧
    (exServerPush.heap 1).children = [2] ∧ (exServerPush.heap 2).parent = some 1 ∧
    (exServerPush.heap 1).streamId = 3 ∧ (exServerPush.heap 2).streamId = 2 ∧
    exClientPush.streams = [(1, 0), (3, 1), (2, 2)] ∧
    (exClientPush.heap 1).children = [2] ∧ (exClientPush.heap 2).parent = some 1 ∧
    (exClientPush.heap 1).streamId = 3 ∧ (exClientPush.heap 2).streamId = 2 := by
  decide

/-- C20, amended. In a state `c` that the dispatcher reaches from
`NewConnection` by fewer than `2 ^ 61` valid events (so that the id allocator,
a Go `int`, has not wrapped) and whose loop is running, the next stream, at
address `c.nextPtr`, gets its id and its parent as follows.

A start request with any parent: the step ends, the new stream has the id
`c.nextStreamId` and the parent of the request, every stream allocated before
keeps its id, and the id of the new stream is strictly greater than the id of
every stream allocated before whose id has the same parity, that is of every
stream opened locally before; when the new stream is entered in the table it
is appended to the children of its parent.

A `SYN_STREAM` buffer that parses to a frame `f` with an associated stream id
and that `handleSynStream` accepts: the parent is the stream that the table
holds under the associated id, so it was allocated before the new stream; its
id is the associated id, of the local parity, and the id of the new stream is
the id of the frame, of the remote parity, so the two ids are never of the same
parity and the code does not order them; when the new stream is entered in the
table it is appended to the children of the parent and points to it. -/
theorem C20_push_ids (fuel0 fuel : Nat) (E : Env) (addr : String) (handler : Option Handler)
    (version : Int) (server : Bool) (evs : List Event) (c : Connection)
    (hreach : ValidRun fuel0 E (NewConnection E addr handler version server) evs c)
    (hroom : evs.length < 2 ^ 61) (hrun : c.returned = false) :
    (∀ req txFinished extra parent,
      ∃ c1, step fuel E c (.startRequest req txFinished extra parent) = some c1 ∧
        (c1.heap c.nextPtr).streamId = c.nextStreamId ∧
        (c1.heap c.nextPtr).parent = parent ∧
        (∀ q, q < c.nextPtr → (c1.heap q).streamId = (c.heap q).streamId ∧
          (lowBit (c1.heap q).streamId = lowBit (c1.heap c.nextPtr).streamId →
            (c1.heap q).streamId < (c1.heap c.nextPtr).streamId)) ∧
        (c1.live c.nextPtr → ∀ p, parent = some p → c.nextPtr ∈ (c1.heap p).children)) ∧
    (∀ d f, E.parseSynStream c.unzip d = .ok f → (handleSynStream E c d).1 = none →
      0 < f.AssociatedStreamId →
      ∃ p, c.streams.get f.AssociatedStreamId = some p ∧ p < c.nextPtr ∧
        ((handleSynStream E c d).2.heap p).streamId = f.AssociatedStreamId ∧
        ((handleSynStream E c d).2.heap c.nextPtr).streamId = f.StreamId ∧
        lowBit f.AssociatedStreamId = lowBit c.nextStreamId ∧
        lowBit f.StreamId ≠ lowBit c.nextStreamId ∧
        ((handleSynStream E c d).2.live c.nextPtr →
          c.nextPtr ∈ ((handleSynStream E c d).2.heap p).children ∧
          ((handleSynStream E c d).2.heap c.nextPtr).parent = some p)) := by
  have hs : Sound c :=
    ValidRun.sound_of_new fuel0 E addr handler version server evs c hroom hreach
  constructor
  · intro req txFinished extra parent
    obtain ⟨h1, h2, h3, h4⟩ := startRequest_linked E c req txFinished extra parent hs.wf
    refine ⟨_, ?_, h1, h2, fun q hq => ?_, h4⟩
    · simp only [step, hrun]
      rfl
    · have hqn : q ≠ c.nextPtr := Nat.ne_of_lt hq
      refine ⟨h3 q hqn, fun hb => ?_⟩
      rw [h3 q hqn, h1] at hb ⊢
      exact hs.localBound q hq hb
  · intro d f hparse hok hassoc
    obtain ⟨p, e1, e2, e3, e4, e5, e6, e7, e8⟩ :=
      handleSynStream_linked E c d f hs hparse hok hassoc
    refine ⟨p, e1, e2, ?_, e6, ?_, e5, e8⟩
    · rw [e7 p (Nat.ne_of_lt e2), e3]
    · rw [← e3]; exact e4

/-- The state `exPush` is reached by one start request. -/
theorem exPush_reach : ValidRun 1 wire (NewConnection wire "peer" none 3 false)
    [exStartPush] exPush :=
  ⟨trivial, _, rfl, rfl⟩

/-- C20, witness: the client has started stream 1, at address 0, with a child
handler. A start request with stream 1 as parent creates a stream with the id
3, above the id of stream 1, and links it to stream 1; a `SYN_STREAM` frame for
stream 2 associated with stream 1 creates a stream with the id 2 under the
parent with the id 1. -/
theorem C20_push_ids_witness :
    (∃ c1, step 2 wire exPush exStartChild = some c1 ∧
      (c1.heap exPush.nextPtr).streamId = exPush.nextStreamId ∧
      (c1.heap exPush.nextPtr).parent = some 0 ∧
      (∀ q, q < exPush.nextPtr → (c1.heap q).streamId = (exPush.heap q).streamId ∧
        (lowBit (c1.heap q).streamId = lowBit (c1.heap exPush.nextPtr).streamId →
          (c1.heap q).streamId < (c1.heap exPush.nextPtr).streamId)) ∧
      (c1.live exPush.nextPtr → ∀ p, some 0 = some p →
        exPush.nextPtr ∈ (c1.heap p).children)) ∧
    (∃ p, exPush.streams.get 1 = some p ∧ p < exPush.nextPtr ∧
      ((handleSynStream wire exPush (synStreamBytes 0 2 1)).2.heap p).streamId = 1 ∧
      ((handleSynStream wire exPush (synStreamBytes 0 2 1)).2.heap exPush.nextPtr).streamId = 2 ∧
      lowBit 1 = lowBit exPush.nextStreamId ∧
      lowBit 2 ≠ lowBit exPush.nextStreamId ∧
      ((handleSynStream wire exPush (synStreamBytes 0 2 1)).2.live exPush.nextPtr →
        exPush.nextPtr ∈ ((handleSynStream wire exPush (synStreamBytes 0 2 1)).2.heap p).children ∧
        ((handleSynStream wire exPush (synStreamBytes 0 2 1)).2.heap exPush.nextPtr).parent =
          some p)) :=
  ⟨(C20_push_ids 1 2 wire "peer" none 3 false [exStartPush] exPush exPush_reach (by decide)
      rfl).1 default false
      { Unidirectional := false, Priority := 0, Compressed := false, AssociatedHandler := none }
      (some 0),
   (C20_push_ids 1 2 wire "peer" none 3 false [exStartPush] exPush exPush_reach (by decide)
      rfl).2 (synStreamBytes 0 2 1)
      { Version := 3, StreamId := 2, AssociatedStreamId := 1, Finished := false,
        Unidirectional := false, Header := [], Priority := 0, URL := { Host := "", Path := "/" },
        Proto := "HTTP/1.1", ProtoMajor := 1, ProtoMinor := 1, Method := "GET" }
      rfl (by decide) (by decide)⟩

/-- The two steps of the witness at work. -/
theorem push_ids_example :
    exPush.nextPtr = 1 ∧ exPush.nextStreamId = 3 ∧ (exPush.heap 0).streamId = 1 ∧
    (step 2 wire exPush exStartChild).map
      (fun c1 => ((c1.heap 1).streamId, (c1.heap 1).parent)) = some (3, some 0) ∧
    (step 2 wire exPush exStartChild).map
      (fun c1 => ((c1.heap 0).children, c1.streams)) = some ([1], [(1, 0), (3, 1)]) ∧
    (step 2 wire exPush (.dispatch (synStreamBytes 0 2 1))).map
      (fun c1 => ((c1.heap 1).streamId, (c1.heap 1).parent)) = some (2, some 0) ∧
    (step 2 wire exPush (.dispatch (synStreamBytes 0 2 1))).map
      (fun c1 => ((c1.heap 0).children, c1.streams)) = some ([1], [(1, 0), (2, 1)]) := by
  decide

/-! ## C21: a received `SYN_REPLY` -/

/-- The result of `handleSynReply` on a buffer that parses to `f`, by cases on
the tests of the method in their order. -/
theorem handleSynReply_cases (E : Env) (c : Connection) (d : List UInt8) (f : synReplyFrame)
    (hparse : E.parseSynReply c.unzip d = .ok f) :
    (c.streams.get f.StreamId = none ∧
      handleSynReply E c d =
        (some (Err.InvalidStream f.StreamId), { c with unzip := c.unzip ++ [d] })) ∨
    ∃ s, c.streams.get f.StreamId = some s ∧
      ((f.Version ≠ c.version ∧
        handleSynReply E c d =
          (some (Err.StreamVersion f.StreamId f.Version), { c with unzip := c.unzip ++ [d] })) ∨
      (f.Version = c.version ∧ (c.heap s).rxResponse ≠ none ∧
        handleSynReply E c d =
          (some (Err.StreamInUse f.StreamId), { c with unzip := c.unzip ++ [d] })) ∨
      (f.Version = c.version ∧ (c.heap s).rxResponse = none ∧ (c.heap s).rxFinished = true ∧
        handleSynReply E c d =
          (some (Err.StreamAlreadyClosed f.StreamId), { c with unzip := c.unzip ++ [d] })) ∨
      (f.Version = c.version ∧ (c.heap s).rxResponse = none ∧ (c.heap s).rxFinished = false ∧
        ¬ ((splitN2 f.Status).length ≥ 2 ∧
          (E.atoi ((splitN2 f.Status).getD 0 "")).2 = true) ∧
        handleSynReply E c d =
          (some (Err.StreamProtocol f.StreamId), { c with unzip := c.unzip ++ [d] })) ∨
      (f.Version = c.version ∧ (c.heap s).rxResponse = none ∧ (c.heap s).rxFinished = false ∧
        ((splitN2 f.Status).length ≥ 2 ∧
          (E.atoi ((splitN2 f.Status).getD 0 "")).2 = true) ∧
        handleSynReply E c d =
          (none, ({ c with unzip := c.unzip ++ [d] } : Connection).modify s fun x =>
            { x with
              rxResponse := some (handleSynReply.response E c f s)
              rxFinished := f.Finished }))) := by
  cases hg : c.streams.get f.StreamId with
  | none =>
    left
    refine ⟨rfl, ?_⟩
    simp [handleSynReply, hparse, hg]
  | some s =>
    right
    refine ⟨s, rfl, ?_⟩
    by_cases hv : f.Version = c.version
    · right
      cases hr : (c.heap s).rxResponse with
      | some r =>
        left
        refine ⟨hv, by simp, ?_⟩
        simp [handleSynReply, hparse, hg, hv, hr]
      | none =>
        right
        cases hfin : (c.heap s).rxFinished with
        | true =>
          left
          refine ⟨hv, rfl, rfl, ?_⟩
          simp [handleSynReply, hparse, hg, hv, hr, hfin]
        | false =>
          right
          by_cases hl : (splitN2 f.Status).length < 2
          · left
            refine ⟨hv, rfl, rfl, fun h => absurd h.1 (Nat.not_le.mpr hl), ?_⟩
            simp [handleSynReply, hparse, hg, hv, hr, hfin, hl]
          · cases ha : (E.atoi ((splitN2 f.Status).getD 0 "")).2 with
            | false =>
              left
              refine ⟨hv, rfl, rfl, fun h => by simp at h, ?_⟩
              have ha2 := ha
              simp only [List.getD_eq_getElem?_getD] at ha2
              simp [handleSynReply, hparse, hg, hv, hr, hfin, hl, ha2]
            | true =>
              right
              refine ⟨hv, rfl, rfl, ⟨Nat.not_lt.mp hl, rfl⟩, ?_⟩
              have ha2 := ha
              simp only [List.getD_eq_getElem?_getD] at ha2
              simp [handleSynReply, hparse, hg, hv, hr, hfin, hl, ha2, Connection.modify,
                Connection.store, handleSynReply.response]
              funext q
              by_cases hq : q = s
              · simp [hq]
              · simp [hq]
    · left
      refine ⟨hv, ?_⟩
      simp [handleSynReply, hparse, hg, hv]

/-- C21, counterexample. The client holds the peer's stream 2 in its table: the
client is the recipient of the stream, no response has been published on it
and it is not receive-finished. A `SYN_REPLY` frame of version 3 for stream 2
with the finished flag is accepted: `handleSynReply` returns nil, publishes a
response on the stream and sets `rxFinished`; the dispatcher step sends no
`RST_STREAM` and acknowledges nil. The frame references a stream that was not
opened locally. -/
theorem C21_counterexample :
    exAfter2.streams.get 2 = some 0 ∧ (exAfter2.heap 0).isRecipient = true ∧
    (exAfter2.heap 0).rxResponse = none ∧ (exAfter2.heap 0).rxFinished = false ∧
    (wire.parseSynReply exAfter2.unzip (synReplyBytes 1 2)).toOption.map
      (fun f => (f.Version, f.StreamId, f.Finished)) = some (3, 2, true) ∧
    (handleSynReply wire exAfter2 (synReplyBytes 1 2)).1 = none ∧
    ((handleSynReply wire exAfter2 (synReplyBytes 1 2)).2.heap 0).rxResponse.isSome = true ∧
    ((handleSynReply wire exAfter2 (synReplyBytes 1 2)).2.heap 0).rxFinished = true ∧
    (step 1 wire exAfter2 (.dispatch (synReplyBytes 1 2))).map
      (fun c => (c.sendControl, c.dispatched.drop 1)) = some ([], [none]) := by
  decide

/-- C21, amended. For a `SYN_REPLY` buffer that parses to a frame `f`:
when `handleSynReply` returns nil, the table holds a stream `s` under the id
of `f`, no response had been published on `s` and `s` was not
receive-finished, and afterwards the response built from `f` is published on
`s` and `rxFinished` of `s` is the finished flag of `f`; when the id of `f` is
not a key of the table, or the stream under it has a response or is
receive-finished, the method returns an error; every error that it returns is
a stream error for the id of `f`, and then the table and every stream are left
as they were, so `rxResponse` and `rxFinished` are unchanged; and for a stream
`s` of the table without a response and not receive-finished, a frame of the
version of the connection whose status line has a numeric code before a space
is accepted, whether `s` was opened locally or by the peer (`isRecipient` is
not tested). -/
theorem C21_syn_reply (E : Env) (c : Connection) (d : List UInt8) (f : synReplyFrame)
    (hparse : E.parseSynReply c.unzip d = .ok f) :
    ((handleSynReply E c d).1 = none →
      ∃ s, c.streams.get f.StreamId = some s ∧ (c.heap s).rxResponse = none ∧
        (c.heap s).rxFinished = false ∧
        ((handleSynReply E c d).2.heap s).rxResponse =
          some (handleSynReply.response E c f s) ∧
        ((handleSynReply E c d).2.heap s).rxFinished = f.Finished) ∧
    ((c.streams.get f.StreamId = none ∨
        ∃ s, c.streams.get f.StreamId = some s ∧
          ((c.heap s).rxResponse ≠ none ∨ (c.heap s).rxFinished = true)) →
      (handleSynReply E c d).1 ≠ none) ∧
    (∀ err, (handleSynReply E c d).1 = some err →
      err.streamId? = some f.StreamId ∧ (handleSynReply E c d).2.streams = c.streams ∧
        (handleSynReply E c d).2.heap = c.heap) ∧
    (∀ s, c.streams.get f.StreamId = some s → f.Version = c.version →
      (c.heap s).rxResponse = none → (c.heap s).rxFinished = false →
      (splitN2 f.Status).length ≥ 2 → (E.atoi ((splitN2 f.Status).getD 0 "")).2 = true →
      (handleSynReply E c d).1 = none) := by
  have h := handleSynReply_cases E c d f hparse
  refine ⟨?_, ?_, ?_, ?_⟩
  · intro hok
    rcases h with ⟨_, e⟩ | ⟨s, hg, ⟨_, e⟩ | ⟨_, _, e⟩ | ⟨_, _, _, e⟩ | ⟨_, _, _, _, e⟩ |
      ⟨_, hr, hfin, _, e⟩⟩
    · rw [e] at hok; cases hok
    · rw [e] at hok; cases hok
    · rw [e] at hok; cases hok
    · rw [e] at hok; cases hok
    · rw [e] at hok; cases hok
    · refine ⟨s, hg, hr, hfin, ?_, ?_⟩
      · rw [e]; simp
      · rw [e]; simp
  · intro hcond
    rcases h with ⟨_, e⟩ | ⟨s, hg, ⟨_, e⟩ | ⟨_, _, e⟩ | ⟨_, _, _, e⟩ | ⟨_, _, _, _, e⟩ |
      ⟨_, hr, hfin, _, e⟩⟩
    · rw [e]; simp
    · rw [e]; simp
    · rw [e]; simp
    · rw [e]; simp
    · rw [e]; simp
    · exfalso
      rcases hcond with hn | ⟨s2, hg2, hc⟩
      · rw [hn] at hg; cases hg
      · rw [hg] at hg2
        cases hg2
        rcases hc with hc | hc
        · exact hc hr
        · rw [hfin] at hc; cases hc
  · intro err herr
    rcases h with ⟨_, e⟩ | ⟨s, hg, ⟨_, e⟩ | ⟨_, _, e⟩ | ⟨_, _, _, e⟩ | ⟨_, _, _, _, e⟩ |
      ⟨_, hr, hfin, _, e⟩⟩
    · rw [e] at herr ⊢; cases herr; exact ⟨rfl, rfl, rfl⟩
    · rw [e] at herr ⊢; cases herr; exact ⟨rfl, rfl, rfl⟩
    · rw [e] at herr ⊢; cases herr; exact ⟨rfl, rfl, rfl⟩
    · rw [e] at herr ⊢; cases herr; exact ⟨rfl, rfl, rfl⟩
    · rw [e] at herr ⊢; cases herr; exact ⟨rfl, rfl, rfl⟩
    · rw [e] at herr; cases herr
  · intro s hg hv hr hfin hl ha
    rcases h with ⟨hn, _⟩ | ⟨s2, hg2, ⟨hv2, _⟩ | ⟨_, hr2, _⟩ | ⟨_, _, hf2, _⟩ | ⟨_, _, _, hs2, _⟩ |
      ⟨_, _, _, _, e⟩⟩
    · rw [hn] at hg; cases hg
    · exact absurd hv hv2
    · rw [hg] at hg2; cases hg2; exact absurd hr hr2
    · rw [hg] at hg2; cases hg2; rw [hfin] at hf2; cases hf2
    · exact absurd ⟨hl, ha⟩ hs2
    · rw [e]

/-- C21, witness: on the client with its stream 1 in the table a `SYN_REPLY`
for stream 1 is accepted and its response published; one for the unknown
stream 3 is answered with a stream error for stream 3 and changes no stream. -/
theorem C21_syn_reply_witness :
    (∃ s, exLocal.streams.get 1 = some s ∧ (exLocal.heap s).rxResponse = none ∧
      (exLocal.heap s).rxFinished = false ∧
      ((handleSynReply wire exLocal (synReplyBytes 0 1)).2.heap s).rxResponse =
        some (handleSynReply.response wire exLocal
          { Version := 3, StreamId := 1, Finished := false, Header := [], Status := "200 OK",
            Proto := "HTTP/1.1", ProtoMajor := 1, ProtoMinor := 1 } s) ∧
      ((handleSynReply wire exLocal (synReplyBytes 0 1)).2.heap s).rxFinished = false) ∧
    (Err.InvalidStream 3).streamId? = some 3 ∧
      (handleSynReply wire exLocal (synReplyBytes 0 3)).2.streams = exLocal.streams ∧
      (handleSynReply wire exLocal (synReplyBytes 0 3)).2.heap = exLocal.heap :=
  ⟨(C21_syn_reply wire exLocal (synReplyBytes 0 1)
      { Version := 3, StreamId := 1, Finished := false, Header := [], Status := "200 OK",
        Proto := "HTTP/1.1", ProtoMajor := 1, ProtoMinor := 1 } rfl).1 (by decide),
   (C21_syn_reply wire exLocal (synReplyBytes 0 3)
      { Version := 3, StreamId := 3, Finished := false, Header := [], Status := "200 OK",
        Proto := "HTTP/1.1", ProtoMajor := 1, ProtoMinor := 1 } rfl).2.2.1
      (Err.InvalidStream 3) (by decide)⟩

/-! ## C22: the `onGoAway` notifier -/

theorem FinRel.onGoAwayCloses_eq {c c1 : Connection} (h : FinRel c c1) :
    c1.onGoAwayCloses = c.onGoAwayCloses := by
  have e := congrArg Connection.onGoAwayCloses h.ctl
  exact e

/-- A loop each of whose iterations does nothing or finishes a stream ends when
the fuel exceeds the number of streams allocated, in a state that differs from
the first by runs of `finishStream`. -/
theorem finishLoop_total (fuel : Nat) (err : Err) (c0 : Connection)
    (f : Connection → Int × Ptr → Option Connection)
    (hf : ∀ ci e, f ci e = some ci ∨ ∃ s, f ci e = finishStream fuel ci s err)
    (hfuel : c0.nextPtr < fuel) (l : List (Int × Ptr)) (h : WellFormed c0) :
    ∃ c3, l.foldlM f c0 = some c3 ∧ FinRel c0 c3 := by
  obtain ⟨c3, h3, _, hrel⟩ := foldlM_total
    (fun ci => Ranked (fun p => c0.nextPtr - p) ci ∧ FinRel c0 ci) f l
    (fun ci e _ hi => by
      rcases hf ci e with h1 | ⟨s, h1⟩
      · exact ⟨ci, h1, hi⟩
      · obtain ⟨cj, hj⟩ := finishStream_total (fun p => c0.nextPtr - p) fuel ci s err hi.1
          (Nat.lt_of_le_of_lt (Nat.sub_le _ _) hfuel)
        have r := finishStream_rel fuel ci s err cj hj
        exact ⟨cj, h1.trans hj, hi.1.of_rel r, hi.2.ftrans r⟩)
    c0 ⟨h.ranked, FinRel.frefl c0⟩
  exact ⟨c3, h3, hrel⟩

/-- In a state that the dispatcher reaches from `NewConnection` by valid
events, with `fuel` above the number of streams allocated, a `GOAWAY` buffer
that parses to a frame of the version of the connection is handled to the end
and closes `onGoAway` once more, whatever the number of closes before: the
close is not guarded. -/
theorem handleGoAway_closes (fuel0 fuel : Nat) (E : Env) (addr : String)
    (handler : Option Handler) (version : Int) (server : Bool) (evs : List Event)
    (c : Connection) (d : List UInt8) (f : goAwayFrame)
    (hreach : ValidRun fuel0 E (NewConnection E addr handler version server) evs c)
    (hfuel : c.nextPtr < fuel)
    (hparse : E.parseGoAway d = .ok f) (hver : f.Version = c.version) :
    ∃ c1, handleGoAway fuel E c d = some (none, c1) ∧
      c1.onGoAwayCloses = c.onGoAwayCloses + 1 := by
  have hwf : WellFormed c :=
    ValidRun.wellFormed fuel0 E evs _ c (WellFormed.at_new E addr handler version server) hreach
  generalize herr : (if f.Reason = E.rstSuccess then Err.GoAway
      else if f.Reason = E.rstUnsupportedVersion then Err.SessionVersion c.version
      else if f.Reason = E.rstFlowControlError then Err.SessionFlowControl
      else Err.SessionProtocol) = err
  obtain ⟨c3, h3, rel⟩ := finishLoop_total fuel err
    { c with goAway := true, onGoAwayCloses := c.onGoAwayCloses + 1 }
    (fun (ci : Connection) (e : Int × Ptr) =>
      match ci.streams.get e.1 with
      | none => some ci
      | some s =>
        if e.1 > f.LastStreamId && lowBit e.1 = lowBit ci.nextStreamId then
          finishStream fuel ci s err
        else some ci)
    (fun ci e => by
      beta_reduce
      split
      · exact Or.inl rfl
      · next s _ =>
        split
        · exact Or.inr ⟨s, rfl⟩
        · exact Or.inl rfl)
    hfuel c.streams ⟨hwf.keys, hwf.order⟩
  refine ⟨c3, ?_, rel.onGoAwayCloses_eq⟩
  simp only [handleGoAway, hparse, hver, ne_eq, not_true_eq_false, if_false, herr]
  exact Option.map_eq_some'.mpr ⟨c3, h3, rfl⟩

/-- In a state that the dispatcher reaches from `NewConnection` by valid
events and whose loop is running, with `fuel` above the number of streams
allocated, the step for a receive error ends and closes `onGoAway` once more,
whatever the number of closes before: the close is not guarded. -/
theorem teardown_closes (fuel0 fuel : Nat) (E : Env) (addr : String)
    (handler : Option Handler) (version : Int) (server : Bool) (evs : List Event)
    (c : Connection) (err : Err)
    (hreach : ValidRun fuel0 E (NewConnection E addr handler version server) evs c)
    (hfuel : c.nextPtr < fuel) (hrun : c.returned = false) :
    ∃ c1, step fuel E c (.rxError err) = some c1 ∧
      c1.onGoAwayCloses = c.onGoAwayCloses + 1 := by
  have hwf : WellFormed c :=
    ValidRun.wellFormed fuel0 E evs _ c (WellFormed.at_new E addr handler version server) hreach
  obtain ⟨c3, h3, rel⟩ := finishLoop_total fuel err
    { c with goAway := true, onGoAwayCloses := c.onGoAwayCloses + 1 }
    (fun (ci : Connection) (e : Int × Ptr) =>
      match ci.streams.get e.1 with
      | none => some ci
      | some s => finishStream fuel ci s err)
    (fun ci e => by
      beta_reduce
      split
      · exact Or.inl rfl
      · next s _ => exact Or.inr ⟨s, rfl⟩)
    hfuel c.streams ⟨hwf.keys, hwf.order⟩
  have hstep : step fuel E c (.rxError err) = some
      { c3 with
        sendControlCloses := c3.sendControlCloses + 1
        socketCloses := c3.socketCloses + 1
        returned := true } := by
    have h0 : step fuel E c (.rxError err) = onRxError fuel c err := by
      simp only [step, hrun]
      rfl
    rw [h0]
    exact Option.map_eq_some'.mpr ⟨c3, h3, rfl⟩
  exact ⟨_, hstep, rel.onGoAwayCloses_eq⟩

/-- The fresh client after one `GOAWAY` frame is a reachable state in which
`onGoAway` has been closed; a second `GOAWAY` frame and a receive error each
close it again. -/
theorem onGoAway_closed_again_example :
    exAway.onGoAwayCloses = 1 ∧
    (∃ c1, handleGoAway 1 wire exAway (goAwayBytes 0 0) = some (none, c1) ∧
      c1.onGoAwayCloses = exAway.onGoAwayCloses + 1) ∧
    (∃ c1, step 1 wire exAway (.rxError (Err.other 0)) = some c1 ∧
      c1.onGoAwayCloses = exAway.onGoAwayCloses + 1) :=
  ⟨by decide,
   handleGoAway_closes 1 1 wire "peer" (some 1) 3 false [.dispatch (goAwayBytes 0 0)] exAway
    (goAwayBytes 0 0) { Version := 3, LastStreamId := 0, Reason := 0 }
    ⟨trivial, _, rfl, rfl⟩ (by decide) rfl rfl,
   teardown_closes 1 1 wire "peer" (some 1) 3 false [.dispatch (goAwayBytes 0 0)] exAway
    (Err.other 0) ⟨trivial, _, rfl, rfl⟩ (by decide) rfl⟩

/-- C22, the code at the failing input. The fresh client, whose `onGoAway` has
not been closed, receives a `GOAWAY` frame: `goAway` is set, `onGoAway` has
been closed once and the loop of `Run` goes on. A second `GOAWAY` frame makes
`handleGoAway` close `onGoAway` again, and so does a receive error in place
of the second frame, in the teardown: in both runs the counter reaches 2,
which is the panic of the Go runtime on the close of a closed channel. -/
theorem C22_on_go_away_closed_twice :
    exClient.onGoAwayCloses = 0 ∧
    (Run 1 wire exClient [.dispatch (goAwayBytes 0 0)]).map
      (fun c => (c.goAway, c.onGoAwayCloses, c.returned)) = some (true, 1, false) ∧
    (Run 1 wire exClient [.dispatch (goAwayBytes 0 0), .dispatch (goAwayBytes 0 0)]).map
      (fun c => c.onGoAwayCloses) = some 2 ∧
    (Run 1 wire exClient [.dispatch (goAwayBytes 0 0), .rxError (Err.other 0)]).map
      (fun c => c.onGoAwayCloses) = some 2 := by
  decide

end Spdy
